import Mathlib

/-! The restc-cpp JSON (de)serialization engine: `SerializeJson-cpp17.h`

A shallow embedding of `include/restc-cpp/SerializeJson-cpp17.h` and theorems about it.

Conventions of the embedding.

* A C++ `std::string` is a Lean `String`, one `Char` per byte.  `c_str()` is the part of the
  string before its first NUL.
* Native types are codes of type `Ty`; native values are untyped trees of type `Val`.  Every
  `if constexpr` of the source is a test on a `Ty`/`WireTy` code.
* Machine integers are `Int`/`Nat` values; narrowing conversions reduce modulo `2^w`.
  Platform constants are those of LP64 x86-64 with libstdc++ (`sizeof(std::string) = 32`,
  `char` signed).  A `double` is its IEEE-754 binary64 bit pattern.
* A callback either returns or fails: with a C++ exception (`Failure.threw`), with a failed
  `assert` when assertions are compiled in (`Failure.aborted`; the flag `ndebug` says that
  `NDEBUG` is defined), or with undefined behaviour (`Failure.undefined`).
* Record types are value-initialised by `T{}`: the model has no default member initialisers
  other than zero / empty.
-/

namespace RestcCpp

/-! ## Native types and values -/

/-- The fixed-width integer types `int8_t` .. `uint64_t`. -/
inductive IntTy where
  | i8 | i16 | i32 | i64 | u8 | u16 | u32 | u64
  deriving DecidableEq, Repr

/-- Whether the integer type is one of `int8_t`, `int16_t`, `int32_t`, `int64_t`. -/
def IntTy.signed : IntTy → Bool
  | .i8 | .i16 | .i32 | .i64 => true
  | _ => false

/-- Width of the integer type in bits. -/
def IntTy.bits : IntTy → Nat
  | .i8 | .u8 => 8
  | .i16 | .u16 => 16
  | .i32 | .u32 => 32
  | .i64 | .u64 => 64

/-- Smallest value of the integer type. -/
def IntTy.min (k : IntTy) : Int := if k.signed then -(2 ^ (k.bits - 1)) else 0

/-- Largest value of the integer type. -/
def IntTy.max (k : IntTy) : Int := if k.signed then 2 ^ (k.bits - 1) - 1 else 2 ^ k.bits - 1

/-- Codes of the native C++ types of a mapped value graph.  `container` stands for
`std::vector`, `std::list` and `std::deque` (`is_container`), `map` for
`std::map<std::string, T>` (`is_map`), `record` for a struct adapted with
`BOOST_FUSION_ADAPT_STRUCT` (`boost::fusion::traits::is_sequence`), listing its members in
declaration order. -/
inductive Ty where
  | bool
  | int (k : IntTy)
  | double
  | string
  | optional (t : Ty)
  | container (t : Ty)
  | map (t : Ty)
  | record (fields : List (String × Ty))
  deriving Repr

/-- Native values.  `int` holds the mathematical value of any integer type, `double` the
binary64 bit pattern, `record` the member values in declaration order, `map` the entries in
key order. -/
inductive Val where
  | bool (b : Bool)
  | int (n : Int)
  | double (bits : Nat)
  | str (s : String)
  | absent
  | present (v : Val)
  | seq (xs : List Val)
  | map (entries : List (String × Val))
  | record (members : List Val)
  deriving Repr

/-- Wire leaf values: the arguments of the callbacks `Null`, `Bool`, `Int`, `Uint`, `Int64`,
`Uint64`, `Double` and `String`. -/
inductive Wire where
  | null
  | bool (b : Bool)
  | int (i : Int)
  | uint (u : Nat)
  | int64 (i : Int)
  | uint64 (u : Nat)
  | double (bits : Nat)
  | string (s : String)
  deriving DecidableEq, Repr

/-- The C++ type `argT` of a wire leaf value. -/
inductive WireTy where
  | nullptr_t | bool | int | unsigned | int64_t | uint64_t | double | string
  deriving DecidableEq, Repr

/-- The static type of a wire value. -/
def Wire.ty : Wire → WireTy
  | .null => .nullptr_t
  | .bool _ => .bool
  | .int _ => .int
  | .uint _ => .unsigned
  | .int64 _ => .int64_t
  | .uint64 _ => .uint64_t
  | .double _ => .double
  | .string _ => .string

/-- C++ exceptions raised by the engine and by the standard library calls it makes. -/
inductive Exn where
  | ParseException
  | UnknownPropertyException (name : String)
  | ConstraintException
  | RestcCppException
  | invalid_argument
  | out_of_range
  deriving DecidableEq, Repr

/-- Ways in which a call does not return. -/
inductive Failure where
  | threw (e : Exn)
  | aborted
  | undefined
  deriving DecidableEq, Repr

/-- The outcome of `assert(cond)`: nothing when the condition holds or `NDEBUG` is defined. -/
def cassert (ndebug : Bool) (cond : Bool) : Option Failure :=
  if cond || ndebug then none else some Failure.aborted

/-! ## Type traits -/

/-- `is_optional<T>::value`. -/
def is_optional : Ty → Bool
  | .optional _ => true
  | _ => false

/-- `is_container<T>::value`. -/
def is_container : Ty → Bool
  | .container _ => true
  | _ => false

/-- `is_map<T>::value`. -/
def is_map : Ty → Bool
  | .map _ => true
  | _ => false

/-- `boost::fusion::traits::is_sequence<T>::value`. -/
def is_sequence : Ty → Bool
  | .record _ => true
  | _ => false

/-- `std::is_same_v<std::string, T>`. -/
def is_string : Ty → Bool
  | .string => true
  | _ => false

/-- `std::is_same_v<bool, T>`. -/
def is_bool : Ty → Bool
  | .bool => true
  | _ => false

/-- `std::is_arithmetic<T>::value` for a native type. -/
def is_arithmetic : Ty → Bool
  | .bool | .int _ | .double => true
  | _ => false

/-- `std::is_arithmetic<valT>::value` for a wire type. -/
def WireTy.is_arithmetic : WireTy → Bool
  | .nullptr_t | .string => false
  | _ => true

/-- `std::is_integral_v<valT>` for a wire type. -/
def WireTy.is_integral : WireTy → Bool
  | .bool | .int | .unsigned | .int64_t | .uint64_t => true
  | _ => false

/-- Whether a value of wire type `A` converts implicitly to the native type `T`
(`std::is_convertible_v<const A&, T>`): arithmetic types convert among themselves, a
`std::string` is made from a string or from a null pointer constant (as `const char*`), and
`std::optional<X>` has a converting constructor wherever `X` has one. -/
def is_convertible : Ty → WireTy → Bool
  | .bool, a | .int _, a | .double, a => a.is_arithmetic
  | .string, a => a == .string || a == .nullptr_t
  | .optional x, a => is_convertible x a
  | _, _ => false

/-- The trait `std::is_assignable_v<T&, const A&>`: assignment to an lvalue.  `std::string`
has `operator=(char)`, to which every arithmetic type converts, and `operator=(const char*)`;
`std::optional<X>` is assignable from what converts to `X`. -/
def is_assignable_lvalue : Ty → WireTy → Bool
  | .bool, a | .int _, a | .double, a => a.is_arithmetic
  | .string, a => a.is_arithmetic || a == .string || a == .nullptr_t
  | .optional x, a => is_convertible x a
  | _, _ => false

/-- The trait `std::is_assignable_v<varT, valT>` as `assign_value` evaluates it.  When the
template arguments are deduced (`ref = false`), `varT` is not a reference and the trait asks
whether `std::declval<varT>() = std::declval<valT>()` is well-formed: never for a scalar
`varT` (an rvalue scalar is not assignable), and as for an lvalue for a class type.  When
`SetValueInArray` passes `decltype(object_.back())` (`ref = true`), `varT` is `T&`. -/
def is_assignable_v (ref : Bool) (varT : Ty) (valT : WireTy) : Bool :=
  if ref then is_assignable_lvalue varT valT
  else !is_arithmetic varT && is_assignable_lvalue varT valT

/-! ## C strings and the C library -/

/-- The C string `s.c_str()`: the characters before the first NUL. -/
def c_str (s : String) : List Char := s.toList.takeWhile (fun c => c != Char.ofNat 0)

/-- The test `strcmp(name, other.c_str()) == 0`. -/
def strcmp_eq (name : String) (other : String) : Bool := c_str name == c_str other

/-- The method `std::string::empty()`. -/
def str_empty (s : String) : Bool := s.toList.isEmpty

/-- The C library `isspace` in the "C" locale. -/
def isspace (c : Char) : Bool :=
  c.toNat == 32 || (9 ≤ c.toNat && c.toNat ≤ 13)

/-- The C library `isdigit`. -/
def isdigit (c : Char) : Bool := 48 ≤ c.toNat && c.toNat ≤ 57

/-- Value of a run of decimal digits. -/
def natOfDigits (ds : List Char) : Nat :=
  ds.foldl (fun acc c => acc * 10 + (c.toNat - 48)) 0

/-- The common core of `strtol`, `strtoll` and `strtoull` in base 10: skip white space, take
an optional sign, then the longest run of digits.  The result is `none` when there is no digit
(no conversion is performed), else the sign and the magnitude. -/
def strto (cs : List Char) : Option (Bool × Nat) :=
  let cs := cs.dropWhile isspace
  let neg := cs.head? == some '-'
  let r := if cs.head? == some '-' || cs.head? == some '+' then cs.tail else cs
  let ds := r.takeWhile isdigit
  if ds.isEmpty then none else some (neg, natOfDigits ds)

/-- The C library `atoi(s.c_str())`: the parsed value, `0` when no conversion is performed;
`none` when the value is not representable in `int` (undefined behaviour). -/
def atoi (s : String) : Option Int :=
  match strto (c_str s) with
  | none => some 0
  | some (neg, m) =>
    let v : Int := if neg then -(m : Int) else m
    if -(2 ^ 31) ≤ v ∧ v < 2 ^ 31 then some v else none

/-- The call `std::stoll(s)`. -/
def stoll (s : String) : Except Failure Int :=
  match strto (c_str s) with
  | none => .error (.threw .invalid_argument)
  | some (neg, m) =>
    let v : Int := if neg then -(m : Int) else m
    if -(2 ^ 63) ≤ v ∧ v < 2 ^ 63 then .ok v else .error (.threw .out_of_range)

/-- The call `std::stoull(s)`: a negated value wraps around as an unsigned one. -/
def stoull (s : String) : Except Failure Int :=
  match strto (c_str s) with
  | none => .error (.threw .invalid_argument)
  | some (neg, m) =>
    if m < 2 ^ 64 then .ok (if neg then ((2 ^ 64 - m) % 2 ^ 64 : Nat) else m)
    else .error (.threw .out_of_range)

/-- The loop of `is_digits_only`, with the counter `cnt` threaded through. -/
def is_digits_only_loop (signedFlag : Bool) : List Char → Nat → Bool
  | [], _ => true
  | v :: rest, cnt =>
    let cnt1 := if signedFlag then cnt + 1 else cnt
    if signedFlag && cnt1 == 1 && v == '-' then is_digits_only_loop signedFlag rest cnt1
    else if v.toNat < 48 || v.toNat > 57 then false
    else is_digits_only_loop signedFlag rest cnt1

/-- The function `is_digits_only(vect, signedFlag)`. -/
def is_digits_only (vect : String) (signedFlag : Bool) : Bool :=
  is_digits_only_loop signedFlag vect.toList 0

/-! ## Numeric conversions -/

/-- Conversion of an integer value to the integer type `k` (reduction modulo `2^bits`). -/
def wrapInt (k : IntTy) (x : Int) : Int :=
  if k.signed then (x + 2 ^ (k.bits - 1)) % 2 ^ k.bits - 2 ^ (k.bits - 1)
  else x % 2 ^ k.bits

/-- Truncation of a binary64 value toward zero; `none` for infinities and NaN. -/
def doubleTrunc (bits : Nat) : Option Int :=
  let e := bits / 2 ^ 52 % 2 ^ 11
  let m := bits % 2 ^ 52
  if e = 2047 then none
  else if e = 0 then some 0
  else
    let mag : Nat := if 1075 ≤ e then (2 ^ 52 + m) * 2 ^ (e - 1075) else (2 ^ 52 + m) / 2 ^ (1075 - e)
    some (if bits / 2 ^ 63 % 2 = 1 then -(mag : Int) else mag)

/-- Whether a binary64 value compares unequal to zero (`+0.0` and `-0.0` are zero). -/
def doubleNonZero (bits : Nat) : Bool := bits % 2 ^ 63 != 0

/-- Conversion of an integer to binary64, rounding to nearest, ties to even. -/
def intToDouble (n : Int) : Nat :=
  let m := n.natAbs
  if m = 0 then 0
  else
    let e := Nat.log2 m
    let q :=
      if e ≤ 52 then m * 2 ^ (52 - e)
      else
        let q0 := m / 2 ^ (e - 52)
        let r := m % 2 ^ (e - 52)
        let half := 2 ^ (e - 53)
        if half < r ∨ (r = half ∧ q0 % 2 = 1) then q0 + 1 else q0
    (if n < 0 then 2 ^ 63 else 0) + (e + 1023) * 2 ^ 52 + (q - 2 ^ 52)

/-- The integer value of an integral wire value (`bool` counts as 0 / 1). -/
def Wire.intValue : Wire → Option Int
  | .bool b => some (if b then 1 else 0)
  | .int i => some i
  | .uint u => some u
  | .int64 i => some i
  | .uint64 u => some u
  | _ => none

/-- The conversion `static_cast<T>(val)` of an arithmetic wire value to the arithmetic native
type `T`, which is also the implicit conversion performed by `var = val`.  Converting a
`double` whose truncation does not fit the integer type is undefined. -/
def static_cast (T : Ty) (val : Wire) : Except Failure Val :=
  match T, val with
  | .bool, .double d => .ok (.bool (doubleNonZero d))
  | .int k, .double d =>
    match doubleTrunc d with
    | some t => if k.min ≤ t ∧ t ≤ k.max then .ok (.int t) else .error .undefined
    | none => .error .undefined
  | .double, .double d => .ok (.double d)
  | .bool, w =>
    match w.intValue with
    | some i => .ok (.bool (i != 0))
    | none => .error .undefined
  | .int k, w =>
    match w.intValue with
    | some i => .ok (.int (wrapInt k i))
    | none => .error .undefined
  | .double, w =>
    match w.intValue with
    | some i => .ok (.double (intToDouble i))
    | none => .error .undefined
  | _, _ => .error .undefined

/-- The conversion of an arithmetic wire value to `char`, as the byte it yields.  Converting a
`double` whose truncation is outside `[-128, 127]` is undefined. -/
def toChar (val : Wire) : Except Failure Char :=
  match val with
  | .double d =>
    match doubleTrunc d with
    | some t => if -128 ≤ t ∧ t ≤ 127 then .ok (Char.ofNat (t % 256).toNat) else .error .undefined
    | none => .error .undefined
  | w =>
    match w.intValue with
    | some i => .ok (Char.ofNat (i % 256).toNat)
    | none => .error .undefined

mutual
/-- The value `T{}` of a native type. -/
def defaultVal : Ty → Val
  | .bool => .bool false
  | .int _ => .int 0
  | .double => .double 0
  | .string => .str ""
  | .optional _ => .absent
  | .container _ => .seq []
  | .map _ => .map []
  | .record fs => .record (defaultVals fs)
/-- The member values of a value-initialised record. -/
def defaultVals : List (String × Ty) → List Val
  | [] => []
  | (_, t) :: rest => defaultVal t :: defaultVals rest
end

/-! ## `assign_value` -/

/-- Decimal rendering of an integer, as `std::to_string` prints it. -/
def intToDecimal (i : Int) : String :=
  if i < 0 then "-" ++ toString i.natAbs else toString i.toNat

/-- The call `std::to_string(d)` for a `double` (`printf` with `%f`): six decimals, rounded
to nearest, ties to even. -/
def doubleToString (bits : Nat) : String :=
  let e := bits / 2 ^ 52 % 2 ^ 11
  let m := bits % 2 ^ 52
  let sign := if bits / 2 ^ 63 % 2 = 1 then "-" else ""
  if e = 2047 then sign ++ (if m = 0 then "inf" else "nan")
  else
    let mant := if e = 0 then m else 2 ^ 52 + m
    let ex := if e = 0 then 1 else e
    let scaled : Nat :=
      if 1075 ≤ ex then mant * 2 ^ (ex - 1075) * 10 ^ 6
      else
        let num := mant * 10 ^ 6
        let den := 2 ^ (1075 - ex)
        let q := num / den
        let r := num % den
        if den < 2 * r ∨ (2 * r = den ∧ q % 2 = 1) then q + 1 else q
    let frac := toString (scaled % 10 ^ 6)
    sign ++ toString (scaled / 10 ^ 6) ++ "." ++ String.mk (List.replicate (6 - frac.length) '0')
      ++ frac

/-- The call `std::to_string(val)` for an arithmetic wire value (`bool` is promoted to
`int`). -/
def to_string (val : Wire) : String :=
  match val with
  | .double d => doubleToString d
  | w => match w.intValue with
    | some i => intToDecimal i
    | none => ""

/-- The assignment `var = val` where `is_assignable_lvalue T val.ty` holds: an arithmetic
target converts the value; a `std::string` target copies a string, takes `operator=(char)`
for an arithmetic value and `operator=(const char*)` for a null pointer (undefined); a
`std::optional` target becomes engaged with the converted value. -/
def assignOp : Ty → Wire → Except Failure Val
  | .string, .string s => .ok (.str s)
  | .string, .null => .error .undefined
  | .string, w => (toChar w).map (fun c => Val.str (String.singleton c))
  | .optional x, w => (assignOp x w).map Val.present
  | T, w => static_cast T w

/-- The branch `std::is_same_v<bool, varT>` of `assign_value` for a string value. -/
def assign_bool_from_string (val : String) : Except Failure Val :=
  if val == "true" || val == "yes" then .ok (.bool true)
  else
    match atoi val with
    | none => .error .undefined
    | some n =>
      if 0 < n then .ok (.bool true)
      else if str_empty val || val == "false" || val == "no"
          || (val.toList.head? == some '0' && n == 0) then .ok (.bool false)
      else .error (.threw .ParseException)

/-- The branches of `assign_value` for a `std::string` value and a target of one of the types
`int8_t`, `int16_t`, `int32_t`, `int64_t`, `int` (through `std::stoll`) or `uint8_t`,
`uint16_t`, `uint32_t`, `uint64_t`, `size_t`, `unsigned int` (through `std::stoull`). -/
def assign_int_from_string (k : IntTy) (val : String) : Except Failure Val :=
  if k.signed then
    if is_digits_only val true then (stoll val).map (fun v => Val.int (wrapInt k v))
    else .error (.threw .ParseException)
  else
    if is_digits_only val false then (stoull val).map (fun v => Val.int (wrapInt k v))
    else .error (.threw .ParseException)

/-- The last three branches of `assign_value`: an integer target with a string value, and the
final `throw ParseException`. -/
def assign_value_rest (ref : Bool) (varT : Ty) (val : Wire) : Except Failure Val :=
  match ref, varT, val with
  | false, .int k, .string s => assign_int_from_string k s
  | _, _, _ => .error (.threw .ParseException)

/-- The branch `std::is_same_v<bool, varT>` of `assign_value`. -/
def assign_bool (val : Wire) : Except Failure Val :=
  match val with
  | .string s => assign_bool_from_string s
  | w =>
    if w.ty.is_integral then .ok (.bool (w.intValue != some 0))
    else .error (.threw .ParseException)

/-- The function template `assign_value<varT, valT>(var, val)`, returning the new content of
`var`.  `ref = false` is the instantiation with deduced arguments (`varT` the member type,
`valT` the wire type) made by `SetValueOnMember`; `ref = true` is the instantiation
`assign_value<decltype(object_.back()), decltype(val)>` made by `SetValueInArray`, in which
`varT` and `valT` are reference types, so that every `std::is_same_v` and
`std::is_arithmetic` test on them is false.  The previous content `var` is not read.
In the null branch `has_reset_method` is false for every type (`T::reset()` names no static
member) and `std::is_default_constructible_v<valT>` is true, so that `var = {}` runs. -/
def assign_value (ref : Bool) (varT : Ty) (var : Val) (val : Wire) : Except Failure Val :=
  if !ref && val.ty == .nullptr_t then
    if is_optional varT then .ok .absent else .ok (defaultVal varT)
  else if is_assignable_v ref varT val.ty then assignOp varT val
  else if !ref && is_string varT then .ok (.str (to_string val))
  else if !ref && is_arithmetic varT && val.ty.is_arithmetic then static_cast varT val
  else if !ref && is_bool varT then assign_bool val
  else
    let _ := var
    assign_value_rest ref varT val

/-! ## `get_len` -/

/-- The function `get_len(v)` for a wire value: `sizeof(v)`, and for a `std::string` an
estimate of its heap use. -/
def get_len (val : Wire) : Nat :=
  match val with
  | .null => 8
  | .bool _ => 1
  | .int _ => 4
  | .uint _ => 4
  | .int64 _ => 8
  | .uint64 _ => 8
  | .double _ => 8
  | .string s => if s.length > 32 + 8 then 32 + (s.length - 8) else 32

/-! ## Policy -/

/-- The struct `JsonFieldMapping`: entries `(native_name, json_name)`. -/
structure JsonFieldMapping where
  entries : List (String × String)
  deriving Repr

/-- The method `JsonFieldMapping::to_json_name`. -/
def JsonFieldMapping.to_json_name (m : JsonFieldMapping) (name : String) : String :=
  match m.entries.find? (fun entry => name == entry.1) with
  | some entry => entry.2
  | none => name

/-- The method `JsonFieldMapping::to_native_name`. -/
def JsonFieldMapping.to_native_name (m : JsonFieldMapping) (name : String) : String :=
  match m.entries.find? (fun entry => name == entry.2) with
  | some entry => entry.1
  | none => name

/-- The struct `SerializeProperties`.  `max_memory_consumption` is a 32-bit bit-field;
`excluded_names` and `name_mapping` are nullable pointers. -/
structure SerializeProperties where
  max_memory_consumption : Nat
  ignore_empty_fileds : Bool
  ignore_unknown_properties : Bool
  excluded_names : Option (List String)
  name_mapping : Option JsonFieldMapping
  deriving Repr

/-- The default constructor `SerializeProperties()`. -/
def SerializeProperties.default : SerializeProperties :=
  { max_memory_consumption := 1024 * 1024
    ignore_empty_fileds := true
    ignore_unknown_properties := true
    excluded_names := none
    name_mapping := none }

/-- The method `SerializeProperties::is_excluded`. -/
def SerializeProperties.is_excluded (p : SerializeProperties) (name : String) : Bool :=
  match p.excluded_names with
  | some names => names.contains name
  | none => false

/-- The method `SerializeProperties::map_name_to_json`. -/
def SerializeProperties.map_name_to_json (p : SerializeProperties) (name : String) : String :=
  match p.name_mapping with
  | none => name
  | some m => m.to_json_name name

/-- The method `SerializeProperties::GetMaxMemoryConsumption`. -/
def SerializeProperties.GetMaxMemoryConsumption (p : SerializeProperties) : Int :=
  p.max_memory_consumption

/-- The method `SerializeProperties::SetMaxMemoryConsumption(val)` for a `std::int64_t`
argument: the struct afterwards, and `ConstraintException` when the method throws.  The cast
`static_cast<uint32_t>(val)` reduces modulo `2^32`. -/
def SerializeProperties.SetMaxMemoryConsumption (p : SerializeProperties) (val : Int) :
    SerializeProperties × Option Failure :=
  if val < 0 ∨ val > 0xffffffff then (p, some (.threw .ConstraintException))
  else ({ p with max_memory_consumption := (val % 2 ^ 32).toNat }, none)

/-- The local `properties` that the overload
`SerializeFromJson(rootData, Reply& reply, nameMapper, maxBytes)` builds and passes on to the
overload that takes a policy: `maxBytes` is assigned to the 32-bit bit-field
`max_memory_consumption`, which keeps it modulo `2^32`. -/
def SerializeFromJson_Reply (nameMapper : Option JsonFieldMapping) (maxBytes : Int) :
    SerializeProperties × Option Failure :=
  ({ SerializeProperties.default with
      max_memory_consumption := (maxBytes % 2 ^ 32).toNat
      name_mapping := nameMapper }, none)

/-- The local `properties` that the overload
`SerializeFromJson(rootData, std::unique_ptr<Reply>&& reply, nameMapper, maxBytes)` builds and
passes on, and the exception if `SetMaxMemoryConsumption(maxBytes)` throws. -/
def SerializeFromJson_unique_ptr (nameMapper : Option JsonFieldMapping) (maxBytes : Int) :
    SerializeProperties × Option Failure :=
  match SerializeProperties.default.SetMaxMemoryConsumption maxBytes with
  | (properties, some fl) => (properties, some fl)
  | (properties, none) => ({ properties with name_mapping := nameMapper }, none)

/-! ## Events, handlers -/

/-- The SAX events of the rapidjson handler interface.  The eight leaf callbacks are
`value w`; the counts passed to `EndObject` and `EndArray` are not used by the handlers. -/
inductive Event where
  | value (w : Wire)
  | StartObject
  | Key (s : String)
  | EndObject
  | StartArray
  | EndArray
  deriving DecidableEq, Repr

/-- The enum `RapidJsonDeserializerBase::State`. -/
inductive State where
  | INIT | IN_OBJECT | IN_ARRAY | RECURSED | DONE
  deriving DecidableEq, Repr

/-- The storage that the reference `object_` of a handler is bound to: the destination of the
session (`root`, the handler without parent), the member number `idx` of the parent's record
(of declared type `ty`, optional wrappers included), the last element of the parent's
container, or the entry of the parent's map under `key`. -/
inductive Binding where
  | root
  | member (idx : Nat) (ty : Ty)
  | back
  | entry (key : String)
  deriving Repr

/-- The method `HaveParent()`. -/
def Binding.HaveParent : Binding → Bool
  | .root => false
  | _ => true

/-- The data members of a `RapidJsonDeserializer<T>` other than `recursed_to_`: the type
`data_t`, the binding and the content of `object_`, `current_name_`, `state_` and the stack
`saved_state_` (top first).  While a child handler is active, `object` does not show what the
child has written so far; see `Handler.view`. -/
structure Frame where
  T : Ty
  binding : Binding
  object : Val
  current_name : String
  state : State
  saved_state : List State
  deriving Repr

/-- A `std::unique_ptr<RapidJsonDeserializerBase>`: null, a `RapidJsonSkipObject` with its
counter `recursion_`, or a `RapidJsonDeserializer<T>` with its own `recursed_to_`. -/
inductive Handler where
  | null
  | skip (recursion : Int)
  | deser (f : Frame) (recursed_to : Handler)
  deriving Repr

/-- Whether the pointer is null. -/
def Handler.isNull : Handler → Bool
  | .null => true
  | _ => false

/-! ## Operations on the destination -/

/-- Member number `idx` of a record value. -/
def memberAt (object : Val) (idx : Nat) : Val :=
  match object with
  | .record ms => ms.getD idx .absent
  | _ => .absent

/-- Assignment to member number `idx` of a record value. -/
def setMember (object : Val) (idx : Nat) (v : Val) : Val :=
  match object with
  | .record ms => .record (ms.set idx v)
  | other => other

/-- The `for_each_member` loops of `RecurseToMember` and `SetValueOnMember`: number and
declared type of the first member with `strcmp(name, current_name_.c_str()) == 0`. -/
def findMember (current_name : String) : List (String × Ty) → Option (Nat × Ty)
  | [] => none
  | (name, t) :: rest =>
    if strcmp_eq name current_name then some (0, t)
    else match findMember current_name rest with
      | some (i, ty) => some (i + 1, ty)
      | none => none

/-- Order of `std::string` keys: lexicographic by character code. -/
def keyLt : List Char → List Char → Bool
  | _, [] => false
  | [], _ :: _ => true
  | a :: as, b :: bs => a.toNat < b.toNat || (a.toNat == b.toNat && keyLt as bs)

/-- Lookup in a `std::map`. -/
def mapFind (entries : List (String × Val)) (key : String) : Option Val :=
  match entries.find? (fun e => e.1 == key) with
  | some e => some e.2
  | none => none

/-- Insertion or replacement of an entry of a `std::map`, keeping key order. -/
def mapInsert : List (String × Val) → String → Val → List (String × Val)
  | [], key, v => [(key, v)]
  | (k, w) :: rest, key, v =>
    if k == key then (key, v) :: rest
    else if keyLt key.toList k.toList then (key, v) :: (k, w) :: rest
    else (k, w) :: mapInsert rest key v

/-- The expression `object_[key]` on a map holding values of type `t`: the map afterwards
(with a value-initialised entry added when the key was missing) and the entry's content. -/
def mapIndex (object : Val) (t : Ty) (key : String) : Val × Val :=
  match object with
  | .map es =>
    match mapFind es key with
    | some v => (.map es, v)
    | none => (.map (mapInsert es key (defaultVal t)), defaultVal t)
  | other => (other, defaultVal t)

/-- Assignment through the reference returned by `object_[key]`. -/
def mapAssign (object : Val) (key : String) (v : Val) : Val :=
  match object with
  | .map es => .map (mapInsert es key v)
  | other => other

/-- The call `object_.push_back(v)`. -/
def push_back (object : Val) (v : Val) : Val :=
  match object with
  | .seq xs => .seq (xs ++ [v])
  | other => other

/-- Assignment through the reference `object_.back()`. -/
def setBack (object : Val) (v : Val) : Val :=
  match object with
  | .seq xs => .seq (xs.dropLast ++ [v])
  | other => other

/-- The content of a member of declared type `ty` whose innermost non-optional part, the one
a child handler is bound to, holds `v`. -/
def rewrap : Ty → Val → Val
  | .optional t, v => .present (rewrap t v)
  | _, v => v

/-- The content of the storage of a handler once the part bound to its child holds `child`. -/
def plug (object : Val) (b : Binding) (child : Val) : Val :=
  match b with
  | .root => object
  | .member idx ty => setMember object idx (rewrap ty child)
  | .back => setBack object child
  | .entry key => mapAssign object key child

/-- The content of the storage that the handler is bound to, with everything the active
descendants have written. -/
def Handler.view : Handler → Val
  | .null => .absent
  | .skip _ => .absent
  | .deser f (.deser g c) => plug f.object g.binding (Handler.view (.deser g c))
  | .deser f _ => f.object

/-! ## `RapidJsonDeserializer` -/

/-- The method `AddBytes(bytes)` on the shared counter `bytes_` (`none` is the null pointer):
the counter afterwards and the exception, if any.  The subtraction is carried out on 64-bit
machine integers. -/
def AddBytes (bytes_ : Option Int) (bytes : Nat) : Option Int × Option Failure :=
  match bytes_ with
  | none => (none, none)
  | some c =>
    let c1 := wrapInt .i64 (c - (bytes : Int))
    (some c1, if c1 ≤ 0 then some (.threw .ConstraintException) else none)

/-- The method `DoRecurseToMember<typeT>(item)`: the content left in `item`, and the type and
initial content of the storage for which a child handler is created; no child handler means
that `ParseException` is thrown.  An optional `item` is first set to a value-initialised
content. -/
def DoRecurseToMember : Ty → Val → Val × Option (Ty × Val)
  | .optional t, _ =>
    let r := DoRecurseToMember t (defaultVal t)
    (.present r.1, r.2)
  | .record fs, item => (item, some (.record fs, item))
  | .container t, item => (item, some (.container t, item))
  | .map t, item => (item, some (.map t, item))
  | _, item => (item, none)

/-- A freshly constructed child `RapidJsonDeserializer<T>` bound to storage holding
`object`. -/
def newChild (T : Ty) (binding : Binding) (object : Val) : Frame :=
  { T := T, binding := binding, object := object, current_name := "", state := .INIT,
    saved_state := [] }

/-- The result of a step of a handler without active child: its data members, its
`recursed_to_`, the shared counter, and the failure if the callback does not return `true`. -/
structure Res where
  frame : Frame
  child : Handler
  bytes : Option Int
  failure : Option Failure

/-- The method `RecurseToMember<data_t>()`. -/
def RecurseToMember (ndebug : Bool) (p : SerializeProperties) (f : Frame) (bytes_ : Option Int) :
    Res :=
  match f.T with
  | .record fs =>
    match cassert ndebug (!str_empty f.current_name) with
    | some fl => ⟨f, .null, bytes_, some fl⟩
    | none =>
      match findMember f.current_name fs with
      | some (idx, ty) =>
        let r := DoRecurseToMember ty (memberAt f.object idx)
        let f1 := { f with object := setMember f.object idx r.1 }
        match r.2 with
        | none => ⟨f1, .null, bytes_, some (.threw .ParseException)⟩
        | some (ct, cv) =>
          ⟨{ f1 with saved_state := f.state :: f.saved_state, state := .RECURSED,
                     current_name := "" },
            .deser (newChild ct (.member idx ty) cv) .null, bytes_, none⟩
      | none =>
        if !p.ignore_unknown_properties then
          ⟨f, .null, bytes_, some (.threw (.UnknownPropertyException f.current_name))⟩
        else
          ⟨{ f with saved_state := f.state :: f.saved_state, state := .RECURSED,
                    current_name := "" }, .skip 0, bytes_, none⟩
  | .map t =>
    let r := mapIndex f.object t f.current_name
    ⟨{ f with object := r.1, saved_state := f.state :: f.saved_state, state := .RECURSED,
              current_name := "" },
      .deser (newChild t (.entry f.current_name) r.2) .null, bytes_, none⟩
  | _ => ⟨f, .null, bytes_, some (.threw .ParseException)⟩

/-- The method `RecurseToContainerValue<data_t>()`. -/
def RecurseToContainerValue (f : Frame) (bytes_ : Option Int) : Res :=
  match f.T with
  | .container t =>
    if is_sequence t || is_container t then
      ⟨{ f with object := push_back f.object (defaultVal t),
                saved_state := f.state :: f.saved_state, state := .RECURSED },
        .deser (newChild t .back (defaultVal t)) .null, bytes_, none⟩
    else ⟨f, .null, bytes_, some (.threw .ParseException)⟩
  | _ => ⟨f, .null, bytes_, some (.threw .ParseException)⟩

/-- The method `SetValueOnMember<data_t>(val)`. -/
def SetValueOnMember (ndebug : Bool) (p : SerializeProperties) (f : Frame) (bytes_ : Option Int)
    (val : Wire) : Res :=
  match f.T with
  | .record fs =>
    match cassert ndebug (!str_empty f.current_name) with
    | some fl => ⟨f, .null, bytes_, some fl⟩
    | none =>
      match findMember f.current_name fs with
      | some (idx, ty) =>
        let a := AddBytes bytes_ (get_len val)
        match a.2 with
        | some fl => ⟨f, .null, a.1, some fl⟩
        | none =>
          match assign_value false ty (memberAt f.object idx) val with
          | .error fl => ⟨f, .null, a.1, some fl⟩
          | .ok v => ⟨{ f with object := setMember f.object idx v, current_name := "" }, .null,
                      a.1, none⟩
      | none =>
        if !p.ignore_unknown_properties then
          ⟨f, .null, bytes_, some (.threw (.UnknownPropertyException f.current_name))⟩
        else ⟨{ f with current_name := "" }, .null, bytes_, none⟩
  | .map t =>
    match cassert ndebug (!str_empty f.current_name) with
    | some fl => ⟨f, .null, bytes_, some fl⟩
    | none =>
      let a := AddBytes bytes_ (get_len val + 32 + f.current_name.length + 8 * 6)
      match a.2 with
      | some fl => ⟨f, .null, a.1, some fl⟩
      | none =>
        let r := mapIndex f.object t f.current_name
        match assign_value false t r.2 val with
        | .error fl => ⟨{ f with object := r.1 }, .null, a.1, some fl⟩
        | .ok v => ⟨{ f with object := mapAssign r.1 f.current_name v, current_name := "" },
                    .null, a.1, none⟩
  | _ => ⟨f, .null, bytes_, some (.threw .ParseException)⟩

/-- The method `SetValueInArray<data_t>(val)`. -/
def SetValueInArray (ndebug : Bool) (f : Frame) (bytes_ : Option Int) (val : Wire) : Res :=
  match f.T with
  | .container t =>
    if !is_sequence t then
      let a := AddBytes bytes_ (get_len val + 8 * 3)
      match a.2 with
      | some fl => ⟨f, .null, a.1, some fl⟩
      | none =>
        let pushed := push_back f.object (defaultVal t)
        match assign_value true t (defaultVal t) val with
        | .error fl => ⟨{ f with object := pushed }, .null, a.1, some fl⟩
        | .ok v => ⟨{ f with object := setBack pushed v }, .null, a.1, none⟩
    else ⟨f, .null, bytes_, cassert ndebug false⟩
  | _ => ⟨f, .null, bytes_, some (.threw .ParseException)⟩

/-- The method `SetValue(val)`, to which `DoNull`, `DoBool`, `DoInt`, `DoUint`, `DoInt64`,
`DoUint64`, `DoDouble` and `DoString` pass their argument. -/
def SetValue (ndebug : Bool) (p : SerializeProperties) (f : Frame) (bytes_ : Option Int)
    (val : Wire) : Res :=
  match f.state with
  | .IN_OBJECT => SetValueOnMember ndebug p f bytes_ val
  | .IN_ARRAY => SetValueInArray ndebug f bytes_ val
  | _ => ⟨f, .null, bytes_, cassert ndebug false⟩

/-- The call `recursed_to_->StartObject()` or `recursed_to_->StartArray()` on the handler
just created: a `RapidJsonDeserializer` leaves `INIT` for `target`, a `RapidJsonSkipObject`
counts one level. -/
def startChild (target : State) : Handler → Handler
  | .deser g c => .deser { g with state := target } c
  | .skip n => .skip (n + 1)
  | .null => .null

/-- The common part of `DoStartObject` and `DoStartArray` after a `Recurse...` call: the
event is passed on to the new child unless the call threw. -/
def enterChild (target : State) (r : Res) : Res :=
  match r.failure with
  | some _ => r
  | none => { r with child := startChild target r.child }

/-- The method `DoStartObject()`. -/
def DoStartObject (ndebug : Bool) (p : SerializeProperties) (f : Frame) (bytes_ : Option Int) :
    Res :=
  match f.state with
  | .INIT => ⟨{ f with state := .IN_OBJECT }, .null, bytes_, none⟩
  | .IN_OBJECT => enterChild .IN_OBJECT (RecurseToMember ndebug p f bytes_)
  | .IN_ARRAY => enterChild .IN_OBJECT (RecurseToContainerValue f bytes_)
  | .DONE =>
    ⟨{ f with state := .IN_OBJECT }, .null,
      match bytes_ with
      | some _ => some p.GetMaxMemoryConsumption
      | none => none,
      none⟩
  | .RECURSED => ⟨f, .null, bytes_, cassert ndebug false⟩

/-- The method `DoKey(str, length, copy)`. -/
def DoKey (ndebug : Bool) (p : SerializeProperties) (f : Frame) (bytes_ : Option Int)
    (str : String) : Res :=
  match cassert ndebug (str_empty f.current_name) with
  | some fl => ⟨f, .null, bytes_, some fl⟩
  | none =>
    match p.name_mapping with
    | none => ⟨{ f with current_name := str }, .null, bytes_, none⟩
    | some m => ⟨{ f with current_name := m.to_native_name str }, .null, bytes_, none⟩

/-- The method `DoEndObject(memberCount)`, without the notification of the parent. -/
def DoEndObject (ndebug : Bool) (f : Frame) (bytes_ : Option Int) : Res :=
  let f1 := { f with current_name := "" }
  match f.state with
  | .IN_OBJECT => ⟨{ f1 with state := .DONE }, .null, bytes_, none⟩
  | _ => ⟨f1, .null, bytes_, cassert ndebug false⟩

/-- The method `DoStartArray()`. -/
def DoStartArray (ndebug : Bool) (p : SerializeProperties) (f : Frame) (bytes_ : Option Int) :
    Res :=
  match f.state with
  | .INIT => ⟨{ f with state := .IN_ARRAY }, .null, bytes_, none⟩
  | .IN_ARRAY => enterChild .IN_ARRAY (RecurseToContainerValue f bytes_)
  | .IN_OBJECT => enterChild .IN_ARRAY (RecurseToMember ndebug p f bytes_)
  | _ => ⟨f, .null, bytes_, cassert ndebug false⟩

/-- The method `DoEndArray(elementCount)`, without the notification of the parent. -/
def DoEndArray (ndebug : Bool) (f : Frame) (bytes_ : Option Int) : Res :=
  let f1 := { f with current_name := "" }
  match f.state with
  | .IN_ARRAY => ⟨{ f1 with state := .DONE }, .null, bytes_, none⟩
  | _ => ⟨f1, .null, bytes_, cassert ndebug false⟩

/-- The method that a handler without active child runs for an event. -/
def doEvent (ndebug : Bool) (p : SerializeProperties) (f : Frame) (bytes_ : Option Int) :
    Event → Res
  | .value w => SetValue ndebug p f bytes_ w
  | .StartObject => DoStartObject ndebug p f bytes_
  | .Key s => DoKey ndebug p f bytes_ s
  | .EndObject => DoEndObject ndebug f bytes_
  | .StartArray => DoStartArray ndebug p f bytes_
  | .EndArray => DoEndArray ndebug f bytes_

/-- Whether the event is `EndObject` or `EndArray`. -/
def Event.isEnd : Event → Bool
  | .EndObject | .EndArray => true
  | _ => false

/-- The result of a callback of a handler: the handler afterwards, the shared counter,
whether the handler called `GetParent().OnChildIsDone()`, and the failure if the callback
does not return `true`. -/
structure StepResult where
  handler : Handler
  bytes : Option Int
  notify : Bool
  failure : Option Failure

/-- The method `OnChildIsDone()` of the handler with data members `f`, whose child bound to
`b` finished with content `childObject` (`none` for a `RapidJsonSkipObject`). -/
def OnChildIsDone (ndebug : Bool) (f : Frame) (child : Option (Binding × Val)) :
    Frame × Option Failure :=
  match cassert ndebug (f.state == .RECURSED) with
  | some fl => (f, some fl)
  | none =>
    match cassert ndebug (!f.saved_state.isEmpty) with
    | some fl => (f, some fl)
    | none =>
      match f.saved_state with
      | [] => (f, some .undefined)
      | top :: rest =>
        ({ f with state := top, saved_state := rest,
                  object := match child with
                    | some (b, v) => plug f.object b v
                    | none => f.object }, none)

/-- The storage binding and content of a child handler, for `OnChildIsDone`. -/
def Handler.bound : Handler → Option (Binding × Val)
  | .deser g _ => some (g.binding, g.object)
  | _ => none

/-- What a handler with data members `f` does once the callback it forwarded to its child has
come back with `r`: when the child has called `OnChildIsDone()` the handler resumes its saved
state and releases the child; the result of the child's callback is passed on. -/
def afterChild (ndebug : Bool) (f : Frame) (r : StepResult) : StepResult :=
  if r.notify then
    let d := OnChildIsDone ndebug f r.handler.bound
    match d.2 with
    | some fl => ⟨.deser d.1 r.handler, r.bytes, false, some fl⟩
    | none => ⟨.deser d.1 .null, r.bytes, false, r.failure⟩
  else ⟨.deser f r.handler, r.bytes, false, r.failure⟩

/-- One callback (`Null`, ..., `EndArray`) on a handler: a `RapidJsonSkipObject` counts
nesting, a `RapidJsonDeserializer` forwards the event to `recursed_to_` when it has one (the
assertion of every callback then requires `state_ == State::RECURSED`) and otherwise runs its
own `Do...` method, after which `DoEndObject` and `DoEndArray` notify the parent when the
state is `DONE`. -/
def step (ndebug : Bool) (p : SerializeProperties) : Handler → Option Int → Event → StepResult
  | .null, bytes_, _ => ⟨.null, bytes_, false, some .undefined⟩
  | .skip n, bytes_, e =>
    match e with
    | .StartObject | .StartArray => ⟨.skip (n + 1), bytes_, false, none⟩
    | .EndObject | .EndArray => ⟨.skip (n - 1), bytes_, decide (n - 1 ≤ 0), none⟩
    | _ => ⟨.skip n, bytes_, false, none⟩
  | .deser f .null, bytes_, e =>
    let r := doEvent ndebug p f bytes_ e
    ⟨.deser r.frame r.child, r.bytes,
      r.failure.isNone && e.isEnd && r.frame.state == .DONE && r.frame.binding.HaveParent,
      r.failure⟩
  | .deser f (.skip n), bytes_, e =>
    match cassert ndebug (f.state == .RECURSED) with
    | some fl => ⟨.deser f (.skip n), bytes_, false, some fl⟩
    | none => afterChild ndebug f (step ndebug p (.skip n) bytes_ e)
  | .deser f (.deser g c), bytes_, e =>
    match cassert ndebug (f.state == .RECURSED) with
    | some fl => ⟨.deser f (.deser g c), bytes_, false, some fl⟩
    | none => afterChild ndebug f (step ndebug p (.deser g c) bytes_ e)

/-- A deserialization session: the root handler and the byte counter `bytes_buffer_` it owns
(`none` when `bytes_` is null). -/
structure Session where
  handler : Handler
  bytes : Option Int

/-- The constructor `RapidJsonDeserializer(object, properties)` of a root handler bound to a
destination of type `T` holding `object`. -/
def RapidJsonDeserializer (p : SerializeProperties) (T : Ty) (object : Val) : Session :=
  { handler := .deser { T := T, binding := .root, object := object, current_name := "",
                        state := .INIT, saved_state := [] } .null
    bytes := if p.GetMaxMemoryConsumption = 0 then none else some p.GetMaxMemoryConsumption }

/-- The events of a token stream delivered in order to the root handler, until a callback
fails: the session afterwards and the failure, if any. -/
def feed (ndebug : Bool) (p : SerializeProperties) (s : Session) :
    List Event → Session × Option Failure
  | [] => (s, none)
  | e :: rest =>
    let r := step ndebug p s.handler s.bytes e
    match r.failure with
    | some fl => (⟨r.handler, r.bytes⟩, some fl)
    | none => feed ndebug p ⟨r.handler, r.bytes⟩ rest

/-- The content of the destination of a session. -/
def Session.destination (s : Session) : Val := s.handler.view

/-! ## Serialization -/

/-- The function `is_empty_field(value)` for a value of native type `T`. -/
def is_empty_field (T : Ty) (value : Val) : Bool :=
  match T, value with
  | .bool, .bool b => !b
  | .int _, .int n => n == 0
  | .double, .double d => !doubleNonZero d
  | .optional _, .absent => true
  | .string, .str s => str_empty s
  | .map _, .map es => es.isEmpty
  | .container _, .seq xs => xs.isEmpty
  | _, _ => false

/-- The overload set `do_serialize_integral(v, serializer)`: the events emitted and the
failure, if any.  There are overloads for `bool`, `char`, `int`, `unsigned char`,
`unsigned int`, `double`, `std::int64_t` and `std::uint64_t`; every other arithmetic type
selects the generic template, whose body is `assert(false)`. -/
def do_serialize_integral (ndebug : Bool) : Ty → Val → List Event × Option Failure
  | .bool, .bool b => ([.value (.bool b)], none)
  | .int .i32, .int n => ([.value (.int n)], none)
  | .int .u8, .int n => ([.value (.uint n.toNat)], none)
  | .int .u32, .int n => ([.value (.uint n.toNat)], none)
  | .double, .double d => ([.value (.double d)], none)
  | .int .i64, .int n => ([.value (.int64 n)], none)
  | .int .u64, .int n => ([.value (.uint64 n.toNat)], none)
  | _, _ => ([], cassert ndebug false)

mutual
/-- The function template `do_serialize<dataT>(object, serializer, properties)`: the events
emitted to the serializer, and the failure if the call does not return. -/
def do_serialize (ndebug : Bool) (p : SerializeProperties) :
    Ty → Val → List Event × Option Failure
  | .optional t, .present v => do_serialize ndebug p t v
  | .optional _, _ => ([.value .null], none)
  | .bool, v => do_serialize_integral ndebug .bool v
  | .int k, v => do_serialize_integral ndebug (.int k) v
  | .double, v => do_serialize_integral ndebug .double v
  | .string, .str s => ([.value (.string s)], none)
  | .record fs, .record ms =>
    match serializeMembers ndebug p fs ms with
    | (evs, some fl) => (.StartObject :: evs, some fl)
    | (evs, none) => (.StartObject :: evs ++ [.EndObject], none)
  | .container t, .seq xs =>
    match serializeElements ndebug p t xs with
    | (evs, some fl) => (.StartArray :: evs, some fl)
    | (evs, none) => (.StartArray :: evs ++ [.EndArray], none)
  | .map t, .map es =>
    match serializeEntries ndebug p t es with
    | (evs, some fl) => (.StartObject :: evs, some fl)
    | (evs, none) => (.StartObject :: evs ++ [.EndObject], none)
  | _, _ => ([], some .undefined)
/-- The lambda that `do_serialize` applies to every member of a record, in declaration
order. -/
def serializeMembers (ndebug : Bool) (p : SerializeProperties) :
    List (String × Ty) → List Val → List Event × Option Failure
  | (name, t) :: fs, v :: vs =>
    if p.ignore_empty_fileds && is_empty_field t v then serializeMembers ndebug p fs vs
    else if p.excluded_names.isSome && p.is_excluded name then serializeMembers ndebug p fs vs
    else
      match do_serialize ndebug p t v with
      | (evs, some fl) => (.Key (String.mk (c_str (p.map_name_to_json name))) :: evs, some fl)
      | (evs, none) =>
        match serializeMembers ndebug p fs vs with
        | (evs2, r) => (.Key (String.mk (c_str (p.map_name_to_json name))) :: evs ++ evs2, r)
  | _, _ => ([], none)
/-- The loop of `do_serialize` over the elements of a container. -/
def serializeElements (ndebug : Bool) (p : SerializeProperties) (t : Ty) :
    List Val → List Event × Option Failure
  | [] => ([], none)
  | v :: vs =>
    match do_serialize ndebug p t v with
    | (evs, some fl) => (evs, some fl)
    | (evs, none) =>
      match serializeElements ndebug p t vs with
      | (evs2, r) => (evs ++ evs2, r)
/-- The loop of `do_serialize` over the entries of a map: the key goes out through
`do_serialize<std::string>`, that is as a `String` event. -/
def serializeEntries (ndebug : Bool) (p : SerializeProperties) (t : Ty) :
    List (String × Val) → List Event × Option Failure
  | [] => ([], none)
  | (k, v) :: es =>
    match do_serialize ndebug p t v with
    | (evs, some fl) => (.value (.string k) :: evs, some fl)
    | (evs, none) =>
      match serializeEntries ndebug p t es with
      | (evs2, r) => (.value (.string k) :: evs ++ evs2, r)
end

/-! ## `RapidJsonInserter` -/

/-- The enumeration `RapidJsonInserter::State`. -/
inductive RapidJsonInserter.State where
  | PRE | ITERATING | DONE
  deriving DecidableEq, Repr

/-- The data members of a `RapidJsonInserter<T>`.  The member `writer_` is represented by the
events that have been passed to it so far. -/
structure RapidJsonInserter where
  state_ : RapidJsonInserter.State
  is_list_ : Bool
  writer_ : List Event
  properties_ : SerializeProperties

/-- The constructor `RapidJsonInserter(writer, isList, properties)`. -/
def RapidJsonInserter.create (isList : Bool) (properties : SerializeProperties) :
    RapidJsonInserter :=
  { state_ := .PRE, is_list_ := isList, writer_ := [], properties_ := properties }

/-- The method `Add(v)` of a `RapidJsonInserter<T>`: the inserter afterwards, and the failure
if the call does not return. -/
def RapidJsonInserter.Add (ndebug : Bool) (T : Ty) (self : RapidJsonInserter) (v : Val) :
    RapidJsonInserter × Option Failure :=
  if self.state_ = .DONE then (self, some (.threw .RestcCppException))
  else
    let s1 : RapidJsonInserter :=
      if self.state_ = .PRE then
        { self with
          writer_ := if self.is_list_ then self.writer_ ++ [.StartArray] else self.writer_
          state_ := .ITERATING }
      else self
    let r := do_serialize ndebug s1.properties_ T v
    ({ s1 with writer_ := s1.writer_ ++ r.1 }, r.2)

/-- The method `Done()`. -/
def RapidJsonInserter.Done (self : RapidJsonInserter) : RapidJsonInserter :=
  { self with
    writer_ :=
      if self.state_ = .ITERATING then
        if self.is_list_ then self.writer_ ++ [.EndArray] else self.writer_
      else self.writer_
    state_ := .DONE }

/-! ## Notions used to state the theorems -/

/-- A string that consists entirely of decimal digits, where one leading `-` is allowed in
addition when `sgn` is set. -/
def digitsForm (sgn : Bool) (cs : List Char) : Prop :=
  (∀ c ∈ cs, isdigit c = true) ∨
    (sgn = true ∧ ∃ ds, cs = '-' :: ds ∧ ∀ c ∈ ds, isdigit c = true)

/-- The pairs of a native target type and a wire type for which the deduced instantiation of
`assign_value` has no conversion, whatever the value: a `double` target with a string, a
record, container or map target with any leaf other than null, and an optional target with a
leaf other than null that does not convert implicitly to the wrapped type. -/
def noConversion (T : Ty) (A : WireTy) : Bool :=
  A != .nullptr_t &&
    match T with
    | .double => A == .string
    | .record _ | .container _ | .map _ => true
    | .optional x => !is_convertible x A
    | _ => false

/-- The invariant of the shared byte counter: when enabled it is positive, and so is the
configured maximum it is reset to. -/
def BudgetOk (p : SerializeProperties) (b : Option Int) : Prop :=
  ∀ c, b = some c → 0 < c ∧ 0 < p.max_memory_consumption

/-- The handler tree made of the chain of ancestors `ctx` (outermost first), each forwarding
to the next, above the handler `a`. -/
def wrap : List Frame → Handler → Handler
  | [], a => a
  | f :: fs, a => .deser f (wrap fs a)

/-- The data members of the innermost handler of the tree, when that is a
`RapidJsonDeserializer` without active child: the handler that runs the next event. -/
def Handler.active : Handler → Option Frame
  | .deser f .null => some f
  | .deser _ (.deser g c) => Handler.active (.deser g c)
  | _ => none

/-- Every handler of the tree that has an active child is in state `RECURSED`. -/
def Handler.WF : Handler → Prop
  | .deser f (.skip _) => f.state = .RECURSED
  | .deser f (.deser g c) => f.state = .RECURSED ∧ Handler.WF (.deser g c)
  | _ => True

/-- Events delivered to a handler for as long as no callback fails and the handler does not
call `OnChildIsDone()` of its parent: the handler and the counter afterwards. -/
def feedQuiet (ndebug : Bool) (p : SerializeProperties) (h : Handler) (b : Option Int) :
    List Event → Option (Handler × Option Int)
  | [] => some (h, b)
  | e :: rest =>
    if (step ndebug p h b e).failure = none ∧ (step ndebug p h b e).notify = false then
      feedQuiet ndebug p (step ndebug p h b e).handler (step ndebug p h b e).bytes rest
    else none

/-- A well-formed JSON value. -/
inductive Json where
  | leaf (w : Wire)
  | array (elements : List Json)
  | object (members : List (String × Json))

mutual
/-- The event stream of a JSON value. -/
def Json.events : Json → List Event
  | .leaf w => [.value w]
  | .array xs => .StartArray :: Json.eventsOfElements xs ++ [.EndArray]
  | .object ms => .StartObject :: Json.eventsOfMembers ms ++ [.EndObject]
/-- The event stream of the elements of an array. -/
def Json.eventsOfElements : List Json → List Event
  | [] => []
  | x :: xs => Json.events x ++ Json.eventsOfElements xs
/-- The event stream of the members of an object. -/
def Json.eventsOfMembers : List (String × Json) → List Event
  | [] => []
  | (k, x) :: ms => .Key k :: Json.events x ++ Json.eventsOfMembers ms
end

/-- The name that `DoKey` buffers for a wire key. -/
def bufferedName (p : SerializeProperties) (key : String) : String :=
  match p.name_mapping with
  | none => key
  | some m => m.to_native_name key

/-- The child that a step of a handler without child leaves installed: none, or a handler
without child of its own under data members in state `RECURSED`. -/
def ChildOk (r : Res) : Prop :=
  r.child = .null ∨ (r.frame.state = .RECURSED ∧ ((∃ n, r.child = .skip n) ∨ ∃ g, r.child = .deser g .null))

/-- A member name as `BOOST_FUSION_ADAPT_STRUCT` yields it: not empty and without NUL. -/
def validName (name : String) : Bool :=
  !name.toList.isEmpty && name.toList.all (fun c => c != Char.ofNat 0)

/-- The primitive types for which `do_serialize` emits a leaf event: `bool`, `int`,
`unsigned char`, `unsigned int`, `std::int64_t`, `std::uint64_t`, `double` and
`std::string`. -/
def leafRT : Ty → Bool
  | .bool | .int .i32 | .int .u8 | .int .u32 | .int .i64 | .int .u64 | .double | .string => true
  | _ => false


mutual
/-- The value is a value of the native type: integers are within the range of their type,
records have one value per member. -/
def hasType : Ty → Val → Bool
  | .bool, .bool _ => true
  | .int k, .int n => decide (k.min ≤ n ∧ n ≤ k.max)
  | .double, .double _ => true
  | .string, .str _ => true
  | .optional _, .absent => true
  | .optional t, .present v => hasType t v
  | .container t, .seq xs => hasTypeAll t xs
  | .map t, .map es => hasTypeEntries t es
  | .record fs, .record ms => hasTypeMembers fs ms
  | _, _ => false
/-- Every element is a value of the type. -/
def hasTypeAll (t : Ty) : List Val → Bool
  | [] => true
  | v :: vs => hasType t v && hasTypeAll t vs
/-- Every entry holds a value of the type. -/
def hasTypeEntries (t : Ty) : List (String × Val) → Bool
  | [] => true
  | (_, v) :: es => hasType t v && hasTypeEntries t es
/-- The values are, in order, values of the member types. -/
def hasTypeMembers : List (String × Ty) → List Val → Bool
  | [], [] => true
  | (_, t) :: fs, v :: vs => hasType t v && hasTypeMembers fs vs
  | _, _ => false
end

/-- An upper bound of what the leaf events of a stream are charged: `get_len` plus the
container overhead for each. -/
def budgetNeed : List Event → Nat
  | [] => 0
  | .value w :: rest => get_len w + 8 * 3 + budgetNeed rest
  | _ :: rest => budgetNeed rest

/-- The shared counter is disabled, or it exceeds `n` (and is a 63-bit value). -/
def BudgetFor (b : Option Int) (n : Nat) : Prop :=
  b = none ∨ ∃ c : Int, b = some c ∧ (n : Int) < c ∧ c < 2 ^ 63

/-- The state in which a handler for a record or a container consumes the content. -/
def openState : Ty → State
  | .container _ => .IN_ARRAY
  | _ => .IN_OBJECT

/-- The event that opens the serialization of a record or a container. -/
def startEvent : Ty → Event
  | .container _ => .StartArray
  | _ => .StartObject

/-- The event that closes the serialization of a record or a container. -/
def endEvent : Ty → Event
  | .container _ => .EndArray
  | _ => .EndObject

/-- The pairs of a handler state and an event that do not fit: `EndArray` in `IN_OBJECT`,
`EndObject` in `IN_ARRAY`, and `EndObject`, `EndArray` or a leaf value in `INIT` or `DONE`. -/
def structuralMismatch : State → Event → Bool
  | .IN_OBJECT, .EndArray => true
  | .IN_ARRAY, .EndObject => true
  | .INIT, .EndObject | .INIT, .EndArray | .INIT, .value _ => true
  | .DONE, .EndObject | .DONE, .EndArray | .DONE, .value _ => true
  | _, _ => false

/-- Whether the specification has a member emitted: it is not in the exclusion set and it is
not empty while `ignore_empty_fields` is set. -/
def memberEmitted (p : SerializeProperties) (name : String) (t : Ty) (v : Val) : Bool :=
  !p.is_excluded name && !(p.ignore_empty_fileds && is_empty_field t v)

/-- The members of a record that the specification has emitted, in declaration order, each
with its name, type and value. -/
def emittedMembers (p : SerializeProperties) (fs : List (String × Ty)) (ms : List Val) :
    List ((String × Ty) × Val) :=
  (fs.zip ms).filter (fun x => memberEmitted p x.1.1 x.1.2 x.2)

/-- The events that the specification lists for the members of a record: for every emitted
member a `Key` with the mapped name, passed as a C string, followed by the events of the
value. -/
def memberEvents (ndebug : Bool) (p : SerializeProperties) (fs : List (String × Ty))
    (ms : List Val) : List Event :=
  ((emittedMembers p fs ms).map (fun x =>
    .Key (String.mk (c_str (p.map_name_to_json x.1.1))) ::
      (do_serialize ndebug p x.1.2 x.2).1)).join

/-- The events that the specification lists for the entries of a map: for every entry the key
as a string leaf followed by the events of the value. -/
def entryEvents (ndebug : Bool) (p : SerializeProperties) (t : Ty)
    (es : List (String × Val)) : List Event :=
  (es.map (fun e => .value (.string e.1) :: (do_serialize ndebug p t e.2).1)).join

/-- The events that the specification lists for the elements of a sequence: the events of
each element in order. -/
def elementEvents (ndebug : Bool) (p : SerializeProperties) (t : Ty) (vs : List Val) :
    List Event :=
  (vs.map (fun v => (do_serialize ndebug p t v).1)).join

/-- The calls `Add(v1)`, ..., `Add(vn)` on an inserter, in order, until one does not return:
the inserter afterwards and the failure, if any. -/
def RapidJsonInserter.addAll (ndebug : Bool) (T : Ty) :
    RapidJsonInserter → List Val → RapidJsonInserter × Option Failure
  | s, [] => (s, none)
  | s, v :: vs =>
    match RapidJsonInserter.Add ndebug T s v with
    | (s1, some fl) => (s1, some fl)
    | (s1, none) => RapidJsonInserter.addAll ndebug T s1 vs

/-- The data members `g` differ from `f` at most in the content of the storage and in the
buffered name. -/
def Frame.same (f g : Frame) : Prop :=
  g.T = f.T ∧ g.binding = f.binding ∧ g.state = f.state ∧ g.saved_state = f.saved_state

/-- A child handler as a `Start` event leaves it installed: a skip handler one level deep, or
a handler without child of its own, with a parent, in the state `target`. -/
def Started (target : State) (c : Handler) : Prop :=
  c = .skip 1 ∨ ∃ gc, c = .deser gc .null ∧ gc.state = target ∧ gc.binding.HaveParent = true

/-- What a `Recurse...` call that returns leaves behind: the handler is `RECURSED` with its
former state saved, and the child is a fresh skip handler or a fresh handler with a parent. -/
def Recursed (f : Frame) (r : Res) : Prop :=
  r.frame.T = f.T ∧ r.frame.binding = f.binding ∧ r.frame.state = .RECURSED ∧
    r.frame.saved_state = f.state :: f.saved_state ∧
    (r.child = .skip 0 ∨
      ∃ gc, r.child = .deser gc .null ∧ gc.state = .INIT ∧ gc.binding.HaveParent = true)

/-- The primitive native types: `bool`, the integers, `double` and `std::string`. -/
def is_primitive : Ty → Bool
  | .bool | .int _ | .double | .string => true
  | _ => false

/-- The invariant of a handler tree: every `RapidJsonDeserializer` in it has a child exactly
when its state is `RECURSED`, its save-stack holds exactly one state, `IN_OBJECT` or
`IN_ARRAY`, when it is `RECURSED`, and is empty otherwise. -/
def Handler.Invariant : Handler → Prop
  | .deser f c =>
    (c.isNull = false ↔ f.state = .RECURSED) ∧
    (f.state = .RECURSED → f.saved_state = [.IN_OBJECT] ∨ f.saved_state = [.IN_ARRAY]) ∧
    (f.state ≠ .RECURSED → f.saved_state = []) ∧ Handler.Invariant c
  | _ => True

/-- A flat object document: an object whose members, given by key and value, are leaves. -/
def flatObject (ms : List (String × Wire)) : Json :=
  .object (ms.map (fun m => (m.1, Json.leaf m.2)))

/-- What the events `Key k`, leaf `w` of a member `m = (k, w)` do to a record with the
members `fs` when the charge fits the budget, as `DoKey` and `SetValueOnMember` compute it:
`none` when a callback fails, `some none` when the value is dropped, and `some (idx, v)` when
member number `idx` is set to `v`. -/
def memberAction (ndebug : Bool) (p : SerializeProperties) (fs : List (String × Ty))
    (m : String × Wire) : Option (Option (Nat × Val)) :=
  match cassert ndebug (!str_empty (bufferedName p m.1)) with
  | some _ => none
  | none =>
    match findMember (bufferedName p m.1) fs with
    | some (idx, ty) =>
      match assign_value false ty (defaultVal ty) m.2 with
      | .ok v => some (some (idx, v))
      | .error _ => none
    | none => if p.ignore_unknown_properties then some none else none

/-- The content of a record after an action of `memberAction`. -/
def applyAction (object : Val) : Option (Nat × Val) → Val
  | none => object
  | some (idx, v) => setMember object idx v

/-- The content of a record after the events of a member of a flat object; `none` stands for
a callback that failed, now or before. -/
def memberEffect (ndebug : Bool) (p : SerializeProperties) (fs : List (String × Ty))
    (object : Option Val) (m : String × Wire) : Option Val :=
  match object, memberAction ndebug p fs m with
  | some o, some a => some (applyAction o a)
  | _, _ => none

/-- What `SetValueOnMember` charges for the member `m` of a flat object. -/
def memberCharge (p : SerializeProperties) (fs : List (String × Ty)) (m : String × Wire) : Nat :=
  match findMember (bufferedName p m.1) fs with
  | some _ => get_len m.2
  | none => 0

/-- Whether the call `e` of a `rapidjson::Writer` writes what the event `d` of a document
stands for: the two are the same, or `e` is `String(str)` and `d` is `Key(str)`; the writer's
`Key(str)` is a call of `String(str)`. -/
def sameCall (e d : Event) : Bool :=
  e == d ||
    match e, d with
    | .value (.string s), .Key k => s == k
    | _, _ => false

/-- Whether the events `evs`, passed to a `rapidjson::Writer`, produce the JSON text whose
events are `doc`. -/
def writes : List Event → List Event → Bool
  | [], [] => true
  | e :: evs, d :: doc => sameCall e d && writes evs doc
  | _, _ => false

mutual
/-- The types that `do_serialize` has a branch for: every integer type in them is one of
`int`, `unsigned char`, `unsigned int`, `std::int64_t` and `std::uint64_t`, the integer types
with an overload of `do_serialize_integral`. -/
def serializable : Ty → Bool
  | .bool | .double | .string => true
  | .int k => k == .i32 || k == .u8 || k == .u32 || k == .i64 || k == .u64
  | .optional t => serializable t
  | .container t => serializable t
  | .map t => serializable t
  | .record fs => serializableMembers fs
/-- Every member type is `serializable`. -/
def serializableMembers : List (String × Ty) → Bool
  | [] => true
  | (_, t) :: fs => serializable t && serializableMembers fs
end

/-- The leaf that the specification has an integer of type `k` emitted as: `Int`, `Uint`,
`Int64` or `Uint64` according to signedness and width. -/
def intLeaf (k : IntTy) (n : Int) : Wire :=
  match k with
  | .i8 | .i16 | .i32 => .int n
  | .u8 | .u16 | .u32 => .uint n.toNat
  | .i64 => .int64 n
  | .u64 => .uint64 n.toNat

mutual
/-- The JSON value that the specification has a value of type `T` serialized to: a leaf for a
primitive, `null` for an absent optional, an object with the emitted members for a record, an
array with every element for a sequence, an object with every entry for a map. -/
def toJson (p : SerializeProperties) : Ty → Val → Json
  | .optional t, .present v => toJson p t v
  | .optional _, _ => .leaf .null
  | .bool, .bool b => .leaf (.bool b)
  | .int k, .int n => .leaf (intLeaf k n)
  | .double, .double d => .leaf (.double d)
  | .string, .str s => .leaf (.string s)
  | .record fs, .record ms => .object (toJsonMembers p fs ms)
  | .container t, .seq xs => .array (toJsonElements p t xs)
  | .map t, .map es => .object (toJsonEntries p t es)
  | _, _ => .leaf .null
/-- The members of the object for a record: those that are emitted, under their wire names
as C strings. -/
def toJsonMembers (p : SerializeProperties) :
    List (String × Ty) → List Val → List (String × Json)
  | (name, t) :: fs, v :: vs =>
    if memberEmitted p name t v then
      (String.mk (c_str (p.map_name_to_json name)), toJson p t v) :: toJsonMembers p fs vs
    else toJsonMembers p fs vs
  | _, _ => []
/-- The elements of the array for a sequence. -/
def toJsonElements (p : SerializeProperties) (t : Ty) : List Val → List Json
  | [] => []
  | v :: vs => toJson p t v :: toJsonElements p t vs
/-- The members of the object for a map. -/
def toJsonEntries (p : SerializeProperties) (t : Ty) :
    List (String × Val) → List (String × Json)
  | [] => []
  | (k, v) :: es => (k, toJson p t v) :: toJsonEntries p t es
end

/-- The type below the `std::optional` wrappers of a type. -/
def optCore : Ty → Ty
  | .optional t => optCore t
  | t => t

/-- The content of a chain of engaged optionals. -/
def coreVal : Val → Val
  | .present v => coreVal v
  | v => v

/-- The types for which `do_serialize` emits `StartObject` or `StartArray`: records,
containers and maps. -/
def isComposite : Ty → Bool
  | .record _ | .container _ | .map _ => true
  | _ => false

/-- A disengaged `std::optional`. -/
def isAbsent : Ty → Val → Bool
  | .optional _, .absent => true
  | _, _ => false

/-- The key under which `do_serialize` emits the record member `name`. -/
def wireKey (p : SerializeProperties) (name : String) : String :=
  String.mk (c_str (p.map_name_to_json name))

/-- Whether the key that the writer with policy `p` emits for the member `name`, number `i`
of the record with the members `fs`, leads a reader with policy `q` back to that member: the
name that `DoKey` buffers is not empty (or assertions are compiled out) and the first member
it compares equal to is number `i`. -/
def memberResolves (ndebug : Bool) (p q : SerializeProperties) (fs : List (String × Ty))
    (i : Nat) (name : String) : Bool :=
  (ndebug || !str_empty (bufferedName q (wireKey p name))) &&
    (findMember (bufferedName q (wireKey p name)) fs).map Prod.fst == some i

/-- Every member of `rest`, the members of `fs` from number `i` on, satisfies
`memberResolves`. -/
def namesResolve (ndebug : Bool) (p q : SerializeProperties) (fs : List (String × Ty)) :
    Nat → List (String × Ty) → Bool
  | _, [] => true
  | i, (name, _) :: rest =>
    memberResolves ndebug p q fs i name && namesResolve ndebug p q fs (i + 1) rest

/-- Whether a reader with policy `q` stores an entry of a map of `t` under the key `k` it
arrives with: `DoKey` buffers `k` itself, and `k` is not empty unless assertions are compiled
out or the value arrives as an object or array (`RecurseToMember` has no assertion on the
name). -/
def keyRestored (ndebug : Bool) (q : SerializeProperties) (t : Ty) (k : String) : Bool :=
  bufferedName q k == k && (ndebug || !str_empty k || isComposite t)

/-- The entries are in strictly ascending key order, as a `std::map` holds them. -/
def keysAscend : List (String × Val) → Bool
  | [] => true
  | (k, _) :: es => es.all (fun e => keyLt k.toList e.1.toList) && keysAscend es

mutual
/-- The values for which the round trip is proved, given the build and the policies `p` of the
writer and `q` of the reader.  A primitive is of a type of `leafRT` and within its range; an
optional is engaged and holds such a value; every member of a record is a disengaged optional
or such a value, and every member name satisfies `memberResolves`; every element of a
sequence is such a value whose type is a primitive under any number of optionals, a record or
a sequence; every entry of a map has a key that satisfies `keyRestored` and holds a
disengaged optional or such a value whose type is a primitive under any number of optionals,
a record, a sequence or a map; the entries of a map are in key order. -/
def restorable (ndebug : Bool) (p q : SerializeProperties) : Ty → Val → Bool
  | .optional t, .present v => restorable ndebug p q t v
  | .bool, .bool _ => true
  | .int k, .int n => leafRT (.int k) && decide (k.min ≤ n ∧ n ≤ k.max)
  | .double, .double _ => true
  | .string, .str _ => true
  | .record fs, .record ms =>
    namesResolve ndebug p q fs 0 fs && restorableMembers ndebug p q fs ms
  | .container t, .seq xs => restorableElements ndebug p q t xs
  | .map t, .map es => keysAscend es && restorableEntries ndebug p q t es
  | _, _ => false
/-- The members of a record of the class `restorable`. -/
def restorableMembers (ndebug : Bool) (p q : SerializeProperties) :
    List (String × Ty) → List Val → Bool
  | [], [] => true
  | (_, t) :: fs, v :: vs =>
    (isAbsent t v || restorable ndebug p q t v) && restorableMembers ndebug p q fs vs
  | _, _ => false
/-- The elements of a sequence of the class `restorable`. -/
def restorableElements (ndebug : Bool) (p q : SerializeProperties) (t : Ty) : List Val → Bool
  | [] => true
  | v :: vs =>
    (restorable ndebug p q t v && (leafRT (optCore t) || is_sequence t || is_container t))
      && restorableElements ndebug p q t vs
/-- The entries of a map of the class `restorable`. -/
def restorableEntries (ndebug : Bool) (p q : SerializeProperties) (t : Ty) :
    List (String × Val) → Bool
  | [] => true
  | (k, v) :: es =>
    (keyRestored ndebug q t k &&
      (isAbsent t v || (restorable ndebug p q t v && (leafRT (optCore t) || isComposite t))))
      && restorableEntries ndebug p q t es
end

/-- An upper bound of what the events of a document are charged: for every leaf `get_len`
plus the overhead of a map entry, and for every key its length. -/
def documentCharge : List Event → Nat
  | [] => 0
  | .value w :: rest => get_len w + 32 + 8 * 6 + documentCharge rest
  | .Key k :: rest => k.length + documentCharge rest
  | _ :: rest => documentCharge rest

/-- The round trip of the content of a record, container or map value `v` of type `T`:
`do_serialize` returns, its calls write the document `toJson p T v`, and a handler for `T`
that has consumed the opening event of that document and is bound to value-initialised
storage consumes the body without failing, without notifying its parent, within the budget,
and holds `v` afterwards. -/
def Restored (ndebug : Bool) (p q : SerializeProperties) (T : Ty) (v : Val) : Prop :=
  ∃ sbody body, do_serialize ndebug p T v = (startEvent T :: sbody ++ [endEvent T], none) ∧
    (toJson p T v).events = startEvent T :: body ++ [endEvent T] ∧ writes sbody body = true ∧
    ∀ (bd : Binding) (b : Option Int) (m : Nat), BudgetFor b (documentCharge body + m) →
      ∃ b1, feedQuiet ndebug q (.deser ⟨T, bd, defaultVal T, "", openState T, []⟩ .null) b body
              = some (.deser ⟨T, bd, v, "", openState T, []⟩ .null, b1) ∧ BudgetFor b1 m

/-- The round trip of one record member of declared type `t` holding `v`: `do_serialize`
returns and writes the document `toJson p t v`, and a handler in `IN_OBJECT` on any record in
which the buffered name of the key selects a value-initialised member of type `t` consumes
the key and the events of that document and holds `v` in that member afterwards. -/
def MemberRestored (ndebug : Bool) (p q : SerializeProperties) (t : Ty) (v : Val) : Prop :=
  ∃ sevs, do_serialize ndebug p t v = (sevs, none) ∧
    writes sevs (toJson p t v).events = true ∧
    ∀ (fs : List (String × Ty)) (bd : Binding) (ms : List Val) (sv : List State)
      (key : String) (idx : Nat) (b : Option Int) (m : Nat),
      (ndebug = true ∨ str_empty (bufferedName q key) = false) →
      findMember (bufferedName q key) fs = some (idx, t) →
      memberAt (.record ms) idx = defaultVal t →
      BudgetFor b (documentCharge (.Key key :: (toJson p t v).events) + m) →
      ∃ b1, feedQuiet ndebug q (.deser ⟨.record fs, bd, .record ms, "", .IN_OBJECT, sv⟩ .null) b
              (.Key key :: (toJson p t v).events)
            = some (.deser ⟨.record fs, bd, .record (ms.set idx v), "", .IN_OBJECT, sv⟩ .null,
                b1)
          ∧ BudgetFor b1 m

/-- The round trip of one sequence element of type `t` holding `v`: `do_serialize` returns
and writes the document `toJson p t v`, and a handler in `IN_ARRAY` on a container of `t`
consumes the events of that document and holds `v` as a new last element afterwards. -/
def ElementRestored (ndebug : Bool) (p q : SerializeProperties) (t : Ty) (v : Val) : Prop :=
  ∃ sevs, do_serialize ndebug p t v = (sevs, none) ∧
    writes sevs (toJson p t v).events = true ∧
    ∀ (bd : Binding) (xs : List Val) (nm : String) (sv : List State) (b : Option Int)
      (m : Nat), BudgetFor b (documentCharge (toJson p t v).events + m) →
      ∃ b1, feedQuiet ndebug q (.deser ⟨.container t, bd, .seq xs, nm, .IN_ARRAY, sv⟩ .null) b
              (toJson p t v).events
            = some (.deser ⟨.container t, bd, .seq (xs ++ [v]), nm, .IN_ARRAY, sv⟩ .null, b1)
          ∧ BudgetFor b1 m

/-- The round trip of one map entry holding `v` of type `t`: `do_serialize` returns and
writes the document `toJson p t v`, and a handler in `IN_OBJECT` on a map of `t` whose keys
all precede `k` consumes the key `k` and the events of that document and holds the entry
`(k, v)` as a new last entry afterwards. -/
def EntryRestored (ndebug : Bool) (p q : SerializeProperties) (t : Ty) (v : Val) : Prop :=
  ∃ sevs, do_serialize ndebug p t v = (sevs, none) ∧
    writes sevs (toJson p t v).events = true ∧
    ∀ (bd : Binding) (done : List (String × Val)) (sv : List State) (k : String)
      (b : Option Int) (m : Nat), keyRestored ndebug q t k = true →
      (∀ e ∈ done, keyLt e.1.toList k.toList = true) →
      BudgetFor b (documentCharge (.Key k :: (toJson p t v).events) + m) →
      ∃ b1, feedQuiet ndebug q (.deser ⟨.map t, bd, .map done, "", .IN_OBJECT, sv⟩ .null) b
              (.Key k :: (toJson p t v).events)
            = some (.deser ⟨.map t, bd, .map (done ++ [(k, v)]), "", .IN_OBJECT, sv⟩ .null,
                b1)
          ∧ BudgetFor b1 m

/-- The handler is a `RapidJsonDeserializer` for a map of `t` whose storage holds a map with
the property `P`. -/
def Handler.holdsMap (t : Ty) (P : List (String × Val) → Prop) (h : Handler) : Prop :=
  ∃ f c es, h = .deser f c ∧ f.T = .map t ∧ f.object = .map es ∧ P es

/-! # Theorems -/

/-! ## Strings of digits -/

theorem isdigit_ne_minus {c : Char} (h : isdigit c = true) : (c == '-') = false := by
  by_contra hc
  simp at hc
  subst hc
  simp [isdigit] at h

theorem isdigit_not_space {c : Char} (h : isdigit c = true) : isspace c = false := by
  simp only [isdigit, isspace, Bool.and_eq_true, decide_eq_true_eq, Bool.or_eq_false_iff, Bool.and_eq_false_iff, beq_eq_false_iff_ne, decide_eq_false_iff_not] at *
  omega

theorem isdigit_ne_nul {c : Char} (h : isdigit c = true) : (c != Char.ofNat 0) = true := by
  by_contra hc
  simp at hc
  subst hc
  simp [isdigit] at h

theorem loop_digits (sg : Bool) (ds : List Char) (h : ∀ c ∈ ds, isdigit c = true) (cnt : Nat) :
    is_digits_only_loop sg ds cnt = true := by
  induction ds generalizing cnt with
  | nil => simp [is_digits_only_loop]
  | cons c cs ih =>
    have hc := h c (by simp)
    have hm := isdigit_ne_minus hc
    have hcs : ∀ c ∈ cs, isdigit c = true := fun c hc => h c (by simp [hc])
    simp only [isdigit, Bool.and_eq_true, decide_eq_true_eq] at hc
    simp only [is_digits_only_loop, hm, Bool.and_false, Bool.false_eq_true, ↓reduceIte]
    rw [if_neg (by simp; omega)]
    exact ih hcs _

theorem loop_pos (sg : Bool) (cs : List Char) (cnt : Nat) (hcnt : sg = false ∨ 0 < cnt)
    (h : is_digits_only_loop sg cs cnt = true) : ∀ c ∈ cs, isdigit c = true := by
  induction cs generalizing cnt with
  | nil => simp
  | cons c cs ih =>
    have hguard : (sg && (if sg = true then cnt + 1 else cnt) == 1 && c == '-') = false := by
      rcases hcnt with h1 | h1
      · simp [h1]
      · cases sg
        · simp
        · simp; intro h2; omega
    simp only [is_digits_only_loop, hguard, Bool.false_eq_true, ↓reduceIte] at h
    split at h
    · simp at h
    · rename_i hd
      intro x hx
      simp at hx
      rcases hx with rfl | hx
      · simp [isdigit]
        simp at hd
        omega
      · exact ih _ (by cases sg <;> simp_all) h x hx

theorem is_digits_only_iff (sg : Bool) (s : String) :
    is_digits_only s sg = true ↔ digitsForm sg s.toList := by
  unfold is_digits_only digitsForm
  constructor
  · intro h
    cases sg with
    | false => exact Or.inl (loop_pos false _ 0 (Or.inl rfl) h)
    | true =>
      cases hs : s.toList with
      | nil => left; simp
      | cons c cs =>
        rw [hs] at h
        by_cases hc : c = '-'
        · subst hc
          right
          refine ⟨rfl, cs, rfl, ?_⟩
          simp [is_digits_only_loop] at h
          exact loop_pos true cs 1 (Or.inr (by omega)) h
        · left
          simp only [is_digits_only_loop, Bool.true_and, ↓reduceIte, zero_add, beq_self_eq_true, beq_iff_eq, hc] at h
          split at h
          · simp at h
          · rename_i hd
            intro x hx
            simp at hx
            rcases hx with rfl | hx
            · simp [isdigit]; simp at hd; omega
            · exact loop_pos true cs 1 (Or.inr (by omega)) h x hx
  · rintro (h | ⟨hsg, ds, hds, h⟩)
    · exact loop_digits sg _ h 0
    · subst hsg
      rw [hds]
      simp [is_digits_only_loop]
      exact loop_digits true ds h 1

theorem isdigit_ne_plus {c : Char} (h : isdigit c = true) : (c == '+') = false := by
  by_contra hc
  simp at hc
  subst hc
  simp [isdigit] at h

theorem takeWhile_all {α : Type} (q : α → Bool) (l : List α) (h : ∀ c ∈ l, q c = true) :
    l.takeWhile q = l := by
  induction l with
  | nil => rfl
  | cons a l ih =>
    simp only [List.takeWhile, h a (by simp)]
    rw [ih (fun c hc => h c (by simp [hc]))]

theorem strto_digits (neg : Bool) (ds : List Char) (h : ∀ c ∈ ds, isdigit c = true) :
    strto ((if neg then ['-'] else []) ++ ds)
      = if ds = [] then none else some (neg, natOfDigits ds) := by
  cases neg with
  | true =>
    simp only [strto, ↓reduceIte, List.singleton_append]
    have h1 : List.dropWhile isspace ('-' :: ds) = '-' :: ds := by
      simp [List.dropWhile, isspace]
    simp only [h1, List.head?_cons, beq_self_eq_true, Bool.true_or, ↓reduceIte, List.tail_cons,
      takeWhile_all isdigit ds h]
    cases ds <;> simp
  | false =>
    cases ds with
    | nil => simp [strto]
    | cons d ds =>
      have hd := h d (by simp)
      have h1 : List.dropWhile isspace (d :: ds) = d :: ds := by
        simp [List.dropWhile, isdigit_not_space hd]
      have hm := isdigit_ne_minus hd
      have hp := isdigit_ne_plus hd
      simp only [beq_iff_eq, beq_eq_false_iff_ne, ne_eq] at hm hp
      have hor : (d = '-' ∨ d = '+') = False := by simp [hm, hp]
      simp only [strto, Bool.false_eq_true, ↓reduceIte, List.nil_append, h1, List.head?_cons,
        beq_iff_eq, Option.some.injEq, hm, hp, Bool.or_self, Bool.or_eq_true, decide_eq_true_eq,
        hor, takeWhile_all isdigit (d :: ds) h]
      simp
      exact ⟨hd, hm, by rw [takeWhile_all isdigit (d :: ds) h]⟩

theorem c_str_digits (s : String) (neg : Bool) (ds : List Char)
    (hs : s.toList = (if neg then ['-'] else []) ++ ds) (h : ∀ c ∈ ds, isdigit c = true) :
    c_str s = (if neg then ['-'] else []) ++ ds := by
  unfold c_str
  rw [hs]
  apply takeWhile_all
  intro c hc
  cases neg with
  | true =>
    simp at hc
    rcases hc with rfl | hc
    · decide
    · exact isdigit_ne_nul (h c hc)
  | false =>
    simp at hc
    exact isdigit_ne_nul (h c hc)

theorem wrapInt_of_range (k : IntTy) (v : Int) (h1 : k.min ≤ v) (h2 : v ≤ k.max) :
    wrapInt k v = v := by
  cases k <;> simp [IntTy.min, IntTy.max, IntTy.signed, IntTy.bits, wrapInt] at * <;> omega

/-! ## Integer from string -/

theorem assign_value_int_string (k : IntTy) (var : Val) (s : String) :
    assign_value false (.int k) var (.string s) = assign_int_from_string k s := by
  simp [assign_value, Wire.ty, is_assignable_v, is_arithmetic, is_string, WireTy.is_arithmetic,
    is_bool, assign_value_rest]

theorem stoll_digits (s : String) (neg : Bool) (ds : List Char)
    (hs : s.toList = (if neg then ['-'] else []) ++ ds) (hds : ∀ c ∈ ds, isdigit c = true) :
    stoll s =
      if ds = [] then .error (.threw .invalid_argument)
      else if -(2 ^ 63) ≤ (if neg then -(natOfDigits ds : Int) else natOfDigits ds) ∧
          (if neg then -(natOfDigits ds : Int) else natOfDigits ds) < 2 ^ 63 then
        .ok (if neg then -(natOfDigits ds : Int) else natOfDigits ds)
      else .error (.threw .out_of_range) := by
  unfold stoll
  rw [c_str_digits s neg ds hs hds, strto_digits neg ds hds]
  by_cases hnil : ds = []
  · rw [if_pos hnil, if_pos hnil]
  · rw [if_neg hnil, if_neg hnil]

theorem stoull_digits (s : String) (ds : List Char)
    (hs : s.toList = ds) (hds : ∀ c ∈ ds, isdigit c = true) :
    stoull s =
      if ds = [] then .error (.threw .invalid_argument)
      else if (natOfDigits ds : Int) < 2 ^ 64 then .ok (natOfDigits ds : Int)
      else .error (.threw .out_of_range) := by
  unfold stoull
  rw [c_str_digits s false ds (by rw [hs]; rfl) hds]
  have := strto_digits false ds hds
  simp only [Bool.false_eq_true, ↓reduceIte, List.nil_append] at this ⊢
  rw [this]
  by_cases hnil : ds = []
  · rw [if_pos hnil, if_pos hnil]
  · rw [if_neg hnil, if_neg hnil]
    dsimp only
    by_cases hr : natOfDigits ds < 2 ^ 64
    · have hr2 : (natOfDigits ds : Int) < 2 ^ 64 := by omega
      rw [if_pos hr, if_pos hr2]
      simp
    · have hr2 : ¬ (natOfDigits ds : Int) < 2 ^ 64 := by omega
      rw [if_neg hr, if_neg hr2]

theorem assign_value_int_digits (k : IntTy) (var : Val) (s : String) (neg : Bool)
    (ds : List Char) (hs : s.toList = (if neg then ['-'] else []) ++ ds)
    (hneg : neg = true → k.signed = true) (hds : ∀ c ∈ ds, isdigit c = true) :
    assign_value false (.int k) var (.string s) =
      if ds = [] then .error (.threw .invalid_argument)
      else if (if k.signed then
                 -(2 ^ 63) ≤ (if neg then -(natOfDigits ds : Int) else natOfDigits ds) ∧
                 (if neg then -(natOfDigits ds : Int) else natOfDigits ds) < 2 ^ 63
               else (natOfDigits ds : Int) < 2 ^ 64) then
        .ok (.int (wrapInt k (if neg then -(natOfDigits ds : Int) else natOfDigits ds)))
      else .error (.threw .out_of_range) := by
  have hform : digitsForm k.signed s.toList := by
    cases neg with
    | false => left; rw [hs]; simpa using hds
    | true => right; exact ⟨hneg rfl, ds, by rw [hs]; rfl, hds⟩
  have hdo : is_digits_only s k.signed = true := (is_digits_only_iff _ _).2 hform
  rw [assign_value_int_string]
  unfold assign_int_from_string
  by_cases hk : k.signed = true
  · rw [hk] at hdo
    simp only [hk, ↓reduceIte, hdo, stoll_digits s neg ds hs hds]
    by_cases hnil : ds = []
    · simp only [hnil, ↓reduceIte]; rfl
    · simp only [hnil, ↓reduceIte]
      split_ifs <;> rfl
  · have hk2 : k.signed = false := by simpa using hk
    have hn : neg = false := by
      cases neg with
      | false => rfl
      | true => simp [hk2] at hneg
    subst hn
    rw [hk2] at hdo
    simp only [hk2, Bool.false_eq_true, ↓reduceIte, hdo,
      stoull_digits s ds (by rw [hs]; rfl) hds]
    by_cases hnil : ds = []
    · simp only [hnil, ↓reduceIte]; rfl
    · simp only [hnil, ↓reduceIte]
      split_ifs <;> rfl

/-- C6 (integer from string, amended).  For a string `s` assigned by `assign_value` into an
integer field of type `k`: (1) `ParseException`, the conversion error, is raised if and only
if `s` is not made of decimal digits only, one leading `-` being allowed for a signed `k`;
(2) when `s` is such a string, with digits `ds` after the optional sign, the assignment
raises `std::invalid_argument` when there is no digit, raises `std::out_of_range` when the
number does not fit the 64-bit type that `std::stoll` or `std::stoull` returns, and otherwise
stores the number converted to `k`, that is reduced modulo `2^bits`; (3) that conversion
keeps every number within the range of `k` as it is. -/
theorem assign_value_int_from_string (k : IntTy) (var : Val) (s : String) :
    (assign_value false (.int k) var (.string s) = .error (.threw .ParseException)
        ↔ ¬ digitsForm k.signed s.toList) ∧
    (∀ (neg : Bool) (ds : List Char), s.toList = (if neg then ['-'] else []) ++ ds →
        (neg = true → k.signed = true) → (∀ c ∈ ds, isdigit c = true) →
        assign_value false (.int k) var (.string s) =
          if ds = [] then .error (.threw .invalid_argument)
          else if (if k.signed then
                     -(2 ^ 63) ≤ (if neg then -(natOfDigits ds : Int) else natOfDigits ds) ∧
                     (if neg then -(natOfDigits ds : Int) else natOfDigits ds) < 2 ^ 63
                   else (natOfDigits ds : Int) < 2 ^ 64) then
            .ok (.int (wrapInt k (if neg then -(natOfDigits ds : Int) else natOfDigits ds)))
          else .error (.threw .out_of_range)) ∧
    (∀ v : Int, k.min ≤ v → v ≤ k.max → wrapInt k v = v) := by
  refine ⟨?_, fun neg ds hs hneg hds => assign_value_int_digits k var s neg ds hs hneg hds,
    wrapInt_of_range k⟩
  constructor
  · intro h hform
    rcases hform with hd | ⟨hsg, ds, hs, hd⟩
    · have := assign_value_int_digits k var s false s.toList rfl (by simp) hd
      rw [this] at h
      split_ifs at h <;> simp at h
    · have := assign_value_int_digits k var s true ds (by rw [hs]; rfl) (fun _ => hsg) hd
      rw [this] at h
      split_ifs at h <;> simp at h
  · intro hform
    have hdo : is_digits_only s k.signed = false := by
      rw [← Bool.not_eq_true, is_digits_only_iff]; exact hform
    rw [assign_value_int_string]
    unfold assign_int_from_string
    cases hk : k.signed <;> rw [hk] at hdo <;> simp [hdo]

theorem c6_witness :
    assign_value false (.int .i32) (.int 0) (.string "12") = .ok (.int 12) ∧
    assign_value false (.int .i32) (.int 0) (.string "12a") = .error (.threw .ParseException) := by
  constructor
  · have h := (assign_value_int_from_string .i32 (.int 0) "12").2.1 false ['1', '2'] rfl
      (by simp) (by decide)
    rw [h]
    rfl
  · exact (assign_value_int_from_string .i32 (.int 0) "12a").1.2 (by
      rintro (h | ⟨_, ds, hs, h⟩)
      · have := h 'a' (by decide)
        simp [isdigit] at this
      · simp at hs)

theorem c6_counterexample :
    digitsForm true "9223372036854775808".toList ∧ digitsForm true "".toList ∧
    assign_value false (.int .i64) (.int 0) (.string "9223372036854775808")
      = .error (.threw .out_of_range) ∧
    assign_value false (.int .i64) (.int 0) (.string "") = .error (.threw .invalid_argument) := by
  refine ⟨Or.inl (by decide), Or.inl (by decide), rfl, rfl⟩

/-! ## Bool from string -/

theorem assign_value_bool_string (var : Val) (s : String) :
    assign_value false .bool var (.string s) = assign_bool_from_string s := by
  simp [assign_value, Wire.ty, is_assignable_v, is_arithmetic, is_string, WireTy.is_arithmetic,
    is_bool, assign_bool]

theorem atoi_digits (s : String) (hne : s.toList ≠ [])
    (hds : ∀ c ∈ s.toList, isdigit c = true) (hr : natOfDigits s.toList < 2 ^ 31) :
    atoi s = some (natOfDigits s.toList : Int) := by
  unfold atoi
  rw [c_str_digits s false s.toList rfl hds]
  have := strto_digits false s.toList hds
  simp only [Bool.false_eq_true, ↓reduceIte, List.nil_append] at this ⊢
  rw [this, if_neg hne]
  dsimp only
  rw [if_pos (by constructor <;> omega)]
  simp

/-- C7 (bool from string, amended).  For a string `s` assigned by `assign_value` into a `bool`
field: (1) `"true"` and `"yes"` give true; (2) a non-empty all-digit string whose value is
positive and below `2^31` gives true; (3) the empty string, `"false"`, `"no"` and `"0"` give
false; (4) for every other string the outcome is decided by `atoi(s)`: a positive result
gives true, otherwise the string gives false when it is empty, `"false"`, `"no"`, or starts
with `0` while `atoi` returns 0, and raises `ParseException` in every remaining case. -/
theorem assign_value_bool_from_string (var : Val) (s : String) :
    ((s = "true" ∨ s = "yes") → assign_value false .bool var (.string s) = .ok (.bool true)) ∧
    (s.toList ≠ [] → (∀ c ∈ s.toList, isdigit c = true) → 0 < natOfDigits s.toList →
        natOfDigits s.toList < 2 ^ 31 →
        assign_value false .bool var (.string s) = .ok (.bool true)) ∧
    ((s = "" ∨ s = "false" ∨ s = "no" ∨ s = "0") →
        assign_value false .bool var (.string s) = .ok (.bool false)) ∧
    (s ≠ "true" → s ≠ "yes" → ∀ n : Int, atoi s = some n →
        assign_value false .bool var (.string s) =
          if 0 < n then .ok (.bool true)
          else if s = "" ∨ s = "false" ∨ s = "no" ∨ (s.toList.head? = some '0' ∧ n = 0) then
            .ok (.bool false)
          else .error (.threw .ParseException)) := by
  have hgen : s ≠ "true" → s ≠ "yes" → ∀ n : Int, atoi s = some n →
        assign_value false .bool var (.string s) =
          if 0 < n then .ok (.bool true)
          else if s = "" ∨ s = "false" ∨ s = "no" ∨ (s.toList.head? = some '0' ∧ n = 0) then
            .ok (.bool false)
          else .error (.threw .ParseException) := by
    intro h1 h2 n hn
    rw [assign_value_bool_string]
    unfold assign_bool_from_string
    have hemp : str_empty s = true ↔ s = "" := by
      unfold str_empty
      constructor
      · intro h
        apply String.ext
        simpa using h
      · rintro rfl; rfl
    simp only [beq_iff_eq, h1, h2, Bool.or_self, Bool.false_eq_true, ↓reduceIte, hn]
    by_cases hpos : 0 < n
    · simp [hpos]
    · simp only [hpos, ↓reduceIte, Bool.or_eq_true, hemp, beq_iff_eq, Bool.and_eq_true, h1, h2,
        or_self, or_assoc]
  refine ⟨?_, ?_, ?_, hgen⟩
  · rintro (rfl | rfl) <;> rfl
  · intro hne hds hpos hr
    have hat := atoi_digits s hne hds hr
    by_cases h1 : s = "true"
    · subst h1; rfl
    by_cases h2 : s = "yes"
    · subst h2; rfl
    rw [hgen h1 h2 _ hat, if_pos (by omega)]
  · rintro (rfl | rfl | rfl | rfl) <;> rfl

theorem c7_witness :
    assign_value false .bool (.bool false) (.string "7") = .ok (.bool true) ∧
    assign_value false .bool (.bool false) (.string "x") = .error (.threw .ParseException) :=
  ⟨(assign_value_bool_from_string (.bool false) "7").2.1 (by decide) (by decide) (by decide)
      (by decide),
   by
    rw [(assign_value_bool_from_string (.bool false) "x").2.2.2 (by decide) (by decide) 0 (by decide)]
    simp⟩

theorem c7_counterexample :
    assign_value false .bool (.bool false) (.string "12a") = .ok (.bool true) ∧
    assign_value false .bool (.bool true) (.string "00") = .ok (.bool false) := ⟨rfl, rfl⟩

/-! ## Null, string from numeric, closed table -/

/-- C8 (null handling).  A wire null assigned by `assign_value` as `SetValueOnMember`
instantiates it never fails: an optional target becomes absent and any other target becomes
its value-initialised content, which is the empty string, the empty container, the empty map
and the integer 0.  As `SetValueInArray` instantiates it, with the argument deduced as a
reference to `const std::nullptr_t`, the same null raises `ParseException` for an optional
element, so that the array `[null]` does not deserialize into a
`std::vector<std::optional<int>>`. -/
theorem assign_value_null :
    (∀ (T : Ty) (var : Val), assign_value false T var .null
        = .ok (if is_optional T then .absent else defaultVal T)) ∧
    defaultVal .string = .str "" ∧ (∀ t, defaultVal (.container t) = .seq []) ∧
    (∀ t, defaultVal (.map t) = .map []) ∧ (∀ k, defaultVal (.int k) = .int 0) ∧
    (∀ var : Val, assign_value true (.optional (.int .i32)) var .null
        = .error (.threw .ParseException)) ∧
    (feed false SerializeProperties.default
        (RapidJsonDeserializer SerializeProperties.default
          (.container (.optional (.int .i32))) (.seq []))
        [.StartArray, .value .null]).2 = some (.threw .ParseException) := by
  refine ⟨?_, rfl, fun _ => rfl, fun _ => rfl, fun _ => rfl, fun _ => rfl, rfl⟩
  intro T var
  simp only [assign_value, Wire.ty, Bool.not_false, beq_self_eq_true, Bool.and_self, ↓reduceIte]
  split <;> rfl

/-- C9 (string from numeric).  A wire number or bool assigned by `assign_value` into a
`std::string` field is stored by `std::string::operator=(char)`: the field holds the single
character whose code is the value converted to `char`, the integer 42 gives `"*"`, whereas
the decimal rendering `std::to_string` of 42 is `"42"`. -/
theorem assign_value_string_from_numeric :
    (∀ (var : Val) (w : Wire), w.ty.is_arithmetic = true →
        assign_value false .string var w
          = (toChar w).map (fun c => Val.str (String.singleton c))) ∧
    assign_value false .string (.str "") (.int 42) = .ok (.str "*") ∧
    to_string (.int 42) = "42" := by
  refine ⟨?_, rfl, by decide⟩
  intro var w hw
  cases w <;> simp [Wire.ty, WireTy.is_arithmetic] at hw <;>
    simp [assign_value, Wire.ty, is_assignable_v, is_assignable_lvalue, is_arithmetic,
      WireTy.is_arithmetic, assignOp]

theorem static_cast_ne_parse (T : Ty) (w : Wire) :
    static_cast T w ≠ .error (.threw .ParseException) := by
  unfold static_cast
  split <;> (try split) <;> (try split) <;> simp

theorem toChar_ne_parse (w : Wire) : toChar w ≠ .error (.threw .ParseException) := by
  unfold toChar
  split <;> (try split) <;> (try split) <;> simp

theorem map_ne_parse {α β : Type} (f : α → β) (x : Except Failure α)
    (h : x ≠ .error (.threw .ParseException)) :
    x.map f ≠ .error (.threw .ParseException) := by
  cases x with
  | ok v => simp [Except.map]
  | error e => simpa [Except.map] using h

theorem assignOp_ne_parse : ∀ (T : Ty) (w : Wire),
    assignOp T w ≠ .error (.threw .ParseException)
  | .optional x, w => by
    simp only [assignOp]
    exact map_ne_parse _ _ (assignOp_ne_parse x w)
  | .string, w => by
    cases w <;> simp [assignOp] <;> exact map_ne_parse _ _ (toChar_ne_parse _)
  | .bool, w => by simpa [assignOp] using static_cast_ne_parse _ w
  | .int k, w => by simpa [assignOp] using static_cast_ne_parse _ w
  | .double, w => by simpa [assignOp] using static_cast_ne_parse _ w
  | .container t, w => by simpa [assignOp] using static_cast_ne_parse _ w
  | .map t, w => by simpa [assignOp] using static_cast_ne_parse _ w
  | .record fs, w => by simpa [assignOp] using static_cast_ne_parse _ w

/-- C10 (closed coercion table, amended).  (1) For every pair of a target type and a wire type
of `noConversion` (a `double` target with a string; a record, container or map target with a
leaf other than null; an optional target with a leaf other than null that does not convert
implicitly to the wrapped type) `assign_value` raises `ParseException`; (2) for a target
other than `std::string`, `ParseException` is raised only for such a pair or for a string
assigned into a `bool` or an integer; (3) a wire bool assigned into an integer field is
stored as 0 or 1 without error; (4) the wire string `"1.5"` assigned into a `double` field
raises `ParseException`. -/
theorem assign_value_no_conversion :
    (∀ (T : Ty) (var : Val) (w : Wire), noConversion T w.ty = true →
        assign_value false T var w = .error (.threw .ParseException)) ∧
    (∀ (T : Ty) (var : Val) (w : Wire), is_string T = false →
        assign_value false T var w = .error (.threw .ParseException) →
        noConversion T w.ty = true ∨ (w.ty = .string ∧ (is_bool T = true ∨ ∃ k, T = .int k))) ∧
    (∀ (k : IntTy) (var : Val) (b : Bool),
        assign_value false (.int k) var (.bool b) = .ok (.int (if b then 1 else 0))) ∧
    (∀ var : Val, assign_value false .double var (.string "1.5")
        = .error (.threw .ParseException)) := by
  refine ⟨?_, ?_, ?_, fun _ => rfl⟩
  · intro T var w h
    cases T <;> cases w <;>
      simp [noConversion, Wire.ty] at h <;>
      simp [assign_value, Wire.ty, is_assignable_v, is_assignable_lvalue, is_arithmetic,
        WireTy.is_arithmetic, is_string, is_bool, assign_value_rest, is_optional, h]
  · intro T var w hs h
    by_cases hn : w.ty = .nullptr_t
    · simp only [assign_value, hn, Bool.not_false, beq_self_eq_true, Bool.and_self,
        ↓reduceIte] at h
      split at h <;> simp at h
    · by_cases ha : is_assignable_v false T w.ty = true
      · simp only [assign_value, Bool.not_false, Bool.true_and, beq_iff_eq, hn, ↓reduceIte,
          ha] at h
        exact absurd h (assignOp_ne_parse T w)
      · cases T <;> cases w <;>
          simp [noConversion, Wire.ty, is_assignable_v, is_assignable_lvalue, is_arithmetic,
            WireTy.is_arithmetic, is_string, is_bool] at hn ha hs ⊢ <;>
          simp [assign_value, Wire.ty, is_assignable_v, is_assignable_lvalue, is_arithmetic,
            WireTy.is_arithmetic, is_string, is_bool, assign_value_rest, is_optional,
            static_cast, Wire.intValue, ha] at h <;>
          (try simp [ha]) <;>
          (try (split at h <;> (try split at h) <;> simp at h))
  · intro k var b
    cases k <;> cases b <;> rfl

theorem c10_witness :
    assign_value false (.record [("id", .int .i32)]) (.record [.int 0]) (.int 5)
      = .error (.threw .ParseException) :=
  assign_value_no_conversion.1 _ _ _ (by decide)

theorem c10_counterexample :
    assign_value false (.int .i32) (.int 0) (.bool true) = .ok (.int 1) ∧
    assign_value false .string (.str "") (.bool true) = .ok (.str (String.singleton (Char.ofNat 1)))
    := ⟨rfl, rfl⟩

/-! ## The byte budget -/

theorem AddBytes_exact (c : Int) (b : Nat) (hc : 0 < c) (hc2 : c < 2 ^ 63) (hb : b ≤ 2 ^ 63) :
    AddBytes (some c) b
      = (some (c - b), if c - b ≤ 0 then some (.threw .ConstraintException) else none) := by
  have hw : wrapInt .i64 (c - (b : Int)) = c - b := by
    simp only [wrapInt, IntTy.signed, IntTy.bits, ↓reduceIte]
    omega
  simp only [AddBytes, hw]

theorem AddBytes_ok (p : SerializeProperties) (b : Option Int) (n : Nat)
    (h : BudgetOk p b) (hf : (AddBytes b n).2 = none) : BudgetOk p (AddBytes b n).1 := by
  cases b with
  | none => intro c hc; simp [AddBytes] at hc
  | some c0 =>
    intro c hc
    simp only [AddBytes] at hc hf
    have hmax := (h c0 rfl).2
    simp only [Option.some.injEq] at hc
    subst hc
    refine ⟨?_, hmax⟩
    by_contra hneg
    rw [if_pos (by omega)] at hf
    cases hf

theorem SetValueOnMember_budget (ndebug : Bool) (p : SerializeProperties) (f : Frame)
    (b : Option Int) (w : Wire) (h : BudgetOk p b)
    (hf : (SetValueOnMember ndebug p f b w).failure = none) :
    BudgetOk p (SetValueOnMember ndebug p f b w).bytes := by
  unfold SetValueOnMember at hf ⊢
  dsimp only at hf ⊢
  split <;> (try split) <;> (try split) <;> (try split) <;> (try split) <;>
    first
    | exact h
    | (rename_i hh; exact AddBytes_ok p b _ h hh)
    | (rename_i hh _ _; exact AddBytes_ok p b _ h hh)
    | (rename_i hh _ _ _ ; exact AddBytes_ok p b _ h hh)
    | simp_all

theorem SetValueInArray_budget (ndebug : Bool) (p : SerializeProperties) (f : Frame)
    (b : Option Int) (w : Wire) (h : BudgetOk p b)
    (hf : (SetValueInArray ndebug f b w).failure = none) :
    BudgetOk p (SetValueInArray ndebug f b w).bytes := by
  unfold SetValueInArray at hf ⊢
  dsimp only at hf ⊢
  split <;> (try split) <;> (try split) <;> (try split) <;> (try split) <;>
    first
    | exact h
    | (rename_i hh; exact AddBytes_ok p b _ h hh)
    | (rename_i hh _ _; exact AddBytes_ok p b _ h hh)
    | (rename_i hh _ _ _ ; exact AddBytes_ok p b _ h hh)
    | simp_all

theorem RecurseToMember_bytes (ndebug : Bool) (p : SerializeProperties) (f : Frame)
    (b : Option Int) : (RecurseToMember ndebug p f b).bytes = b := by
  unfold RecurseToMember
  dsimp only
  split <;> (try split) <;> (try split) <;> (try split) <;> (try split) <;> rfl

theorem RecurseToContainerValue_bytes (f : Frame)
    (b : Option Int) : (RecurseToContainerValue f b).bytes = b := by
  unfold RecurseToContainerValue
  split <;> (try split) <;> rfl

theorem enterChild_bytes (t : State) (r : Res) : (enterChild t r).bytes = r.bytes := by
  unfold enterChild
  split <;> rfl

theorem doEvent_budget (ndebug : Bool) (p : SerializeProperties) (f : Frame)
    (b : Option Int) (e : Event) (h : BudgetOk p b)
    (hf : (doEvent ndebug p f b e).failure = none) :
    BudgetOk p (doEvent ndebug p f b e).bytes := by
  cases e with
  | value w =>
    simp only [doEvent, SetValue] at hf ⊢
    split at hf
    · exact SetValueOnMember_budget ndebug p f b w h hf
    · exact SetValueInArray_budget ndebug p f b w h hf
    · exact h
  | StartObject =>
    simp only [doEvent, DoStartObject]
    split
    · exact h
    · rw [enterChild_bytes, RecurseToMember_bytes]; exact h
    · rw [enterChild_bytes, RecurseToContainerValue_bytes]; exact h
    · intro c hc
      dsimp only at hc
      split at hc
      · rename_i c0
        have := h c0 rfl
        simp only [Option.some.injEq] at hc
        subst hc
        simp only [SerializeProperties.GetMaxMemoryConsumption]
        exact ⟨by exact_mod_cast this.2, this.2⟩
      · cases hc
    · exact h
  | Key s =>
    simp only [doEvent, DoKey]
    split <;> (try split) <;> exact h
  | EndObject =>
    simp only [doEvent, DoEndObject]
    split <;> exact h
  | StartArray =>
    simp only [doEvent, DoStartArray]
    split
    · exact h
    · rw [enterChild_bytes, RecurseToContainerValue_bytes]; exact h
    · rw [enterChild_bytes, RecurseToMember_bytes]; exact h
    · exact h
  | EndArray =>
    simp only [doEvent, DoEndArray]
    split <;> exact h

theorem afterChild_bytes (ndebug : Bool) (f : Frame) (r : StepResult) :
    (afterChild ndebug f r).bytes = r.bytes := by
  unfold afterChild
  split
  · dsimp only
    split <;> rfl
  · rfl

theorem afterChild_failure (ndebug : Bool) (f : Frame) (r : StepResult)
    (h : (afterChild ndebug f r).failure = none) : r.failure = none := by
  unfold afterChild at h
  split at h
  · dsimp only at h
    split at h
    · cases h
    · exact h
  · exact h

theorem step_budget (ndebug : Bool) (p : SerializeProperties) :
    ∀ (h : Handler) (b : Option Int) (e : Event), BudgetOk p b →
      (step ndebug p h b e).failure = none → BudgetOk p (step ndebug p h b e).bytes
  | .null, b, e, hb, hf => by simp [step] at hf
  | .skip n, b, e, hb, _ => by
    cases e <;> exact hb
  | .deser f .null, b, e, hb, hf => by
    simp only [step] at hf ⊢
    exact doEvent_budget ndebug p f b e hb hf
  | .deser f (.skip n), b, e, hb, hf => by
    simp only [step] at hf ⊢
    split at hf
    · cases hf
    · rw [afterChild_bytes]
      cases e <;> exact hb
  | .deser f (.deser g c), b, e, hb, hf => by
    rw [step] at hf ⊢
    split at hf
    · cases hf
    · rw [afterChild_bytes]
      exact step_budget ndebug p (.deser g c) b e hb (afterChild_failure _ _ _ hf)

theorem feed_budget (ndebug : Bool) (p : SerializeProperties) :
    ∀ (evs : List Event) (s s1 : Session), BudgetOk p s.bytes →
      feed ndebug p s evs = (s1, none) → BudgetOk p s1.bytes
  | [], s, s1, hb, h => by
    simp only [feed, Prod.mk.injEq, and_true] at h
    subst h
    exact hb
  | e :: rest, s, s1, hb, h => by
    simp only [feed] at h
    split at h
    · cases h
    · rename_i hf
      exact feed_budget ndebug p rest _ s1 (step_budget ndebug p _ _ e hb hf) h

/-- C5 (budget invariant).  (1) `AddBytes(b)` on an enabled counter holding `c`, with
`0 < c < 2^63` and `b ≤ 2^63`, leaves `c - b` in the counter and throws
`ConstraintException` if and only if `c - b ≤ 0`; (2) after any events that a session
started by the constructor has processed without failure, an enabled counter is strictly
positive. -/
theorem budget_invariant (ndebug : Bool) (p : SerializeProperties) :
    (∀ (c : Int) (b : Nat), 0 < c → c < 2 ^ 63 → b ≤ 2 ^ 63 →
      AddBytes (some c) b
        = (some (c - b), if c - b ≤ 0 then some (.threw .ConstraintException) else none)) ∧
    (∀ (T : Ty) (object : Val) (evs : List Event) (s : Session),
      feed ndebug p (RapidJsonDeserializer p T object) evs = (s, none) →
      ∀ c, s.bytes = some c → 0 < c) := by
  refine ⟨AddBytes_exact, ?_⟩
  intro T object evs s h c hc
  have h0 : BudgetOk p (RapidJsonDeserializer p T object).bytes := by
    intro c0 hc0
    simp only [RapidJsonDeserializer, SerializeProperties.GetMaxMemoryConsumption] at hc0
    split at hc0
    · cases hc0
    · rename_i hne
      simp only [Option.some.injEq] at hc0
      subst hc0
      have : 0 < p.max_memory_consumption := by
        rcases Nat.eq_zero_or_pos p.max_memory_consumption with h0 | h0
        · simp [h0] at hne
        · exact h0
      exact ⟨by exact_mod_cast this, this⟩
  exact (feed_budget ndebug p evs _ s h0 h c hc).1

/-! ## Budget enforcement on arrays -/

theorem feed_cons (ndebug : Bool) (p : SerializeProperties) (s : Session) (e : Event)
    (rest : List Event) :
    feed ndebug p s (e :: rest) =
      match (step ndebug p s.handler s.bytes e).failure with
      | some fl => (⟨(step ndebug p s.handler s.bytes e).handler,
                     (step ndebug p s.handler s.bytes e).bytes⟩, some fl)
      | none => feed ndebug p ⟨(step ndebug p s.handler s.bytes e).handler,
                     (step ndebug p s.handler s.bytes e).bytes⟩ rest := rfl

theorem step_array_leaf (ndebug : Bool) (p : SerializeProperties) (t : Ty) (b : Binding)
    (xs : List Val) (nm : String) (sv : List State) (c : Int) (w : Wire)
    (ht : is_sequence t = false) (hc : 0 < c) (hc2 : c < 2 ^ 63)
    (hB : get_len w + 24 ≤ 2 ^ 63) (v : Val)
    (hv : assign_value true t (defaultVal t) w = .ok v) :
    step ndebug p (.deser ⟨.container t, b, .seq xs, nm, .IN_ARRAY, sv⟩ .null) (some c)
        (.value w) =
      if c - (get_len w + 24 : Nat) ≤ 0 then
        ⟨.deser ⟨.container t, b, .seq xs, nm, .IN_ARRAY, sv⟩ .null,
          some (c - (get_len w + 24 : Nat)), false, some (.threw .ConstraintException)⟩
      else
        ⟨.deser ⟨.container t, b, .seq (xs ++ [v]), nm, .IN_ARRAY, sv⟩ .null,
          some (c - (get_len w + 24 : Nat)), false, none⟩ := by
  have hA := AddBytes_exact c (get_len w + 24) hc hc2 hB
  simp only [step, doEvent, SetValue, SetValueInArray, ht, Bool.not_false, ↓reduceIte,
    Nat.reduceMul, hA, hv, push_back, setBack]
  split
  · rename_i h1
    split at h1
    · rename_i hle
      rw [if_pos hle]
      simp at h1
      subst h1
      rfl
    · cases h1
  · rename_i h1
    split at h1
    · cases h1
    · rename_i hle
      rw [if_neg hle]
      simp [Event.isEnd]

theorem array_budget_run (ndebug : Bool) (p : SerializeProperties) (t : Ty) (b : Binding)
    (nm : String) (sv : List State) (B : Nat) (ht : is_sequence t = false) (hB63 : B ≤ 2 ^ 63)
    (rest : List Event) :
    ∀ (ws : List Wire) (xs : List Val) (c : Int), 0 < c → c < 2 ^ 63 →
      (∀ w ∈ ws, get_len w + 8 * 3 = B) →
      (∀ w ∈ ws, ∃ v, assign_value true t (defaultVal t) w = .ok v) →
      c < ws.length * B →
      ∃ (c1 : Int) (ys : List Val),
        feed ndebug p ⟨.deser ⟨.container t, b, .seq xs, nm, .IN_ARRAY, sv⟩ .null, some c⟩
            (ws.map .value ++ rest)
          = (⟨.deser ⟨.container t, b, .seq (xs ++ ys), nm, .IN_ARRAY, sv⟩ .null, some c1⟩,
              some (.threw .ConstraintException))
        ∧ ys.length < ws.length
  | [], xs, c, hc, _, _, _, hlt => by simp at hlt; omega
  | w :: ws, xs, c, hc, hc2, hB, hconv, hlt => by
    obtain ⟨v, hv⟩ := hconv w (by simp)
    have hBw : get_len w + 24 = B := hB w (by simp)
    have hst := step_array_leaf ndebug p t b xs nm sv c w ht hc hc2 (by omega) v hv
    rw [List.map_cons, List.cons_append, feed_cons]
    dsimp only
    rw [hst]
    by_cases hle : c - (get_len w + 24 : Nat) ≤ 0
    · rw [if_pos hle]
      exact ⟨c - (get_len w + 24 : Nat), [], by simp, by simp⟩
    · rw [if_neg hle]
      dsimp only
      have hlt2 : c - (get_len w + 24 : Nat) < ws.length * B := by
        simp only [List.length_cons] at hlt
        rw [hBw]
        push_cast at hlt ⊢
        nlinarith
      obtain ⟨c1, ys, hfeed, hlen⟩ := array_budget_run ndebug p t b nm sv B ht hB63 rest ws
        (xs ++ [v]) _ (by omega) (by omega) (fun w hw => hB w (by simp [hw]))
        (fun w hw => hconv w (by simp [hw])) hlt2
      refine ⟨c1, v :: ys, ?_, by simp; omega⟩
      rw [hfeed]
      simp

/-- C4 (budget enforcement, amended).  Let the configured `max_memory_consumption` be `M` with
`0 < M < 2^32`, and let a wire array hold `N` leaves, each convertible to the element type
`t` (not a record) and each charged `B = get_len + 3 * sizeof(size_t)` (at most
`2^63`).  If `M < N * B`, deserialization into a container of `t` fails with
`ConstraintException` before the closing event, and the destination then holds fewer than `N`
elements. -/
theorem budget_enforcement (ndebug : Bool) (p : SerializeProperties) (t : Ty)
    (ws : List Wire) (B : Nat)
    (hM : 0 < p.max_memory_consumption) (hM32 : p.max_memory_consumption < 2 ^ 32)
    (ht : is_sequence t = false)
    (hB : ∀ w ∈ ws, get_len w + 8 * 3 = B) (hB63 : B ≤ 2 ^ 63)
    (hconv : ∀ w ∈ ws, ∃ v, assign_value true t (defaultVal t) w = .ok v)
    (hlt : p.max_memory_consumption < ws.length * B) :
    ∃ (s : Session) (ys : List Val),
      feed ndebug p (RapidJsonDeserializer p (.container t) (.seq []))
          (.StartArray :: ws.map .value ++ [.EndArray])
        = (s, some (.threw .ConstraintException))
      ∧ s.destination = .seq ys ∧ ys.length < ws.length := by
  have hne : ¬ (p.GetMaxMemoryConsumption = 0) := by
    simp only [SerializeProperties.GetMaxMemoryConsumption]; omega
  obtain ⟨c1, ys, hfeed, hlen⟩ := array_budget_run ndebug p t .root "" [] B ht hB63 [.EndArray]
    ws [] p.max_memory_consumption (by omega) (by omega) hB hconv (by exact_mod_cast hlt)
  refine ⟨⟨.deser ⟨.container t, .root, .seq ([] ++ ys), "", .IN_ARRAY, []⟩ .null, some c1⟩, ys,
    ?_, ?_, hlen⟩
  · rw [List.cons_append, feed_cons]
    simp only [RapidJsonDeserializer, hne, ↓reduceIte, step, doEvent,
      DoStartArray]
    exact hfeed
  · simp [Session.destination, Handler.view]

theorem budget_enforcement_witness :
    ∃ (s : Session) (ys : List Val),
      feed false { SerializeProperties.default with max_memory_consumption := 50 }
          (RapidJsonDeserializer { SerializeProperties.default with max_memory_consumption := 50 }
            (.container (.int .i32)) (.seq []))
          (.StartArray :: [Wire.int 1, Wire.int 2].map .value ++ [.EndArray])
        = (s, some (.threw .ConstraintException))
      ∧ s.destination = .seq ys ∧ ys.length < [Wire.int 1, Wire.int 2].length :=
  budget_enforcement false { SerializeProperties.default with max_memory_consumption := 50 }
    (.int .i32) [.int 1, .int 2] 28 (by decide) (by decide) rfl (by decide) (by decide)
    (by intro w hw; simp at hw; rcases hw with rfl | rfl <;> exact ⟨_, rfl⟩) (by decide)

theorem budget_enforcement_counterexample :
    (feed false { SerializeProperties.default with max_memory_consumption := 0 }
        (RapidJsonDeserializer { SerializeProperties.default with max_memory_consumption := 0 }
          (.container (.int .i32)) (.seq []))
        [.StartArray, .value (.int 1), .value (.int 2), .EndArray]).2 = none ∧
    (feed false { SerializeProperties.default with max_memory_consumption := 0 }
        (RapidJsonDeserializer { SerializeProperties.default with max_memory_consumption := 0 }
          (.container (.int .i32)) (.seq []))
        [.StartArray, .value (.int 1), .value (.int 2), .EndArray]).1.destination
      = .seq [.int 1, .int 2] := ⟨rfl, rfl⟩

/-! ## Handler trees: forwarding through the ancestors -/

theorem feed_nil (ndebug : Bool) (p : SerializeProperties) (s : Session) :
    feed ndebug p s [] = (s, none) := rfl

theorem feed_append (ndebug : Bool) (p : SerializeProperties) :
    ∀ (evs rest : List Event) (s : Session),
      feed ndebug p s (evs ++ rest) =
        match feed ndebug p s evs with
        | (s1, none) => feed ndebug p s1 rest
        | (s1, some fl) => (s1, some fl)
  | [], rest, s => rfl
  | e :: evs, rest, s => by
    rw [List.cons_append, feed_cons, feed_cons]
    split
    · rfl
    · exact feed_append ndebug p evs rest _

theorem cassert_true (ndebug : Bool) : cassert ndebug true = none := rfl

theorem cassert_recursed (ndebug : Bool) (f : Frame) (h : f.state = .RECURSED) :
    cassert ndebug (f.state == .RECURSED) = none := by
  simp [cassert, h]

theorem step_deser_is_deser (ndebug : Bool) (p : SerializeProperties) (g : Frame) (c : Handler)
    (b : Option Int) (e : Event) :
    ∃ g1 c1, (step ndebug p (.deser g c) b e).handler = .deser g1 c1 := by
  cases c with
  | null => exact ⟨_, _, rfl⟩
  | skip n =>
    rw [step]
    split
    · exact ⟨_, _, rfl⟩
    · unfold afterChild
      split
      · dsimp only
        split <;> exact ⟨_, _, rfl⟩
      · exact ⟨_, _, rfl⟩
  | deser g2 c2 =>
    rw [step]
    split
    · exact ⟨_, _, rfl⟩
    · unfold afterChild
      split
      · dsimp only
        split <;> exact ⟨_, _, rfl⟩
      · exact ⟨_, _, rfl⟩

theorem wrap_deser (ctx : List Frame) (g : Frame) (c : Handler) :
    ∃ g1 c1, wrap ctx (.deser g c) = .deser g1 c1 := by
  cases ctx with
  | nil => exact ⟨g, c, rfl⟩
  | cons f fs => exact ⟨f, _, rfl⟩

theorem step_deser_child (ndebug : Bool) (p : SerializeProperties) (f g : Frame) (c : Handler)
    (b : Option Int) (e : Event) (hf : f.state = .RECURSED)
    (hn : (step ndebug p (.deser g c) b e).notify = false) :
    step ndebug p (.deser f (.deser g c)) b e =
      ⟨.deser f (step ndebug p (.deser g c) b e).handler, (step ndebug p (.deser g c) b e).bytes,
        false, (step ndebug p (.deser g c) b e).failure⟩ := by
  rw [step, cassert_recursed ndebug f hf]
  simp only [afterChild, hn, Bool.false_eq_true, ↓reduceIte]

theorem step_wrap (ndebug : Bool) (p : SerializeProperties) :
    ∀ (ctx : List Frame), (∀ f ∈ ctx, f.state = .RECURSED) →
    ∀ (g : Frame) (c : Handler) (b : Option Int) (e : Event),
      (step ndebug p (.deser g c) b e).notify = false →
      step ndebug p (wrap ctx (.deser g c)) b e =
        ⟨wrap ctx (step ndebug p (.deser g c) b e).handler,
          (step ndebug p (.deser g c) b e).bytes, false,
          (step ndebug p (.deser g c) b e).failure⟩
  | [], _, g, c, b, e, hn => by
    simp only [wrap]
    rw [← hn]
  | f :: fs, hctx, g, c, b, e, hn => by
    have ih := step_wrap ndebug p fs (fun x hx => hctx x (by simp [hx])) g c b e hn
    obtain ⟨g1, c1, hw⟩ := wrap_deser fs g c
    simp only [wrap]
    rw [hw] at ih ⊢
    rw [step_deser_child ndebug p f g1 c1 b e (hctx f (by simp)) (by rw [ih]), ih]

theorem feed_wrap (ndebug : Bool) (p : SerializeProperties) (ctx : List Frame)
    (hctx : ∀ f ∈ ctx, f.state = .RECURSED) (rest : List Event) :
    ∀ (evs : List Event) (g : Frame) (c : Handler) (b : Option Int) (a1 : Handler)
      (b1 : Option Int), feedQuiet ndebug p (.deser g c) b evs = some (a1, b1) →
      feed ndebug p ⟨wrap ctx (.deser g c), b⟩ (evs ++ rest) = feed ndebug p ⟨wrap ctx a1, b1⟩ rest
  | [], g, c, b, a1, b1, h => by
    simp only [feedQuiet, Option.some.injEq, Prod.mk.injEq] at h
    rw [← h.1, ← h.2]
    rfl
  | e :: evs, g, c, b, a1, b1, h => by
    rw [feedQuiet] at h
    split at h
    · rename_i hq
      obtain ⟨g1, c1, hd⟩ := step_deser_is_deser ndebug p g c b e
      rw [List.cons_append, feed_cons]
      dsimp only
      rw [step_wrap ndebug p ctx hctx g c b e hq.2]
      dsimp only
      rw [hq.1]
      dsimp only
      rw [hd] at h ⊢
      exact feed_wrap ndebug p ctx hctx rest evs g1 c1 _ a1 b1 h
    · cases h

theorem feedQuiet_append (ndebug : Bool) (p : SerializeProperties) :
    ∀ (evs rest : List Event) (h : Handler) (b : Option Int) (h1 : Handler) (b1 : Option Int),
      feedQuiet ndebug p h b evs = some (h1, b1) →
      feedQuiet ndebug p h b (evs ++ rest) = feedQuiet ndebug p h1 b1 rest
  | [], rest, h, b, h1, b1, hq => by
    simp only [feedQuiet, Option.some.injEq, Prod.mk.injEq] at hq
    rw [← hq.1, ← hq.2]
    rfl
  | e :: evs, rest, h, b, h1, b1, hq => by
    rw [feedQuiet] at hq
    rw [List.cons_append, feedQuiet]
    split at hq
    · rename_i hc
      rw [if_pos hc]
      exact feedQuiet_append ndebug p evs rest _ _ h1 b1 hq
    · cases hq

/-! ## The handler invariant -/

theorem startChild_WF (t : State) (c : Handler) (h : c = .null ∨ (∃ n, c = .skip n) ∨ ∃ g, c = .deser g .null) :
    startChild t c = .null ∨ (∃ n, startChild t c = .skip n) ∨ ∃ g, startChild t c = .deser g .null := by
  rcases h with rfl | ⟨n, rfl⟩ | ⟨g, rfl⟩
  · left; rfl
  · right; left; exact ⟨_, rfl⟩
  · right; right; exact ⟨_, rfl⟩

theorem RecurseToMember_child (ndebug : Bool) (p : SerializeProperties) (f : Frame)
    (b : Option Int) : ChildOk (RecurseToMember ndebug p f b) := by
  unfold RecurseToMember ChildOk
  dsimp only
  split
  · split
    · left; rfl
    · split
      · split
        · left; rfl
        · right; exact ⟨rfl, Or.inr ⟨_, rfl⟩⟩
      · split
        · left; rfl
        · right; exact ⟨rfl, Or.inl ⟨_, rfl⟩⟩
  · right; exact ⟨rfl, Or.inr ⟨_, rfl⟩⟩
  · left; rfl

theorem RecurseToContainerValue_child (f : Frame) (b : Option Int) :
    ChildOk (RecurseToContainerValue f b) := by
  unfold RecurseToContainerValue ChildOk
  split
  · split
    · right; exact ⟨rfl, Or.inr ⟨_, rfl⟩⟩
    · left; rfl
  · left; rfl

theorem enterChild_child (t : State) (r : Res) (h : ChildOk r) : ChildOk (enterChild t r) := by
  unfold enterChild
  split
  · exact h
  · rcases h with h | ⟨hs, ⟨n, h⟩ | ⟨g, h⟩⟩
    · left; simp [h, startChild]
    · right; exact ⟨hs, Or.inl ⟨n + 1, by simp [h, startChild]⟩⟩
    · right; exact ⟨hs, Or.inr ⟨{ g with state := t }, by simp only [h, startChild]⟩⟩

theorem SetValue_child (ndebug : Bool) (p : SerializeProperties) (f : Frame)
    (b : Option Int) (w : Wire) : (SetValue ndebug p f b w).child = .null := by
  unfold SetValue
  split
  · unfold SetValueOnMember
    dsimp only
    split <;> (try split) <;> (try split) <;> (try split) <;> (try split) <;> rfl
  · unfold SetValueInArray
    dsimp only
    split <;> (try split) <;> (try split) <;> (try split) <;> rfl
  · rfl

theorem doEvent_child (ndebug : Bool) (p : SerializeProperties) (f : Frame)
    (b : Option Int) (e : Event) : ChildOk (doEvent ndebug p f b e) := by
  cases e with
  | value w => left; exact SetValue_child ndebug p f b w
  | StartObject =>
    simp only [doEvent, DoStartObject]
    split
    · left; rfl
    · exact enterChild_child _ _ (RecurseToMember_child ndebug p f b)
    · exact enterChild_child _ _ (RecurseToContainerValue_child f b)
    · left; rfl
    · left; rfl
  | Key s =>
    simp only [doEvent, DoKey]
    left
    split <;> (try split) <;> rfl
  | EndObject =>
    simp only [doEvent, DoEndObject]
    left
    split <;> rfl
  | StartArray =>
    simp only [doEvent, DoStartArray]
    split
    · left; rfl
    · exact enterChild_child _ _ (RecurseToContainerValue_child f b)
    · exact enterChild_child _ _ (RecurseToMember_child ndebug p f b)
    · left; rfl
  | EndArray =>
    simp only [doEvent, DoEndArray]
    left
    split <;> rfl

theorem WF_of_childOk (f : Frame) (c : Handler)
    (h : c = .null ∨ (f.state = .RECURSED ∧ ((∃ n, c = .skip n) ∨ ∃ g, c = .deser g .null))) :
    Handler.WF (.deser f c) := by
  rcases h with rfl | ⟨hs, ⟨n, rfl⟩ | ⟨g, rfl⟩⟩
  · simp [Handler.WF]
  · simpa [Handler.WF] using hs
  · simpa [Handler.WF] using hs

theorem OnChildIsDone_fail (ndebug : Bool) (f : Frame) (x : Option (Binding × Val))
    (fl : Failure) (h : (OnChildIsDone ndebug f x).2 = some fl) :
    (OnChildIsDone ndebug f x).1 = f := by
  unfold OnChildIsDone at h ⊢
  cases h1 : cassert ndebug (f.state == .RECURSED) with
  | some fl1 => rfl
  | none =>
    cases h2 : cassert ndebug (!f.saved_state.isEmpty) with
    | some fl2 => rfl
    | none =>
      cases h3 : f.saved_state with
      | nil => rfl
      | cons top rest =>
        rw [h3] at h2
        simp only [h1, h2, h3] at h
        cases h

theorem afterChild_WF (ndebug : Bool) (f : Frame) (r : StepResult) (hf : f.state = .RECURSED)
    (hr : r.handler.WF) (hne : (∃ n, r.handler = .skip n) ∨ ∃ g c, r.handler = .deser g c) :
    (afterChild ndebug f r).handler.WF := by
  have key : Handler.WF (.deser f r.handler) := by
    rcases hne with ⟨n, h⟩ | ⟨g, c, h⟩
    · rw [h]; simpa [Handler.WF] using hf
    · rw [h] at hr ⊢; exact ⟨hf, hr⟩
  unfold afterChild
  split
  · dsimp only
    split
    · rename_i fl hfl
      rw [OnChildIsDone_fail ndebug f _ fl hfl]
      exact key
    · simp [Handler.WF]
  · exact key

theorem step_WF (ndebug : Bool) (p : SerializeProperties) :
    ∀ (h : Handler) (b : Option Int) (e : Event), h.WF → (step ndebug p h b e).handler.WF
  | .null, b, e, _ => by simp [step, Handler.WF]
  | .skip n, b, e, _ => by cases e <;> simp [step, Handler.WF]
  | .deser f .null, b, e, _ => by
    rw [step]
    exact WF_of_childOk _ _ (doEvent_child ndebug p f b e)
  | .deser f (.skip n), b, e, hwf => by
    rw [step]
    have hf : f.state = .RECURSED := by simpa [Handler.WF] using hwf
    rw [cassert_recursed ndebug f hf]
    apply afterChild_WF ndebug f _ hf
    · cases e <;> simp [step, Handler.WF]
    · left
      cases e <;> exact ⟨_, rfl⟩
  | .deser f (.deser g c), b, e, hwf => by
    rw [step]
    have hf : f.state = .RECURSED := hwf.1
    rw [cassert_recursed ndebug f hf]
    apply afterChild_WF ndebug f _ hf
    · exact step_WF ndebug p (.deser g c) b e hwf.2
    · right
      exact step_deser_is_deser ndebug p g c b e

theorem feed_WF (ndebug : Bool) (p : SerializeProperties) :
    ∀ (evs : List Event) (s : Session), s.handler.WF → (feed ndebug p s evs).1.handler.WF
  | [], s, h => h
  | e :: evs, s, h => by
    rw [feed_cons]
    split
    · exact step_WF ndebug p _ _ e h
    · exact feed_WF ndebug p evs _ (step_WF ndebug p _ _ e h)

theorem WF_active (h : Handler) :
    ∀ (f : Frame), h.WF → h.active = some f →
      ∃ ctx : List Frame, h = wrap ctx (.deser f .null) ∧ ∀ g ∈ ctx, g.state = .RECURSED := by
  match h with
  | .null => intro f _ ha; simp [Handler.active] at ha
  | .skip n => intro f _ ha; simp [Handler.active] at ha
  | .deser f0 .null =>
    intro f _ ha
    simp only [Handler.active, Option.some.injEq] at ha
    subst ha
    exact ⟨[], rfl, by simp⟩
  | .deser f0 (.skip n) => intro f _ ha; simp [Handler.active] at ha
  | .deser f0 (.deser g c) =>
    intro f hwf ha
    simp only [Handler.active] at ha
    obtain ⟨ctx, hc, hall⟩ := WF_active (.deser g c) f hwf.2 ha
    refine ⟨f0 :: ctx, by simp only [wrap, hc], ?_⟩
    intro x hx
    simp at hx
    rcases hx with rfl | hx
    · exact hwf.1
    · exact hall x hx

theorem root_WF (p : SerializeProperties) (T : Ty) (object : Val) :
    (RapidJsonDeserializer p T object).handler.WF := by
  simp [RapidJsonDeserializer, Handler.WF]

/-! ## Unknown fields -/

theorem cassert_name (ndebug : Bool) (nm : String)
    (h : ndebug = true ∨ str_empty nm = false) : cassert ndebug (!str_empty nm) = none := by
  rcases h with h | h <;> simp [cassert, h]

theorem step_unknown (ndebug : Bool) (p : SerializeProperties) (f : Frame) (b : Option Int)
    (fs : List (String × Ty)) (e : Event)
    (hpol : p.ignore_unknown_properties = false)
    (hT : f.T = .record fs) (hst : f.state = .IN_OBJECT)
    (hunk : findMember f.current_name fs = none)
    (hname : ndebug = true ∨ str_empty f.current_name = false)
    (he : e = .StartObject ∨ e = .StartArray ∨ ∃ w, e = .value w) :
    step ndebug p (.deser f .null) b e =
      ⟨.deser f .null, b, false, some (.threw (.UnknownPropertyException f.current_name))⟩ := by
  have hc := cassert_name ndebug f.current_name hname
  rcases he with rfl | rfl | ⟨w, rfl⟩
  · simp [step, doEvent, DoStartObject, hst, RecurseToMember, hT, hc, hunk, hpol, enterChild]
  · simp [step, doEvent, DoStartArray, hst, RecurseToMember, hT, hc, hunk, hpol, enterChild]
  · simp [step, doEvent, SetValue, hst, SetValueOnMember, hT, hc, hunk, hpol]

/-- C3 (unknown-field rejection, amended).  With `ignore_unknown_properties = false`, let the
events `pre` be processed without failure and leave as running handler one for a record in
state `IN_OBJECT` whose buffered name matches no member under the `strcmp` comparison of
`findMember`, the name being non-empty or assertions being compiled out.  Then a following
leaf, `StartObject` or `StartArray` event fails with `UnknownPropertyException` carrying that
name, and the session, in particular every member assigned during `pre`, is as it was after
`pre`. -/
theorem unknown_field_rejected (ndebug : Bool) (p : SerializeProperties) (T : Ty)
    (object : Val) (pre post : List Event) (s : Session) (f : Frame)
    (fs : List (String × Ty)) (e : Event)
    (hpol : p.ignore_unknown_properties = false)
    (hpre : feed ndebug p (RapidJsonDeserializer p T object) pre = (s, none))
    (hact : s.handler.active = some f) (hT : f.T = .record fs) (hst : f.state = .IN_OBJECT)
    (hunk : findMember f.current_name fs = none)
    (hname : ndebug = true ∨ str_empty f.current_name = false)
    (he : e = .StartObject ∨ e = .StartArray ∨ ∃ w, e = .value w) :
    feed ndebug p (RapidJsonDeserializer p T object) (pre ++ e :: post)
      = (s, some (.threw (.UnknownPropertyException f.current_name))) := by
  have hwf : s.handler.WF := by
    have := feed_WF ndebug p pre _ (root_WF p T object)
    rw [hpre] at this
    exact this
  obtain ⟨ctx, hh, hctx⟩ := WF_active s.handler f hwf hact
  have hs := step_unknown ndebug p f s.bytes fs e hpol hT hst hunk hname he
  have hw := step_wrap ndebug p ctx hctx f .null s.bytes e (by rw [hs])
  rw [hs] at hw
  dsimp only at hw
  rw [feed_append, hpre]
  dsimp only
  rw [feed_cons, hh, hw]
  dsimp only
  rw [← hh]

theorem unknown_field_rejected_witness :
    feed false { SerializeProperties.default with ignore_unknown_properties := false }
      (RapidJsonDeserializer { SerializeProperties.default with ignore_unknown_properties := false }
        (.record [("id", .int .i32), ("username", .string)])
        (.record [.int 0, .str ""]))
      ([.StartObject, .Key "id", .value (.uint 1), .Key "extra"] ++ .value (.int 5) :: [.EndObject])
    = (⟨.deser ⟨.record [("id", .int .i32), ("username", .string)], .root,
          .record [.int 1, .str ""], "extra", .IN_OBJECT, []⟩ .null, some (1024 * 1024 - 4)⟩,
       some (.threw (.UnknownPropertyException "extra"))) :=
  unknown_field_rejected false _ _ _ _ _ _
    ⟨.record [("id", .int .i32), ("username", .string)], .root,
          .record [.int 1, .str ""], "extra", .IN_OBJECT, []⟩ _ _ rfl rfl rfl rfl rfl rfl
    (Or.inr rfl) (Or.inr (Or.inr ⟨_, rfl⟩))

theorem unknown_field_rejected_counterexample :
    (feed false { SerializeProperties.default with ignore_unknown_properties := false }
      (RapidJsonDeserializer { SerializeProperties.default with ignore_unknown_properties := false }
        (.record [("id", .int .i32)]) (.record [.int 0]))
      [.StartObject, .Key "", .value (.int 5)]).2 = some .aborted ∧
    ("id\x00x" ≠ "id" ∧
      feed true { SerializeProperties.default with ignore_unknown_properties := false }
        (RapidJsonDeserializer
          { SerializeProperties.default with ignore_unknown_properties := false }
          (.record [("id", .int .i32)]) (.record [.int 0]))
        [.StartObject, .Key "id\x00x", .value (.int 5)]
      = (⟨.deser ⟨.record [("id", .int .i32)], .root, .record [.int 5], "", .IN_OBJECT, []⟩
            .null, some (1024 * 1024 - 4)⟩, none)) :=
  ⟨rfl, by decide, rfl⟩

/-! ## The skip handler -/

theorem step_skip_leaf (ndebug : Bool) (p : SerializeProperties) (F : Frame) (n : Int)
    (b : Option Int) (e : Event) (hF : F.state = .RECURSED)
    (he : (∃ w, e = .value w) ∨ ∃ k, e = .Key k) :
    step ndebug p (.deser F (.skip n)) b e = ⟨.deser F (.skip n), b, false, none⟩ := by
  rw [step, cassert_recursed ndebug F hF]
  rcases he with ⟨w, rfl⟩ | ⟨k, rfl⟩ <;> simp [step, afterChild]

theorem step_skip_start (ndebug : Bool) (p : SerializeProperties) (F : Frame) (n : Int)
    (b : Option Int) (e : Event) (hF : F.state = .RECURSED)
    (he : e = .StartObject ∨ e = .StartArray) :
    step ndebug p (.deser F (.skip n)) b e = ⟨.deser F (.skip (n + 1)), b, false, none⟩ := by
  rw [step, cassert_recursed ndebug F hF]
  rcases he with rfl | rfl <;> simp [step, afterChild]

theorem step_skip_end (ndebug : Bool) (p : SerializeProperties) (F : Frame) (n : Int)
    (b : Option Int) (e : Event) (hF : F.state = .RECURSED) (hn : 0 < n)
    (he : e = .EndObject ∨ e = .EndArray) :
    step ndebug p (.deser F (.skip (n + 1))) b e = ⟨.deser F (.skip n), b, false, none⟩ := by
  rw [step, cassert_recursed ndebug F hF]
  have : ¬ (n ≤ 0) := by omega
  rcases he with rfl | rfl <;> simp [step, afterChild, this]

theorem step_skip_done (ndebug : Bool) (p : SerializeProperties) (F : Frame)
    (b : Option Int) (e : Event) (st : State) (sv : List State) (hF : F.state = .RECURSED)
    (hsv : F.saved_state = st :: sv)
    (he : e = .EndObject ∨ e = .EndArray) :
    step ndebug p (.deser F (.skip 1)) b e =
      ⟨.deser { F with state := st, saved_state := sv } .null, b, false, none⟩ := by
  rw [step, cassert_recursed ndebug F hF]
  rcases he with rfl | rfl <;>
    simp [step, afterChild, OnChildIsDone, hF, hsv, cassert, Handler.bound]

theorem feedQuiet_cons (ndebug : Bool) (p : SerializeProperties) (h : Handler) (b : Option Int)
    (e : Event) (rest : List Event) (h1 : Handler) (b1 : Option Int)
    (hs : step ndebug p h b e = ⟨h1, b1, false, none⟩) :
    feedQuiet ndebug p h b (e :: rest) = feedQuiet ndebug p h1 b1 rest := by
  rw [feedQuiet, hs]
  simp

mutual
theorem skip_json (ndebug : Bool) (p : SerializeProperties) (F : Frame)
    (hF : F.state = .RECURSED) (b : Option Int) :
    ∀ (j : Json) (n : Int), 0 < n →
      feedQuiet ndebug p (.deser F (.skip n)) b j.events = some (.deser F (.skip n), b)
  | .leaf w, n, _ => by
    rw [Json.events, feedQuiet_cons ndebug p _ _ _ _ _ _
      (step_skip_leaf ndebug p F n b _ hF (Or.inl ⟨w, rfl⟩))]
    rfl
  | .array xs, n, hn => by
    rw [Json.events, List.cons_append, feedQuiet_cons ndebug p _ _ _ _ _ _
      (step_skip_start ndebug p F n b _ hF (Or.inr rfl)),
      feedQuiet_append ndebug p _ _ _ _ _ _ (skip_elements ndebug p F hF b xs (n + 1) (by omega)),
      feedQuiet_cons ndebug p _ _ _ _ _ _ (step_skip_end ndebug p F n b _ hF hn (Or.inr rfl))]
    rfl
  | .object ms, n, hn => by
    rw [Json.events, List.cons_append, feedQuiet_cons ndebug p _ _ _ _ _ _
      (step_skip_start ndebug p F n b _ hF (Or.inl rfl)),
      feedQuiet_append ndebug p _ _ _ _ _ _ (skip_members ndebug p F hF b ms (n + 1) (by omega)),
      feedQuiet_cons ndebug p _ _ _ _ _ _ (step_skip_end ndebug p F n b _ hF hn (Or.inl rfl))]
    rfl
theorem skip_elements (ndebug : Bool) (p : SerializeProperties) (F : Frame)
    (hF : F.state = .RECURSED) (b : Option Int) :
    ∀ (xs : List Json) (n : Int), 0 < n →
      feedQuiet ndebug p (.deser F (.skip n)) b (Json.eventsOfElements xs)
        = some (.deser F (.skip n), b)
  | [], n, _ => rfl
  | x :: xs, n, hn => by
    rw [Json.eventsOfElements,
      feedQuiet_append ndebug p _ _ _ _ _ _ (skip_json ndebug p F hF b x n hn)]
    exact skip_elements ndebug p F hF b xs n hn
theorem skip_members (ndebug : Bool) (p : SerializeProperties) (F : Frame)
    (hF : F.state = .RECURSED) (b : Option Int) :
    ∀ (ms : List (String × Json)) (n : Int), 0 < n →
      feedQuiet ndebug p (.deser F (.skip n)) b (Json.eventsOfMembers ms)
        = some (.deser F (.skip n), b)
  | [], n, _ => rfl
  | (k, x) :: ms, n, hn => by
    rw [Json.eventsOfMembers, List.cons_append, feedQuiet_cons ndebug p _ _ _ _ _ _
      (step_skip_leaf ndebug p F n b _ hF (Or.inr ⟨k, rfl⟩)),
      feedQuiet_append ndebug p _ _ _ _ _ _ (skip_json ndebug p F hF b x n hn)]
    exact skip_members ndebug p F hF b ms n hn
end

/-! ## Unknown-field tolerance -/

theorem step_key (ndebug : Bool) (p : SerializeProperties) (f : Frame) (b : Option Int)
    (k : String) (hname : f.current_name = "") :
    step ndebug p (.deser f .null) b (.Key k) =
      ⟨.deser { f with current_name := bufferedName p k } .null, b, false, none⟩ := by
  simp only [step, doEvent, DoKey, hname, bufferedName]
  cases p.name_mapping <;> simp [cassert, str_empty, Event.isEnd]

theorem feedQuiet_unknown_member (ndebug : Bool) (p : SerializeProperties) (f : Frame)
    (b : Option Int) (fs : List (String × Ty)) (k : String) (j : Json)
    (hpol : p.ignore_unknown_properties = true)
    (hT : f.T = .record fs) (hst : f.state = .IN_OBJECT) (hname : f.current_name = "")
    (hunk : findMember (bufferedName p k) fs = none)
    (hk : ndebug = true ∨ str_empty (bufferedName p k) = false) :
    feedQuiet ndebug p (.deser f .null) b (.Key k :: j.events) = some (.deser f .null, b) := by
  have hc := cassert_name ndebug (bufferedName p k) hk
  rw [feedQuiet_cons ndebug p _ _ _ _ _ _ (step_key ndebug p f b k hname)]
  obtain ⟨T, bd, obj, nm, st, sv⟩ := f
  simp only at hT hst hname
  subst hT hst hname
  cases j with
  | leaf w =>
    rw [Json.events, feedQuiet_cons ndebug p _ _ _ _
      (.deser ⟨.record fs, bd, obj, "", .IN_OBJECT, sv⟩ .null) b]
    · rfl
    · simp [step, doEvent, SetValue, SetValueOnMember, hc, hunk, hpol, Event.isEnd]
  | array xs =>
    rw [Json.events, List.cons_append, feedQuiet_cons ndebug p _ _ _ _
      (.deser ⟨.record fs, bd, obj, "", .RECURSED, .IN_OBJECT :: sv⟩ (.skip 1)) b,
      feedQuiet_append ndebug p _ _ _ _ _ _ (skip_elements ndebug p _ rfl b xs 1 (by omega)),
      feedQuiet_cons ndebug p _ _ _ _ _ _
        (step_skip_done ndebug p _ b _ .IN_OBJECT sv rfl rfl (Or.inr rfl))]
    · rfl
    · simp [step, doEvent, DoStartArray, RecurseToMember, hc, hunk, hpol, enterChild,
        startChild, Event.isEnd]
  | object ms =>
    rw [Json.events, List.cons_append, feedQuiet_cons ndebug p _ _ _ _
      (.deser ⟨.record fs, bd, obj, "", .RECURSED, .IN_OBJECT :: sv⟩ (.skip 1)) b,
      feedQuiet_append ndebug p _ _ _ _ _ _ (skip_members ndebug p _ rfl b ms 1 (by omega)),
      feedQuiet_cons ndebug p _ _ _ _ _ _
        (step_skip_done ndebug p _ b _ .IN_OBJECT sv rfl rfl (Or.inl rfl))]
    · rfl
    · simp [step, doEvent, DoStartObject, RecurseToMember, hc, hunk, hpol, enterChild,
        startChild, Event.isEnd]

/-- C2 (unknown-field tolerance, amended).  With `ignore_unknown_properties = true`, let the
events `pre` be processed without failure and leave as running handler one for a record in
state `IN_OBJECT` with no buffered name.  For a key `k` whose buffered name matches no member
under the `strcmp` comparison of `findMember`, the name being non-empty or assertions being
compiled out, and for every well-formed JSON value `j`, the document with the member `k : j`
inserted at that position has the same outcome, session and failure alike, as the document
without it. -/
theorem unknown_field_tolerated (ndebug : Bool) (p : SerializeProperties) (T : Ty)
    (object : Val) (pre post : List Event) (s : Session) (f : Frame)
    (fs : List (String × Ty)) (k : String) (j : Json)
    (hpol : p.ignore_unknown_properties = true)
    (hpre : feed ndebug p (RapidJsonDeserializer p T object) pre = (s, none))
    (hact : s.handler.active = some f) (hT : f.T = .record fs) (hst : f.state = .IN_OBJECT)
    (hname : f.current_name = "")
    (hunk : findMember (bufferedName p k) fs = none)
    (hk : ndebug = true ∨ str_empty (bufferedName p k) = false) :
    feed ndebug p (RapidJsonDeserializer p T object) (pre ++ (.Key k :: j.events ++ post))
      = feed ndebug p (RapidJsonDeserializer p T object) (pre ++ post) := by
  have hwf : s.handler.WF := by
    have := feed_WF ndebug p pre _ (root_WF p T object)
    rw [hpre] at this
    exact this
  obtain ⟨ctx, hh, hctx⟩ := WF_active s.handler f hwf hact
  have hq := feedQuiet_unknown_member ndebug p f s.bytes fs k j hpol hT hst hname hunk hk
  have hw := feed_wrap ndebug p ctx hctx post _ f .null s.bytes _ _ hq
  rw [← hh] at hw
  rw [feed_append, feed_append ndebug p pre post, hpre]
  exact hw

theorem unknown_field_tolerated_witness :
    feed false SerializeProperties.default
      (RapidJsonDeserializer SerializeProperties.default
        (.record [("id", .int .i32), ("username", .string)]) (.record [.int 0, .str ""]))
      ([.StartObject, .Key "id", .value (.uint 1)] ++
        (.Key "extra" :: (Json.object [("a", .array [.leaf (.int 1), .leaf .null])]).events ++
          [.Key "username", .value (.string "bob"), .EndObject]))
    = feed false SerializeProperties.default
      (RapidJsonDeserializer SerializeProperties.default
        (.record [("id", .int .i32), ("username", .string)]) (.record [.int 0, .str ""]))
      ([.StartObject, .Key "id", .value (.uint 1)] ++
        [.Key "username", .value (.string "bob"), .EndObject]) :=
  unknown_field_tolerated false SerializeProperties.default _ _ _ _
    ⟨.deser ⟨.record [("id", .int .i32), ("username", .string)], .root,
        .record [.int 1, .str ""], "", .IN_OBJECT, []⟩ .null, some (1024 * 1024 - 4)⟩
    ⟨.record [("id", .int .i32), ("username", .string)], .root,
        .record [.int 1, .str ""], "", .IN_OBJECT, []⟩ _ "extra" _ rfl (by rfl) rfl rfl rfl rfl rfl
    (Or.inr rfl)

theorem unknown_field_tolerated_counterexample :
    (feed false SerializeProperties.default
      (RapidJsonDeserializer SerializeProperties.default
        (.record [("id", .int .i32)]) (.record [.int 0]))
      [.StartObject, .Key "", .value (.int 5), .EndObject]).2 = some .aborted ∧
    (feed false SerializeProperties.default
      (RapidJsonDeserializer SerializeProperties.default
        (.record [("id", .int .i32)]) (.record [.int 0]))
      [.StartObject, .EndObject]).2 = none ∧
    "id\x00x" ≠ "id" ∧
    (feed true SerializeProperties.default
      (RapidJsonDeserializer SerializeProperties.default
        (.record [("id", .int .i32)]) (.record [.int 0]))
      [.StartObject, .Key "id\x00x", .value (.int 5), .EndObject]).1.destination
      = .record [.int 5] ∧
    (feed true SerializeProperties.default
      (RapidJsonDeserializer SerializeProperties.default
        (.record [("id", .int .i32)]) (.record [.int 0]))
      [.StartObject, .EndObject]).1.destination = .record [.int 0] :=
  ⟨rfl, rfl, by decide, rfl, rfl⟩

/-! ## Budget, handler chains and member lookup -/

theorem AddBytes_for (b : Option Int) (n n1 m : Nat) (h : BudgetFor b (n1 + m)) (hn : n ≤ n1) :
    (AddBytes b n).2 = none ∧ BudgetFor (AddBytes b n).1 m := by
  rcases h with rfl | ⟨c, rfl, hc, hc2⟩
  · exact ⟨rfl, Or.inl rfl⟩
  · push_cast at hc
    have hw : wrapInt .i64 (c - (n : Int)) = c - n := by
      simp only [wrapInt, IntTy.signed, IntTy.bits, ↓reduceIte]
      omega
    simp only [AddBytes, hw]
    refine ⟨by rw [if_neg (by omega)], Or.inr ⟨c - n, rfl, by omega, by omega⟩⟩

theorem BudgetFor_mono (b : Option Int) (n m : Nat) (h : BudgetFor b n) (hm : m ≤ n) :
    BudgetFor b m := by
  rcases h with rfl | ⟨c, rfl, hc, hc2⟩
  · exact Or.inl rfl
  · exact Or.inr ⟨c, rfl, by omega, hc2⟩

theorem validName_c_str (name : String) (h : validName name = true) :
    String.mk (c_str name) = name := by
  simp only [validName, Bool.and_eq_true, List.all_eq_true] at h
  unfold c_str
  rw [takeWhile_all _ _ h.2]
  rfl

theorem feedQuiet_deser (ndebug : Bool) (p : SerializeProperties) :
    ∀ (evs : List Event) (g : Frame) (c : Handler) (b : Option Int) (a1 : Handler)
      (b1 : Option Int), feedQuiet ndebug p (.deser g c) b evs = some (a1, b1) →
      ∃ g1 c1, a1 = .deser g1 c1
  | [], g, c, b, a1, b1, h => by
    simp only [feedQuiet, Option.some.injEq, Prod.mk.injEq] at h
    exact ⟨g, c, h.1.symm⟩
  | e :: evs, g, c, b, a1, b1, h => by
    rw [feedQuiet] at h
    split at h
    · obtain ⟨g1, c1, hd⟩ := step_deser_is_deser ndebug p g c b e
      rw [hd] at h
      exact feedQuiet_deser ndebug p evs g1 c1 _ a1 b1 h
    · cases h

theorem feedQuiet_child (ndebug : Bool) (p : SerializeProperties) (F : Frame)
    (hF : F.state = .RECURSED) :
    ∀ (evs : List Event) (g : Frame) (c : Handler) (b : Option Int) (a1 : Handler)
      (b1 : Option Int), feedQuiet ndebug p (.deser g c) b evs = some (a1, b1) →
      feedQuiet ndebug p (.deser F (.deser g c)) b evs = some (.deser F a1, b1)
  | [], g, c, b, a1, b1, h => by
    simp only [feedQuiet, Option.some.injEq, Prod.mk.injEq] at h
    rw [← h.1, ← h.2]
    rfl
  | e :: evs, g, c, b, a1, b1, h => by
    rw [feedQuiet] at h
    split at h
    · rename_i hq
      obtain ⟨g1, c1, hd⟩ := step_deser_is_deser ndebug p g c b e
      rw [feedQuiet, step_deser_child ndebug p F g c b e hF hq.2]
      dsimp only
      rw [if_pos ⟨hq.1, rfl⟩]
      rw [hd] at h ⊢
      exact feedQuiet_child ndebug p F hF evs g1 c1 _ a1 b1 h
    · cases h

theorem step_elem_leaf (ndebug : Bool) (q : SerializeProperties) (t : Ty) (bd : Binding)
    (xs : List Val) (nm : String) (sv : List State) (w : Wire) (v : Val) (b : Option Int)
    (m : Nat) (ht : is_sequence t = false)
    (ha : assign_value true t (defaultVal t) w = .ok v)
    (hb : BudgetFor b (budgetNeed [.value w] + m)) :
    ∃ b1, step ndebug q (.deser ⟨.container t, bd, .seq xs, nm, .IN_ARRAY, sv⟩ .null) b
        (.value w)
      = ⟨.deser ⟨.container t, bd, .seq (xs ++ [v]), nm, .IN_ARRAY, sv⟩ .null, b1, false,
          none⟩ ∧ BudgetFor b1 m := by
  have hA := AddBytes_for b (get_len w + 24) (get_len w + 8 * 3 + 0) m
    (by simpa [budgetNeed] using hb) (by omega)
  refine ⟨(AddBytes b (get_len w + 24)).1, ?_, hA.2⟩
  simp [step, doEvent, SetValue, SetValueInArray, ht, hA.1, ha, push_back, setBack, Event.isEnd]

theorem c_str_valid (name : String) (h : validName name = true) :
    c_str name = name.toList := by
  simp only [validName, Bool.and_eq_true, List.all_eq_true] at h
  unfold c_str
  exact takeWhile_all _ _ h.2

theorem strcmp_eq_valid (a b : String) (ha : validName a = true) (hb : validName b = true) :
    strcmp_eq a b = decide (a = b) := by
  unfold strcmp_eq
  rw [c_str_valid a ha, c_str_valid b hb]
  by_cases h : a = b
  · subst h; simp
  · have : a.data ≠ b.data := fun hd => h (String.ext hd)
    simp [h, this]

theorem findMember_at (name : String) (t : Ty) (rest : List (String × Ty))
    (hname : validName name = true) :
    ∀ pre : List (String × Ty), (∀ x ∈ pre, validName x.1 = true ∧ x.1 ≠ name) →
      findMember name (pre ++ (name, t) :: rest) = some (pre.length, t)
  | [], _ => by
    simp [findMember, strcmp_eq]
  | (n, t1) :: pre, h => by
    have h1 := h (n, t1) (List.mem_cons_self _ _)
    have ih := findMember_at name t rest hname pre
      (fun x hx => h x (List.mem_cons_of_mem _ hx))
    show findMember name ((n, t1) :: (pre ++ (name, t) :: rest)) = _
    rw [findMember, strcmp_eq_valid n name h1.1 hname, ih]
    simp [h1.2]

theorem set_append_length (done rest : List Val) (d m : Val) (n : Nat)
    (hn : n = done.length) :
    (done ++ d :: rest).set n m = (done ++ [m]) ++ rest := by
  subst hn
  simp

theorem getD_append_length (done rest : List Val) (d x : Val) (n : Nat)
    (hn : n = done.length) :
    (done ++ d :: rest).getD n x = d := by
  subst hn
  induction done with
  | nil => rfl
  | cons a done ih => exact ih


/-! ## Structural mismatch -/

/-- C11 (structural mismatch).  For a handler without active child and an event that does
not fit its state (`structuralMismatch`): (1) with assertions compiled in, the callback fails
on `assert(false)`; (2) with `NDEBUG` the callback returns `true`, the state is unchanged and
only `current_name_` is cleared by an end event, the parent being notified when the state is
`DONE`; (3) so a record handler in a build with `NDEBUG` accepts `StartObject, EndArray` and
stays in `IN_OBJECT`. -/
theorem structural_mismatch (p : SerializeProperties) :
    (∀ (f : Frame) (b : Option Int) (e : Event), structuralMismatch f.state e = true →
      (step false p (.deser f .null) b e).failure = some .aborted) ∧
    (∀ (f : Frame) (b : Option Int) (e : Event), structuralMismatch f.state e = true →
      step true p (.deser f .null) b e
        = ⟨.deser { f with current_name := if e.isEnd then "" else f.current_name } .null, b,
            e.isEnd && f.state == .DONE && f.binding.HaveParent, none⟩) ∧
    feed true p (RapidJsonDeserializer p (.record [("id", .int .i32)]) (.record [.int 0]))
        [.StartObject, .EndArray]
      = (⟨.deser ⟨.record [("id", .int .i32)], .root, .record [.int 0], "", .IN_OBJECT, []⟩
            .null, (RapidJsonDeserializer p (.record [("id", .int .i32)]) (.record [.int 0])).bytes⟩,
          none) := by
  refine ⟨?_, ?_, rfl⟩
  · intro f b e h
    obtain ⟨T, bd, o, nm, st, sv⟩ := f
    cases st <;> cases e <;> simp [structuralMismatch] at h <;> rfl
  · intro f b e h
    obtain ⟨T, bd, o, nm, st, sv⟩ := f
    cases st <;> cases e <;> simp [structuralMismatch] at h <;> rfl

/-! ## Re-arming a root handler -/

theorem AddBytes_isSome (b : Option Int) (n : Nat) : (AddBytes b n).1.isSome = b.isSome := by
  cases b <;> rfl

theorem SetValueOnMember_isSome (ndebug : Bool) (p : SerializeProperties) (f : Frame)
    (b : Option Int) (w : Wire) :
    (SetValueOnMember ndebug p f b w).bytes.isSome = b.isSome := by
  unfold SetValueOnMember
  dsimp only
  split <;> (try split) <;> (try split) <;> (try split) <;> (try split) <;>
    first
    | rfl
    | exact AddBytes_isSome b _

theorem SetValueInArray_isSome (ndebug : Bool) (f : Frame)
    (b : Option Int) (w : Wire) :
    (SetValueInArray ndebug f b w).bytes.isSome = b.isSome := by
  unfold SetValueInArray
  dsimp only
  split <;> (try split) <;> (try split) <;> (try split) <;> (try split) <;>
    first
    | rfl
    | exact AddBytes_isSome b _

theorem doEvent_isSome (ndebug : Bool) (p : SerializeProperties) (f : Frame)
    (b : Option Int) (e : Event) : (doEvent ndebug p f b e).bytes.isSome = b.isSome := by
  cases e with
  | value w =>
    simp only [doEvent, SetValue]
    split
    · exact SetValueOnMember_isSome ndebug p f b w
    · exact SetValueInArray_isSome ndebug f b w
    · rfl
  | StartObject =>
    simp only [doEvent, DoStartObject]
    split
    · rfl
    · rw [enterChild_bytes, RecurseToMember_bytes]
    · rw [enterChild_bytes, RecurseToContainerValue_bytes]
    · cases b <;> rfl
    · rfl
  | Key s =>
    simp only [doEvent, DoKey]
    split <;> (try split) <;> rfl
  | EndObject =>
    simp only [doEvent, DoEndObject]
    split <;> rfl
  | StartArray =>
    simp only [doEvent, DoStartArray]
    split
    · rfl
    · rw [enterChild_bytes, RecurseToContainerValue_bytes]
    · rw [enterChild_bytes, RecurseToMember_bytes]
    · rfl
  | EndArray =>
    simp only [doEvent, DoEndArray]
    split <;> rfl

theorem step_isSome (ndebug : Bool) (p : SerializeProperties) :
    ∀ (h : Handler) (b : Option Int) (e : Event),
      (step ndebug p h b e).bytes.isSome = b.isSome
  | .null, b, e => by simp [step]
  | .skip n, b, e => by cases e <;> rfl
  | .deser f .null, b, e => by
    simp only [step]
    exact doEvent_isSome ndebug p f b e
  | .deser f (.skip n), b, e => by
    simp only [step]
    split
    · rfl
    · rw [afterChild_bytes]
      cases e <;> rfl
  | .deser f (.deser g c), b, e => by
    rw [step]
    split
    · rfl
    · rw [afterChild_bytes]
      exact step_isSome ndebug p (.deser g c) b e

theorem feed_isSome (ndebug : Bool) (p : SerializeProperties) :
    ∀ (evs : List Event) (s : Session),
      (feed ndebug p s evs).1.bytes.isSome = s.bytes.isSome
  | [], s => rfl
  | e :: rest, s => by
    rw [feed_cons]
    split
    · exact step_isSome ndebug p s.handler s.bytes e
    · rw [feed_isSome ndebug p rest]
      exact step_isSome ndebug p s.handler s.bytes e

/-- The counter of a session in which the budget is enabled: re-arming sets it to the value
the constructor gave it. -/
theorem rearm_bytes (ndebug : Bool) (p : SerializeProperties) (T : Ty) (object : Val)
    (evs : List Event) :
    (match (feed ndebug p (RapidJsonDeserializer p T object) evs).1.bytes with
      | some _ => some p.GetMaxMemoryConsumption
      | none => none) = (RapidJsonDeserializer p T object).bytes := by
  have h := feed_isSome ndebug p evs (RapidJsonDeserializer p T object)
  revert h
  cases (feed ndebug p (RapidJsonDeserializer p T object) evs).1.bytes <;>
    simp only [RapidJsonDeserializer] <;> split <;> simp

/-- C12 (re-arm on object).  (1) A handler in state `DONE` that receives `StartObject` moves
to `IN_OBJECT` without failure, and an enabled counter is set to `GetMaxMemoryConsumption()`
whatever it held; (2) for a session started by the constructor that has processed any events
without failure and whose root handler is in `DONE`, the counter after `StartObject` is the
one the constructor set up. -/
theorem rearm_on_object (ndebug : Bool) (p : SerializeProperties) :
    (∀ (f : Frame) (b : Option Int), f.state = .DONE →
      step ndebug p (.deser f .null) b .StartObject
        = ⟨.deser { f with state := .IN_OBJECT } .null, b.map (fun _ => p.GetMaxMemoryConsumption),
            false, none⟩) ∧
    (∀ (T : Ty) (object : Val) (evs : List Event) (s : Session) (f : Frame),
      feed ndebug p (RapidJsonDeserializer p T object) evs = (s, none) →
      s.handler = .deser f .null → f.state = .DONE →
      step ndebug p s.handler s.bytes .StartObject
        = ⟨.deser { f with state := .IN_OBJECT } .null,
            (RapidJsonDeserializer p T object).bytes, false, none⟩) := by
  have h1 : ∀ (f : Frame) (b : Option Int), f.state = .DONE →
      step ndebug p (.deser f .null) b .StartObject
        = ⟨.deser { f with state := .IN_OBJECT } .null, b.map (fun _ => p.GetMaxMemoryConsumption),
            false, none⟩ := by
    intro f b hst
    cases b <;> simp [step, doEvent, DoStartObject, hst, Event.isEnd]
  refine ⟨h1, ?_⟩
  intro T object evs s f hfeed hs hst
  rw [hs, h1 f _ hst]
  have hb := rearm_bytes ndebug p T object evs
  rw [hfeed] at hb
  dsimp only at hb
  rw [← hb]
  cases s.bytes <;> rfl

theorem rearm_on_object_witness :
    step false SerializeProperties.default
        (.deser ⟨.record [("id", .int .i32)], .root, .record [.int 1], "", .DONE, []⟩ .null)
        (some (1024 * 1024 - 4)) .StartObject
      = ⟨.deser ⟨.record [("id", .int .i32)], .root, .record [.int 1], "", .IN_OBJECT, []⟩ .null,
          some (1024 * 1024), false, none⟩ :=
  (rearm_on_object false SerializeProperties.default).2 (.record [("id", .int .i32)])
    (.record [.int 0]) [.StartObject, .Key "id", .value (.int 1), .EndObject]
    ⟨.deser ⟨.record [("id", .int .i32)], .root, .record [.int 1], "", .DONE, []⟩ .null,
      some (1024 * 1024 - 4)⟩
    ⟨.record [("id", .int .i32)], .root, .record [.int 1], "", .DONE, []⟩ rfl rfl rfl

/-- C13 (re-arm on array).  (1) A handler in state `DONE` that receives `StartArray` runs the
`default` branch of `DoStartArray`: with assertions the callback fails on `assert(false)`, and
with `NDEBUG` it returns with the state still `DONE` and the counter untouched; (2) a second
array document aborts a build with assertions; (3) with `NDEBUG` the second array document
is dropped, the destination keeps the first array and the counter is not reset; (4) whereas a
second object document is parsed by the re-armed handler of `DoStartObject`. -/
theorem rearm_on_array (p : SerializeProperties) :
    (∀ (ndebug : Bool) (f : Frame) (b : Option Int), f.state = .DONE →
      step ndebug p (.deser f .null) b .StartArray
        = ⟨.deser f .null, b, false, if ndebug then none else some .aborted⟩) ∧
    (feed false SerializeProperties.default
        (RapidJsonDeserializer SerializeProperties.default (.container (.int .i32)) (.seq []))
        [.StartArray, .value (.int 1), .EndArray, .StartArray]).2 = some .aborted ∧
    feed true SerializeProperties.default
        (RapidJsonDeserializer SerializeProperties.default (.container (.int .i32)) (.seq []))
        [.StartArray, .value (.int 1), .EndArray, .StartArray, .value (.int 2), .EndArray]
      = (⟨.deser ⟨.container (.int .i32), .root, .seq [.int 1], "", .DONE, []⟩ .null,
            some (1024 * 1024 - 28)⟩, none) ∧
    feed true SerializeProperties.default
        (RapidJsonDeserializer SerializeProperties.default (.record [("id", .int .i32)])
          (.record [.int 0]))
        [.StartObject, .Key "id", .value (.int 1), .EndObject, .StartObject, .Key "id",
          .value (.int 2), .EndObject]
      = (⟨.deser ⟨.record [("id", .int .i32)], .root, .record [.int 2], "", .DONE, []⟩ .null,
            some (1024 * 1024 - 4)⟩, none) := by
  refine ⟨?_, rfl, rfl, rfl⟩
  intro ndebug f b hst
  cases ndebug <;> simp [step, doEvent, DoStartArray, hst, Event.isEnd, cassert]

/-! ## Emptiness rule -/

theorem str_empty_iff (s : String) : str_empty s = true ↔ s.length = 0 := by
  unfold str_empty
  rw [List.isEmpty_iff]
  constructor
  · intro h
    show s.data.length = 0
    have : s.data = [] := h
    rw [this]; rfl
  · intro h
    exact List.length_eq_zero.mp h

/-- C16 (emptiness rule, amended).  The function `is_empty_field` is true exactly for a value of an
integral or floating-point type that equals `T{}` (the bool `false`, the integer 0, the
doubles `+0.0` and `-0.0`), for an absent optional, and for a string, container or map of
length zero; it is false for every record and for every present optional. -/
theorem is_empty_field_iff (T : Ty) (v : Val) :
    (is_empty_field T v = true ↔
      (T = .bool ∧ v = .bool false) ∨
      (∃ k, T = .int k ∧ v = .int 0) ∨
      (T = .double ∧ ∃ d, v = .double d ∧ doubleNonZero d = false) ∨
      (∃ t, T = .optional t ∧ v = .absent) ∨
      (T = .string ∧ ∃ s, v = .str s ∧ s.length = 0) ∨
      (∃ t, T = .container t ∧ v = .seq []) ∨
      (∃ t, T = .map t ∧ v = .map [])) ∧
    (∀ fs, is_empty_field (.record fs) v = false) ∧
    (∀ t x, is_empty_field (.optional t) (.present x) = false) := by
  refine ⟨?_, fun _ => by cases v <;> rfl, fun _ _ => rfl⟩
  constructor
  · intro h
    cases T <;> cases v <;> simp only [is_empty_field] at h <;> try cases h
    · rename_i b
      cases b
      · exact Or.inl ⟨rfl, rfl⟩
      · cases h
    · rename_i k n
      have : n = 0 := by simpa using h
      subst this
      exact Or.inr (Or.inl ⟨k, rfl, rfl⟩)
    · rename_i d
      refine Or.inr (Or.inr (Or.inl ⟨rfl, d, rfl, ?_⟩))
      simpa using h
    · rename_i s
      exact Or.inr (Or.inr (Or.inr (Or.inr (Or.inl ⟨rfl, s, rfl, (str_empty_iff s).mp h⟩))))
    · rename_i t
      exact Or.inr (Or.inr (Or.inr (Or.inl ⟨t, rfl, rfl⟩)))
    · rename_i t xs
      have : xs = [] := by simpa using h
      subst this
      exact Or.inr (Or.inr (Or.inr (Or.inr (Or.inr (Or.inl ⟨t, rfl, rfl⟩)))))
    · rename_i t es
      have : es = [] := by simpa using h
      subst this
      exact Or.inr (Or.inr (Or.inr (Or.inr (Or.inr (Or.inr ⟨t, rfl, rfl⟩)))))
  · rintro (⟨rfl, rfl⟩ | ⟨k, rfl, rfl⟩ | ⟨rfl, d, rfl, hd⟩ | ⟨t, rfl, rfl⟩ | ⟨rfl, s, rfl, hs⟩ |
      ⟨t, rfl, rfl⟩ | ⟨t, rfl, rfl⟩)
    · rfl
    · rfl
    · simp only [is_empty_field, hd]; rfl
    · rfl
    · simp only [is_empty_field]; exact (str_empty_iff s).mpr hs
    · rfl
    · rfl

theorem is_empty_field_counterexample :
    is_empty_field .bool (.bool false) = true ∧
    do_serialize false SerializeProperties.default
        (.record [("flag", .bool), ("id", .int .i32)]) (.record [.bool false, .int 7])
      = ([.StartObject, .Key "id", .value (.int 7), .EndObject], none) := ⟨rfl, rfl⟩

/-! ## Policy that only serialization reads -/

theorem doEvent_policy (ndebug : Bool) (p : SerializeProperties) (x : Bool)
    (y : Option (List String)) (f : Frame) (b : Option Int) (e : Event) :
    doEvent ndebug { p with ignore_empty_fileds := x, excluded_names := y } f b e
      = doEvent ndebug p f b e := by
  cases e <;> rfl

theorem step_policy (ndebug : Bool) (p : SerializeProperties) (x : Bool)
    (y : Option (List String)) :
    ∀ (h : Handler) (b : Option Int) (e : Event),
      step ndebug { p with ignore_empty_fileds := x, excluded_names := y } h b e
        = step ndebug p h b e
  | .null, b, e => rfl
  | .skip n, b, e => rfl
  | .deser f .null, b, e => by
    simp only [step]
    rw [doEvent_policy]
  | .deser f (.skip n), b, e => rfl
  | .deser f (.deser g c), b, e => by
    rw [step, step, step_policy ndebug p x y (.deser g c) b e]

theorem feed_policy (ndebug : Bool) (p : SerializeProperties) (x : Bool)
    (y : Option (List String)) :
    ∀ (evs : List Event) (s : Session),
      feed ndebug { p with ignore_empty_fileds := x, excluded_names := y } s evs
        = feed ndebug p s evs
  | [], s => rfl
  | e :: rest, s => by
    rw [feed_cons, feed_cons, step_policy]
    split
    · rfl
    · exact feed_policy ndebug p x y rest _

/-- C17 (serialization-only policy).  For two policies that agree on
`max_memory_consumption`, `ignore_unknown_properties` and `name_mapping`, that is that differ
at most in `excluded_names` and `ignore_empty_fields`, every event stream delivered to a
fresh root handler has the same outcome: the same session, destination included, and the
same failure or success. -/
theorem input_policy_independent (ndebug : Bool) (p q : SerializeProperties) (T : Ty)
    (object : Val) (evs : List Event)
    (h1 : p.max_memory_consumption = q.max_memory_consumption)
    (h2 : p.ignore_unknown_properties = q.ignore_unknown_properties)
    (h3 : p.name_mapping = q.name_mapping) :
    feed ndebug p (RapidJsonDeserializer p T object) evs
      = feed ndebug q (RapidJsonDeserializer q T object) evs := by
  obtain ⟨a, b, c, d, e⟩ := p
  obtain ⟨a1, b1, c1, d1, e1⟩ := q
  simp only at h1 h2 h3
  subst h1 h2 h3
  exact (feed_policy ndebug ⟨a, b, c, d, e⟩ b1 d1 evs
    (RapidJsonDeserializer ⟨a, b, c, d, e⟩ T object)).symm

theorem input_policy_independent_witness :
    feed false { SerializeProperties.default with excluded_names := some ["id"] }
        (RapidJsonDeserializer { SerializeProperties.default with excluded_names := some ["id"] }
          (.record [("id", .int .i32)]) (.record [.int 0]))
        [.StartObject, .Key "id", .value (.int 5), .EndObject]
      = feed false { SerializeProperties.default with ignore_empty_fileds := false }
        (RapidJsonDeserializer { SerializeProperties.default with ignore_empty_fileds := false }
          (.record [("id", .int .i32)]) (.record [.int 0]))
        [.StartObject, .Key "id", .value (.int 5), .EndObject] ∧
    (feed false { SerializeProperties.default with excluded_names := some ["id"] }
        (RapidJsonDeserializer { SerializeProperties.default with excluded_names := some ["id"] }
          (.record [("id", .int .i32)]) (.record [.int 0]))
        [.StartObject, .Key "id", .value (.int 5), .EndObject]).2 = none ∧
    (feed false { SerializeProperties.default with excluded_names := some ["id"] }
        (RapidJsonDeserializer { SerializeProperties.default with excluded_names := some ["id"] }
          (.record [("id", .int .i32)]) (.record [.int 0]))
        [.StartObject, .Key "id", .value (.int 5), .EndObject]).1.destination
      = .record [.int 5] :=
  ⟨input_policy_independent false _ _ _ _ _ rfl rfl rfl, rfl, rfl⟩

/-! ## Reuse of a root handler -/

theorem rearm_feed (ndebug : Bool) (p : SerializeProperties) (T : Ty) (object : Val)
    (d1 rest : List Event) (s1 : Session) (obj1 : Val)
    (h1 : feed ndebug p (RapidJsonDeserializer p T object) d1 = (s1, none))
    (hs : s1.handler = .deser ⟨T, .root, obj1, "", .DONE, []⟩ .null) :
    feed ndebug p (RapidJsonDeserializer p T object) (d1 ++ .StartObject :: rest)
      = feed ndebug p (RapidJsonDeserializer p T obj1) (.StartObject :: rest) := by
  have hb := rearm_bytes ndebug p T object d1
  rw [h1] at hb
  dsimp only at hb
  rw [feed_append, h1]
  dsimp only
  rw [feed_cons, feed_cons, hs]
  have e1 : step ndebug p (.deser ⟨T, .root, obj1, "", .DONE, []⟩ .null) s1.bytes .StartObject
      = ⟨.deser ⟨T, .root, obj1, "", .IN_OBJECT, []⟩ .null,
          (RapidJsonDeserializer p T object).bytes, false, none⟩ := by
    rw [← hb]
    cases s1.bytes <;> simp [step, doEvent, DoStartObject, Event.isEnd]
  have e2 : step ndebug p (RapidJsonDeserializer p T obj1).handler
        (RapidJsonDeserializer p T obj1).bytes .StartObject
      = ⟨.deser ⟨T, .root, obj1, "", .IN_OBJECT, []⟩ .null,
          (RapidJsonDeserializer p T object).bytes, false, none⟩ := by
    simp [RapidJsonDeserializer, step, doEvent, DoStartObject, Event.isEnd]
  rw [e1, e2]

theorem independent_reuse_counterexample :
    ((feed false SerializeProperties.default
        (RapidJsonDeserializer SerializeProperties.default
          (.record [("id", .int .i32), ("name", .string)]) (.record [.int 0, .str ""]))
        [.StartObject, .Key "id", .value (.int 1), .Key "name", .value (.string "a"),
          .EndObject, .StartObject, .Key "id", .value (.int 2), .EndObject]).1.destination
      = .record [.int 2, .str "a"] ∧
     (feed false SerializeProperties.default
        (RapidJsonDeserializer SerializeProperties.default
          (.record [("id", .int .i32), ("name", .string)]) (.record [.int 0, .str ""]))
        [.StartObject, .Key "id", .value (.int 2), .EndObject]).1.destination
      = .record [.int 2, .str ""]) ∧
    ((feed false SerializeProperties.default
        (RapidJsonDeserializer SerializeProperties.default
          (.record [("tags", .container .string)]) (.record [.seq []]))
        [.StartObject, .Key "tags", .StartArray, .value (.string "a"), .EndArray, .EndObject,
          .StartObject, .Key "tags", .StartArray, .value (.string "b"), .EndArray,
          .EndObject]).1.destination
      = .record [.seq [.str "a", .str "b"]] ∧
     (feed false SerializeProperties.default
        (RapidJsonDeserializer SerializeProperties.default
          (.record [("tags", .container .string)]) (.record [.seq []]))
        [.StartObject, .Key "tags", .StartArray, .value (.string "b"), .EndArray,
          .EndObject]).1.destination
      = .record [.seq [.str "b"]]) :=
  ⟨⟨rfl, rfl⟩, ⟨rfl, rfl⟩⟩

/-! ## Serialization of records, maps and primitives; the inserter -/

theorem is_excluded_eq (p : SerializeProperties) (name : String) :
    (p.excluded_names.isSome && p.is_excluded name) = p.is_excluded name := by
  unfold SerializeProperties.is_excluded
  cases p.excluded_names <;> simp

theorem serializeMembers_eq (ndebug : Bool) (p : SerializeProperties) :
    ∀ (fs : List (String × Ty)) (ms : List Val),
      (∀ x ∈ emittedMembers p fs ms, (do_serialize ndebug p x.1.2 x.2).2 = none) →
      serializeMembers ndebug p fs ms = (memberEvents ndebug p fs ms, none)
  | [], _, _ => by simp [serializeMembers, memberEvents, emittedMembers]
  | (_, _) :: _, [], _ => by simp [serializeMembers, memberEvents, emittedMembers]
  | (name, t) :: fs, v :: vs, h => by
    have hstep : emittedMembers p ((name, t) :: fs) (v :: vs)
        = (if memberEmitted p name t v then [((name, t), v)] else []) ++ emittedMembers p fs vs := by
      simp only [emittedMembers, List.zip_cons_cons, List.filter_cons]
      split <;> rfl
    have ih := serializeMembers_eq ndebug p fs vs (fun x hx => h x (by rw [hstep]; simp [hx]))
    rw [serializeMembers, is_excluded_eq]
    unfold memberEvents
    rw [hstep]
    by_cases hem : memberEmitted p name t v = true
    · have hr := h ((name, t), v) (by rw [hstep]; simp [hem])
      have h1 : (p.ignore_empty_fileds && is_empty_field t v) = false := by
        simp only [memberEmitted, Bool.and_eq_true, Bool.not_eq_true'] at hem
        exact hem.2
      have h2 : p.is_excluded name = false := by
        simp only [memberEmitted, Bool.and_eq_true, Bool.not_eq_true'] at hem
        exact hem.1
      rcases hd : do_serialize ndebug p t v with ⟨evs, r⟩
      rw [hd] at hr
      dsimp only at hr
      subst hr
      simp [h1, h2, hem, ih, hd, memberEvents]
    · have h3 : (p.ignore_empty_fileds && is_empty_field t v) = true ∨ p.is_excluded name = true := by
        simp only [memberEmitted, Bool.and_eq_true, Bool.not_eq_true', not_and,
          Bool.not_eq_false] at hem
        by_cases hx : p.is_excluded name = true
        · exact Or.inr hx
        · exact Or.inl (by simpa using hem (by simpa using hx))
      simp only [hem, Bool.false_eq_true, ↓reduceIte, List.nil_append]
      rcases h3 with h3 | h3
      · simp only [h3, ↓reduceIte, ih, memberEvents]
      · by_cases h1 : (p.ignore_empty_fileds && is_empty_field t v) = true
        · simp only [h1, ↓reduceIte, ih, memberEvents]
        · simp only [h1, h3, Bool.false_eq_true, ↓reduceIte, ih, memberEvents]

/-- C15 (record serialization, amended).  For every record and policy for which the
serialization of every emitted member value returns, `do_serialize` emits `StartObject`,
then for exactly the members that are neither in the exclusion set nor, when
`ignore_empty_fields` is set, empty, in declaration order, a `Key` carrying the mapped name
as a C string followed by the events of the member value, then `EndObject`. -/
theorem record_serialization (ndebug : Bool) (p : SerializeProperties)
    (fs : List (String × Ty)) (ms : List Val)
    (h : ∀ x ∈ emittedMembers p fs ms, (do_serialize ndebug p x.1.2 x.2).2 = none) :
    do_serialize ndebug p (.record fs) (.record ms)
      = (.StartObject :: memberEvents ndebug p fs ms ++ [.EndObject], none) := by
  simp only [do_serialize, serializeMembers_eq ndebug p fs ms h]


theorem record_serialization_witness :
    do_serialize false SerializeProperties.default
        (.record [("id", .int .i32), ("name", .string)]) (.record [.int 0, .str "bob"])
      = ([.StartObject, .Key "name", .value (.string "bob"), .EndObject], none) ∧
    do_serialize false { SerializeProperties.default with ignore_empty_fileds := false }
        (.record [("id", .int .i32), ("name", .string)]) (.record [.int 0, .str "bob"])
      = ([.StartObject, .Key "id", .value (.int 0), .Key "name", .value (.string "bob"),
          .EndObject], none) :=
  ⟨record_serialization false SerializeProperties.default _ _ (by
      intro x hx
      simp [emittedMembers, memberEmitted, SerializeProperties.default,
        SerializeProperties.is_excluded, is_empty_field, str_empty] at hx
      subst hx
      rfl),
   record_serialization false { SerializeProperties.default with ignore_empty_fileds := false }
     _ _ (by
      intro x hx
      simp [emittedMembers, memberEmitted, SerializeProperties.default,
        SerializeProperties.is_excluded] at hx
      rcases hx with rfl | rfl <;> rfl)⟩

theorem record_serialization_counterexample :
    do_serialize false { SerializeProperties.default with ignore_empty_fileds := false }
        (.record [("n", .int .i16)]) (.record [.int 5])
      = ([.StartObject, .Key "n"], some .aborted) ∧
    (SerializeProperties.map_name_to_json
        { SerializeProperties.default with name_mapping := some ⟨[("id", "a\x00b")]⟩ } "id"
        = "a\x00b" ∧
      do_serialize false
        { SerializeProperties.default with name_mapping := some ⟨[("id", "a\x00b")]⟩ }
        (.record [("id", .int .i32)]) (.record [.int 5])
      = ([.StartObject, .Key "a", .value (.int 5), .EndObject], none)) :=
  ⟨rfl, rfl, rfl⟩

theorem serializeEntries_eq (ndebug : Bool) (p : SerializeProperties) (t : Ty) :
    ∀ es : List (String × Val), (∀ e ∈ es, (do_serialize ndebug p t e.2).2 = none) →
      serializeEntries ndebug p t es = (entryEvents ndebug p t es, none)
  | [], _ => by simp [serializeEntries, entryEvents]
  | (k, v) :: es, h => by
    have ih := serializeEntries_eq ndebug p t es (fun e he => h e (List.mem_cons_of_mem _ he))
    have hr := h (k, v) (List.mem_cons_self _ _)
    rcases hd : do_serialize ndebug p t v with ⟨evs, r⟩
    rw [hd] at hr
    dsimp only at hr
    subst hr
    simp [serializeEntries, entryEvents, hd, ih]

/-- C18 (map serialization, amended).  For every map and policy for which the serialization
of every entry value returns, `do_serialize` emits `StartObject`, then for every entry its
key as a string leaf followed by the events of its value, then `EndObject`, whatever the
exclusion set and `ignore_empty_fields` are. -/
theorem map_serialization (ndebug : Bool) (p : SerializeProperties) (t : Ty)
    (es : List (String × Val)) (h : ∀ e ∈ es, (do_serialize ndebug p t e.2).2 = none) :
    do_serialize ndebug p (.map t) (.map es)
      = (.StartObject :: entryEvents ndebug p t es ++ [.EndObject], none) := by
  simp only [do_serialize, serializeEntries_eq ndebug p t es h]

theorem map_serialization_witness :
    do_serialize false { SerializeProperties.default with excluded_names := some ["x"] }
        (.map (.int .i32)) (.map [("", .int 0), ("x", .int 0)])
      = ([.StartObject, .value (.string ""), .value (.int 0), .value (.string "x"),
          .value (.int 0), .EndObject], none) :=
  map_serialization false { SerializeProperties.default with excluded_names := some ["x"] }
    (.int .i32) [("", .int 0), ("x", .int 0)] (by
      intro e he
      simp at he
      rcases he with rfl | rfl <;> rfl)

theorem map_serialization_counterexample :
    do_serialize false SerializeProperties.default (.map (.int .i16)) (.map [("a", .int 1)])
      = ([.StartObject, .value (.string "a")], some .aborted) := rfl

/-- C19 (primitive serialization, amended).  For a value of type `bool`, `int`,
`unsigned char`, `unsigned int`, `std::int64_t`, `std::uint64_t`, `double` or `std::string`,
`do_serialize` emits exactly one leaf event, of kind `Bool`, `Int`, `Uint`, `Uint`, `Int64`,
`Uint64`, `Double` and `String` respectively, whose payload is the value, and does not
fail. -/
theorem primitive_serialization (ndebug : Bool) (p : SerializeProperties) :
    (∀ b : Bool, do_serialize ndebug p .bool (.bool b) = ([.value (.bool b)], none)) ∧
    (∀ n : Int, do_serialize ndebug p (.int .i32) (.int n) = ([.value (.int n)], none)) ∧
    (∀ n : Nat, do_serialize ndebug p (.int .u8) (.int n) = ([.value (.uint n)], none)) ∧
    (∀ n : Nat, do_serialize ndebug p (.int .u32) (.int n) = ([.value (.uint n)], none)) ∧
    (∀ n : Int, do_serialize ndebug p (.int .i64) (.int n) = ([.value (.int64 n)], none)) ∧
    (∀ n : Nat, do_serialize ndebug p (.int .u64) (.int n) = ([.value (.uint64 n)], none)) ∧
    (∀ d : Nat, do_serialize ndebug p .double (.double d) = ([.value (.double d)], none)) ∧
    (∀ s : String, do_serialize ndebug p .string (.str s) = ([.value (.string s)], none)) := by
  refine ⟨?_, ?_, ?_, ?_, ?_, ?_, ?_, ?_⟩ <;> intro x <;>
    simp [do_serialize, do_serialize_integral]

theorem primitive_serialization_counterexample :
    hasType (.int .i16) (.int 5) = true ∧
    do_serialize false SerializeProperties.default (.int .i16) (.int 5) = ([], some .aborted) ∧
    do_serialize true SerializeProperties.default (.int .i16) (.int 5) = ([], none) ∧
    do_serialize false SerializeProperties.default (.int .i8) (.int 5) = ([], some .aborted) ∧
    do_serialize false SerializeProperties.default (.int .u16) (.int 5) = ([], some .aborted) :=
  ⟨rfl, rfl, rfl, rfl, rfl⟩

theorem addAll_iterating (ndebug : Bool) (T : Ty) :
    ∀ (vs : List Val) (s : RapidJsonInserter), s.state_ = .ITERATING →
      RapidJsonInserter.addAll ndebug T s vs
        = ({ s with writer_ := s.writer_ ++ (serializeElements ndebug s.properties_ T vs).1 },
            (serializeElements ndebug s.properties_ T vs).2)
  | [], s, _ => by simp [RapidJsonInserter.addAll, serializeElements]
  | v :: vs, s, hs => by
    rw [RapidJsonInserter.addAll, serializeElements]
    simp only [RapidJsonInserter.Add, hs, reduceCtorEq, ↓reduceIte]
    rcases hd : do_serialize ndebug s.properties_ T v with ⟨evs, r⟩
    cases r with
    | some fl => rfl
    | none =>
      dsimp only
      rw [addAll_iterating ndebug T vs _ rfl]
      simp

theorem serializeElements_eq (ndebug : Bool) (p : SerializeProperties) (t : Ty) :
    ∀ vs : List Val, (∀ v ∈ vs, (do_serialize ndebug p t v).2 = none) →
      serializeElements ndebug p t vs = (elementEvents ndebug p t vs, none)
  | [], _ => by simp [serializeElements, elementEvents]
  | v :: vs, h => by
    have ih := serializeElements_eq ndebug p t vs (fun e he => h e (List.mem_cons_of_mem _ he))
    have hr := h v (List.mem_cons_self _ _)
    rcases hd : do_serialize ndebug p t v with ⟨evs, r⟩
    rw [hd] at hr
    dsimp only at hr
    subst hr
    simp [serializeElements, elementEvents, hd, ih]

theorem addAll_list (ndebug : Bool) (p : SerializeProperties) (T : Ty) (v : Val)
    (vs : List Val) :
    RapidJsonInserter.addAll ndebug T (RapidJsonInserter.create true p) (v :: vs)
      = (⟨.ITERATING, true, .StartArray :: (serializeElements ndebug p T (v :: vs)).1, p⟩,
          (serializeElements ndebug p T (v :: vs)).2) := by
  rw [RapidJsonInserter.addAll, serializeElements]
  simp only [RapidJsonInserter.Add, RapidJsonInserter.create, reduceCtorEq, ↓reduceIte,
    List.nil_append]
  rcases hd : do_serialize ndebug p T v with ⟨evs, r⟩
  cases r with
  | some fl => rfl
  | none =>
    dsimp only
    rw [addAll_iterating ndebug T vs _ rfl]
    simp

/-- C20 (inserter in list mode, amended).  For a non-empty list of values and an inserter
created with `isList = true`, which starts in `PRE`: (1) the calls `Add(v1)`, ..., `Add(vn)`
fail exactly when `do_serialize` fails on the sequence, and (2) then with the same events
emitted; (3) when the serialization of every value returns, the calls leave the inserter in
`ITERATING` having emitted `StartArray` and the events of the values, `Done()` then emits
`EndArray` and leaves it in `DONE`, and the whole stream is the one `do_serialize` emits for
the sequence. -/
theorem inserter_list (ndebug : Bool) (p : SerializeProperties) (T : Ty) (vs : List Val)
    (hne : vs ≠ []) :
    (RapidJsonInserter.create true p).state_ = .PRE ∧
    (RapidJsonInserter.addAll ndebug T (RapidJsonInserter.create true p) vs).2
      = (do_serialize ndebug p (.container T) (.seq vs)).2 ∧
    ((RapidJsonInserter.addAll ndebug T (RapidJsonInserter.create true p) vs).2 ≠ none →
      (RapidJsonInserter.addAll ndebug T (RapidJsonInserter.create true p) vs).1.writer_
        = (do_serialize ndebug p (.container T) (.seq vs)).1) ∧
    ((∀ v ∈ vs, (do_serialize ndebug p T v).2 = none) →
      RapidJsonInserter.addAll ndebug T (RapidJsonInserter.create true p) vs
        = (⟨.ITERATING, true, .StartArray :: elementEvents ndebug p T vs, p⟩, none) ∧
      (RapidJsonInserter.addAll ndebug T (RapidJsonInserter.create true p) vs).1.Done
        = ⟨.DONE, true, .StartArray :: elementEvents ndebug p T vs ++ [.EndArray], p⟩ ∧
      do_serialize ndebug p (.container T) (.seq vs)
        = (.StartArray :: elementEvents ndebug p T vs ++ [.EndArray], none)) := by
  cases vs with
  | nil => exact absurd rfl hne
  | cons v vs =>
    refine ⟨rfl, ?_, ?_, ?_⟩
    · rw [addAll_list]
      simp only [do_serialize]
      rcases serializeElements ndebug p T (v :: vs) with ⟨evs, r⟩
      cases r <;> rfl
    · rw [addAll_list]
      simp only [do_serialize]
      rcases serializeElements ndebug p T (v :: vs) with ⟨evs, r⟩
      cases r with
      | none => intro h; exact absurd rfl h
      | some fl => intro _; rfl
    · intro h
      rw [addAll_list, serializeElements_eq ndebug p T (v :: vs) h]
      refine ⟨rfl, rfl, ?_⟩
      simp only [do_serialize, serializeElements_eq ndebug p T (v :: vs) h]

theorem inserter_list_witness :
    (RapidJsonInserter.addAll false (.int .i32)
        (RapidJsonInserter.create true SerializeProperties.default) [.int 1, .int 2]).1.Done
      = ⟨.DONE, true, [.StartArray, .value (.int 1), .value (.int 2), .EndArray],
          SerializeProperties.default⟩ :=
  ((inserter_list false SerializeProperties.default (.int .i32) [.int 1, .int 2]
      (by simp)).2.2.2 (by
        intro v hv
        simp at hv
        rcases hv with rfl | rfl <;> rfl)).2.1

theorem inserter_list_counterexample :
    RapidJsonInserter.addAll false (.int .i16)
        (RapidJsonInserter.create true SerializeProperties.default) [.int 1, .int 2]
      = (⟨.ITERATING, true, [.StartArray], SerializeProperties.default⟩, some .aborted) := rfl

/-! ## Well-formed documents leave the handler where it started -/

theorem SetValueOnMember_same (ndebug : Bool) (p : SerializeProperties) (f : Frame)
    (b : Option Int) (w : Wire) :
    (SetValueOnMember ndebug p f b w).failure = none →
      Frame.same f (SetValueOnMember ndebug p f b w).frame := by
  unfold SetValueOnMember
  dsimp only
  split <;> (try split) <;> (try split) <;> (try split) <;> (try split) <;>
    intro hf <;> first | exact ⟨rfl, rfl, rfl, rfl⟩ | simp at hf

theorem SetValueInArray_same (ndebug : Bool) (f : Frame) (b : Option Int) (w : Wire) :
    (SetValueInArray ndebug f b w).failure = none →
      Frame.same f (SetValueInArray ndebug f b w).frame := by
  unfold SetValueInArray
  dsimp only
  split <;> (try split) <;> (try split) <;> (try split) <;> (try split) <;>
    intro hf <;> first | exact ⟨rfl, rfl, rfl, rfl⟩ | simp at hf

theorem SetValue_same (ndebug : Bool) (p : SerializeProperties) (f : Frame) (b : Option Int)
    (w : Wire) :
    (SetValue ndebug p f b w).failure = none → Frame.same f (SetValue ndebug p f b w).frame := by
  unfold SetValue
  split
  · exact SetValueOnMember_same ndebug p f b w
  · exact SetValueInArray_same ndebug f b w
  · intro _; exact ⟨rfl, rfl, rfl, rfl⟩

theorem DoKey_same (ndebug : Bool) (p : SerializeProperties) (f : Frame) (b : Option Int)
    (k : String) :
    (DoKey ndebug p f b k).failure = none →
      (DoKey ndebug p f b k).child = .null ∧ Frame.same f (DoKey ndebug p f b k).frame := by
  unfold DoKey
  split <;> (try split) <;> intro hf <;>
    first | exact ⟨rfl, rfl, rfl, rfl, rfl⟩ | simp at hf

theorem step_leaf_same (ndebug : Bool) (p : SerializeProperties) (g : Frame) (b : Option Int)
    (e : Event) (he : (∃ k, e = .Key k) ∨ ∃ w, e = .value w)
    (hf : (step ndebug p (.deser g .null) b e).failure = none) :
    (step ndebug p (.deser g .null) b e).notify = false ∧
    ∃ g1, (step ndebug p (.deser g .null) b e).handler = .deser g1 .null ∧ Frame.same g g1 := by
  rcases he with ⟨k, rfl⟩ | ⟨w, rfl⟩
  · simp only [step, doEvent, Event.isEnd] at hf ⊢
    refine ⟨by simp, ?_⟩
    obtain ⟨h1, h2⟩ := DoKey_same ndebug p g b k hf
    rw [h1]
    exact ⟨_, rfl, h2⟩
  · simp only [step, doEvent, Event.isEnd] at hf ⊢
    refine ⟨by simp, ?_⟩
    rw [SetValue_child]
    exact ⟨_, rfl, SetValue_same ndebug p g b w hf⟩


theorem RecurseToMember_recursed (ndebug : Bool) (p : SerializeProperties) (f : Frame)
    (b : Option Int) :
    (RecurseToMember ndebug p f b).failure = none → Recursed f (RecurseToMember ndebug p f b) := by
  unfold RecurseToMember
  dsimp only
  split <;> (try split) <;> (try split) <;> (try split) <;> (try split) <;>
    intro hf <;>
    first
    | exact ⟨rfl, rfl, rfl, rfl, Or.inl rfl⟩
    | exact ⟨rfl, rfl, rfl, rfl, Or.inr ⟨_, rfl, rfl, rfl⟩⟩
    | simp at hf

theorem RecurseToContainerValue_recursed (f : Frame) (b : Option Int) :
    (RecurseToContainerValue f b).failure = none → Recursed f (RecurseToContainerValue f b) := by
  unfold RecurseToContainerValue
  split <;> (try split) <;> intro hf <;>
    first
    | exact ⟨rfl, rfl, rfl, rfl, Or.inr ⟨_, rfl, rfl, rfl⟩⟩
    | simp at hf

theorem enterChild_started (t : State) (f : Frame) (r : Res)
    (h : r.failure = none → Recursed f r) :
    (enterChild t r).failure = none →
      (enterChild t r).frame.T = f.T ∧ (enterChild t r).frame.binding = f.binding ∧
      (enterChild t r).frame.state = .RECURSED ∧
      (enterChild t r).frame.saved_state = f.state :: f.saved_state ∧
      Started t (enterChild t r).child := by
  unfold enterChild
  split
  · rename_i fl hfl
    intro hf
    rw [hfl] at hf
    cases hf
  · rename_i hfl
    intro _
    obtain ⟨h1, h2, h3, h4, h5⟩ := h hfl
    refine ⟨h1, h2, h3, h4, ?_⟩
    rcases h5 with h5 | ⟨gc, h5, h6, h7⟩
    · left
      simp [h5, startChild]
    · right
      exact ⟨{ gc with state := t }, by simp only [h5, startChild], rfl, h7⟩

theorem step_start_shape (ndebug : Bool) (p : SerializeProperties) (g : Frame)
    (b : Option Int) (e : Event) (t : State)
    (he : (e = .StartObject ∧ t = .IN_OBJECT) ∨ (e = .StartArray ∧ t = .IN_ARRAY))
    (hst : g.state = .IN_OBJECT ∨ g.state = .IN_ARRAY)
    (hf : (step ndebug p (.deser g .null) b e).failure = none) :
    (step ndebug p (.deser g .null) b e).notify = false ∧
    ∃ g1 c, (step ndebug p (.deser g .null) b e).handler = .deser g1 c ∧
      g1.T = g.T ∧ g1.binding = g.binding ∧ g1.state = .RECURSED ∧
      g1.saved_state = g.state :: g.saved_state ∧ Started t c := by
  rcases he with ⟨rfl, rfl⟩ | ⟨rfl, rfl⟩ <;> rcases hst with hst | hst <;>
    simp only [step, doEvent, DoStartObject, DoStartArray, hst, Event.isEnd] at hf ⊢ <;>
    refine ⟨by simp, _, _, rfl, ?_⟩
  · have h := enterChild_started _ g _ (RecurseToMember_recursed ndebug p g b) hf
    rwa [hst] at h
  · have h := enterChild_started _ g _ (RecurseToContainerValue_recursed g b) hf
    rwa [hst] at h
  · have h := enterChild_started _ g _ (RecurseToMember_recursed ndebug p g b) hf
    rwa [hst] at h
  · have h := enterChild_started _ g _ (RecurseToContainerValue_recursed g b) hf
    rwa [hst] at h

theorem step_end_child (ndebug : Bool) (p : SerializeProperties) (F gc : Frame)
    (b : Option Int) (e : Event) (st : State) (sv : List State)
    (hF : F.state = .RECURSED) (hsv : F.saved_state = st :: sv)
    (hgc : (gc.state = .IN_OBJECT ∧ e = .EndObject) ∨ (gc.state = .IN_ARRAY ∧ e = .EndArray))
    (hb : gc.binding.HaveParent = true) :
    ∃ F1, step ndebug p (.deser F (.deser gc .null)) b e = ⟨.deser F1 .null, b, false, none⟩ ∧
      F1.T = F.T ∧ F1.binding = F.binding ∧ F1.state = st ∧ F1.saved_state = sv := by
  rw [step, cassert_recursed ndebug F hF]
  rcases hgc with ⟨hs, rfl⟩ | ⟨hs, rfl⟩ <;>
    simp [step, doEvent, DoEndObject, DoEndArray, hs, afterChild, hb, OnChildIsDone, hF, hsv,
      cassert, Handler.bound, Event.isEnd]

theorem peel (ndebug : Bool) (p : SerializeProperties) (ctx : List Frame)
    (hctx : ∀ f ∈ ctx, f.state = .RECURSED) (g : Frame) (c : Handler) (b : Option Int)
    (e : Event) (evs : List Event) (s : Session)
    (h : feed ndebug p ⟨wrap ctx (.deser g c), b⟩ (e :: evs) = (s, none))
    (hn : (step ndebug p (.deser g c) b e).notify = false) :
    (step ndebug p (.deser g c) b e).failure = none ∧
    feed ndebug p ⟨wrap ctx (step ndebug p (.deser g c) b e).handler,
        (step ndebug p (.deser g c) b e).bytes⟩ evs = (s, none) := by
  rw [feed_cons] at h
  dsimp only at h
  rw [step_wrap ndebug p ctx hctx g c b e hn] at h
  dsimp only at h
  split at h
  · cases h
  · rename_i hfl
    exact ⟨hfl, h⟩

theorem wrap_append (ctx : List Frame) (F : Frame) (h : Handler) :
    wrap (ctx ++ [F]) h = wrap ctx (.deser F h) := by
  induction ctx with
  | nil => rfl
  | cons f fs ih =>
    show Handler.deser f (wrap (fs ++ [F]) h) = _
    rw [ih]
    rfl

theorem feed_after_quiet (ndebug : Bool) (p : SerializeProperties) (ctx : List Frame)
    (hctx : ∀ f ∈ ctx, f.state = .RECURSED) (g : Frame) (c : Handler) (b : Option Int)
    (evs rest : List Event) (a1 : Handler) (b1 : Option Int) (s : Session)
    (h : feed ndebug p ⟨wrap ctx (.deser g c), b⟩ (evs ++ rest) = (s, none))
    (hq : feedQuiet ndebug p (.deser g c) b evs = some (a1, b1)) :
    feed ndebug p ⟨wrap ctx a1, b1⟩ rest = (s, none) := by
  rw [feed_wrap ndebug p ctx hctx rest evs g c b a1 b1 hq] at h
  exact h

mutual
theorem doc_json (ndebug : Bool) (p : SerializeProperties) :
    ∀ (j : Json) (ctx : List Frame), (∀ f ∈ ctx, f.state = .RECURSED) →
    ∀ (g : Frame) (b : Option Int) (rest : List Event) (s : Session),
      (g.state = .IN_OBJECT ∨ g.state = .IN_ARRAY) →
      feed ndebug p ⟨wrap ctx (.deser g .null), b⟩ (j.events ++ rest) = (s, none) →
      ∃ g1 b1, feedQuiet ndebug p (.deser g .null) b j.events = some (.deser g1 .null, b1) ∧
        Frame.same g g1
  | .leaf w, ctx, hctx, g, b, rest, s, _, h => by
    rw [Json.events] at h ⊢
    have hn : (step ndebug p (.deser g .null) b (.value w)).notify = false := by
      simp [step, Event.isEnd]
    obtain ⟨hf, _⟩ := peel ndebug p ctx hctx g .null b _ _ s h hn
    obtain ⟨_, g1, hg1, hsame⟩ := step_leaf_same ndebug p g b _ (Or.inr ⟨w, rfl⟩) hf
    refine ⟨g1, (step ndebug p (.deser g .null) b (.value w)).bytes, ?_, hsame⟩
    rw [feedQuiet, if_pos ⟨hf, hn⟩, hg1]
    rfl
  | .array xs, ctx, hctx, g, b, rest, s, hst, h => by
    rw [Json.events, List.cons_append, List.cons_append, List.append_assoc] at h
    rw [Json.events, List.cons_append]
    have hn : (step ndebug p (.deser g .null) b .StartArray).notify = false := by
      simp [step, Event.isEnd]
    obtain ⟨hf, h1⟩ := peel ndebug p ctx hctx g .null b _ _ s h hn
    obtain ⟨_, g1, c, hg1, hT, hB, hS, hsv, hc⟩ :=
      step_start_shape ndebug p g b .StartArray .IN_ARRAY (Or.inr ⟨rfl, rfl⟩) hst hf
    rw [hg1] at h1
    rw [feedQuiet, if_pos ⟨hf, hn⟩, hg1]
    rcases hc with rfl | ⟨gc, rfl, hgs, hgb⟩
    · rw [feedQuiet_append ndebug p _ _ _ _ _ _
        (skip_elements ndebug p g1 hS _ xs 1 (by decide)),
        feedQuiet_cons ndebug p _ _ _ _ _ _
        (step_skip_done ndebug p g1 _ .EndArray g.state g.saved_state hS hsv (Or.inr rfl))]
      exact ⟨_, _, rfl, hT, hB, rfl, rfl⟩
    · have h2 : feed ndebug p ⟨wrap (ctx ++ [g1]) (.deser gc .null),
          (step ndebug p (.deser g .null) b .StartArray).bytes⟩
          (Json.eventsOfElements xs ++ ([.EndArray] ++ rest)) = (s, none) := by
        rw [wrap_append]; exact h1
      have hctx2 : ∀ f ∈ ctx ++ [g1], f.state = .RECURSED := by
        intro f hf2
        rcases List.mem_append.mp hf2 with hf2 | hf2
        · exact hctx f hf2
        · simp at hf2; rw [hf2]; exact hS
      obtain ⟨gc1, b1, hq, hsame⟩ := doc_elements ndebug p xs (ctx ++ [g1]) hctx2 gc _ _ s hgs h2
      have hq2 := feedQuiet_child ndebug p g1 hS _ _ _ _ _ _ hq
      obtain ⟨F1, hend, hT1, hB1, hS1, hsv1⟩ := step_end_child ndebug p g1 gc1 b1 .EndArray
        g.state g.saved_state hS hsv (Or.inr ⟨hsame.2.2.1.trans hgs, rfl⟩)
        (hsame.2.1 ▸ hgb)
      rw [feedQuiet_append ndebug p _ _ _ _ _ _ hq2,
        feedQuiet_cons ndebug p _ _ _ _ _ _ hend]
      exact ⟨F1, b1, rfl, hT1.trans hT, hB1.trans hB, hS1, hsv1⟩
  | .object ms, ctx, hctx, g, b, rest, s, hst, h => by
    rw [Json.events, List.cons_append, List.cons_append, List.append_assoc] at h
    rw [Json.events, List.cons_append]
    have hn : (step ndebug p (.deser g .null) b .StartObject).notify = false := by
      simp [step, Event.isEnd]
    obtain ⟨hf, h1⟩ := peel ndebug p ctx hctx g .null b _ _ s h hn
    obtain ⟨_, g1, c, hg1, hT, hB, hS, hsv, hc⟩ :=
      step_start_shape ndebug p g b .StartObject .IN_OBJECT (Or.inl ⟨rfl, rfl⟩) hst hf
    rw [hg1] at h1
    rw [feedQuiet, if_pos ⟨hf, hn⟩, hg1]
    rcases hc with rfl | ⟨gc, rfl, hgs, hgb⟩
    · rw [feedQuiet_append ndebug p _ _ _ _ _ _
        (skip_members ndebug p g1 hS _ ms 1 (by decide)),
        feedQuiet_cons ndebug p _ _ _ _ _ _
        (step_skip_done ndebug p g1 _ .EndObject g.state g.saved_state hS hsv (Or.inl rfl))]
      exact ⟨_, _, rfl, hT, hB, rfl, rfl⟩
    · have h2 : feed ndebug p ⟨wrap (ctx ++ [g1]) (.deser gc .null),
          (step ndebug p (.deser g .null) b .StartObject).bytes⟩
          (Json.eventsOfMembers ms ++ ([.EndObject] ++ rest)) = (s, none) := by
        rw [wrap_append]; exact h1
      have hctx2 : ∀ f ∈ ctx ++ [g1], f.state = .RECURSED := by
        intro f hf2
        rcases List.mem_append.mp hf2 with hf2 | hf2
        · exact hctx f hf2
        · simp at hf2; rw [hf2]; exact hS
      obtain ⟨gc1, b1, hq, hsame⟩ := doc_members ndebug p ms (ctx ++ [g1]) hctx2 gc _ _ s hgs h2
      have hq2 := feedQuiet_child ndebug p g1 hS _ _ _ _ _ _ hq
      obtain ⟨F1, hend, hT1, hB1, hS1, hsv1⟩ := step_end_child ndebug p g1 gc1 b1 .EndObject
        g.state g.saved_state hS hsv (Or.inl ⟨hsame.2.2.1.trans hgs, rfl⟩)
        (hsame.2.1 ▸ hgb)
      rw [feedQuiet_append ndebug p _ _ _ _ _ _ hq2,
        feedQuiet_cons ndebug p _ _ _ _ _ _ hend]
      exact ⟨F1, b1, rfl, hT1.trans hT, hB1.trans hB, hS1, hsv1⟩
theorem doc_elements (ndebug : Bool) (p : SerializeProperties) :
    ∀ (xs : List Json) (ctx : List Frame), (∀ f ∈ ctx, f.state = .RECURSED) →
    ∀ (g : Frame) (b : Option Int) (rest : List Event) (s : Session),
      g.state = .IN_ARRAY →
      feed ndebug p ⟨wrap ctx (.deser g .null), b⟩ (Json.eventsOfElements xs ++ rest)
        = (s, none) →
      ∃ g1 b1, feedQuiet ndebug p (.deser g .null) b (Json.eventsOfElements xs)
          = some (.deser g1 .null, b1) ∧ Frame.same g g1
  | [], ctx, hctx, g, b, rest, s, _, h => ⟨g, b, rfl, rfl, rfl, rfl, rfl⟩
  | x :: xs, ctx, hctx, g, b, rest, s, hst, h => by
    rw [Json.eventsOfElements, List.append_assoc] at h
    rw [Json.eventsOfElements]
    obtain ⟨g1, b1, hq1, hs1⟩ := doc_json ndebug p x ctx hctx g b _ s (Or.inr hst) h
    have h1 := feed_after_quiet ndebug p ctx hctx g .null b _ _ _ _ s h hq1
    obtain ⟨g2, b2, hq2, hs2⟩ := doc_elements ndebug p xs ctx hctx g1 b1 rest s
      (hs1.2.2.1.trans hst) h1
    rw [feedQuiet_append ndebug p _ _ _ _ _ _ hq1]
    exact ⟨g2, b2, hq2, hs2.1.trans hs1.1, hs2.2.1.trans hs1.2.1, hs2.2.2.1.trans hs1.2.2.1,
      hs2.2.2.2.trans hs1.2.2.2⟩
theorem doc_members (ndebug : Bool) (p : SerializeProperties) :
    ∀ (ms : List (String × Json)) (ctx : List Frame), (∀ f ∈ ctx, f.state = .RECURSED) →
    ∀ (g : Frame) (b : Option Int) (rest : List Event) (s : Session),
      g.state = .IN_OBJECT →
      feed ndebug p ⟨wrap ctx (.deser g .null), b⟩ (Json.eventsOfMembers ms ++ rest)
        = (s, none) →
      ∃ g1 b1, feedQuiet ndebug p (.deser g .null) b (Json.eventsOfMembers ms)
          = some (.deser g1 .null, b1) ∧ Frame.same g g1
  | [], ctx, hctx, g, b, rest, s, _, h => ⟨g, b, rfl, rfl, rfl, rfl, rfl⟩
  | (k, x) :: ms, ctx, hctx, g, b, rest, s, hst, h => by
    rw [Json.eventsOfMembers, List.cons_append, List.cons_append, List.append_assoc] at h
    rw [Json.eventsOfMembers, List.cons_append]
    have hn : (step ndebug p (.deser g .null) b (.Key k)).notify = false := by
      simp [step, Event.isEnd]
    obtain ⟨hf, h0⟩ := peel ndebug p ctx hctx g .null b _ _ s h hn
    obtain ⟨_, g0, hg0, hs0⟩ := step_leaf_same ndebug p g b _ (Or.inl ⟨k, rfl⟩) hf
    rw [hg0] at h0
    rw [feedQuiet, if_pos ⟨hf, hn⟩, hg0]
    obtain ⟨g1, b1, hq1, hs1⟩ := doc_json ndebug p x ctx hctx g0 _ _ s
      (Or.inl (hs0.2.2.1.trans hst)) h0
    have h1 := feed_after_quiet ndebug p ctx hctx g0 .null _ _ _ _ _ s h0 hq1
    obtain ⟨g2, b2, hq2, hs2⟩ := doc_members ndebug p ms ctx hctx g1 b1 rest s
      ((hs1.2.2.1.trans hs0.2.2.1).trans hst) h1
    rw [feedQuiet_append ndebug p _ _ _ _ _ _ hq1]
    exact ⟨g2, b2, hq2, (hs2.1.trans hs1.1).trans hs0.1,
      (hs2.2.1.trans hs1.2.1).trans hs0.2.1,
      (hs2.2.2.1.trans hs1.2.2.1).trans hs0.2.2.1,
      (hs2.2.2.2.trans hs1.2.2.2).trans hs0.2.2.2⟩
end


theorem object_document_done (ndebug : Bool) (p : SerializeProperties) (T : Ty) (object : Val)
    (ms : List (String × Json)) (s : Session)
    (h : feed ndebug p (RapidJsonDeserializer p T object) (Json.object ms).events = (s, none)) :
    ∃ obj1, s.handler = .deser ⟨T, .root, obj1, "", .DONE, []⟩ .null := by
  rw [Json.events, List.cons_append, feed_cons] at h
  have e1 : step ndebug p (RapidJsonDeserializer p T object).handler
        (RapidJsonDeserializer p T object).bytes .StartObject
      = ⟨.deser ⟨T, .root, object, "", .IN_OBJECT, []⟩ .null,
          (RapidJsonDeserializer p T object).bytes, false, none⟩ := by
    simp [RapidJsonDeserializer, step, doEvent, DoStartObject, Event.isEnd]
  rw [e1] at h
  dsimp only at h
  have h0 : feed ndebug p ⟨wrap [] (.deser ⟨T, .root, object, "", .IN_OBJECT, []⟩ .null),
      (RapidJsonDeserializer p T object).bytes⟩ (Json.eventsOfMembers ms ++ [.EndObject])
      = (s, none) := h
  obtain ⟨g1, b1, hq, hT, hB, hS, hsv⟩ := doc_members ndebug p ms [] (by simp) _ _ _ s rfl h0
  have h1 := feed_after_quiet ndebug p [] (by simp) _ .null _ _ _ _ _ s h0 hq
  obtain ⟨T1, bd1, o1, nm1, st1, sv1⟩ := g1
  simp only at hT hB hS hsv
  subst hT hB hS hsv
  simp only [wrap, feed_cons, step, doEvent, DoEndObject, feed_nil, Prod.mk.injEq,
    and_true] at h1
  exact ⟨o1, by rw [← h1]⟩

/-- C14 (independent reuse, amended).  Let a fresh root handler for `T` process a well-formed
object document `d1` without failure.  Then every well-formed object document `d2` fed
afterwards through the same handler has the same outcome (the same session, counter included,
and the same failure or success) as `d2` fed alone through a fresh handler bound to a
destination that holds what `d1` left in it. -/
theorem independent_reuse (ndebug : Bool) (p : SerializeProperties) (T : Ty) (object : Val)
    (ms1 ms2 : List (String × Json)) (s1 : Session)
    (h1 : feed ndebug p (RapidJsonDeserializer p T object) (Json.object ms1).events
      = (s1, none)) :
    feed ndebug p (RapidJsonDeserializer p T object)
        ((Json.object ms1).events ++ (Json.object ms2).events)
      = feed ndebug p (RapidJsonDeserializer p T s1.destination) (Json.object ms2).events := by
  obtain ⟨obj1, hs⟩ := object_document_done ndebug p T object ms1 s1 h1
  have hd : s1.destination = obj1 := by
    simp [Session.destination, hs, Handler.view]
  rw [hd, Json.events.eq_3 ms2, List.cons_append]
  exact rearm_feed ndebug p T object _ _ s1 obj1 h1 hs

theorem independent_reuse_witness :
    feed false SerializeProperties.default
        (RapidJsonDeserializer SerializeProperties.default
          (.record [("id", .int .i32), ("name", .string)]) (.record [.int 0, .str ""]))
        ((Json.object [("id", .leaf (.int 1)), ("name", .leaf (.string "a"))]).events ++
          (Json.object [("id", .leaf (.int 2))]).events)
      = feed false SerializeProperties.default
        (RapidJsonDeserializer SerializeProperties.default
          (.record [("id", .int .i32), ("name", .string)]) (.record [.int 1, .str "a"]))
        (Json.object [("id", .leaf (.int 2))]).events :=
  independent_reuse false SerializeProperties.default _ _ _ _
    ⟨.deser ⟨.record [("id", .int .i32), ("name", .string)], .root,
        .record [.int 1, .str "a"], "", .DONE, []⟩ .null, some (1024 * 1024 - 4 - 32)⟩
    (by rfl)

/-! ## Recursion into a child and resumption -/

theorem feedQuiet_prefix (ndebug : Bool) (p : SerializeProperties) :
    ∀ (pre post : List Event) (h : Handler) (b : Option Int) (r : Handler × Option Int),
      feedQuiet ndebug p h b (pre ++ post) = some r →
      ∃ h1 b1, feedQuiet ndebug p h b pre = some (h1, b1)
  | [], _, h, b, _, _ => ⟨h, b, rfl⟩
  | e :: pre, post, h, b, r, hq => by
    rw [List.cons_append, feedQuiet] at hq
    rw [feedQuiet]
    split at hq
    · rename_i hc
      rw [if_pos hc]
      exact feedQuiet_prefix ndebug p pre post _ _ r hq
    · cases hq

theorem skip_step (ndebug : Bool) (p : SerializeProperties) (n : Int) (b : Option Int)
    (e : Event) : ∃ n1, (step ndebug p (.skip n) b e).handler = .skip n1 ∧
      (step ndebug p (.skip n) b e).bytes = b ∧ (step ndebug p (.skip n) b e).failure = none := by
  cases e <;> exact ⟨_, rfl, rfl, rfl⟩

theorem feedQuiet_skip_child (ndebug : Bool) (p : SerializeProperties) (F : Frame)
    (hF : F.state = .RECURSED) :
    ∀ (evs : List Event) (n : Int) (b : Option Int) (a1 : Handler) (b1 : Option Int),
      feedQuiet ndebug p (.skip n) b evs = some (a1, b1) →
      feedQuiet ndebug p (.deser F (.skip n)) b evs = some (.deser F a1, b1) ∧
        ∃ n1, a1 = .skip n1
  | [], n, b, a1, b1, h => by
    simp only [feedQuiet, Option.some.injEq, Prod.mk.injEq] at h
    rw [← h.1, ← h.2]
    exact ⟨rfl, n, rfl⟩
  | e :: evs, n, b, a1, b1, h => by
    rw [feedQuiet] at h
    split at h
    · rename_i hq
      obtain ⟨n1, hn1, _, _⟩ := skip_step ndebug p n b e
      have hs : step ndebug p (.deser F (.skip n)) b e
          = ⟨.deser F (step ndebug p (.skip n) b e).handler,
              (step ndebug p (.skip n) b e).bytes, false, none⟩ := by
        have hc := cassert_recursed ndebug F hF
        cases e <;> simp_all [step, afterChild] <;> (intro hle; omega)
      rw [feedQuiet_cons ndebug p _ _ _ _ _ _ hs]
      rw [hn1] at h ⊢
      exact feedQuiet_skip_child ndebug p F hF evs n1 _ a1 b1 h
    · cases h

theorem skip_alone_cons (ndebug : Bool) (p : SerializeProperties) (n n1 : Int) (b : Option Int)
    (e : Event) (rest : List Event)
    (hs : step ndebug p (.skip n) b e = ⟨.skip n1, b, false, none⟩) :
    feedQuiet ndebug p (.skip n) b (e :: rest) = feedQuiet ndebug p (.skip n1) b rest :=
  feedQuiet_cons ndebug p _ _ _ _ _ _ hs

mutual
theorem skip_alone_json (ndebug : Bool) (p : SerializeProperties) (b : Option Int) :
    ∀ (j : Json) (n : Int), 0 < n →
      feedQuiet ndebug p (.skip n) b j.events = some (.skip n, b)
  | .leaf w, n, _ => by
    rw [Json.events, skip_alone_cons ndebug p n n b _ _ (by rfl)]
    rfl
  | .array xs, n, hn => by
    rw [Json.events, List.cons_append, skip_alone_cons ndebug p n (n + 1) b _ _ (by rfl),
      feedQuiet_append ndebug p _ _ _ _ _ _ (skip_alone_elements ndebug p b xs (n + 1) (by omega)),
      skip_alone_cons ndebug p (n + 1) n b _ _ (by
        simp only [step, Int.add_sub_cancel]
        congr 1
        simp; omega)]
    rfl
  | .object ms, n, hn => by
    rw [Json.events, List.cons_append, skip_alone_cons ndebug p n (n + 1) b _ _ (by rfl),
      feedQuiet_append ndebug p _ _ _ _ _ _ (skip_alone_members ndebug p b ms (n + 1) (by omega)),
      skip_alone_cons ndebug p (n + 1) n b _ _ (by
        simp only [step, Int.add_sub_cancel]
        congr 1
        simp; omega)]
    rfl
theorem skip_alone_elements (ndebug : Bool) (p : SerializeProperties) (b : Option Int) :
    ∀ (xs : List Json) (n : Int), 0 < n →
      feedQuiet ndebug p (.skip n) b (Json.eventsOfElements xs) = some (.skip n, b)
  | [], n, _ => rfl
  | x :: xs, n, hn => by
    rw [Json.eventsOfElements,
      feedQuiet_append ndebug p _ _ _ _ _ _ (skip_alone_json ndebug p b x n hn)]
    exact skip_alone_elements ndebug p b xs n hn
theorem skip_alone_members (ndebug : Bool) (p : SerializeProperties) (b : Option Int) :
    ∀ (ms : List (String × Json)) (n : Int), 0 < n →
      feedQuiet ndebug p (.skip n) b (Json.eventsOfMembers ms) = some (.skip n, b)
  | [], n, _ => rfl
  | (k, x) :: ms, n, hn => by
    rw [Json.eventsOfMembers, List.cons_append, skip_alone_cons ndebug p n n b _ _ (by rfl),
      feedQuiet_append ndebug p _ _ _ _ _ _ (skip_alone_json ndebug p b x n hn)]
    exact skip_alone_members ndebug p b ms n hn
end

theorem RecurseToMember_name (ndebug : Bool) (p : SerializeProperties) (f : Frame)
    (b : Option Int) :
    (RecurseToMember ndebug p f b).failure = none →
      (RecurseToMember ndebug p f b).frame.current_name = "" ∧
      (RecurseToMember ndebug p f b).bytes = b := by
  unfold RecurseToMember
  dsimp only
  split <;> (try split) <;> (try split) <;> (try split) <;> (try split) <;>
    intro hf <;> first | exact ⟨rfl, rfl⟩ | simp at hf

theorem RecurseToContainerValue_name (f : Frame) (b : Option Int) :
    (RecurseToContainerValue f b).failure = none →
      (RecurseToContainerValue f b).frame.current_name = f.current_name ∧
      (RecurseToContainerValue f b).bytes = b := by
  unfold RecurseToContainerValue
  split <;> (try split) <;> intro hf <;> first | exact ⟨rfl, rfl⟩ | simp at hf

theorem enterChild_frame (t : State) (r : Res) :
    (enterChild t r).frame = r.frame ∧ (enterChild t r).bytes = r.bytes ∧
      (enterChild t r).failure = r.failure := by
  unfold enterChild
  split
  · exact ⟨rfl, rfl, rfl⟩
  · rename_i h
    exact ⟨rfl, rfl, rfl⟩

theorem step_start_name (ndebug : Bool) (p : SerializeProperties) (g : Frame)
    (b : Option Int) (e : Event) (he : e = .StartObject ∨ e = .StartArray)
    (hst : g.state = .IN_OBJECT ∨ g.state = .IN_ARRAY)
    (hnm : g.state = .IN_ARRAY → g.current_name = "")
    (hf : (step ndebug p (.deser g .null) b e).failure = none) (g1 : Frame) (c : Handler)
    (hh : (step ndebug p (.deser g .null) b e).handler = .deser g1 c) :
    g1.current_name = "" ∧ (step ndebug p (.deser g .null) b e).bytes = b := by
  rcases he with rfl | rfl <;> rcases hst with hst | hst <;>
    simp only [step, doEvent, DoStartObject, DoStartArray, hst, Handler.deser.injEq] at hf hh ⊢ <;>
    rw [← hh.1]
  · rw [(enterChild_frame _ _).2.2] at hf
    rw [(enterChild_frame _ _).1, (enterChild_frame _ _).2.1]
    exact RecurseToMember_name ndebug p g b hf
  · rw [(enterChild_frame _ _).2.2] at hf
    rw [(enterChild_frame _ _).1, (enterChild_frame _ _).2.1]
    have := RecurseToContainerValue_name g b hf
    exact ⟨this.1.trans (hnm hst), this.2⟩
  · rw [(enterChild_frame _ _).2.2] at hf
    rw [(enterChild_frame _ _).1, (enterChild_frame _ _).2.1]
    exact RecurseToMember_name ndebug p g b hf
  · rw [(enterChild_frame _ _).2.2] at hf
    rw [(enterChild_frame _ _).1, (enterChild_frame _ _).2.1]
    have := RecurseToContainerValue_name g b hf
    exact ⟨this.1.trans (hnm hst), this.2⟩

theorem step_end_child_name (ndebug : Bool) (p : SerializeProperties) (F gc : Frame)
    (b : Option Int) (e : Event) (st : State) (sv : List State)
    (hF : F.state = .RECURSED) (hsv : F.saved_state = st :: sv)
    (hgc : (gc.state = .IN_OBJECT ∧ e = .EndObject) ∨ (gc.state = .IN_ARRAY ∧ e = .EndArray))
    (hb : gc.binding.HaveParent = true) :
    step ndebug p (.deser F (.deser gc .null)) b e
      = ⟨.deser { F with state := st, saved_state := sv,
                         object := plug F.object gc.binding gc.object } .null, b, false, none⟩ := by
  rw [step, cassert_recursed ndebug F hF]
  rcases hgc with ⟨hs, rfl⟩ | ⟨hs, rfl⟩ <;>
    simp [step, doEvent, DoEndObject, DoEndArray, hs, afterChild, hb, OnChildIsDone, hF, hsv,
      cassert, Handler.bound, Event.isEnd]


theorem resume_generic (ndebug : Bool) (p : SerializeProperties) (e eEnd : Event)
    (body : List Event) (t : State)
    (he : (e = .StartObject ∧ t = .IN_OBJECT ∧ eEnd = .EndObject) ∨
      (e = .StartArray ∧ t = .IN_ARRAY ∧ eEnd = .EndArray))
    (hdoc : ∀ (ctx : List Frame), (∀ f ∈ ctx, f.state = .RECURSED) →
      ∀ (gc : Frame) (b : Option Int) (rest : List Event) (s : Session), gc.state = t →
        feed ndebug p ⟨wrap ctx (.deser gc .null), b⟩ (body ++ rest) = (s, none) →
        ∃ g1 b1, feedQuiet ndebug p (.deser gc .null) b body = some (.deser g1 .null, b1) ∧
          Frame.same gc g1)
    (hskip : ∀ b, feedQuiet ndebug p (.skip 1) b body = some (.skip 1, b))
    (ctx : List Frame) (hctx : ∀ f ∈ ctx, f.state = .RECURSED) (g : Frame) (b : Option Int)
    (rest : List Event) (s : Session)
    (hst : g.state = .IN_OBJECT ∨ g.state = .IN_ARRAY) (hsv : g.saved_state = [])
    (hnm : g.state = .IN_ARRAY → g.current_name = "")
    (h : feed ndebug p ⟨wrap ctx (.deser g .null), b⟩ (e :: (body ++ (eEnd :: rest)))
      = (s, none)) :
    ∃ (g1 : Frame) (c : Handler),
      step ndebug p (.deser g .null) b e = ⟨.deser g1 c, b, false, none⟩ ∧
      g1.state = .RECURSED ∧ g1.saved_state = [g.state] ∧ c ≠ .null ∧
      (∀ pre post, body = pre ++ post → ∃ c1 b2, c1 ≠ .null ∧
        feedQuiet ndebug p (.deser g1 c) b pre = some (.deser g1 c1, b2)) ∧
      ∃ g2 b3, feedQuiet ndebug p (.deser g .null) b (e :: (body ++ [eEnd]))
          = some (.deser g2 .null, b3) ∧
        g2.T = g.T ∧ g2.binding = g.binding ∧ g2.state = g.state ∧ g2.saved_state = [] ∧
        g2.current_name = "" := by
  have hise : e = .StartObject ∨ e = .StartArray := by
    rcases he with ⟨h1, _, _⟩ | ⟨h1, _, _⟩
    · exact Or.inl h1
    · exact Or.inr h1
  have hn : (step ndebug p (.deser g .null) b e).notify = false := by
    rcases hise with rfl | rfl <;> simp [step, Event.isEnd]
  obtain ⟨hf, h1⟩ := peel ndebug p ctx hctx g .null b _ _ s h hn
  obtain ⟨_, g1, c, hg1, hT, hB, hS, hsv1, hc⟩ :=
    step_start_shape ndebug p g b e t (by
      rcases he with ⟨h1, h2, _⟩ | ⟨h1, h2, _⟩
      · exact Or.inl ⟨h1, h2⟩
      · exact Or.inr ⟨h1, h2⟩) hst hf
  obtain ⟨hname, hbytes⟩ := step_start_name ndebug p g b e hise hst hnm hf g1 c hg1
  have hstep : step ndebug p (.deser g .null) b e = ⟨.deser g1 c, b, false, none⟩ := by
    rcases hx : step ndebug p (.deser g .null) b e with ⟨hh, bb, nn, ff⟩
    rw [hx] at hg1 hbytes hn hf
    simp only at hg1 hbytes hn hf
    rw [hg1, hbytes, hn, hf]
  rw [hg1, hbytes] at h1
  rw [hsv] at hsv1
  refine ⟨g1, c, hstep, hS, hsv1, ?_, ?_⟩
  · rcases hc with rfl | ⟨gc, rfl, _, _⟩ <;> simp
  rcases hc with rfl | ⟨gc, rfl, hgs, hgb⟩
  · -- skip handler
    have hq := (feedQuiet_skip_child ndebug p g1 hS body 1 b _ _ (hskip b)).1
    have hendstep := step_skip_done ndebug p g1 b eEnd g.state [] hS hsv1 (by
      rcases he with ⟨_, _, h3⟩ | ⟨_, _, h3⟩
      · exact Or.inl h3
      · exact Or.inr h3)
    refine ⟨?_, { g1 with state := g.state, saved_state := [] }, b, ?_, hT, hB, rfl, rfl,
      hname⟩
    · intro pre post hpp
      rw [hpp] at hskip
      obtain ⟨h1a, b1a, hqa⟩ := feedQuiet_prefix ndebug p pre post _ _ _ (hskip b)
      obtain ⟨hqb, n1, hn1⟩ := feedQuiet_skip_child ndebug p g1 hS pre 1 b _ _ hqa
      exact ⟨h1a, b1a, by rw [hn1]; simp, hqb⟩
    · rw [feedQuiet_cons ndebug p _ _ _ _ _ _ hstep,
        feedQuiet_append ndebug p _ _ _ _ _ _ hq,
        feedQuiet_cons ndebug p _ _ _ _ _ _ hendstep]
      rfl
  · -- child deserializer
    have hctx2 : ∀ f ∈ ctx ++ [g1], f.state = .RECURSED := by
      intro f hf2
      rcases List.mem_append.mp hf2 with hf2 | hf2
      · exact hctx f hf2
      · simp at hf2; rw [hf2]; exact hS
    have h2 : feed ndebug p ⟨wrap (ctx ++ [g1]) (.deser gc .null), b⟩
        (body ++ (eEnd :: rest)) = (s, none) := by
      rw [wrap_append]; exact h1
    obtain ⟨gc1, b1, hq, hsame⟩ := hdoc (ctx ++ [g1]) hctx2 gc b _ s hgs h2
    have hq2 := feedQuiet_child ndebug p g1 hS _ _ _ _ _ _ hq
    have hend := step_end_child_name ndebug p g1 gc1 b1 eEnd g.state [] hS hsv1 (by
      rcases he with ⟨_, h2, h3⟩ | ⟨_, h2, h3⟩
      · exact Or.inl ⟨hsame.2.2.1.trans (hgs.trans h2), h3⟩
      · exact Or.inr ⟨hsame.2.2.1.trans (hgs.trans h2), h3⟩) (hsame.2.1 ▸ hgb)
    refine ⟨?_, { g1 with state := g.state, saved_state := [],
                          object := plug g1.object gc1.binding gc1.object }, b1, ?_, hT, hB,
      rfl, rfl, hname⟩
    · intro pre post hpp
      rw [hpp] at hq
      obtain ⟨h1a, b1a, hqa⟩ := feedQuiet_prefix ndebug p pre post _ _ _ hq
      obtain ⟨ga, ca, hga⟩ := feedQuiet_deser ndebug p pre gc .null b h1a b1a hqa
      have hqb := feedQuiet_child ndebug p g1 hS _ _ _ _ _ _ hqa
      exact ⟨h1a, b1a, by rw [hga]; simp, hqb⟩
    · rw [feedQuiet_cons ndebug p _ _ _ _ _ _ hstep,
        feedQuiet_append ndebug p _ _ _ _ _ _ hq2,
        feedQuiet_cons ndebug p _ _ _ _ _ _ hend]
      rfl


/-- C30 (recursion and resumption).  Let a handler without child be in `IN_OBJECT` or
`IN_ARRAY` with an empty save-stack (and, in `IN_ARRAY`, no buffered name), anywhere in a
handler tree, and let the events of a well-formed object or array value be handled without
failure.  Then (1) on the opening event the handler installs a child and is `RECURSED` with
its former state as the only entry of the save-stack; (2) after every prefix of the events
between the opening and the closing event the handler still has a child and its own data
members are the same; (3) after the closing event the handler has no child, is in the state
it had before, the save-stack is empty and no name is buffered. -/
theorem recursion_resumption (ndebug : Bool) (p : SerializeProperties) (j : Json)
    (ctx : List Frame) (hctx : ∀ f ∈ ctx, f.state = .RECURSED) (g : Frame) (b : Option Int)
    (rest : List Event) (s : Session)
    (hj : ∀ w, j ≠ .leaf w)
    (hst : g.state = .IN_OBJECT ∨ g.state = .IN_ARRAY) (hsv : g.saved_state = [])
    (hnm : g.state = .IN_ARRAY → g.current_name = "")
    (h : feed ndebug p ⟨wrap ctx (.deser g .null), b⟩ (j.events ++ rest) = (s, none)) :
    ∃ (e eEnd : Event) (body : List Event) (g1 : Frame) (c : Handler),
      j.events = e :: (body ++ [eEnd]) ∧
      step ndebug p (.deser g .null) b e = ⟨.deser g1 c, b, false, none⟩ ∧
      g1.state = .RECURSED ∧ g1.saved_state = [g.state] ∧ c ≠ .null ∧
      (∀ pre post, body = pre ++ post → ∃ c1 b2, c1 ≠ .null ∧
        feedQuiet ndebug p (.deser g1 c) b pre = some (.deser g1 c1, b2)) ∧
      ∃ g2 b3, feedQuiet ndebug p (.deser g .null) b j.events = some (.deser g2 .null, b3) ∧
        g2.T = g.T ∧ g2.binding = g.binding ∧ g2.state = g.state ∧ g2.saved_state = [] ∧
        g2.current_name = "" := by
  cases j with
  | leaf w => exact absurd rfl (hj w)
  | array xs =>
    rw [Json.events, List.cons_append, List.cons_append, List.append_assoc,
      List.singleton_append] at h
    obtain ⟨g1, c, h1, h2, h3, h4, h5, h6⟩ := resume_generic ndebug p .StartArray .EndArray
      (Json.eventsOfElements xs) .IN_ARRAY (Or.inr ⟨rfl, rfl, rfl⟩)
      (doc_elements ndebug p xs) (fun b => skip_alone_elements ndebug p b xs 1 (by decide))
      ctx hctx g b rest s hst hsv hnm h
    refine ⟨.StartArray, .EndArray, Json.eventsOfElements xs, g1, c, ?_, h1, h2, h3, h4, h5, ?_⟩
    · rw [Json.events, List.cons_append]
    · rw [Json.events, List.cons_append]
      exact h6
  | object ms =>
    rw [Json.events, List.cons_append, List.cons_append, List.append_assoc,
      List.singleton_append] at h
    obtain ⟨g1, c, h1, h2, h3, h4, h5, h6⟩ := resume_generic ndebug p .StartObject .EndObject
      (Json.eventsOfMembers ms) .IN_OBJECT (Or.inl ⟨rfl, rfl, rfl⟩)
      (doc_members ndebug p ms) (fun b => skip_alone_members ndebug p b ms 1 (by decide))
      ctx hctx g b rest s hst hsv hnm h
    refine ⟨.StartObject, .EndObject, Json.eventsOfMembers ms, g1, c, ?_, h1, h2, h3, h4, h5, ?_⟩
    · rw [Json.events, List.cons_append]
    · rw [Json.events, List.cons_append]
      exact h6

theorem recursion_resumption_witness :
    ∃ (e eEnd : Event) (body : List Event) (g1 : Frame) (c : Handler),
      (Json.array [.leaf (.string "a")]).events = e :: (body ++ [eEnd]) ∧
      step false SerializeProperties.default
        (.deser ⟨.record [("tags", .container .string)], .root, .record [.seq []], "tags",
          .IN_OBJECT, []⟩ .null) (some 1000) e = ⟨.deser g1 c, some 1000, false, none⟩ ∧
      g1.state = .RECURSED ∧ g1.saved_state = [.IN_OBJECT] ∧ c ≠ .null ∧
      (∀ pre post, body = pre ++ post → ∃ c1 b2, c1 ≠ .null ∧
        feedQuiet false SerializeProperties.default (.deser g1 c) (some 1000) pre
          = some (.deser g1 c1, b2)) ∧
      ∃ g2 b3, feedQuiet false SerializeProperties.default
          (.deser ⟨.record [("tags", .container .string)], .root, .record [.seq []], "tags",
            .IN_OBJECT, []⟩ .null) (some 1000) (Json.array [.leaf (.string "a")]).events
          = some (.deser g2 .null, b3) ∧
        g2.T = .record [("tags", .container .string)] ∧ g2.binding = .root ∧
        g2.state = .IN_OBJECT ∧ g2.saved_state = [] ∧ g2.current_name = "" :=
  recursion_resumption false SerializeProperties.default (.array [.leaf (.string "a")]) []
    (by simp)
    ⟨.record [("tags", .container .string)], .root, .record [.seq []], "tags", .IN_OBJECT, []⟩
    (some 1000) []
    ⟨.deser ⟨.record [("tags", .container .string)], .root, .record [.seq [.str "a"]], "",
        .IN_OBJECT, []⟩ .null, some 944⟩
    (by intro w hw; cases hw) (Or.inl rfl) rfl (by intro hh; cases hh) (by rfl)

/-! ## The inserter after `Done()` and in single-object mode -/

/-- C21 (inserter exhaustion).  After `Done()` the inserter is in `DONE`; every `Add(v)` then
throws `RestcCppException`, emits no event and leaves the inserter as it is, and a further
`Done()` emits no event and leaves it as it is. -/
theorem inserter_exhausted (ndebug : Bool) (T : Ty) (s : RapidJsonInserter) (v : Val) :
    s.Done.state_ = .DONE ∧
    RapidJsonInserter.Add ndebug T s.Done v = (s.Done, some (.threw .RestcCppException)) ∧
    s.Done.Done = s.Done := by
  refine ⟨rfl, ?_, ?_⟩
  · simp [RapidJsonInserter.Add, RapidJsonInserter.Done]
  · simp [RapidJsonInserter.Done]

/-- C22 (single-object inserter).  On an inserter created with `isList = false`, a second
`Add` that follows a first one that returned is not rejected: it runs `do_serialize` and
the events of the second value follow those of the first; `Add(1)`, `Add(2)` emit `Int 1`,
`Int 2` and leave the inserter in `ITERATING`. -/
theorem inserter_single (ndebug : Bool) (p : SerializeProperties) (T : Ty) :
    (∀ v1 v2 : Val, (do_serialize ndebug p T v1).2 = none →
      RapidJsonInserter.addAll ndebug T (RapidJsonInserter.create false p) [v1, v2]
        = (⟨.ITERATING, false,
              (do_serialize ndebug p T v1).1 ++ (do_serialize ndebug p T v2).1, p⟩,
            (do_serialize ndebug p T v2).2)) ∧
    RapidJsonInserter.addAll false (.int .i32)
        (RapidJsonInserter.create false SerializeProperties.default) [.int 1, .int 2]
      = (⟨.ITERATING, false, [.value (.int 1), .value (.int 2)], SerializeProperties.default⟩,
          none) := by
  refine ⟨?_, rfl⟩
  intro v1 v2 h1
  rcases hd : do_serialize ndebug p T v1 with ⟨e1, r1⟩
  rw [hd] at h1
  dsimp only at h1
  subst h1
  rcases hd2 : do_serialize ndebug p T v2 with ⟨e2, r2⟩
  cases r2 <;>
    simp [RapidJsonInserter.addAll, RapidJsonInserter.Add, RapidJsonInserter.create, hd, hd2]

/-! ## Memory cap and name mapping -/

theorem SetMaxMemoryConsumption_ok (p : SerializeProperties) (v : Int) (h0 : 0 ≤ v)
    (h1 : v ≤ 2 ^ 32 - 1) :
    p.SetMaxMemoryConsumption v = ({ p with max_memory_consumption := v.toNat }, none) := by
  unfold SerializeProperties.SetMaxMemoryConsumption
  rw [if_neg (by omega)]
  have : v % 2 ^ 32 = v := Int.emod_eq_of_lt h0 (by omega)
  rw [this]

theorem SetMaxMemoryConsumption_throws (p : SerializeProperties) (v : Int)
    (h : v < 0 ∨ v > 2 ^ 32 - 1) :
    p.SetMaxMemoryConsumption v = (p, some (.threw .ConstraintException)) := by
  unfold SerializeProperties.SetMaxMemoryConsumption
  rw [if_pos (by omega)]

/-- C23 (memory-cap configuration).  The call `SetMaxMemoryConsumption(v)` throws
`ConstraintException` if and only if `v < 0` or `v > 2^32 - 1`, and then leaves the struct
as it was; otherwise it returns, `GetMaxMemoryConsumption()` is `v` afterwards and no other
member has changed.  A default-constructed `SerializeProperties` has a cap of 1048576,
`ignore_empty_fileds` and `ignore_unknown_properties` set, no exclusion set and no name
mapping. -/
theorem memory_cap_configuration (p : SerializeProperties) (v : Int) :
    ((p.SetMaxMemoryConsumption v).2 = some (.threw .ConstraintException)
      ↔ v < 0 ∨ v > 2 ^ 32 - 1) ∧
    ((p.SetMaxMemoryConsumption v).2 = none ↔ ¬ (v < 0 ∨ v > 2 ^ 32 - 1)) ∧
    (v < 0 ∨ v > 2 ^ 32 - 1 → (p.SetMaxMemoryConsumption v).1 = p) ∧
    (¬ (v < 0 ∨ v > 2 ^ 32 - 1) →
      (p.SetMaxMemoryConsumption v).1.GetMaxMemoryConsumption = v ∧
      (p.SetMaxMemoryConsumption v).1
        = { p with max_memory_consumption := (p.SetMaxMemoryConsumption v).1.max_memory_consumption }) ∧
    SerializeProperties.default.GetMaxMemoryConsumption = 1048576 ∧
    SerializeProperties.default.ignore_empty_fileds = true ∧
    SerializeProperties.default.ignore_unknown_properties = true ∧
    SerializeProperties.default.excluded_names = none ∧
    SerializeProperties.default.name_mapping = none := by
  by_cases h : v < 0 ∨ v > 2 ^ 32 - 1
  · rw [SetMaxMemoryConsumption_throws p v h]
    refine ⟨⟨fun _ => h, fun _ => rfl⟩, ⟨fun hh => (by cases hh), fun hn => absurd h hn⟩,
      fun _ => rfl, fun hn => absurd h hn, rfl, rfl, rfl, rfl, rfl⟩
  · rw [SetMaxMemoryConsumption_ok p v (by omega) (by omega)]
    refine ⟨⟨fun hh => (by cases hh), fun hh => absurd hh h⟩, ⟨fun _ => h, fun _ => rfl⟩,
      fun hh => absurd hh h, fun _ => ⟨?_, rfl⟩, rfl, rfl, rfl, rfl, rfl⟩
    simp only [SerializeProperties.GetMaxMemoryConsumption]
    omega

theorem memory_cap_configuration_witness :
    (SerializeProperties.default.SetMaxMemoryConsumption 4294967296).1
        = SerializeProperties.default ∧
    (SerializeProperties.default.SetMaxMemoryConsumption 4294967295).1.GetMaxMemoryConsumption
        = 4294967295 :=
  ⟨(memory_cap_configuration SerializeProperties.default 4294967296).2.2.1 (by decide),
   ((memory_cap_configuration SerializeProperties.default 4294967295).2.2.2.1 (by decide)).1⟩

/-- C24 (entry points and the cap).  (1) For `maxBytes` within `[0, 2^32 - 1]` the two
overloads build the same policy, with the cap `maxBytes`; (2) outside that range the overload
taking `std::unique_ptr<Reply>&&` throws `ConstraintException`, whereas the overload taking
`Reply&` throws nothing and passes on a policy whose cap is `maxBytes` modulo `2^32`; (3) so
`maxBytes = 2^32` gives the cap 0 and (4) `maxBytes = -1` gives the cap `2^32 - 1`. -/
theorem entry_point_caps (nameMapper : Option JsonFieldMapping) (maxBytes : Int) :
    (0 ≤ maxBytes → maxBytes ≤ 2 ^ 32 - 1 →
      SerializeFromJson_Reply nameMapper maxBytes
        = SerializeFromJson_unique_ptr nameMapper maxBytes ∧
      SerializeFromJson_Reply nameMapper maxBytes
        = ({ SerializeProperties.default with
              max_memory_consumption := maxBytes.toNat, name_mapping := nameMapper }, none)) ∧
    (maxBytes < 0 ∨ maxBytes > 2 ^ 32 - 1 →
      (SerializeFromJson_unique_ptr nameMapper maxBytes).2 = some (.threw .ConstraintException) ∧
      SerializeFromJson_Reply nameMapper maxBytes
        = ({ SerializeProperties.default with
              max_memory_consumption := (maxBytes % 2 ^ 32).toNat,
              name_mapping := nameMapper }, none)) ∧
    SerializeFromJson_Reply nameMapper 4294967296
      = ({ SerializeProperties.default with
            max_memory_consumption := 0, name_mapping := nameMapper }, none) ∧
    SerializeFromJson_Reply nameMapper (-1)
      = ({ SerializeProperties.default with
            max_memory_consumption := 4294967295, name_mapping := nameMapper }, none) := by
  refine ⟨?_, ?_, rfl, rfl⟩
  · intro h0 h1
    have hm : maxBytes % 2 ^ 32 = maxBytes := Int.emod_eq_of_lt h0 (by omega)
    simp only [SerializeFromJson_Reply, SerializeFromJson_unique_ptr,
      SetMaxMemoryConsumption_ok _ maxBytes h0 h1, hm]
    exact ⟨trivial, trivial⟩
  · intro h
    simp only [SerializeFromJson_Reply, SerializeFromJson_unique_ptr,
      SetMaxMemoryConsumption_throws _ maxBytes h]
    exact ⟨trivial, trivial⟩

theorem find_first {α : Type} (q : α → Bool) (pre post : List α) (e : α)
    (he : q e = true) (hpre : ∀ x ∈ pre, q x = false) :
    (pre ++ e :: post).find? q = some e := by
  induction pre with
  | nil => simp [List.find?, he]
  | cons a pre ih =>
    have ha := hpre a (List.mem_cons_self _ _)
    simp only [List.cons_append, List.find?, ha]
    exact ih (fun x hx => hpre x (List.mem_cons_of_mem _ hx))

theorem find_none {α : Type} (q : α → Bool) (xs : List α) (h : ∀ x ∈ xs, q x = false) :
    xs.find? q = none := by
  induction xs with
  | nil => rfl
  | cons a xs ih =>
    simp only [List.find?, h a (List.mem_cons_self _ _)]
    exact ih (fun x hx => h x (List.mem_cons_of_mem _ hx))

/-- C25 (name lookup with identity fallback).  The method `to_json_name(n)` returns the wire
name of the first entry whose native name is `n`, and `n` when there is none;
`to_native_name(n)` returns the native name of the first entry whose wire name is `n`, and
`n` when there is none; `map_name_to_json` is the identity without a mapping and
`to_json_name` of the mapping otherwise. -/
theorem name_lookup (m : JsonFieldMapping) (n : String) :
    (∀ (pre post : List (String × String)) (w : String), m.entries = pre ++ (n, w) :: post →
      (∀ x ∈ pre, x.1 ≠ n) → m.to_json_name n = w) ∧
    ((∀ x ∈ m.entries, x.1 ≠ n) → m.to_json_name n = n) ∧
    (∀ (pre post : List (String × String)) (x : String), m.entries = pre ++ (x, n) :: post →
      (∀ y ∈ pre, y.2 ≠ n) → m.to_native_name n = x) ∧
    ((∀ x ∈ m.entries, x.2 ≠ n) → m.to_native_name n = n) ∧
    (∀ p : SerializeProperties, p.name_mapping = none → p.map_name_to_json n = n) ∧
    (∀ p : SerializeProperties, p.name_mapping = some m →
      p.map_name_to_json n = m.to_json_name n) := by
  refine ⟨?_, ?_, ?_, ?_, ?_, ?_⟩
  · intro pre post w hm hpre
    unfold JsonFieldMapping.to_json_name
    rw [hm, find_first _ pre post (n, w) (by simp) (fun x hx => by
      simpa using fun h => hpre x hx h.symm)]
  · intro h
    unfold JsonFieldMapping.to_json_name
    rw [find_none _ _ (fun x hx => by simpa using fun hh => h x hx hh.symm)]
  · intro pre post x hm hpre
    unfold JsonFieldMapping.to_native_name
    rw [hm, find_first _ pre post (x, n) (by simp) (fun y hy => by
      simpa using fun h => hpre y hy h.symm)]
  · intro h
    unfold JsonFieldMapping.to_native_name
    rw [find_none _ _ (fun x hx => by simpa using fun hh => h x hx hh.symm)]
  · intro p hp
    simp [SerializeProperties.map_name_to_json, hp]
  · intro p hp
    simp [SerializeProperties.map_name_to_json, hp]

theorem name_lookup_witness :
    JsonFieldMapping.to_json_name ⟨[("id", "ident"), ("id", "other")]⟩ "id" = "ident" ∧
    JsonFieldMapping.to_native_name ⟨[("id", "ident")]⟩ "ident" = "id" ∧
    JsonFieldMapping.to_json_name ⟨[("id", "ident")]⟩ "name" = "name" :=
  ⟨(name_lookup ⟨[("id", "ident"), ("id", "other")]⟩ "id").1 [] [("id", "other")] "ident" rfl
      (by simp),
   (name_lookup ⟨[("id", "ident")]⟩ "ident").2.2.1 [] [] "id" rfl (by simp),
   (name_lookup ⟨[("id", "ident")]⟩ "name").2.1 (by simp)⟩

theorem c_str_no_nul (w : String) (h : ∀ c ∈ w.toList, c ≠ Char.ofNat 0) :
    String.mk (c_str w) = w := by
  unfold c_str
  rw [takeWhile_all _ _ (fun c hc => by simpa using h c hc)]
  rfl

/-! ## Events of a handler in `IN_OBJECT` -/

/-- C27 (leaf assignment touches one field).  Let a handler for a record be in `IN_OBJECT`
with a buffered name (non-empty, or assertions compiled out) that `findMember` resolves to
member number `idx` of type `t`, and let a leaf `w` convert to `v` by `assign_value` while
`AddBytes(get_len(w))` does not throw.  Then the callback returns, member `idx` holds `v`,
every other member is as before, the state is still `IN_OBJECT`, the buffered name is empty,
and an enabled counter `c` has become `c - get_len(w)`. -/
theorem leaf_assignment (ndebug : Bool) (p : SerializeProperties)
    (fs : List (String × Ty)) (bd : Binding) (ms : List Val) (sv : List State) (name : String)
    (idx : Nat) (t : Ty) (w : Wire) (v : Val) (b : Option Int)
    (hfind : findMember name fs = some (idx, t))
    (hname : ndebug = true ∨ str_empty name = false)
    (ha : assign_value false t (memberAt (.record ms) idx) w = .ok v)
    (hb : (AddBytes b (get_len w)).2 = none) :
    step ndebug p (.deser ⟨.record fs, bd, .record ms, name, .IN_OBJECT, sv⟩ .null) b (.value w)
      = ⟨.deser ⟨.record fs, bd, .record (ms.set idx v), "", .IN_OBJECT, sv⟩ .null,
          (AddBytes b (get_len w)).1, false, none⟩ ∧
    (idx < ms.length → memberAt (.record (ms.set idx v)) idx = v) ∧
    (∀ i, i ≠ idx → memberAt (.record (ms.set idx v)) i = memberAt (.record ms) i) ∧
    (ms.set idx v).length = ms.length ∧
    (∀ c : Int, b = some c → 0 < c → c < 2 ^ 63 → get_len w ≤ 2 ^ 63 →
      (AddBytes b (get_len w)).1 = some (c - get_len w)) := by
  refine ⟨?_, ?_, ?_, by simp, ?_⟩
  · simp [step, doEvent, SetValue, SetValueOnMember, cassert_name ndebug name hname, hfind,
      hb, ha, setMember, Event.isEnd]
  · intro h
    simp [memberAt, List.getD, h]
  · intro i hi
    simp only [memberAt, List.getD]
    rw [List.get?_eq_getElem?, List.get?_eq_getElem?, List.getElem?_set_ne (Ne.symm hi)]
  · intro c hc h0 h63 hl
    rw [hc, AddBytes_exact c _ h0 h63 hl]

theorem leaf_assignment_witness :
    step false SerializeProperties.default
        (.deser ⟨.record [("id", .int .i32), ("username", .string), ("motto", .string)], .root,
          .record [.int 1, .str "", .str ""], "username", .IN_OBJECT, []⟩ .null)
        (some 1000) (.value (.string "bob"))
      = ⟨.deser ⟨.record [("id", .int .i32), ("username", .string), ("motto", .string)], .root,
          .record [.int 1, .str "bob", .str ""], "", .IN_OBJECT, []⟩ .null, some 968, false,
          none⟩ :=
  (leaf_assignment false SerializeProperties.default
    [("id", .int .i32), ("username", .string), ("motto", .string)] .root
    [.int 1, .str "", .str ""] [] "username" 1 .string (.string "bob") (.str "bob") (some 1000)
    (by rfl) (Or.inr rfl) rfl rfl).1

/-- C28 (key buffering).  (1) With no name buffered, a `Key` event stores the buffered name
and changes nothing else; (2) that name is `to_native_name(key)` when a mapping is configured
and the key itself otherwise; (3) with a name already buffered, `assert(current_name_.empty())`
fails when assertions are compiled in; (4) with `NDEBUG` the callback returns and the new
name replaces the buffered one; (5) so `Key "a", Key "id", Int 5` assigns 5 to `id`. -/
theorem key_buffering (p : SerializeProperties) :
    (∀ (ndebug : Bool) (f : Frame) (b : Option Int) (k : String), f.current_name = "" →
      step ndebug p (.deser f .null) b (.Key k)
        = ⟨.deser { f with current_name := bufferedName p k } .null, b, false, none⟩) ∧
    (∀ k : String, bufferedName p k
        = match p.name_mapping with
          | none => k
          | some m => m.to_native_name k) ∧
    (∀ (f : Frame) (b : Option Int) (k : String), str_empty f.current_name = false →
      step false p (.deser f .null) b (.Key k) = ⟨.deser f .null, b, false, some .aborted⟩) ∧
    (∀ (f : Frame) (b : Option Int) (k : String), str_empty f.current_name = false →
      step true p (.deser f .null) b (.Key k)
        = ⟨.deser { f with current_name := bufferedName p k } .null, b, false, none⟩) ∧
    feed true SerializeProperties.default
        (RapidJsonDeserializer SerializeProperties.default (.record [("id", .int .i32)])
          (.record [.int 0]))
        [.StartObject, .Key "a", .Key "id", .value (.int 5), .EndObject]
      = (⟨.deser ⟨.record [("id", .int .i32)], .root, .record [.int 5], "", .DONE, []⟩ .null,
            some (1024 * 1024 - 4)⟩, none) := by
  refine ⟨fun ndebug f b k h => step_key ndebug p f b k h, fun _ => rfl, ?_, ?_, rfl⟩
  · intro f b k h
    simp [step, doEvent, DoKey, cassert, h, Event.isEnd]
  · intro f b k h
    simp only [step, doEvent, DoKey, cassert, bufferedName]
    cases p.name_mapping <;> simp [Event.isEnd]

/-- C29 (shape mismatch, amended).  Let a handler for a record be in `IN_OBJECT` with a
buffered name (non-empty, or assertions compiled out) that resolves to a member of type `t`.
(1) If `t` is primitive, `StartObject` and `StartArray` fail with `ParseException` and leave
the handler without child; (2) if `t` is a record, a leaf other than null whose charge
`AddBytes(get_len(w))` does not throw fails with `ParseException`. -/
theorem shape_mismatch (ndebug : Bool) (p : SerializeProperties) (f : Frame)
    (fs : List (String × Ty)) (idx : Nat) (t : Ty) (b : Option Int)
    (hT : f.T = .record fs) (hst : f.state = .IN_OBJECT)
    (hfind : findMember f.current_name fs = some (idx, t))
    (hname : ndebug = true ∨ str_empty f.current_name = false) :
    (is_primitive t = true → ∀ e, e = .StartObject ∨ e = .StartArray →
      (step ndebug p (.deser f .null) b e).failure = some (.threw .ParseException) ∧
      ∃ f1, (step ndebug p (.deser f .null) b e).handler = .deser f1 .null) ∧
    (∀ (fs1 : List (String × Ty)) (w : Wire), t = .record fs1 → w ≠ .null →
      (AddBytes b (get_len w)).2 = none →
      (step ndebug p (.deser f .null) b (.value w)).failure = some (.threw .ParseException)) := by
  have hc := cassert_name ndebug f.current_name hname
  constructor
  · intro hp e he
    have hr : ∀ x, (DoRecurseToMember t x).2 = none := by
      intro x; cases t <;> simp [is_primitive] at hp <;> rfl
    rcases he with rfl | rfl <;>
      simp [step, doEvent, DoStartObject, DoStartArray, hst, RecurseToMember, hT, hc, hfind, hr,
        enterChild]
  · intro fs1 w ht hw hb
    subst ht
    have hav : ∀ x, assign_value false (.record fs1) x w = .error (.threw .ParseException) := by
      intro x
      cases w <;> first | exact absurd rfl hw | rfl
    simp [step, doEvent, SetValue, SetValueOnMember, hst, hT, hc, hfind, hb, hav]

theorem shape_mismatch_witness :
    (step false SerializeProperties.default
        (.deser ⟨.record [("id", .int .i32)], .root, .record [.int 0], "id", .IN_OBJECT, []⟩
          .null) (some 1000) .StartObject).failure = some (.threw .ParseException) :=
  ((shape_mismatch false SerializeProperties.default
      ⟨.record [("id", .int .i32)], .root, .record [.int 0], "id", .IN_OBJECT, []⟩ _ 0
      (.int .i32) (some 1000) rfl rfl rfl (Or.inr rfl)).1 rfl .StartObject (Or.inl rfl)).1

theorem shape_mismatch_counterexample :
    (step false SerializeProperties.default
        (.deser ⟨.record [("pos", .record [("x", .int .i32)])], .root,
          .record [.record [.int 7]], "pos", .IN_OBJECT, []⟩ .null) (some 3)
        (.value (.int 5))).failure = some (.threw .ConstraintException) ∧
    step false SerializeProperties.default
        (.deser ⟨.record [("pos", .record [("x", .int .i32)])], .root,
          .record [.record [.int 7]], "pos", .IN_OBJECT, []⟩ .null) (some 1000)
        (.value .null)
      = ⟨.deser ⟨.record [("pos", .record [("x", .int .i32)])], .root,
          .record [.record [.int 0]], "", .IN_OBJECT, []⟩ .null, some 992, false, none⟩ :=
  ⟨rfl, rfl⟩

/-! ## A disabled budget -/

theorem static_cast_ne_constraint (T : Ty) (w : Wire) :
    static_cast T w ≠ .error (.threw .ConstraintException) := by
  unfold static_cast
  split <;> (try split) <;> (try split) <;> simp

theorem toChar_ne_constraint (w : Wire) : toChar w ≠ .error (.threw .ConstraintException) := by
  unfold toChar
  split <;> (try split) <;> (try split) <;> simp

theorem map_ne_constraint {α β : Type} (f : α → β) (x : Except Failure α)
    (h : x ≠ .error (.threw .ConstraintException)) :
    x.map f ≠ .error (.threw .ConstraintException) := by
  cases x with
  | ok v => simp [Except.map]
  | error e => simpa [Except.map] using h

theorem assignOp_ne_constraint : ∀ (T : Ty) (w : Wire),
    assignOp T w ≠ .error (.threw .ConstraintException)
  | .optional x, w => by
    simp only [assignOp]
    exact map_ne_constraint _ _ (assignOp_ne_constraint x w)
  | .string, w => by
    cases w <;> simp [assignOp] <;> exact map_ne_constraint _ _ (toChar_ne_constraint _)
  | .bool, w => by simpa [assignOp] using static_cast_ne_constraint _ w
  | .int k, w => by simpa [assignOp] using static_cast_ne_constraint _ w
  | .double, w => by simpa [assignOp] using static_cast_ne_constraint _ w
  | .container t, w => by simpa [assignOp] using static_cast_ne_constraint _ w
  | .map t, w => by simpa [assignOp] using static_cast_ne_constraint _ w
  | .record fs, w => by simpa [assignOp] using static_cast_ne_constraint _ w

theorem stoll_ne_constraint (s : String) : stoll s ≠ .error (.threw .ConstraintException) := by
  unfold stoll
  split
  · simp
  · dsimp only
    repeat' split
    all_goals simp

theorem stoull_ne_constraint (s : String) : stoull s ≠ .error (.threw .ConstraintException) := by
  unfold stoull
  split
  · simp
  · repeat' split
    all_goals simp

theorem assign_value_rest_ne_constraint (ref : Bool) (T : Ty) (w : Wire) :
    assign_value_rest ref T w ≠ .error (.threw .ConstraintException) := by
  unfold assign_value_rest
  split
  · unfold assign_int_from_string
    split <;> split
    · exact map_ne_constraint _ _ (stoll_ne_constraint _)
    · simp
    · exact map_ne_constraint _ _ (stoull_ne_constraint _)
    · simp
  · simp

theorem assign_bool_ne_constraint (w : Wire) :
    assign_bool w ≠ .error (.threw .ConstraintException) := by
  unfold assign_bool
  split
  · unfold assign_bool_from_string
    split <;> (try split) <;> (try split) <;> (try split) <;> simp
  · split <;> simp

theorem assign_value_ne_constraint (ref : Bool) (T : Ty) (var : Val) (w : Wire) :
    assign_value ref T var w ≠ .error (.threw .ConstraintException) := by
  unfold assign_value
  split
  · split <;> simp
  · split
    · exact assignOp_ne_constraint T w
    · split
      · simp
      · split
        · exact static_cast_ne_constraint T w
        · split
          · exact assign_bool_ne_constraint w
          · exact assign_value_rest_ne_constraint ref T w

theorem cassert_ne_constraint (ndebug c : Bool) :
    cassert ndebug c ≠ some (.threw .ConstraintException) := by
  unfold cassert
  split <;> simp

theorem SetValueOnMember_unbudgeted (ndebug : Bool) (p : SerializeProperties) (f : Frame)
    (w : Wire) :
    (SetValueOnMember ndebug p f none w).failure ≠ some (.threw .ConstraintException) := by
  unfold SetValueOnMember
  dsimp only
  split
  · split
    · rename_i fl h
      intro hh
      simp only [Option.some.injEq] at hh
      rw [hh] at h
      exact cassert_ne_constraint _ _ h
    · split
      · simp only [AddBytes]
        split
        · rename_i v h
          exact fun hh => assign_value_ne_constraint _ _ _ _ (by
            simp only [Option.some.injEq] at hh; rw [hh] at h; exact h)
        · simp
      · split <;> simp
  · split
    · rename_i fl h
      intro hh
      simp only [Option.some.injEq] at hh
      rw [hh] at h
      exact cassert_ne_constraint _ _ h
    · simp only [AddBytes]
      split
      · rename_i v h
        exact fun hh => assign_value_ne_constraint _ _ _ _ (by
          simp only [Option.some.injEq] at hh; rw [hh] at h; exact h)
      · simp
  · simp

theorem SetValueInArray_unbudgeted (ndebug : Bool) (f : Frame) (w : Wire) :
    (SetValueInArray ndebug f none w).failure ≠ some (.threw .ConstraintException) := by
  unfold SetValueInArray
  dsimp only
  split
  · split
    · simp only [AddBytes]
      split
      · rename_i v h
        exact fun hh => assign_value_ne_constraint _ _ _ _ (by
          simp only [Option.some.injEq] at hh; rw [hh] at h; exact h)
      · simp
    · exact cassert_ne_constraint _ _
  · simp

theorem RecurseToMember_ne_constraint (ndebug : Bool) (p : SerializeProperties) (f : Frame)
    (b : Option Int) :
    (RecurseToMember ndebug p f b).failure ≠ some (.threw .ConstraintException) := by
  unfold RecurseToMember
  dsimp only
  split
  · split
    · rename_i fl h
      intro hh
      simp only [Option.some.injEq] at hh
      rw [hh] at h
      exact cassert_ne_constraint _ _ h
    · split
      · split <;> simp
      · split <;> simp
  · simp
  · simp

theorem RecurseToContainerValue_ne_constraint (f : Frame) (b : Option Int) :
    (RecurseToContainerValue f b).failure ≠ some (.threw .ConstraintException) := by
  unfold RecurseToContainerValue
  split
  · split <;> simp
  · simp

theorem doEvent_unbudgeted (ndebug : Bool) (p : SerializeProperties) (f : Frame) (e : Event) :
    (doEvent ndebug p f none e).failure ≠ some (.threw .ConstraintException) := by
  cases e with
  | value w =>
    simp only [doEvent, SetValue]
    split
    · exact SetValueOnMember_unbudgeted ndebug p f w
    · exact SetValueInArray_unbudgeted ndebug f w
    · exact cassert_ne_constraint _ _
  | StartObject =>
    simp only [doEvent, DoStartObject]
    split
    · simp
    · rw [(enterChild_frame _ _).2.2]; exact RecurseToMember_ne_constraint ndebug p f none
    · rw [(enterChild_frame _ _).2.2]; exact RecurseToContainerValue_ne_constraint f none
    · simp
    · exact cassert_ne_constraint _ _
  | Key s =>
    simp only [doEvent, DoKey]
    split
    · rename_i fl h
      intro hh
      simp only [Option.some.injEq] at hh
      rw [hh] at h
      exact cassert_ne_constraint _ _ h
    · split <;> simp
  | EndObject =>
    simp only [doEvent, DoEndObject]
    split
    · simp
    · exact cassert_ne_constraint _ _
  | StartArray =>
    simp only [doEvent, DoStartArray]
    split
    · simp
    · rw [(enterChild_frame _ _).2.2]; exact RecurseToContainerValue_ne_constraint f none
    · rw [(enterChild_frame _ _).2.2]; exact RecurseToMember_ne_constraint ndebug p f none
    · exact cassert_ne_constraint _ _
  | EndArray =>
    simp only [doEvent, DoEndArray]
    split
    · simp
    · exact cassert_ne_constraint _ _

theorem afterChild_ne_constraint (ndebug : Bool) (f : Frame) (r : StepResult)
    (h : r.failure ≠ some (.threw .ConstraintException)) :
    (afterChild ndebug f r).failure ≠ some (.threw .ConstraintException) := by
  unfold afterChild
  split
  · dsimp only
    split
    · rename_i fl hd
      unfold OnChildIsDone at hd
      intro hh
      simp only [Option.some.injEq] at hh
      rw [hh] at hd
      revert hd
      split
      · rename_i fl2 h2
        intro h3
        simp only [Option.some.injEq] at h3
        rw [h3] at h2
        exact cassert_ne_constraint _ _ h2
      · split
        · rename_i fl2 h2
          intro h3
          simp only [Option.some.injEq] at h3
          rw [h3] at h2
          exact cassert_ne_constraint _ _ h2
        · split <;> simp
    · exact h
  · exact h

theorem step_unbudgeted (ndebug : Bool) (p : SerializeProperties) :
    ∀ (h : Handler) (e : Event),
      (step ndebug p h none e).failure ≠ some (.threw .ConstraintException)
  | .null, e => by simp [step]
  | .skip n, e => by cases e <;> simp [step]
  | .deser f .null, e => by
    simp only [step]
    exact doEvent_unbudgeted ndebug p f e
  | .deser f (.skip n), e => by
    simp only [step]
    split
    · rename_i fl h
      intro hh
      simp only [Option.some.injEq] at hh
      rw [hh] at h
      exact cassert_ne_constraint _ _ h
    · exact afterChild_ne_constraint ndebug f _ (by cases e <;> simp)
  | .deser f (.deser g c), e => by
    rw [step]
    split
    · rename_i fl h
      intro hh
      simp only [Option.some.injEq] at hh
      rw [hh] at h
      exact cassert_ne_constraint _ _ h
    · exact afterChild_ne_constraint ndebug f _ (step_unbudgeted ndebug p (.deser g c) e)

theorem step_bytes_none (ndebug : Bool) (p : SerializeProperties) (h : Handler) (e : Event) :
    (step ndebug p h none e).bytes = none := by
  have := step_isSome ndebug p h none e
  cases hb : (step ndebug p h none e).bytes with
  | none => rfl
  | some c => rw [hb] at this; cases this

theorem feed_unbudgeted (ndebug : Bool) (p : SerializeProperties) :
    ∀ (evs : List Event) (s : Session), s.bytes = none →
      (feed ndebug p s evs).1.bytes = none ∧
      (feed ndebug p s evs).2 ≠ some (.threw .ConstraintException)
  | [], s, hs => ⟨hs, by simp [feed]⟩
  | e :: rest, s, hs => by
    rw [feed_cons, hs]
    split
    · rename_i fl h
      refine ⟨step_bytes_none ndebug p _ e, ?_⟩
      intro hh
      simp only [Option.some.injEq] at hh
      rw [hh] at h
      exact step_unbudgeted ndebug p _ e h
    · exact feed_unbudgeted ndebug p rest _ (step_bytes_none ndebug p _ e)

/-- C34 (a zero cap disables the budget).  A root handler built from a policy whose
`max_memory_consumption` is 0 has the null pointer for `bytes_`; `AddBytes` then returns
without charging anything and without throwing; and whatever events are delivered, the pointer
stays null and no callback throws `ConstraintException`. -/
theorem zero_cap_disables (ndebug : Bool) (p : SerializeProperties) (T : Ty) (object : Val)
    (h0 : p.max_memory_consumption = 0) :
    (RapidJsonDeserializer p T object).bytes = none ∧
    (∀ n : Nat, AddBytes none n = (none, none)) ∧
    ∀ evs : List Event,
      (feed ndebug p (RapidJsonDeserializer p T object) evs).1.bytes = none ∧
      (feed ndebug p (RapidJsonDeserializer p T object) evs).2
        ≠ some (.threw .ConstraintException) := by
  have hb : (RapidJsonDeserializer p T object).bytes = none := by
    simp [RapidJsonDeserializer, SerializeProperties.GetMaxMemoryConsumption, h0]
  exact ⟨hb, fun _ => rfl, fun evs => feed_unbudgeted ndebug p evs _ hb⟩

theorem zero_cap_disables_witness :
    (feed false { SerializeProperties.default with max_memory_consumption := 0 }
        (RapidJsonDeserializer { SerializeProperties.default with max_memory_consumption := 0 }
          (.container .string) (.seq []))
        [.StartArray, .value (.string "abcdefghijklmnopqrstuvwxyzabcdefghijklmnopqrstuvwxyz"),
          .EndArray]).2 ≠ some (.threw .ConstraintException) :=
  ((zero_cap_disables false { SerializeProperties.default with max_memory_consumption := 0 }
      (.container .string) (.seq []) rfl).2.2 _).2

/-! ## The skip handler on its own -/

theorem skip_run (ndebug : Bool) (p : SerializeProperties) :
    ∀ (evs : List Event) (n : Int) (b : Option Int) (a1 : Handler) (b1 : Option Int),
      feedQuiet ndebug p (.skip n) b evs = some (a1, b1) → ∃ n1, a1 = .skip n1 ∧ b1 = b
  | [], n, b, a1, b1, h => by
    simp only [feedQuiet, Option.some.injEq, Prod.mk.injEq] at h
    exact ⟨n, h.1.symm, h.2.symm⟩
  | e :: evs, n, b, a1, b1, h => by
    rw [feedQuiet] at h
    split at h
    · obtain ⟨n1, hn1, hb, _⟩ := skip_step ndebug p n b e
      rw [hn1, hb] at h
      exact skip_run ndebug p evs n1 b a1 b1 h
    · cases h

theorem feedQuiet_snoc (ndebug : Bool) (p : SerializeProperties) (pre : List Event)
    (ev : Event) (h : Handler) (b : Option Int) (r : Handler × Option Int)
    (hq : feedQuiet ndebug p h b (pre ++ [ev]) = some r) :
    ∃ h1 b1, feedQuiet ndebug p h b pre = some (h1, b1) ∧
      (step ndebug p h1 b1 ev).failure = none ∧ (step ndebug p h1 b1 ev).notify = false := by
  obtain ⟨h1, b1, hp⟩ := feedQuiet_prefix ndebug p pre [ev] h b r hq
  refine ⟨h1, b1, hp, ?_⟩
  rw [feedQuiet_append ndebug p _ _ _ _ _ _ hp, feedQuiet] at hq
  split at hq
  · rename_i hc; exact hc
  · cases hq

theorem step_skip_parent (ndebug : Bool) (p : SerializeProperties) (F : Frame) (st : State)
    (sv : List State) (hF : F.state = .RECURSED) (hsv : F.saved_state = st :: sv)
    (n n1 : Int) (b : Option Int) (ev : Event) (nt : Bool)
    (hs : step ndebug p (.skip n) b ev = ⟨.skip n1, b, nt, none⟩) :
    step ndebug p (.deser F (.skip n)) b ev
      = if nt then ⟨.deser { F with state := st, saved_state := sv } .null, b, false, none⟩
        else ⟨.deser F (.skip n1), b, false, none⟩ := by
  have hc := cassert_recursed ndebug F hF
  rw [step, hc]
  dsimp only
  rw [hs]
  cases nt <;>
    simp [afterChild, OnChildIsDone, hF, hsv, cassert, Handler.bound]

theorem events_shape : ∀ (j : Json), (∀ w, j ≠ .leaf w) →
    ∃ e body eEnd, j.events = (e :: body) ++ [eEnd] ∧
      (e = .StartObject ∨ e = .StartArray) ∧ (eEnd = .EndObject ∨ eEnd = .EndArray) ∧
      ∀ (ndebug : Bool) (p : SerializeProperties) (b : Option Int),
        feedQuiet ndebug p (.skip 1) b body = some (.skip 1, b)
  | .leaf w, h => absurd rfl (h w)
  | .array xs, _ =>
    ⟨_, _, _, by rw [Json.events], Or.inr rfl, Or.inr rfl,
      fun ndebug p b => skip_alone_elements ndebug p b xs 1 (by decide)⟩
  | .object ms, _ =>
    ⟨_, _, _, by rw [Json.events], Or.inl rfl, Or.inl rfl,
      fun ndebug p b => skip_alone_members ndebug p b ms 1 (by decide)⟩

theorem split_last {α : Type} (pre post xs : List α) (ev z : α)
    (h : pre ++ ev :: post = xs ++ [z]) :
    (post = [] ∧ pre = xs ∧ ev = z) ∨ ∃ L, post = L ++ [z] ∧ xs = pre ++ ev :: L := by
  rcases List.eq_nil_or_concat post with rfl | ⟨L, y, hpost⟩
  · left
    have := List.append_inj' h rfl
    simp at this
    exact ⟨rfl, this.1, this.2⟩
  · right
    rw [List.concat_eq_append] at hpost
    subst hpost
    have h2 : (pre ++ ev :: L) ++ [y] = xs ++ [z] := by simpa using h
    have := List.append_inj' h2 rfl
    simp at this
    exact ⟨L, by rw [this.2], this.1.symm⟩

/-- C31 (skip handler).  Let the events of a well-formed object or array value be delivered
to a fresh `RapidJsonSkipObject`.  (1) Every callback returns `true` and leaves the shared
counter as it is, and it calls `OnChildIsDone()` of the parent exactly when the event is the
last one of the value.  (2) Seen from a parent in `RECURSED`: before the last event the
parent's data members are unchanged and the skip handler is still installed; on the last
event the parent resumes the saved state and releases the skip handler, its destination
being what it was. -/
theorem skip_handler (ndebug : Bool) (p : SerializeProperties) (j : Json) (b : Option Int)
    (hj : ∀ w, j ≠ .leaf w) :
    (∀ pre ev post, j.events = pre ++ ev :: post →
      ∃ n n1 : Int, feedQuiet ndebug p (.skip 0) b pre = some (.skip n, b) ∧
        step ndebug p (.skip n) b ev = ⟨.skip n1, b, post.isEmpty, none⟩) ∧
    (∀ (F : Frame) (st : State) (sv : List State), F.state = .RECURSED →
      F.saved_state = st :: sv →
      ∀ pre ev post, j.events = pre ++ ev :: post →
        ∃ n n1 : Int, feedQuiet ndebug p (.deser F (.skip 0)) b pre
            = some (.deser F (.skip n), b) ∧
          step ndebug p (.deser F (.skip n)) b ev
            = if post.isEmpty then
                ⟨.deser { F with state := st, saved_state := sv } .null, b, false, none⟩
              else ⟨.deser F (.skip n1), b, false, none⟩) := by
  obtain ⟨e, body, eEnd, hev, he, hend, hbody⟩ := events_shape j hj
  have hstart : step ndebug p (.skip 0) b e = ⟨.skip 1, b, false, none⟩ := by
    rcases he with rfl | rfl <;> rfl
  have hfull : feedQuiet ndebug p (.skip 0) b (e :: body) = some (.skip 1, b) := by
    rw [feedQuiet_cons ndebug p _ _ _ _ _ _ hstart]
    exact hbody ndebug p b
  have hlast : step ndebug p (.skip 1) b eEnd = ⟨.skip 0, b, true, none⟩ := by
    rcases hend with rfl | rfl <;> rfl
  have main : ∀ pre ev post, j.events = pre ++ ev :: post →
      ∃ n n1 : Int, feedQuiet ndebug p (.skip 0) b pre = some (.skip n, b) ∧
        step ndebug p (.skip n) b ev = ⟨.skip n1, b, post.isEmpty, none⟩ := by
    intro pre ev post hsplit
    rw [hev] at hsplit
    rcases split_last pre post (e :: body) ev eEnd hsplit.symm with ⟨rfl, rfl, rfl⟩ | ⟨L, rfl, hx⟩
    · exact ⟨1, 0, hfull, hlast⟩
    · rw [hx] at hfull
      have hfull2 : feedQuiet ndebug p (.skip 0) b ((pre ++ [ev]) ++ L) = some (.skip 1, b) := by
        simpa using hfull
      obtain ⟨h2, b2, hpe⟩ := feedQuiet_prefix ndebug p (pre ++ [ev]) L _ _ _ hfull2
      obtain ⟨h1, b1, hp, hf, hn⟩ := feedQuiet_snoc ndebug p pre ev _ _ _ hpe
      obtain ⟨n, rfl, rfl⟩ := skip_run ndebug p pre 0 b h1 b1 hp
      obtain ⟨n1, hn1, hb1, _⟩ := skip_step ndebug p n b1 ev
      refine ⟨n, n1, hp, ?_⟩
      rcases hx2 : step ndebug p (.skip n) b1 ev with ⟨hh, bb, nn, ff⟩
      rw [hx2] at hn1 hb1 hf hn
      simp only at hn1 hb1 hf hn
      rw [hn1, hb1, hf, hn]
      simp
  refine ⟨main, ?_⟩
  intro F st sv hF hsv pre ev post hsplit
  obtain ⟨n, n1, hq, hs⟩ := main pre ev post hsplit
  refine ⟨n, n1, (feedQuiet_skip_child ndebug p F hF pre 0 b _ _ hq).1, ?_⟩
  exact step_skip_parent ndebug p F st sv hF hsv n n1 b ev _ hs

theorem skip_handler_witness :
    ∃ n n1 : Int,
      feedQuiet false SerializeProperties.default (.skip 0) (some 100)
          [.StartObject, .Key "a", .StartArray, .value (.int 1), .EndArray]
        = some (.skip n, some 100) ∧
      step false SerializeProperties.default (.skip n) (some 100) .EndObject
        = ⟨.skip n1, some 100, true, none⟩ :=
  (skip_handler false SerializeProperties.default
    (.object [("a", .array [.leaf (.int 1)])]) (some 100) (by intro w h; cases h)).1
    [.StartObject, .Key "a", .StartArray, .value (.int 1), .EndArray] .EndObject [] (by rfl)

/-! ## The invariant of the handler tree -/

theorem Invariant_leaf (f : Frame) (hs : f.state ≠ .RECURSED) (hsv : f.saved_state = []) :
    Handler.Invariant (.deser f .null) := by
  simp [Handler.Invariant, Handler.isNull, hs, hsv]

theorem Invariant_node (f : Frame) (c : Handler) (hs : f.state = .RECURSED)
    (hsv : f.saved_state = [.IN_OBJECT] ∨ f.saved_state = [.IN_ARRAY])
    (hc : c.isNull = false) (hi : c.Invariant) : Handler.Invariant (.deser f c) := by
  cases c with
  | null => simp [Handler.isNull] at hc
  | skip n => simp [Handler.Invariant, Handler.isNull, hs, hsv]
  | deser g c2 => exact ⟨by simp [Handler.isNull, hs], fun _ => hsv, fun h => absurd hs h, hi⟩

theorem RecurseToMember_fresh (ndebug : Bool) (p : SerializeProperties) (f : Frame)
    (b : Option Int) :
    (RecurseToMember ndebug p f b).failure = none →
      ((RecurseToMember ndebug p f b).child = .skip 0 ∨
        ∃ gc, (RecurseToMember ndebug p f b).child = .deser gc .null ∧ gc.saved_state = []) := by
  unfold RecurseToMember
  dsimp only
  split <;> (try split) <;> (try split) <;> (try split) <;> (try split) <;>
    intro hf <;>
    first
    | exact Or.inl rfl
    | exact Or.inr ⟨_, rfl, rfl⟩
    | simp at hf

theorem RecurseToContainerValue_fresh (f : Frame) (b : Option Int) :
    (RecurseToContainerValue f b).failure = none →
      ((RecurseToContainerValue f b).child = .skip 0 ∨
        ∃ gc, (RecurseToContainerValue f b).child = .deser gc .null ∧ gc.saved_state = []) := by
  unfold RecurseToContainerValue
  split <;> (try split) <;> intro hf <;>
    first
    | exact Or.inr ⟨_, rfl, rfl⟩
    | simp at hf

theorem enterChild_invariant (t : State) (ht : t = .IN_OBJECT ∨ t = .IN_ARRAY) (f : Frame)
    (r : Res) (hst : f.state = .IN_OBJECT ∨ f.state = .IN_ARRAY) (hsv : f.saved_state = [])
    (hrec : Recursed f r)
    (hfresh : r.child = .skip 0 ∨ ∃ gc, r.child = .deser gc .null ∧ gc.saved_state = [])
    (hf : r.failure = none) :
    Handler.Invariant (.deser (enterChild t r).frame (enterChild t r).child) := by
  obtain ⟨_, _, hS, hsaved, _⟩ := hrec
  rw [hsv] at hsaved
  have hsv2 : r.frame.saved_state = [.IN_OBJECT] ∨ r.frame.saved_state = [.IN_ARRAY] := by
    rcases hst with h | h
    · left; rw [hsaved, h]
    · right; rw [hsaved, h]
  have hc : (enterChild t r).child = startChild t r.child := by
    unfold enterChild
    rw [hf]
  rw [(enterChild_frame t r).1, hc]
  rcases hfresh with h | ⟨gc, h, hg⟩
  · rw [h]
    exact Invariant_node _ _ hS hsv2 rfl trivial
  · rw [h]
    refine Invariant_node _ _ hS hsv2 rfl (Invariant_leaf _ ?_ hg)
    rcases ht with rfl | rfl <;> simp

theorem step_active_invariant (ndebug : Bool) (p : SerializeProperties) (f : Frame)
    (b : Option Int) (e : Event) (hs : f.state ≠ .RECURSED) (hsv : f.saved_state = [])
    (hf : (step ndebug p (.deser f .null) b e).failure = none) :
    (step ndebug p (.deser f .null) b e).handler.Invariant := by
  cases e with
  | value w =>
    obtain ⟨_, g1, hg1, _, _, h3, h4⟩ := step_leaf_same ndebug p f b _ (Or.inr ⟨w, rfl⟩) hf
    rw [hg1]
    exact Invariant_leaf g1 (by rw [h3]; exact hs) (by rw [h4]; exact hsv)
  | Key k =>
    obtain ⟨_, g1, hg1, _, _, h3, h4⟩ := step_leaf_same ndebug p f b _ (Or.inl ⟨k, rfl⟩) hf
    rw [hg1]
    exact Invariant_leaf g1 (by rw [h3]; exact hs) (by rw [h4]; exact hsv)
  | EndObject =>
    simp only [step, doEvent, DoEndObject]
    split
    · exact Invariant_leaf _ (by simp) hsv
    · exact Invariant_leaf _ hs hsv
  | EndArray =>
    simp only [step, doEvent, DoEndArray]
    split
    · exact Invariant_leaf _ (by simp) hsv
    · exact Invariant_leaf _ hs hsv
  | StartObject =>
    simp only [step, doEvent, DoStartObject] at hf ⊢
    split
    · exact Invariant_leaf _ (by simp) hsv
    · rename_i hst
      rw [hst] at hf
      simp only [(enterChild_frame _ _).2.2] at hf
      exact enterChild_invariant _ (Or.inl rfl) f _ (Or.inl hst) hsv
        (RecurseToMember_recursed ndebug p f b hf) (RecurseToMember_fresh ndebug p f b hf) hf
    · rename_i hst
      rw [hst] at hf
      simp only [(enterChild_frame _ _).2.2] at hf
      exact enterChild_invariant _ (Or.inl rfl) f _ (Or.inr hst) hsv
        (RecurseToContainerValue_recursed f b hf) (RecurseToContainerValue_fresh f b hf) hf
    · exact Invariant_leaf _ (by simp) hsv
    · rename_i hst
      exact absurd hst hs
  | StartArray =>
    simp only [step, doEvent, DoStartArray] at hf ⊢
    split
    · exact Invariant_leaf _ (by simp) hsv
    · rename_i hst
      rw [hst] at hf
      simp only [(enterChild_frame _ _).2.2] at hf
      exact enterChild_invariant _ (Or.inr rfl) f _ (Or.inr hst) hsv
        (RecurseToContainerValue_recursed f b hf) (RecurseToContainerValue_fresh f b hf) hf
    · rename_i hst
      rw [hst] at hf
      simp only [(enterChild_frame _ _).2.2] at hf
      exact enterChild_invariant _ (Or.inr rfl) f _ (Or.inl hst) hsv
        (RecurseToMember_recursed ndebug p f b hf) (RecurseToMember_fresh ndebug p f b hf) hf
    · exact Invariant_leaf _ hs hsv

theorem OnChildIsDone_ok (ndebug : Bool) (f : Frame) (x : Option (Binding × Val)) (st : State)
    (sv : List State) (hs : f.state = .RECURSED) (hsv : f.saved_state = st :: sv) :
    OnChildIsDone ndebug f x
      = ({ f with state := st, saved_state := sv,
                  object := match x with
                    | some (b, v) => plug f.object b v
                    | none => f.object }, none) := by
  cases x <;> simp [OnChildIsDone, hs, hsv, cassert]

theorem feed_is_deser (ndebug : Bool) (p : SerializeProperties) :
    ∀ (evs : List Event) (s : Session), (∃ f c, s.handler = .deser f c) →
      ∃ f c, (feed ndebug p s evs).1.handler = .deser f c
  | [], s, h => h
  | e :: evs, s, h => by
    obtain ⟨f, c, hs⟩ := h
    have h1 := step_deser_is_deser ndebug p f c s.bytes e
    rw [feed_cons, hs]
    split
    · exact h1
    · exact feed_is_deser ndebug p evs _ h1

theorem afterChild_invariant (ndebug : Bool) (f : Frame) (r : StepResult)
    (hs : f.state = .RECURSED)
    (hsv : f.saved_state = [.IN_OBJECT] ∨ f.saved_state = [.IN_ARRAY])
    (hr : r.handler.Invariant) (hne : r.handler.isNull = false)
    (hf : (afterChild ndebug f r).failure = none) :
    (afterChild ndebug f r).handler.Invariant := by
  unfold afterChild at hf ⊢
  split
  · rename_i hn
    rw [if_pos hn] at hf
    dsimp only at hf ⊢
    split
    · rename_i fl hfl
      rw [hfl] at hf
      cases hf
    · rcases hsv with h | h
      · rw [OnChildIsDone_ok ndebug f _ _ _ hs h]
        exact Invariant_leaf _ (by simp) rfl
      · rw [OnChildIsDone_ok ndebug f _ _ _ hs h]
        exact Invariant_leaf _ (by simp) rfl
  · exact Invariant_node f _ hs hsv hne hr

theorem step_invariant (ndebug : Bool) (p : SerializeProperties) :
    ∀ (h : Handler) (b : Option Int) (e : Event), h.Invariant →
      (step ndebug p h b e).failure = none → (step ndebug p h b e).handler.Invariant
  | .null, b, e, _, _ => by simp [step, Handler.Invariant]
  | .skip n, b, e, _, _ => by cases e <;> simp [step, Handler.Invariant]
  | .deser f .null, b, e, hi, hf => by
    have hs : f.state ≠ .RECURSED := by
      intro h
      have := hi.1.mpr h
      simp [Handler.isNull] at this
    exact step_active_invariant ndebug p f b e hs (hi.2.2.1 hs) hf
  | .deser f (.skip n), b, e, hi, hf => by
    have hs : f.state = .RECURSED := hi.1.mp rfl
    rw [step, cassert_recursed ndebug f hs] at hf ⊢
    dsimp only at hf ⊢
    apply afterChild_invariant ndebug f _ hs (hi.2.1 hs) _ _ hf
    · cases e <;> simp [step, Handler.Invariant]
    · cases e <;> rfl
  | .deser f (.deser g c), b, e, hi, hf => by
    have hs : f.state = .RECURSED := hi.1.mp rfl
    rw [step, cassert_recursed ndebug f hs] at hf ⊢
    dsimp only at hf ⊢
    apply afterChild_invariant ndebug f _ hs (hi.2.1 hs) _ _ hf
    · exact step_invariant ndebug p (.deser g c) b e hi.2.2.2
        (afterChild_failure ndebug f _ hf)
    · obtain ⟨g1, c1, h1⟩ := step_deser_is_deser ndebug p g c b e
      rw [h1]; rfl

theorem feed_invariant (ndebug : Bool) (p : SerializeProperties) :
    ∀ (evs : List Event) (s s1 : Session), s.handler.Invariant →
      feed ndebug p s evs = (s1, none) → s1.handler.Invariant
  | [], s, s1, h, hf => by
    simp only [feed, Prod.mk.injEq] at hf
    rw [← hf.1]; exact h
  | e :: evs, s, s1, h, hf => by
    rw [feed_cons] at hf
    split at hf
    · cases hf
    · rename_i hnone
      exact feed_invariant ndebug p evs _ s1 (step_invariant ndebug p _ _ e h hnone) hf

/-- C33 (handler invariant).  After any events that a fresh root handler has handled without
failure, every handler of the tree has an active child if and only if its state is `RECURSED`;
its save-stack holds exactly one state, `IN_OBJECT` or `IN_ARRAY`, when it is `RECURSED` and
is empty otherwise.  The buffered key of a handler is the one string `current_name_`. -/
theorem handler_invariant (ndebug : Bool) (p : SerializeProperties) (T : Ty) (object : Val)
    (evs : List Event) (s : Session)
    (h : feed ndebug p (RapidJsonDeserializer p T object) evs = (s, none)) :
    s.handler.Invariant ∧
    ∃ (f : Frame) (c : Handler), s.handler = .deser f c ∧
      (c.isNull = false ↔ f.state = .RECURSED) ∧
      (f.state = .RECURSED → f.saved_state = [.IN_OBJECT] ∨ f.saved_state = [.IN_ARRAY]) ∧
      (f.state ≠ .RECURSED → f.saved_state = []) := by
  have hi : s.handler.Invariant :=
    feed_invariant ndebug p evs _ s (by
      simp [RapidJsonDeserializer, Handler.Invariant, Handler.isNull]) h
  refine ⟨hi, ?_⟩
  obtain ⟨f, c, hh⟩ := feed_is_deser ndebug p evs (RapidJsonDeserializer p T object)
    ⟨_, _, rfl⟩
  rw [h] at hh
  dsimp only at hh
  rw [hh] at hi
  exact ⟨f, c, hh, hi.1, hi.2.1, hi.2.2.1⟩

theorem handler_invariant_witness :
    (⟨.deser ⟨.record [("tags", .container .string)], .root, .record [.seq []], "", .RECURSED,
        [.IN_OBJECT]⟩
      (.deser ⟨.container .string, .member 0 (.container .string), .seq [.str "a"], "",
        .IN_ARRAY, []⟩ .null), some 1048520⟩ : Session).handler.Invariant :=
  (handler_invariant false SerializeProperties.default (.record [("tags", .container .string)])
    (.record [.seq []]) [.StartObject, .Key "tags", .StartArray, .value (.string "a")]
    _ (by rfl)).1

/-! ## Lookup and insertion in a map -/

theorem mapFind_mapInsert (k : String) (v : Val) :
    ∀ es : List (String × Val), mapFind (mapInsert es k v) k = some v
  | [] => by simp [mapInsert, mapFind]
  | (k1, w1) :: rest => by
    unfold mapInsert
    split
    · simp [mapFind]
    · split
      · simp [mapFind]
      · rename_i hne _
        have ih := mapFind_mapInsert k v rest
        unfold mapFind at ih ⊢
        rw [List.find?_cons_of_neg _ (by simpa using hne)]
        exact ih

theorem mapFind_mapInsert_ne (k k2 : String) (v : Val) (h : k2 ≠ k) :
    ∀ es : List (String × Val), mapFind (mapInsert es k v) k2 = mapFind es k2
  | [] => by
    have : (k == k2) = false := by simpa using fun hh => h hh.symm
    simp [mapInsert, mapFind, List.find?, this]
  | (k1, w1) :: rest => by
    have hk : (k == k2) = false := by simpa using fun hh => h hh.symm
    unfold mapInsert
    split
    · rename_i heq
      have : k1 = k := by simpa using heq
      subst this
      simp [mapFind, List.find?, hk]
    · split
      · simp [mapFind, List.find?, hk]
      · have ih := mapFind_mapInsert_ne k k2 v h rest
        unfold mapFind at ih ⊢
        cases hk1 : (k1 == k2)
        · rw [List.find?_cons_of_neg _ (by simp [hk1]), List.find?_cons_of_neg _ (by simp [hk1])]
          exact ih
        · rw [List.find?_cons_of_pos _ (by simp [hk1]), List.find?_cons_of_pos _ (by simp [hk1])]


theorem step_map_leaf (ndebug : Bool) (p : SerializeProperties) (t : Ty) (bd : Binding)
    (es : List (String × Val)) (sv : List State) (n : String) (x : Wire) (v : Val)
    (b : Option Int) (hn : ndebug = true ∨ str_empty n = false)
    (hb : (AddBytes b (get_len x + 32 + n.length + 8 * 6)).2 = none)
    (ha : assign_value false t (mapIndex (.map es) t n).2 x = .ok v) :
    step ndebug p (.deser ⟨.map t, bd, .map es, n, .IN_OBJECT, sv⟩ .null) b (.value x)
      = ⟨.deser ⟨.map t, bd, mapAssign (mapIndex (.map es) t n).1 n v, "", .IN_OBJECT, sv⟩ .null,
          (AddBytes b (get_len x + 32 + n.length + 8 * 6)).1, false, none⟩ := by
  simp [step, doEvent, SetValue, SetValueOnMember, cassert_name ndebug n hn, hb, ha,
    Event.isEnd]

theorem mapAssign_mapIndex (t : Ty) (es : List (String × Val)) (n : String) (v : Val) :
    ∃ es1, mapAssign (mapIndex (.map es) t n).1 n v = .map es1 ∧ mapFind es1 n = some v ∧
      ∀ k, k ≠ n → mapFind es1 k = mapFind es k := by
  unfold mapIndex
  dsimp only
  split
  · exact ⟨_, rfl, mapFind_mapInsert n v _, fun k hk => mapFind_mapInsert_ne n k v hk es⟩
  · refine ⟨_, rfl, mapFind_mapInsert n v _, fun k hk => ?_⟩
    rw [mapFind_mapInsert_ne n k v hk, mapFind_mapInsert_ne n k _ hk]

/-! ## Members of a flat object in any order -/

theorem assign_value_var (r : Bool) (t : Ty) (a b : Val) (w : Wire) :
    assign_value r t a w = assign_value r t b w := rfl

theorem findMember_same_idx (n1 n2 : String) :
    ∀ (fs : List (String × Ty)) (i : Nat) (t1 t2 : Ty),
      findMember n1 fs = some (i, t1) → findMember n2 fs = some (i, t2) → c_str n1 = c_str n2
  | [], i, t1, t2, h1, _ => by simp [findMember] at h1
  | (nm, t) :: rest, i, t1, t2, h1, h2 => by
    unfold findMember at h1 h2
    by_cases c1 : strcmp_eq nm n1 = true
    · by_cases c2 : strcmp_eq nm n2 = true
      · simp only [strcmp_eq, beq_iff_eq] at c1 c2
        rw [← c1, ← c2]
      · rw [if_pos c1] at h1
        rw [if_neg c2] at h2
        simp only [Option.some.injEq, Prod.mk.injEq] at h1
        revert h2
        split
        · intro h2
          simp only [Option.some.injEq, Prod.mk.injEq] at h2
          omega
        · intro h2; cases h2
    · rw [if_neg c1] at h1
      by_cases c2 : strcmp_eq nm n2 = true
      · rw [if_pos c2] at h2
        simp only [Option.some.injEq, Prod.mk.injEq] at h2
        revert h1
        split
        · intro h1
          simp only [Option.some.injEq, Prod.mk.injEq] at h1
          omega
        · intro h1; cases h1
      · rw [if_neg c2] at h2
        revert h1 h2
        split
        · rename_i i1 ty1 e1
          split
          · rename_i i2 ty2 e2
            intro h1 h2
            simp only [Option.some.injEq, Prod.mk.injEq] at h1 h2
            have : i1 = i2 := by omega
            subst this
            exact findMember_same_idx n1 n2 rest i1 ty1 ty2 e1 e2
          · intro _ h2; cases h2
        · intro h1; cases h1

theorem memberAt_setMember_ne (o : Val) (i j : Nat) (v : Val) (h : j ≠ i) :
    memberAt (setMember o i v) j = memberAt o j := by
  cases o <;> try rfl
  simp only [setMember, memberAt, List.getD]
  rw [List.get?_eq_getElem?, List.get?_eq_getElem?, List.getElem?_set_ne (Ne.symm h)]

theorem setMember_comm (o : Val) (i j : Nat) (v w : Val) (h : i ≠ j) :
    setMember (setMember o i v) j w = setMember (setMember o j w) i v := by
  cases o <;> try rfl
  simp only [setMember]
  rw [List.set_comm _ _ _ h]

theorem memberAction_set (ndebug : Bool) (p : SerializeProperties) (fs : List (String × Ty))
    (m : String × Wire) (i : Nat) (v : Val)
    (h : memberAction ndebug p fs m = some (some (i, v))) :
    ∃ t, findMember (bufferedName p m.1) fs = some (i, t) := by
  unfold memberAction at h
  split at h
  · cases h
  · split at h
    · rename_i idx ty hf
      split at h
      · simp only [Option.some.injEq, Prod.mk.injEq] at h
        exact ⟨ty, by rw [hf, h.1]⟩
      · cases h
    · split at h <;> simp at h

theorem memberEffect_comm (ndebug : Bool) (p : SerializeProperties) (fs : List (String × Ty))
    (x y : String × Wire)
    (h : c_str (bufferedName p x.1) ≠ c_str (bufferedName p y.1)) (z : Option Val) :
    memberEffect ndebug p fs (memberEffect ndebug p fs z x) y
      = memberEffect ndebug p fs (memberEffect ndebug p fs z y) x := by
  cases z with
  | none => simp [memberEffect]
  | some o =>
    cases hx : memberAction ndebug p fs x with
    | none => cases hy : memberAction ndebug p fs y <;> simp [memberEffect, hx, hy]
    | some a =>
      cases hy : memberAction ndebug p fs y with
      | none => simp [memberEffect, hx, hy]
      | some c =>
        simp only [memberEffect, hx, hy, Option.some.injEq]
        cases a with
        | none => cases c <;> rfl
        | some iv =>
          cases c with
          | none => rfl
          | some jw =>
            obtain ⟨t1, h1⟩ := memberAction_set ndebug p fs x iv.1 iv.2 hx
            obtain ⟨t2, h2⟩ := memberAction_set ndebug p fs y jw.1 jw.2 hy
            have hne : iv.1 ≠ jw.1 := by
              intro he
              rw [he] at h1
              exact h (findMember_same_idx _ _ fs jw.1 t1 t2 h1 h2)
            exact setMember_comm o iv.1 jw.1 iv.2 jw.2 hne

theorem AddBytes_dec (b : Option Int) (n m : Nat) (h : BudgetFor b (n + m)) :
    AddBytes b n = (b.map (fun c => c - (n : Int)), none) ∧
    BudgetFor (b.map (fun c => c - (n : Int))) m := by
  rcases h with rfl | ⟨c, rfl, hc, hc2⟩
  · exact ⟨rfl, Or.inl rfl⟩
  · push_cast at hc
    have hw : wrapInt .i64 (c - (n : Int)) = c - n := by
      simp only [wrapInt, IntTy.signed, IntTy.bits, ↓reduceIte]
      omega
    refine ⟨?_, Or.inr ⟨c - n, rfl, by omega, by omega⟩⟩
    simp only [AddBytes, hw, Option.map_some']
    rw [if_neg (by omega)]

theorem feedQuiet_single (ndebug : Bool) (p : SerializeProperties) (h : Handler)
    (b : Option Int) (e : Event) :
    feedQuiet ndebug p h b [e]
      = if (step ndebug p h b e).failure = none ∧ (step ndebug p h b e).notify = false then
          some ((step ndebug p h b e).handler, (step ndebug p h b e).bytes)
        else none := by
  rw [feedQuiet]
  split <;> rfl

theorem member_run (ndebug : Bool) (p : SerializeProperties) (fs : List (String × Ty))
    (bd : Binding) (o : Val) (sv : List State) (k : String) (w : Wire) (b : Option Int)
    (m : Nat) (hb : BudgetFor b (get_len w + m)) :
    feedQuiet ndebug p (.deser ⟨.record fs, bd, o, "", .IN_OBJECT, sv⟩ .null) b
        [.Key k, .value w]
      = (memberEffect ndebug p fs (some o) (k, w)).map (fun o1 =>
          (.deser ⟨.record fs, bd, o1, "", .IN_OBJECT, sv⟩ .null,
            b.map (fun c => c - (memberCharge p fs (k, w) : Int)))) ∧
    BudgetFor (b.map (fun c => c - (memberCharge p fs (k, w) : Int))) m := by
  have hb0 : b.map (fun c => c - ((0 : Nat) : Int)) = b := by cases b <;> simp
  rw [feedQuiet_cons ndebug p _ _ _ _ _ _ (step_key ndebug p _ b k rfl), feedQuiet_single]
  simp only [step, doEvent, SetValue, SetValueOnMember, memberEffect, memberAction, memberCharge,
    Event.isEnd]
  cases hc : cassert ndebug (!str_empty (bufferedName p k)) with
  | some fl =>
    dsimp only
    refine ⟨by simp, ?_⟩
    cases hf : findMember (bufferedName p k) fs with
    | none => dsimp only; rw [hb0]; exact BudgetFor_mono b _ m hb (by omega)
    | some it => exact (AddBytes_dec b _ m hb).2
  | none =>
    dsimp only
    cases hf : findMember (bufferedName p k) fs with
    | none =>
      dsimp only
      rw [hb0]
      refine ⟨?_, BudgetFor_mono b _ m hb (by omega)⟩
      cases p.ignore_unknown_properties <;> simp [applyAction]
    | some it =>
      obtain ⟨ha1, ha2⟩ := AddBytes_dec b _ m hb
      dsimp only
      refine ⟨?_, ha2⟩
      rw [ha1]
      dsimp only
      rw [assign_value_var false it.2 (memberAt o it.1) (defaultVal it.2)]
      cases assign_value false it.2 (defaultVal it.2) w <;> simp [applyAction]

theorem foldl_memberEffect_none (ndebug : Bool) (p : SerializeProperties)
    (fs : List (String × Ty)) : ∀ l : List (String × Wire),
    l.foldl (memberEffect ndebug p fs) none = none
  | [] => rfl
  | x :: l => by
    rw [List.foldl_cons]
    exact foldl_memberEffect_none ndebug p fs l

theorem feedQuiet_append_none (ndebug : Bool) (p : SerializeProperties) :
    ∀ (evs rest : List Event) (h : Handler) (b : Option Int),
      feedQuiet ndebug p h b evs = none → feedQuiet ndebug p h b (evs ++ rest) = none
  | [], rest, h, b, hq => by simp [feedQuiet] at hq
  | e :: evs, rest, h, b, hq => by
    rw [List.cons_append, feedQuiet]
    rw [feedQuiet] at hq
    split
    · rename_i hc
      rw [if_pos hc] at hq
      exact feedQuiet_append_none ndebug p evs rest _ _ hq
    · rfl

theorem members_run (ndebug : Bool) (p : SerializeProperties) (fs : List (String × Ty))
    (bd : Binding) (sv : List State) :
    ∀ (l : List (String × Wire)) (o : Val) (b : Option Int) (m : Nat),
      BudgetFor b ((l.map (fun x => get_len x.2)).sum + m) →
      feedQuiet ndebug p (.deser ⟨.record fs, bd, o, "", .IN_OBJECT, sv⟩ .null) b
          (Json.eventsOfMembers (l.map (fun x => (x.1, Json.leaf x.2))))
        = (l.foldl (memberEffect ndebug p fs) (some o)).map (fun o1 =>
            (.deser ⟨.record fs, bd, o1, "", .IN_OBJECT, sv⟩ .null,
              b.map (fun c => c - (((l.map (memberCharge p fs)).sum : Nat) : Int))))
  | [], o, b, m, _ => by
    simp only [List.map_nil, Json.eventsOfMembers, feedQuiet, List.foldl_nil, Option.map_some',
      List.sum_nil]
    cases b <;> simp
  | (k, w) :: l, o, b, m, hb => by
    have hb1 : BudgetFor b (get_len w + ((l.map (fun x => get_len x.2)).sum + m)) := by
      simpa [Nat.add_assoc] using hb
    obtain ⟨hrun, hb2⟩ := member_run ndebug p fs bd o sv k w b _ hb1
    have hev : Json.eventsOfMembers (((k, w) :: l).map (fun x => (x.1, Json.leaf x.2)))
        = [.Key k, .value w] ++ Json.eventsOfMembers (l.map (fun x => (x.1, Json.leaf x.2))) := by
      rw [List.map_cons, Json.eventsOfMembers, Json.events]
    rw [hev, List.foldl_cons]
    cases he : memberEffect ndebug p fs (some o) (k, w) with
    | none =>
      rw [he] at hrun
      rw [feedQuiet_append_none ndebug p _ _ _ _ (by simpa using hrun), foldl_memberEffect_none]
      rfl
    | some o1 =>
      rw [he] at hrun
      rw [feedQuiet_append ndebug p _ _ _ _ _ _ hrun, members_run ndebug p fs bd sv l o1 _ m hb2]
      congr 1
      funext o2
      congr 1
      cases b with
      | none => rfl
      | some c =>
        simp only [Option.map_some', List.map_cons, List.sum_cons]
        congr 1
        push_cast
        omega

theorem feed_fails_of_quiet_none (ndebug : Bool) (p : SerializeProperties)
    (rest : List Event) :
    ∀ (evs : List Event), (∀ e ∈ evs, (∃ k, e = .Key k) ∨ ∃ w, e = .value w) →
    ∀ (F : Frame) (b : Option Int), feedQuiet ndebug p (.deser F .null) b evs = none →
      (feed ndebug p ⟨.deser F .null, b⟩ (evs ++ rest)).2 ≠ none
  | [], _, F, b, hq => by simp [feedQuiet] at hq
  | e :: evs, hall, F, b, hq => by
    rw [List.cons_append, feed_cons]
    dsimp only
    cases hf : (step ndebug p (.deser F .null) b e).failure with
    | some fl => simp
    | none =>
      dsimp only
      obtain ⟨hn, g1, hg1, _⟩ := step_leaf_same ndebug p F b e (hall e (List.mem_cons_self _ _)) hf
      rw [feedQuiet, if_pos ⟨hf, hn⟩, hg1] at hq
      rw [hg1]
      exact feed_fails_of_quiet_none ndebug p rest evs
        (fun x hx => hall x (List.mem_cons_of_mem _ hx)) g1 _ hq

theorem flat_events_leaves : ∀ (l : List (String × Wire)),
    ∀ e ∈ Json.eventsOfMembers (l.map (fun x => (x.1, Json.leaf x.2))),
      (∃ k, e = .Key k) ∨ ∃ w, e = .value w
  | [], e, he => by simp [Json.eventsOfMembers] at he
  | (k, w) :: l, e, he => by
    rw [List.map_cons, Json.eventsOfMembers, Json.events] at he
    simp only [List.cons_append, List.nil_append, List.mem_cons] at he
    rcases he with rfl | rfl | he
    · exact Or.inl ⟨k, rfl⟩
    · exact Or.inr ⟨w, rfl⟩
    · exact flat_events_leaves l e he

theorem budgetNeed_flat (tail : List Event) : ∀ (l : List (String × Wire)),
    (l.map (fun x => get_len x.2)).sum
      ≤ budgetNeed (Json.eventsOfMembers (l.map (fun x => (x.1, Json.leaf x.2))) ++ tail)
  | [] => by simp
  | (k, w) :: l => by
    have hev : Json.eventsOfMembers (((k, w) :: l).map (fun x => (x.1, Json.leaf x.2))) ++ tail
        = .Key k :: .value w
            :: (Json.eventsOfMembers (l.map (fun x => (x.1, Json.leaf x.2))) ++ tail) := by
      rw [List.map_cons, Json.eventsOfMembers, Json.events]
      rfl
    rw [hev]
    simp only [budgetNeed, List.map_cons, List.sum_cons]
    have := budgetNeed_flat tail l
    omega

/-- C32 (matching is by name, not position, amended).  Let `ms1` be the members of a flat
object document whose keys have pairwise distinct native names, read as C strings (the key
after name mapping, up to its first NUL character), and let the budget be disabled or exceed
the charge of the leaves.  For every permutation `ms2` of the members, a fresh handler for a
record either fails on both documents, or processes both without failure and ends in the same
state, with the same destination and the same counter. -/
theorem member_order_irrelevant (ndebug : Bool) (p : SerializeProperties)
    (fs : List (String × Ty)) (object : Val) (ms1 ms2 : List (String × Wire))
    (hperm : ms1.Perm ms2)
    (hdist : (ms1.map (fun m => c_str (bufferedName p m.1))).Nodup)
    (hbudget : BudgetFor (RapidJsonDeserializer p (.record fs) object).bytes
      (budgetNeed (flatObject ms1).events)) :
    ((feed ndebug p (RapidJsonDeserializer p (.record fs) object) (flatObject ms1).events).2
        = none ↔
      (feed ndebug p (RapidJsonDeserializer p (.record fs) object) (flatObject ms2).events).2
        = none) ∧
    ((feed ndebug p (RapidJsonDeserializer p (.record fs) object) (flatObject ms1).events).2
        = none →
      feed ndebug p (RapidJsonDeserializer p (.record fs) object) (flatObject ms1).events
        = feed ndebug p (RapidJsonDeserializer p (.record fs) object) (flatObject ms2).events) := by
  have hstart : ∀ (b : Option Int) (l : List (String × Wire)),
      feed ndebug p ⟨.deser ⟨.record fs, .root, object, "", .INIT, []⟩ .null, b⟩
          (flatObject l).events
        = feed ndebug p ⟨.deser ⟨.record fs, .root, object, "", .IN_OBJECT, []⟩ .null, b⟩
            (Json.eventsOfMembers (l.map (fun x => (x.1, Json.leaf x.2))) ++ [.EndObject]) := by
    intro b l
    rw [flatObject, Json.events, List.cons_append, feed_cons]
    simp [step, doEvent, DoStartObject, Event.isEnd]
  have hsum : (ms2.map (fun x => get_len x.2)).sum = (ms1.map (fun x => get_len x.2)).sum :=
    ((hperm.map _).sum_eq).symm
  have hb1 : BudgetFor (RapidJsonDeserializer p (.record fs) object).bytes
      ((ms1.map (fun x => get_len x.2)).sum + 0) := by
    refine BudgetFor_mono _ _ _ hbudget ?_
    rw [flatObject, Json.events]
    simp only [List.cons_append, budgetNeed, Nat.add_zero]
    exact budgetNeed_flat _ ms1
  have hb2 : BudgetFor (RapidJsonDeserializer p (.record fs) object).bytes
      ((ms2.map (fun x => get_len x.2)).sum + 0) := by rw [hsum]; exact hb1
  have hfold : ms1.foldl (memberEffect ndebug p fs) (some object)
      = ms2.foldl (memberEffect ndebug p fs) (some object) := by
    apply hperm.foldl_eq'
    intro x hx y hy z
    by_cases hxy : x = y
    · rw [hxy]
    · exact memberEffect_comm ndebug p fs x y
        (fun h => hxy (List.inj_on_of_nodup_map hdist hx hy h)) z
  have hcharge : (ms1.map (memberCharge p fs)).sum = (ms2.map (memberCharge p fs)).sum :=
    (hperm.map _).sum_eq
  have hq1 := members_run ndebug p fs .root [] ms1 object _ 0 hb1
  have hq2 := members_run ndebug p fs .root [] ms2 object _ 0 hb2
  rw [← hfold, ← hcharge] at hq2
  simp only [RapidJsonDeserializer] at hq1 hq2 ⊢
  rw [hstart, hstart]
  cases hr : (ms1.foldl (memberEffect ndebug p fs) (some object)) with
  | none =>
    rw [hr] at hq1 hq2
    have f1 := feed_fails_of_quiet_none ndebug p [.EndObject] _ (flat_events_leaves ms1) _ _ hq1
    have f2 := feed_fails_of_quiet_none ndebug p [.EndObject] _ (flat_events_leaves ms2) _ _ hq2
    exact ⟨⟨fun h => absurd h f1, fun h => absurd h f2⟩, fun h => absurd h f1⟩
  | some o1 =>
    rw [hr] at hq1 hq2
    have e1 := feed_wrap ndebug p [] (by simp) [.EndObject] _ _ _ _ _ _ hq1
    have e2 := feed_wrap ndebug p [] (by simp) [.EndObject] _ _ _ _ _ _ hq2
    simp only [wrap] at e1 e2
    rw [e1, e2]
    exact ⟨Iff.rfl, fun _ => rfl⟩

theorem member_order_irrelevant_witness :
    feed false SerializeProperties.default
        (RapidJsonDeserializer SerializeProperties.default
          (.record [("id", .int .i32), ("name", .string)]) (.record [.int 0, .str ""]))
        (flatObject [("id", .int 7), ("name", .string "bob")]).events
      = feed false SerializeProperties.default
        (RapidJsonDeserializer SerializeProperties.default
          (.record [("id", .int .i32), ("name", .string)]) (.record [.int 0, .str ""]))
        (flatObject [("name", .string "bob"), ("id", .int 7)]).events :=
  (member_order_irrelevant false SerializeProperties.default
    [("id", .int .i32), ("name", .string)] (.record [.int 0, .str ""])
    [("id", .int 7), ("name", .string "bob")] [("name", .string "bob"), ("id", .int 7)]
    (List.Perm.swap _ _ _) (by decide) (Or.inr ⟨1048576, rfl, by decide, by decide⟩)).2 (by rfl)

theorem member_order_irrelevant_counterexample :
    (feed false SerializeProperties.default
        (RapidJsonDeserializer SerializeProperties.default (.record [("id", .int .i32)])
          (.record [.int 0]))
        (flatObject [("id", .int 1), ("id\x00x", .int 2)]).events).1.destination
      = .record [.int 2] ∧
    (feed false SerializeProperties.default
        (RapidJsonDeserializer SerializeProperties.default (.record [("id", .int .i32)])
          (.record [.int 0]))
        (flatObject [("id\x00x", .int 2), ("id", .int 1)]).events).1.destination
      = .record [.int 1] ∧
    (feed false SerializeProperties.default
        (RapidJsonDeserializer SerializeProperties.default
          (.record [("a", .int .i32), ("b", .int .i32)]) (.record [.int 0, .int 0]))
        (flatObject [("a", .int 1), ("b", .string "x")]).events).1.destination
      = .record [.int 1, .int 0] ∧
    (feed false SerializeProperties.default
        (RapidJsonDeserializer SerializeProperties.default
          (.record [("a", .int .i32), ("b", .int .i32)]) (.record [.int 0, .int 0]))
        (flatObject [("b", .string "x"), ("a", .int 1)]).events).1.destination
      = .record [.int 0, .int 0] :=
  ⟨rfl, rfl, rfl, rfl⟩

/-! ## The JSON value that a serialization denotes -/

theorem writes_refl : ∀ evs : List Event, writes evs evs = true
  | [] => rfl
  | e :: evs => by simp [writes, sameCall, writes_refl evs]

theorem writes_append : ∀ (a b c d : List Event), writes a b = true → writes c d = true →
    writes (a ++ c) (b ++ d) = true
  | [], [], c, d, _, h => h
  | [], _ :: _, c, d, h, _ => by simp [writes] at h
  | _ :: _, [], c, d, h, _ => by simp [writes] at h
  | e :: a, f :: b, c, d, h1, h2 => by
    simp only [writes, Bool.and_eq_true] at h1
    rw [List.cons_append, List.cons_append, writes, Bool.and_eq_true]
    exact ⟨h1.1, writes_append a b c d h1.2 h2⟩

theorem writes_cons (e : Event) (a b : List Event) (h : writes a b = true) :
    writes (e :: a) (e :: b) = true := by
  simp [writes, sameCall, h]

theorem writes_wrap (e f : Event) (a b : List Event) (h : writes a b = true) :
    writes (e :: a ++ [f]) (e :: b ++ [f]) = true :=
  writes_cons e _ _ (writes_append a b [f] [f] h (writes_refl _))

mutual
theorem denotes_val (ndebug : Bool) (p : SerializeProperties) :
    ∀ (v : Val) (T : Ty), serializable T = true → hasType T v = true →
      (do_serialize ndebug p T v).2 = none ∧
      writes (do_serialize ndebug p T v).1 (toJson p T v).events = true
  | .bool b, T, hs, hv => by
    cases T <;> simp [hasType] at hv
    exact ⟨rfl, writes_refl _⟩
  | .int n, T, hs, hv => by
    cases T <;> simp [hasType] at hv
    rename_i k
    cases k <;> simp [serializable] at hs <;> exact ⟨rfl, writes_refl _⟩
  | .double d, T, hs, hv => by
    cases T <;> simp [hasType] at hv
    exact ⟨rfl, writes_refl _⟩
  | .str s, T, hs, hv => by
    cases T <;> simp [hasType] at hv
    exact ⟨rfl, writes_refl _⟩
  | .absent, T, hs, hv => by
    cases T <;> simp [hasType] at hv
    exact ⟨rfl, writes_refl _⟩
  | .present v, T, hs, hv => by
    cases T <;> simp [hasType] at hv
    rename_i t
    rw [do_serialize, toJson]
    exact denotes_val ndebug p v t (by simpa [serializable] using hs) hv
  | .seq xs, T, hs, hv => by
    cases T <;> simp [hasType] at hv
    rename_i t
    obtain ⟨h1, h2⟩ := denotes_elems ndebug p xs t (by simpa [serializable] using hs) hv
    rw [do_serialize, toJson, Json.events]
    rcases hse : serializeElements ndebug p t xs with ⟨evs, r⟩
    rw [hse] at h1 h2
    dsimp only at h1 h2
    subst h1
    exact ⟨rfl, writes_wrap _ _ _ _ h2⟩
  | .map es, T, hs, hv => by
    cases T <;> simp [hasType] at hv
    rename_i t
    obtain ⟨h1, h2⟩ := denotes_entries ndebug p es t (by simpa [serializable] using hs) hv
    rw [do_serialize, toJson, Json.events]
    rcases hse : serializeEntries ndebug p t es with ⟨evs, r⟩
    rw [hse] at h1 h2
    dsimp only at h1 h2
    subst h1
    exact ⟨rfl, writes_wrap _ _ _ _ h2⟩
  | .record ms, T, hs, hv => by
    cases T <;> simp [hasType] at hv
    rename_i fs
    obtain ⟨h1, h2⟩ := denotes_members ndebug p ms fs (by simpa [serializable] using hs) hv
    rw [do_serialize, toJson, Json.events]
    rcases hse : serializeMembers ndebug p fs ms with ⟨evs, r⟩
    rw [hse] at h1 h2
    dsimp only at h1 h2
    subst h1
    exact ⟨rfl, writes_wrap _ _ _ _ h2⟩
theorem denotes_elems (ndebug : Bool) (p : SerializeProperties) :
    ∀ (xs : List Val) (t : Ty), serializable t = true → hasTypeAll t xs = true →
      (serializeElements ndebug p t xs).2 = none ∧
      writes (serializeElements ndebug p t xs).1 (Json.eventsOfElements (toJsonElements p t xs))
        = true
  | [], t, _, _ => ⟨rfl, rfl⟩
  | v :: vs, t, hs, hv => by
    simp only [hasTypeAll, Bool.and_eq_true] at hv
    obtain ⟨h1, h2⟩ := denotes_val ndebug p v t hs hv.1
    obtain ⟨h3, h4⟩ := denotes_elems ndebug p vs t hs hv.2
    rw [serializeElements, toJsonElements, Json.eventsOfElements]
    rcases hd : do_serialize ndebug p t v with ⟨evs, r⟩
    rw [hd] at h1 h2
    dsimp only at h1 h2
    subst h1
    dsimp only
    rcases hse : serializeElements ndebug p t vs with ⟨evs2, r2⟩
    rw [hse] at h3 h4
    dsimp only at h3 h4
    subst h3
    exact ⟨rfl, writes_append _ _ _ _ h2 h4⟩
theorem denotes_entries (ndebug : Bool) (p : SerializeProperties) :
    ∀ (es : List (String × Val)) (t : Ty), serializable t = true → hasTypeEntries t es = true →
      (serializeEntries ndebug p t es).2 = none ∧
      writes (serializeEntries ndebug p t es).1 (Json.eventsOfMembers (toJsonEntries p t es))
        = true
  | [], t, _, _ => ⟨rfl, rfl⟩
  | (k, v) :: es, t, hs, hv => by
    simp only [hasTypeEntries, Bool.and_eq_true] at hv
    obtain ⟨h1, h2⟩ := denotes_val ndebug p v t hs hv.1
    obtain ⟨h3, h4⟩ := denotes_entries ndebug p es t hs hv.2
    rw [serializeEntries, toJsonEntries, Json.eventsOfMembers]
    rcases hd : do_serialize ndebug p t v with ⟨evs, r⟩
    rw [hd] at h1 h2
    dsimp only at h1 h2
    subst h1
    dsimp only
    rcases hse : serializeEntries ndebug p t es with ⟨evs2, r2⟩
    rw [hse] at h3 h4
    dsimp only at h3 h4
    subst h3
    refine ⟨rfl, ?_⟩
    show writes (.value (.string k) :: (evs ++ evs2))
      (.Key k :: ((toJson p t v).events ++ Json.eventsOfMembers (toJsonEntries p t es))) = true
    rw [writes, Bool.and_eq_true]
    exact ⟨by simp [sameCall], writes_append _ _ _ _ h2 h4⟩
theorem denotes_members (ndebug : Bool) (p : SerializeProperties) :
    ∀ (ms : List Val) (fs : List (String × Ty)), serializableMembers fs = true →
      hasTypeMembers fs ms = true →
      (serializeMembers ndebug p fs ms).2 = none ∧
      writes (serializeMembers ndebug p fs ms).1 (Json.eventsOfMembers (toJsonMembers p fs ms))
        = true
  | [], fs, _, hv => by
    cases fs with
    | nil => exact ⟨rfl, rfl⟩
    | cons f fs => simp [hasTypeMembers] at hv
  | v :: vs, fs, hs, hv => by
    cases fs with
    | nil => simp [hasTypeMembers] at hv
    | cons f fs =>
      obtain ⟨name, t⟩ := f
      simp only [hasTypeMembers, Bool.and_eq_true] at hv
      simp only [serializableMembers, Bool.and_eq_true] at hs
      obtain ⟨h1, h2⟩ := denotes_val ndebug p v t hs.1 hv.1
      obtain ⟨h3, h4⟩ := denotes_members ndebug p vs fs hs.2 hv.2
      rw [serializeMembers, is_excluded_eq, toJsonMembers]
      by_cases hem : memberEmitted p name t v = true
      · have e1 : (p.ignore_empty_fileds && is_empty_field t v) = false := by
          simp only [memberEmitted, Bool.and_eq_true, Bool.not_eq_true'] at hem
          exact hem.2
        have e2 : p.is_excluded name = false := by
          simp only [memberEmitted, Bool.and_eq_true, Bool.not_eq_true'] at hem
          exact hem.1
        simp only [e1, e2, hem, Bool.false_eq_true, ↓reduceIte]
        rw [Json.eventsOfMembers]
        rcases hd : do_serialize ndebug p t v with ⟨evs, r⟩
        rw [hd] at h1 h2
        dsimp only at h1 h2
        subst h1
        dsimp only
        rcases hse : serializeMembers ndebug p fs vs with ⟨evs2, r2⟩
        rw [hse] at h3 h4
        dsimp only at h3 h4
        subst h3
        exact ⟨rfl, writes_cons _ _ _ (writes_append _ _ _ _ h2 h4)⟩
      · have hem2 : memberEmitted p name t v = false := by simpa using hem
        rw [if_neg hem]
        simp only [memberEmitted, Bool.and_eq_false_iff, Bool.not_eq_false'] at hem2
        rcases hem2 with hx | hx
        · by_cases e1 : (p.ignore_empty_fileds && is_empty_field t v) = true
          · rw [if_pos e1]; exact ⟨h3, h4⟩
          · rw [if_neg e1, if_pos hx]; exact ⟨h3, h4⟩
        · rw [if_pos (by simpa using hx)]; exact ⟨h3, h4⟩
end

theorem hasTypeAll_mem (t : Ty) : ∀ (xs : List Val), hasTypeAll t xs = true →
    ∀ x ∈ xs, hasType t x = true
  | [], _, x, hx => by simp at hx
  | v :: vs, h, x, hx => by
    simp only [hasTypeAll, Bool.and_eq_true] at h
    rcases List.mem_cons.mp hx with rfl | hx
    · exact h.1
    · exact hasTypeAll_mem t vs h.2 x hx

theorem hasTypeEntries_mem (t : Ty) : ∀ (es : List (String × Val)), hasTypeEntries t es = true →
    ∀ e ∈ es, hasType t e.2 = true
  | [], _, x, hx => by simp at hx
  | (k, v) :: es, h, x, hx => by
    simp only [hasTypeEntries, Bool.and_eq_true] at h
    rcases List.mem_cons.mp hx with rfl | hx
    · exact h.1
    · exact hasTypeEntries_mem t es h.2 x hx

theorem toJsonElements_map (p : SerializeProperties) (t : Ty) :
    ∀ xs : List Val, toJsonElements p t xs = xs.map (toJson p t)
  | [] => rfl
  | v :: vs => by rw [toJsonElements, toJsonElements_map p t vs]; rfl

theorem toJsonEntries_map (p : SerializeProperties) (t : Ty) :
    ∀ es : List (String × Val), toJsonEntries p t es = es.map (fun e => (e.1, toJson p t e.2))
  | [] => rfl
  | (k, v) :: es => by rw [toJsonEntries, toJsonEntries_map p t es]; rfl

/-- C37 (suppression applies to record fields only, amended).  For every element type in
which every integer type has an overload of `do_serialize_integral`, whatever the policy is:
`do_serialize` emits for a sequence `StartArray`, the events of every element in order, and
`EndArray`, and for a map `StartObject`, for every entry its key as a string followed by the
events of its value, and `EndObject`; the events of each element or entry value are those of
exactly one JSON value; so the JSON array has one element for every element of the sequence
and the JSON object one member for every entry of the map. -/
theorem suppression_record_only (ndebug : Bool) (p : SerializeProperties) (t : Ty)
    (hs : serializable t = true) :
    (∀ xs : List Val, hasTypeAll t xs = true →
      do_serialize ndebug p (.container t) (.seq xs)
        = (.StartArray :: elementEvents ndebug p t xs ++ [.EndArray], none) ∧
      (∀ x ∈ xs, writes (do_serialize ndebug p t x).1 (toJson p t x).events = true) ∧
      toJson p (.container t) (.seq xs) = .array (xs.map (toJson p t))) ∧
    (∀ es : List (String × Val), hasTypeEntries t es = true →
      do_serialize ndebug p (.map t) (.map es)
        = (.StartObject :: entryEvents ndebug p t es ++ [.EndObject], none) ∧
      (∀ e ∈ es, writes (do_serialize ndebug p t e.2).1 (toJson p t e.2).events = true) ∧
      toJson p (.map t) (.map es) = .object (es.map (fun e => (e.1, toJson p t e.2)))) := by
  constructor
  · intro xs hv
    have hall := hasTypeAll_mem t xs hv
    refine ⟨?_, fun x hx => (denotes_val ndebug p x t hs (hall x hx)).2, ?_⟩
    · simp only [do_serialize, serializeElements_eq ndebug p t xs
        (fun x hx => (denotes_val ndebug p x t hs (hall x hx)).1)]
    · rw [toJson, toJsonElements_map]
  · intro es hv
    have hall := hasTypeEntries_mem t es hv
    refine ⟨?_, fun e he => (denotes_val ndebug p e.2 t hs (hall e he)).2, ?_⟩
    · simp only [do_serialize, serializeEntries_eq ndebug p t es
        (fun e he => (denotes_val ndebug p e.2 t hs (hall e he)).1)]
    · rw [toJson, toJsonEntries_map]

theorem suppression_record_only_witness :
    do_serialize false
        { SerializeProperties.default with excluded_names := some ["k"] }
        (.map (.int .i32)) (.map [("", .int 0), ("k", .int 0)])
      = ([.StartObject, .value (.string ""), .value (.int 0), .value (.string "k"),
          .value (.int 0), .EndObject], none) ∧
    do_serialize false SerializeProperties.default (.container (.optional .string))
        (.seq [.absent, .present (.str "")])
      = ([.StartArray, .value .null, .value (.string ""), .EndArray], none) :=
  ⟨((suppression_record_only false
      { SerializeProperties.default with excluded_names := some ["k"] } (.int .i32)
      rfl).2 [("", .int 0), ("k", .int 0)] rfl).1,
   ((suppression_record_only false SerializeProperties.default (.optional .string)
      rfl).1 [.absent, .present (.str "")] rfl).1⟩

theorem suppression_record_only_counterexample :
    do_serialize true SerializeProperties.default (.container (.int .i16))
        (.seq [.int 5, .int 6]) = ([.StartArray, .EndArray], none) ∧
    do_serialize false SerializeProperties.default (.container (.int .i16))
        (.seq [.int 5, .int 6]) = ([.StartArray], some .aborted) ∧
    do_serialize true SerializeProperties.default (.map (.int .i16))
        (.map [("k", .int 5)]) = ([.StartObject, .value (.string "k"), .EndObject], none) :=
  ⟨rfl, rfl, rfl⟩

/-- C38 (serialized streams are well-bracketed, amended).  For every type in which every
integer type has an overload of `do_serialize_integral`, every value of it and every policy,
`do_serialize` returns and the events it has passed to the writer are those of exactly one
JSON value, the value `toJson`: every `StartObject` and `StartArray` is closed by its
`EndObject` or `EndArray`, and every `Key` is a member name of an object, followed by exactly
one value. -/
theorem well_bracketed (ndebug : Bool) (p : SerializeProperties) (T : Ty) (v : Val)
    (hs : serializable T = true) (hv : hasType T v = true) :
    (do_serialize ndebug p T v).2 = none ∧
    writes (do_serialize ndebug p T v).1 (toJson p T v).events = true :=
  denotes_val ndebug p v T hs hv

theorem well_bracketed_witness :
    writes [.StartObject, .Key "id", .value (.int 7), .Key "tags", .StartArray,
        .value (.string "a"), .EndArray, .Key "m", .StartObject, .value (.string "k"),
        .value (.int 1), .EndObject, .EndObject]
      (Json.object [("id", .leaf (.int 7)), ("tags", .array [.leaf (.string "a")]),
        ("m", .object [("k", .leaf (.int 1))])]).events = true :=
  (well_bracketed false SerializeProperties.default
    (.record [("id", .int .i32), ("name", .string), ("tags", .container .string),
      ("m", .map (.int .i32))])
    (.record [.int 7, .str "", .seq [.str "a"], .map [("k", .int 1)]]) rfl rfl).2

theorem well_bracketed_counterexample :
    do_serialize true SerializeProperties.default (.record [("x", .int .i16)])
        (.record [.int 5]) = ([.StartObject, .Key "x", .EndObject], none) ∧
    (∀ j : Json, writes [.StartObject, .Key "x", .EndObject] j.events = false) ∧
    do_serialize false SerializeProperties.default (.record [("x", .int .i16)])
        (.record [.int 5]) = ([.StartObject, .Key "x"], some .aborted) := by
  refine ⟨rfl, ?_, rfl⟩
  intro j
  cases j with
  | leaf w => simp [Json.events, writes]
  | array xs => simp [Json.events, writes, sameCall]
  | object ms =>
    cases ms with
    | nil => simp [Json.events, Json.eventsOfMembers, writes, sameCall]
    | cons m ms =>
      obtain ⟨k, j1⟩ := m
      cases j1 with
      | leaf w =>
        rw [Json.events, Json.eventsOfMembers, Json.events]
        simp [writes, sameCall]
      | array xs =>
        rw [Json.events, Json.eventsOfMembers, Json.events]
        simp [writes, sameCall]
      | object ms2 =>
        rw [Json.events, Json.eventsOfMembers, Json.events]
        simp [writes, sameCall]

/-! ## A member that the document does not name -/

theorem SetValueOnMember_keeps (ndebug : Bool) (q : SerializeProperties) (f : Frame)
    (b : Option Int) (w : Wire) (fs : List (String × Ty)) (i : Nat)
    (hT : f.T = .record fs) (hk : ∀ t, findMember f.current_name fs ≠ some (i, t)) :
    (SetValueOnMember ndebug q f b w).failure = none →
    memberAt (SetValueOnMember ndebug q f b w).frame.object i = memberAt f.object i ∧
    (SetValueOnMember ndebug q f b w).frame.current_name = "" := by
  unfold SetValueOnMember
  rw [hT]
  dsimp only
  split
  · intro hf; simp at hf
  · split
    · rename_i idx ty hfind
      have hne : i ≠ idx := by
        intro he
        exact hk ty (by rw [hfind, he])
      split
      · intro hf; simp at hf
      · split
        · intro hf; simp at hf
        · intro _
          exact ⟨memberAt_setMember_ne _ _ _ _ hne, rfl⟩
    · split
      · intro hf; simp at hf
      · intro _
        exact ⟨rfl, rfl⟩

theorem RecurseToMember_keeps (ndebug : Bool) (q : SerializeProperties) (f : Frame)
    (b : Option Int) (fs : List (String × Ty)) (i : Nat)
    (hT : f.T = .record fs) (hk : ∀ t, findMember f.current_name fs ≠ some (i, t)) :
    (RecurseToMember ndebug q f b).failure = none →
    memberAt (RecurseToMember ndebug q f b).frame.object i = memberAt f.object i ∧
    ((RecurseToMember ndebug q f b).child = .skip 0 ∨
      ∃ gc idx ty, (RecurseToMember ndebug q f b).child = .deser gc .null ∧
        gc.binding = .member idx ty ∧ idx ≠ i) := by
  unfold RecurseToMember
  rw [hT]
  dsimp only
  split
  · intro hf; simp at hf
  · split
    · rename_i idx ty hfind
      have hne : i ≠ idx := by
        intro he
        exact hk ty (by rw [hfind, he])
      split
      · intro hf; simp at hf
      · intro _
        exact ⟨memberAt_setMember_ne _ _ _ _ hne, Or.inr ⟨_, idx, ty, rfl, rfl, Ne.symm hne⟩⟩
    · split
      · intro hf; simp at hf
      · intro _
        exact ⟨rfl, Or.inl rfl⟩

theorem step_start_keeps (ndebug : Bool) (q : SerializeProperties) (g : Frame)
    (b : Option Int) (e : Event) (fs : List (String × Ty)) (i : Nat)
    (he : e = .StartObject ∨ e = .StartArray)
    (hT : g.T = .record fs) (hst : g.state = .IN_OBJECT)
    (hk : ∀ t, findMember g.current_name fs ≠ some (i, t))
    (hf : (step ndebug q (.deser g .null) b e).failure = none) (g1 : Frame) (c : Handler)
    (hh : (step ndebug q (.deser g .null) b e).handler = .deser g1 c) :
    memberAt g1.object i = memberAt g.object i ∧
    (c = .skip 1 ∨ ∃ gc idx ty, c = .deser gc .null ∧ gc.binding = .member idx ty ∧ idx ≠ i) := by
  rcases he with rfl | rfl <;>
    simp only [step, doEvent, DoStartObject, DoStartArray, hst, Handler.deser.injEq] at hf hh <;>
    rw [(enterChild_frame _ _).2.2] at hf <;>
    obtain ⟨h1, h2⟩ := RecurseToMember_keeps ndebug q g b fs i hT hk hf <;>
    rw [(enterChild_frame _ _).1] at hh <;>
    rw [← hh.1] <;>
    refine ⟨h1, ?_⟩ <;>
    rw [← hh.2] <;>
    unfold enterChild <;>
    rw [hf] <;>
    dsimp only <;>
    rcases h2 with h2 | ⟨gc, idx, ty, h2, h3, h4⟩
  · rw [h2]; exact Or.inl rfl
  · rw [h2]; exact Or.inr ⟨_, idx, ty, rfl, h3, h4⟩
  · rw [h2]; exact Or.inl rfl
  · rw [h2]; exact Or.inr ⟨_, idx, ty, rfl, h3, h4⟩

theorem plug_keeps (o : Val) (bd : Binding) (child : Val) (idx i : Nat) (ty : Ty)
    (hb : bd = .member idx ty) (hne : idx ≠ i) :
    memberAt (plug o bd child) i = memberAt o i := by
  subst hb
  exact memberAt_setMember_ne _ _ _ _ (Ne.symm hne)

theorem resume_keeps (ndebug : Bool) (q : SerializeProperties) (e eEnd : Event)
    (body : List Event) (t : State)
    (he : (e = .StartObject ∧ t = .IN_OBJECT ∧ eEnd = .EndObject) ∨
      (e = .StartArray ∧ t = .IN_ARRAY ∧ eEnd = .EndArray))
    (hdoc : ∀ (ctx : List Frame), (∀ f ∈ ctx, f.state = .RECURSED) →
      ∀ (gc : Frame) (b : Option Int) (rest : List Event) (s : Session), gc.state = t →
        feed ndebug q ⟨wrap ctx (.deser gc .null), b⟩ (body ++ rest) = (s, none) →
        ∃ g1 b1, feedQuiet ndebug q (.deser gc .null) b body = some (.deser g1 .null, b1) ∧
          Frame.same gc g1)
    (hskip : ∀ b, feedQuiet ndebug q (.skip 1) b body = some (.skip 1, b))
    (fs : List (String × Ty)) (i : Nat) (g : Frame) (b : Option Int)
    (rest : List Event) (s : Session)
    (hT : g.T = .record fs) (hst : g.state = .IN_OBJECT)
    (hk : ∀ ty, findMember g.current_name fs ≠ some (i, ty))
    (h : feed ndebug q ⟨.deser g .null, b⟩ (e :: (body ++ (eEnd :: rest))) = (s, none)) :
    ∃ g2 b2, feedQuiet ndebug q (.deser g .null) b (e :: (body ++ [eEnd]))
        = some (.deser g2 .null, b2) ∧
      g2.T = g.T ∧ g2.binding = g.binding ∧ g2.state = .IN_OBJECT ∧
      g2.saved_state = g.saved_state ∧ g2.current_name = "" ∧
      memberAt g2.object i = memberAt g.object i := by
  have hise : e = .StartObject ∨ e = .StartArray := by
    rcases he with ⟨h1, _, _⟩ | ⟨h1, _, _⟩
    · exact Or.inl h1
    · exact Or.inr h1
  have hn : (step ndebug q (.deser g .null) b e).notify = false := by
    rcases hise with rfl | rfl <;> simp [step, Event.isEnd]
  obtain ⟨hf, h1⟩ := peel ndebug q [] (by simp) g .null b _ _ s h hn
  obtain ⟨_, g1, c, hg1, hT1, hB, hS, hsv1, hc⟩ :=
    step_start_shape ndebug q g b e t (by
      rcases he with ⟨h1, h2, _⟩ | ⟨h1, h2, _⟩
      · exact Or.inl ⟨h1, h2⟩
      · exact Or.inr ⟨h1, h2⟩) (Or.inl hst) hf
  obtain ⟨hname, hbytes⟩ := step_start_name ndebug q g b e hise (Or.inl hst)
    (fun h2 => by rw [hst] at h2; cases h2) hf g1 c hg1
  obtain ⟨hobj, hbind⟩ := step_start_keeps ndebug q g b e fs i hise hT hst hk hf g1 c hg1
  have hstep : step ndebug q (.deser g .null) b e = ⟨.deser g1 c, b, false, none⟩ := by
    rcases hx : step ndebug q (.deser g .null) b e with ⟨hh, bb, nn, ff⟩
    rw [hx] at hg1 hbytes hn hf
    simp only at hg1 hbytes hn hf
    rw [hg1, hbytes, hn, hf]
  rw [hg1, hbytes] at h1
  simp only [wrap] at h1
  rw [hst] at hsv1
  have heEnd : eEnd = .EndObject ∨ eEnd = .EndArray := by
    rcases he with ⟨_, _, h3⟩ | ⟨_, _, h3⟩
    · exact Or.inl h3
    · exact Or.inr h3
  rcases hc with rfl | ⟨gc, rfl, hgs, hgb⟩
  · -- skip handler
    have hq := (feedQuiet_skip_child ndebug q g1 hS body 1 b _ _ (hskip b)).1
    have hendstep := step_skip_done ndebug q g1 b eEnd .IN_OBJECT g.saved_state hS hsv1 heEnd
    refine ⟨{ g1 with state := .IN_OBJECT, saved_state := g.saved_state }, b, ?_, hT1, hB, rfl,
      rfl, hname, hobj⟩
    rw [feedQuiet_cons ndebug q _ _ _ _ _ _ hstep,
      feedQuiet_append ndebug q _ _ _ _ _ _ hq,
      feedQuiet_cons ndebug q _ _ _ _ _ _ hendstep]
    rfl
  · -- child deserializer
    have hctx2 : ∀ f ∈ [g1], f.state = .RECURSED := by
      intro f hf2
      simp at hf2; rw [hf2]; exact hS
    have h2 : feed ndebug q ⟨wrap [g1] (.deser gc .null), b⟩
        (body ++ (eEnd :: rest)) = (s, none) := h1
    obtain ⟨gc1, b1, hq, hsame⟩ := hdoc [g1] hctx2 gc b _ s hgs h2
    have hq2 := feedQuiet_child ndebug q g1 hS _ _ _ _ _ _ hq
    have hend := step_end_child_name ndebug q g1 gc1 b1 eEnd .IN_OBJECT g.saved_state hS hsv1 (by
      rcases he with ⟨_, h2, h3⟩ | ⟨_, h2, h3⟩
      · exact Or.inl ⟨hsame.2.2.1.trans (hgs.trans h2), h3⟩
      · exact Or.inr ⟨hsame.2.2.1.trans (hgs.trans h2), h3⟩) (hsame.2.1 ▸ hgb)
    rcases hbind with hb1 | ⟨gc0, idx, ty, hb1, hb2, hb3⟩
    · cases hb1
    · simp only [Handler.deser.injEq, and_true] at hb1
      subst hb1
      refine ⟨{ g1 with state := .IN_OBJECT, saved_state := g.saved_state,
                        object := plug g1.object gc1.binding gc1.object }, b1, ?_, hT1, hB,
        rfl, rfl, hname, ?_⟩
      · rw [feedQuiet_cons ndebug q _ _ _ _ _ _ hstep,
          feedQuiet_append ndebug q _ _ _ _ _ _ hq2,
          feedQuiet_cons ndebug q _ _ _ _ _ _ hend]
        rfl
      · show memberAt (plug g1.object gc1.binding gc1.object) i = memberAt g.object i
        rw [plug_keeps _ _ _ idx i ty (hsame.2.1.trans hb2) hb3]
        exact hobj

theorem value_keeps (ndebug : Bool) (q : SerializeProperties) (fs : List (String × Ty))
    (i : Nat) :
    ∀ (j : Json) (g : Frame) (b : Option Int) (rest : List Event) (s : Session),
      g.T = .record fs → g.state = .IN_OBJECT →
      (∀ ty, findMember g.current_name fs ≠ some (i, ty)) →
      feed ndebug q ⟨.deser g .null, b⟩ (j.events ++ rest) = (s, none) →
      ∃ g2 b2, feedQuiet ndebug q (.deser g .null) b j.events = some (.deser g2 .null, b2) ∧
        g2.T = g.T ∧ g2.binding = g.binding ∧ g2.state = .IN_OBJECT ∧
        g2.saved_state = g.saved_state ∧ g2.current_name = "" ∧
        memberAt g2.object i = memberAt g.object i := by
  intro j g b rest s hT hst hk h
  cases j with
  | leaf w =>
    rw [Json.events] at h ⊢
    have hstepv : step ndebug q (.deser g .null) b (.value w)
        = ⟨.deser (SetValueOnMember ndebug q g b w).frame (SetValueOnMember ndebug q g b w).child,
            (SetValueOnMember ndebug q g b w).bytes, false,
            (SetValueOnMember ndebug q g b w).failure⟩ := by
      simp [step, doEvent, SetValue, hst, Event.isEnd]
    have hn : (step ndebug q (.deser g .null) b (.value w)).notify = false := by
      rw [hstepv]
    obtain ⟨hf, _⟩ := peel ndebug q [] (by simp) g .null b _ _ s h hn
    obtain ⟨_, g1, hg1, h1, h2, h3, h4⟩ :=
      step_leaf_same ndebug q g b _ (Or.inr ⟨w, rfl⟩) hf
    have hf2 : (SetValueOnMember ndebug q g b w).failure = none := by
      rw [hstepv] at hf; exact hf
    obtain ⟨ho, hnm⟩ := SetValueOnMember_keeps ndebug q g b w fs i hT hk hf2
    rw [hstepv] at hg1
    simp only [Handler.deser.injEq] at hg1
    rw [hg1.1] at ho hnm
    refine ⟨g1, (SetValueOnMember ndebug q g b w).bytes, ?_, h1, h2, h3.trans hst, h4, hnm, ho⟩
    rw [feedQuiet_cons ndebug q _ _ _ _ _ _ (by rw [hstepv, hf2, hg1.1, hg1.2])]
    rfl
  | array xs =>
    rw [Json.events, List.cons_append, List.cons_append, List.append_assoc] at h
    rw [Json.events, List.cons_append]
    exact resume_keeps ndebug q .StartArray .EndArray _ .IN_ARRAY (Or.inr ⟨rfl, rfl, rfl⟩)
      (fun ctx hctx gc b rest s hgs hh => doc_elements ndebug q xs ctx hctx gc b rest s hgs hh)
      (fun b => skip_alone_elements ndebug q b xs 1 (by decide))
      fs i g b rest s hT hst hk h
  | object ms =>
    rw [Json.events, List.cons_append, List.cons_append, List.append_assoc] at h
    rw [Json.events, List.cons_append]
    exact resume_keeps ndebug q .StartObject .EndObject _ .IN_OBJECT (Or.inl ⟨rfl, rfl, rfl⟩)
      (fun ctx hctx gc b rest s hgs hh => doc_members ndebug q ms ctx hctx gc b rest s hgs hh)
      (fun b => skip_alone_members ndebug q b ms 1 (by decide))
      fs i g b rest s hT hst hk h

theorem members_keep (ndebug : Bool) (q : SerializeProperties) (fs : List (String × Ty))
    (i : Nat) :
    ∀ (ms : List (String × Json)) (g : Frame) (b : Option Int) (rest : List Event)
      (s : Session),
      (∀ kj ∈ ms, ∀ ty, findMember (bufferedName q kj.1) fs ≠ some (i, ty)) →
      g.T = .record fs → g.state = .IN_OBJECT → g.current_name = "" →
      feed ndebug q ⟨.deser g .null, b⟩ (Json.eventsOfMembers ms ++ rest) = (s, none) →
      ∃ g2 b2, feedQuiet ndebug q (.deser g .null) b (Json.eventsOfMembers ms)
          = some (.deser g2 .null, b2) ∧
        g2.T = g.T ∧ g2.binding = g.binding ∧ g2.state = .IN_OBJECT ∧
        g2.saved_state = g.saved_state ∧ g2.current_name = "" ∧
        memberAt g2.object i = memberAt g.object i
  | [], g, b, rest, s, _, _, hst, hname, _ => ⟨g, b, rfl, rfl, rfl, hst, rfl, hname, rfl⟩
  | (k, j) :: ms, g, b, rest, s, hall, hT, hst, hname, h => by
    rw [Json.eventsOfMembers, List.cons_append, List.cons_append, List.append_assoc] at h
    rw [Json.eventsOfMembers, List.cons_append]
    have hkey := step_key ndebug q g b k hname
    rw [feed_cons] at h
    dsimp only at h
    rw [hkey] at h
    dsimp only at h
    obtain ⟨g1, b1, hq1, hT1, hB1, hS1, hsv1, hn1, ho1⟩ :=
      value_keeps ndebug q fs i j { g with current_name := bufferedName q k } b _ s hT hst
        (hall (k, j) (List.mem_cons_self _ _)) h
    have h2 := feed_after_quiet ndebug q [] (by simp) _ _ b _ _ _ _ s h hq1
    simp only [wrap] at h2
    obtain ⟨g2, b2, hq2, hT2, hB2, hS2, hsv2, hn2, ho2⟩ :=
      members_keep ndebug q fs i ms g1 b1 rest s
        (fun kj hkj => hall kj (List.mem_cons_of_mem _ hkj)) (hT1.trans hT) hS1 hn1 h2
    refine ⟨g2, b2, ?_, hT2.trans hT1, hB2.trans hB1, hS2, hsv2.trans hsv1, hn2,
      ho2.trans ho1⟩
    rw [feedQuiet_cons ndebug q _ _ _ _ _ _ hkey,
      feedQuiet_append ndebug q _ _ _ _ _ _ hq1]
    exact hq2

theorem serializeMembers_omit (ndebug : Bool) (p : SerializeProperties)
    (hp : p.ignore_empty_fileds = true) (name : String) (post : List (String × Ty))
    (vpost : List Val) :
    ∀ (pre : List (String × Ty)) (vpre : List Val), pre.length = vpre.length →
      serializeMembers ndebug p (pre ++ (name, .bool) :: post) (vpre ++ .bool false :: vpost)
        = serializeMembers ndebug p (pre ++ post) (vpre ++ vpost)
  | [], [], _ => by
    rw [List.nil_append, List.nil_append, serializeMembers, if_pos (by simp [hp, is_empty_field])]
    rfl
  | [], _ :: _, h => by simp at h
  | _ :: _, [], h => by simp at h
  | (n, t) :: pre, v :: vpre, h => by
    have ih := serializeMembers_omit ndebug p hp name post vpost pre vpre (by simpa using h)
    rw [List.cons_append, List.cons_append, List.cons_append, List.cons_append,
      serializeMembers, serializeMembers, ih]

theorem toJsonMembers_omit (p : SerializeProperties)
    (hp : p.ignore_empty_fileds = true) (name : String) (post : List (String × Ty))
    (vpost : List Val) :
    ∀ (pre : List (String × Ty)) (vpre : List Val), pre.length = vpre.length →
      toJsonMembers p (pre ++ (name, .bool) :: post) (vpre ++ .bool false :: vpost)
        = toJsonMembers p (pre ++ post) (vpre ++ vpost)
  | [], [], _ => by
    rw [List.nil_append, List.nil_append, toJsonMembers,
      if_neg (by simp [memberEmitted, hp, is_empty_field])]
    rfl
  | [], _ :: _, h => by simp at h
  | _ :: _, [], h => by simp at h
  | (n, t) :: pre, v :: vpre, h => by
    have ih := toJsonMembers_omit p hp name post vpost pre vpre (by simpa using h)
    rw [List.cons_append, List.cons_append, List.cons_append, List.cons_append,
      toJsonMembers, toJsonMembers, ih]

theorem toJsonMembers_mem (p : SerializeProperties) :
    ∀ (fs : List (String × Ty)) (vs : List Val) (kj : String × Json),
      kj ∈ toJsonMembers p fs vs →
      ∃ x ∈ fs.zip vs, memberEmitted p x.1.1 x.1.2 x.2 = true ∧
        kj.1 = String.mk (c_str (p.map_name_to_json x.1.1))
  | [], _, kj, h => by simp [toJsonMembers] at h
  | _ :: _, [], kj, h => by simp [toJsonMembers] at h
  | (n, t) :: fs, v :: vs, kj, h => by
    rw [toJsonMembers] at h
    by_cases hem : memberEmitted p n t v = true
    · rw [if_pos hem] at h
      rcases List.mem_cons.mp h with rfl | h
      · exact ⟨((n, t), v), by simp, hem, rfl⟩
      · obtain ⟨x, hx, h1, h2⟩ := toJsonMembers_mem p fs vs kj h
        exact ⟨x, by simp [hx], h1, h2⟩
    · rw [if_neg hem] at h
      obtain ⟨x, hx, h1, h2⟩ := toJsonMembers_mem p fs vs kj h
      exact ⟨x, by simp [hx], h1, h2⟩

theorem keys_miss_omitted (p q : SerializeProperties) (name : String)
    (pre post : List (String × Ty)) (vpre vpost : List Val)
    (hlen : pre.length = vpre.length) (hp : p.ignore_empty_fileds = true)
    (hpm : p.name_mapping = none) (hqm : q.name_mapping = none)
    (hvalid : ∀ x ∈ pre ++ (name, Ty.bool) :: post, validName x.1 = true)
    (hnd : ((pre ++ (name, Ty.bool) :: post).map (fun x => x.1)).Nodup) :
    ∀ kj ∈ toJsonMembers p (pre ++ (name, .bool) :: post) (vpre ++ .bool false :: vpost),
      (findMember (bufferedName q kj.1) (pre ++ (name, .bool) :: post)).map Prod.fst
        ≠ some pre.length := by
  intro kj hkj hfm
  obtain ⟨x, hx, hem, hk⟩ := toJsonMembers_mem p _ _ kj hkj
  obtain ⟨⟨n, t⟩, v⟩ := x
  dsimp only at hem hk
  have hxfs : (n, t) ∈ pre ++ (name, Ty.bool) :: post := (List.of_mem_zip hx).1
  have hvn := hvalid (n, t) hxfs
  have hkn : bufferedName q kj.1 = n := by
    rw [hk]
    simp only [bufferedName, hqm, SerializeProperties.map_name_to_json, hpm]
    exact validName_c_str n hvn
  rw [hkn] at hfm
  rw [List.map_append, List.map_cons, List.nodup_append] at hnd
  obtain ⟨_, hnd2, hdisj⟩ := hnd
  have hnpost : name ∉ post.map (fun x => x.1) := (List.nodup_cons.mp hnd2).1
  have hnpre : name ∉ pre.map (fun x => x.1) := fun h =>
    hdisj h (List.mem_cons_self _ _)
  -- the member found for `n` is the one with the name `n`
  have hzip : (pre ++ (name, Ty.bool) :: post).zip (vpre ++ Val.bool false :: vpost)
      = pre.zip vpre ++ ((name, Ty.bool), Val.bool false) :: post.zip vpost := by
    rw [List.zip_append hlen]
    rfl
  rw [hzip] at hx
  by_cases hn : n = name
  · subst hn
    rcases List.mem_append.mp hx with h1 | h1
    · exact hnpre (List.mem_map.mpr ⟨(n, t), (List.of_mem_zip h1).1, rfl⟩)
    · rcases List.mem_cons.mp h1 with h2 | h2
      · simp only [Prod.mk.injEq] at h2
        rw [h2.1.2, h2.2] at hem
        simp [memberEmitted, hp, is_empty_field] at hem
      · exact hnpost (List.mem_map.mpr ⟨(n, t), (List.of_mem_zip h2).1, rfl⟩)
  · -- another name: `findMember` cannot stop at the member `name`
    have hfa := findMember_same_idx n name (pre ++ (name, Ty.bool) :: post) pre.length
    cases hf : findMember n (pre ++ (name, Ty.bool) :: post) with
    | none => rw [hf] at hfm; simp at hfm
    | some it =>
      rw [hf] at hfm
      simp only [Option.map_some', Option.some.injEq] at hfm
      have hname := findMember_at name .bool post
        (hvalid (name, .bool) (by simp)) pre (fun y hy =>
          ⟨hvalid y (by simp [hy]), fun h =>
            hnpre (List.mem_map.mpr ⟨y, hy, h⟩)⟩)
      have := hfa it.2 .bool (by rw [hf, ← hfm]) hname
      rw [c_str_valid n hvn, c_str_valid name (hvalid (name, .bool) (by simp))] at this
      exact hn (String.ext this)

/-- C35 (a false bool counts as empty).  (1) `is_empty_field(false)` is true.  (2) With
`ignore_empty_fields` set, `do_serialize` emits for a record with a `bool` member holding
`false` exactly what it emits for the record without that member, and the JSON document is
the same, too.  (3) When the events of that JSON document are delivered to a fresh handler
for the record type bound to a destination `d`, no key of the document resolving to the
`bool` member under the policy in use, and they are handled without failure, the `bool`
member of the destination holds what it held in `d`.  (4) No key of the document resolves to
the `bool` member when neither policy has a name mapping and the member names of the record
are not empty, without NUL and distinct. -/
theorem false_bool_empty (ndebug : Bool) (p : SerializeProperties) (name : String)
    (pre post : List (String × Ty)) (vpre vpost : List Val)
    (hlen : pre.length = vpre.length) (hp : p.ignore_empty_fileds = true) :
    is_empty_field .bool (.bool false) = true ∧
    do_serialize ndebug p (.record (pre ++ (name, .bool) :: post))
        (.record (vpre ++ .bool false :: vpost))
      = do_serialize ndebug p (.record (pre ++ post)) (.record (vpre ++ vpost)) ∧
    toJson p (.record (pre ++ (name, .bool) :: post)) (.record (vpre ++ .bool false :: vpost))
      = toJson p (.record (pre ++ post)) (.record (vpre ++ vpost)) ∧
    (∀ (q : SerializeProperties) (d : Val) (s : Session),
      (∀ kj ∈ toJsonMembers p (pre ++ (name, .bool) :: post) (vpre ++ .bool false :: vpost),
        (findMember (bufferedName q kj.1) (pre ++ (name, .bool) :: post)).map Prod.fst
          ≠ some pre.length) →
      feed ndebug q (RapidJsonDeserializer q (.record (pre ++ (name, .bool) :: post)) d)
          (toJson p (.record (pre ++ (name, .bool) :: post))
            (.record (vpre ++ .bool false :: vpost))).events = (s, none) →
      memberAt s.destination pre.length = memberAt d pre.length) ∧
    (∀ q : SerializeProperties, p.name_mapping = none → q.name_mapping = none →
      (∀ x ∈ pre ++ (name, Ty.bool) :: post, validName x.1 = true) →
      ((pre ++ (name, Ty.bool) :: post).map (fun x => x.1)).Nodup →
      ∀ kj ∈ toJsonMembers p (pre ++ (name, .bool) :: post) (vpre ++ .bool false :: vpost),
        (findMember (bufferedName q kj.1) (pre ++ (name, .bool) :: post)).map Prod.fst
          ≠ some pre.length) := by
  refine ⟨rfl, ?_, ?_, ?_, fun q hpm hqm hvalid hnd =>
    keys_miss_omitted p q name pre post vpre vpost hlen hp hpm hqm hvalid hnd⟩
  · rw [do_serialize, do_serialize, serializeMembers_omit ndebug p hp name post vpost pre vpre hlen]
  · rw [toJson, toJson, toJsonMembers_omit p hp name post vpost pre vpre hlen]
  · intro q d s hkeys h
    rw [toJson, Json.events, List.cons_append, feed_cons] at h
    have e1 : step ndebug q
          (RapidJsonDeserializer q (.record (pre ++ (name, .bool) :: post)) d).handler
          (RapidJsonDeserializer q (.record (pre ++ (name, .bool) :: post)) d).bytes .StartObject
        = ⟨.deser ⟨.record (pre ++ (name, .bool) :: post), .root, d, "", .IN_OBJECT, []⟩ .null,
            (RapidJsonDeserializer q (.record (pre ++ (name, .bool) :: post)) d).bytes,
            false, none⟩ := by
      simp [RapidJsonDeserializer, step, doEvent, DoStartObject, Event.isEnd]
    rw [e1] at h
    dsimp only at h
    obtain ⟨g2, b2, hq, hT, hB, hS, hsv, hnm, ho⟩ :=
      members_keep ndebug q _ pre.length _ _ _ [.EndObject] s
        (fun kj hkj ty hfm => hkeys kj hkj (by rw [hfm]; rfl)) rfl rfl rfl h
    have h2 := feed_after_quiet ndebug q [] (by simp) _ _ _ _ _ _ _ s h hq
    simp only [wrap] at h2
    rw [feed_cons] at h2
    have e2 : step ndebug q (.deser g2 .null) b2 .EndObject
        = ⟨.deser { g2 with current_name := "", state := .DONE } .null, b2, false, none⟩ := by
      have hhp : g2.binding.HaveParent = false := by rw [hB]; rfl
      simp [step, doEvent, DoEndObject, hS, Event.isEnd, hhp]
    rw [e2] at h2
    simp only [feed, Prod.mk.injEq, and_true] at h2
    rw [← h2]
    exact ho

theorem false_bool_empty_witness :
    memberAt (feed false SerializeProperties.default
        (RapidJsonDeserializer SerializeProperties.default
          (.record [("id", .int .i32), ("flag", .bool), ("name", .string)])
          (.record [.int 0, .bool true, .str ""]))
        [.StartObject, .Key "id", .value (.int 7), .Key "name", .value (.string "bob"),
          .EndObject]).1.destination 1 = .bool true :=
  (false_bool_empty false SerializeProperties.default "flag" [("id", .int .i32)]
    [("name", .string)] [.int 7] [.str "bob"] rfl rfl).2.2.2.1 SerializeProperties.default
    (.record [.int 0, .bool true, .str ""]) _ (by decide) (by rfl)

/-! ## Round trip through the written document -/

theorem leaf_core (ndebug : Bool) (p : SerializeProperties) (t : Ty) (v : Val)
    (ht : leafRT t = true) (hv : hasType t v = true) :
    ∃ w : Wire, toJson p t v = .leaf w ∧ do_serialize ndebug p t v = ([.value w], none) ∧
      w.ty ≠ .nullptr_t ∧ is_convertible t w.ty = true ∧ assignOp t w = .ok v ∧
      (∀ x, assign_value false t x w = .ok v) ∧ (∀ x, assign_value true t x w = .ok v) := by
  cases t with
  | bool =>
    cases v <;> simp [hasType] at hv
    rename_i b
    refine ⟨.bool b, by simp [toJson], by simp [do_serialize, do_serialize_integral],
      by simp [Wire.ty], rfl, ?_, ?_, ?_⟩ <;> cases b <;> (try intro x) <;> rfl
  | string =>
    cases v <;> simp [hasType] at hv
    rename_i s
    exact ⟨.string s, by simp [toJson], by simp [do_serialize], by simp [Wire.ty], rfl, rfl,
      fun _ => rfl, fun _ => rfl⟩
  | double =>
    cases v <;> simp [hasType] at hv
    rename_i d
    exact ⟨.double d, by simp [toJson], by simp [do_serialize, do_serialize_integral],
      by simp [Wire.ty], rfl, rfl, fun _ => rfl, fun _ => rfl⟩
  | int k =>
    cases v <;> simp [hasType] at hv
    rename_i n
    have hw := wrapInt_of_range k n hv.1 hv.2
    cases k <;> simp [leafRT] at ht
    · refine ⟨.int n, by simp [toJson, intLeaf], by simp [do_serialize, do_serialize_integral],
        by simp [Wire.ty], rfl, ?_, ?_, ?_⟩ <;>
        simp [assign_value, Wire.ty, is_assignable_v, is_assignable_lvalue, is_arithmetic,
          WireTy.is_arithmetic, is_string, is_convertible, assignOp, static_cast,
          Wire.intValue, hw, Except.map]
    · refine ⟨.int64 n, by simp [toJson, intLeaf],
        by simp [do_serialize, do_serialize_integral], by simp [Wire.ty], rfl, ?_, ?_, ?_⟩ <;>
        simp [assign_value, Wire.ty, is_assignable_v, is_assignable_lvalue, is_arithmetic,
          WireTy.is_arithmetic, is_string, is_convertible, assignOp, static_cast,
          Wire.intValue, hw, Except.map]
    all_goals
      have h0 : (0 : Int) ≤ n := by simpa [IntTy.min, IntTy.signed] using hv.1
      have hn : ((n.toNat : Nat) : Int) = n := Int.toNat_of_nonneg h0
    · refine ⟨.uint n.toNat, by simp [toJson, intLeaf],
        by simp [do_serialize, do_serialize_integral], by simp [Wire.ty], rfl, ?_, ?_, ?_⟩ <;>
        simp [assign_value, Wire.ty, is_assignable_v, is_assignable_lvalue, is_arithmetic,
          WireTy.is_arithmetic, is_string, is_convertible, assignOp, static_cast,
          Wire.intValue, hw, hn, Except.map, h0]
    · refine ⟨.uint n.toNat, by simp [toJson, intLeaf],
        by simp [do_serialize, do_serialize_integral], by simp [Wire.ty], rfl, ?_, ?_, ?_⟩ <;>
        simp [assign_value, Wire.ty, is_assignable_v, is_assignable_lvalue, is_arithmetic,
          WireTy.is_arithmetic, is_string, is_convertible, assignOp, static_cast,
          Wire.intValue, hw, hn, Except.map, h0]
    · refine ⟨.uint64 n.toNat, by simp [toJson, intLeaf],
        by simp [do_serialize, do_serialize_integral], by simp [Wire.ty], rfl, ?_, ?_, ?_⟩ <;>
        simp [assign_value, Wire.ty, is_assignable_v, is_assignable_lvalue, is_arithmetic,
          WireTy.is_arithmetic, is_string, is_convertible, assignOp, static_cast,
          Wire.intValue, hw, hn, Except.map, h0]
  | _ => simp [leafRT] at ht

theorem engaged_leaf (ndebug : Bool) (p q : SerializeProperties) :
    ∀ (v : Val) (t : Ty), restorable ndebug p q t v = true →
      isComposite (optCore t) = false →
    ∃ w : Wire, toJson p t v = .leaf w ∧ do_serialize ndebug p t v = ([.value w], none) ∧
      w.ty ≠ .nullptr_t ∧ is_convertible t w.ty = true ∧ assignOp t w = .ok v ∧
      (∀ x, assign_value false t x w = .ok v) ∧ (∀ x, assign_value true t x w = .ok v)
  | .present v1, t, hv, hl => by
    cases t <;> simp only [restorable] at hv <;> try cases hv
    rename_i t1
    obtain ⟨w, h1, h2, h3, h4, h5, _, _⟩ := engaged_leaf ndebug p q v1 t1 hv hl
    have h3b : (w.ty == WireTy.nullptr_t) = false := by simpa using h3
    refine ⟨w, by rw [toJson, h1], by rw [do_serialize, h2], h3, by rw [is_convertible, h4],
      by rw [assignOp, h5]; rfl, fun x => ?_, fun x => ?_⟩
    · simp [assign_value, h3b, is_assignable_v, is_assignable_lvalue, is_arithmetic, h4,
        assignOp, h5, Except.map]
    · simp [assign_value, is_assignable_v, is_assignable_lvalue, h4, assignOp, h5, Except.map]
  | .bool b, t, hv, hl => by
    cases t <;> simp only [restorable] at hv <;> try cases hv
    exact leaf_core ndebug p _ _ rfl rfl
  | .int n, t, hv, hl => by
    cases t <;> simp only [restorable] at hv <;> try cases hv
    simp only [Bool.and_eq_true] at hv
    exact leaf_core ndebug p _ _ hv.1 (by simp only [hasType]; exact hv.2)
  | .double d, t, hv, hl => by
    cases t <;> simp only [restorable] at hv <;> try cases hv
    exact leaf_core ndebug p _ _ rfl rfl
  | .str s, t, hv, hl => by
    cases t <;> simp only [restorable] at hv <;> try cases hv
    exact leaf_core ndebug p _ _ rfl rfl
  | .absent, t, hv, hl => by
    cases t <;> simp only [restorable] at hv <;> cases hv
  | .record ms, t, hv, hl => by
    cases t <;> simp only [restorable] at hv <;> try cases hv
    simp [optCore, isComposite] at hl
  | .seq xs, t, hv, hl => by
    cases t <;> simp only [restorable] at hv <;> try cases hv
    simp [optCore, isComposite] at hl
  | .map es, t, hv, hl => by
    cases t <;> simp only [restorable] at hv <;> try cases hv
    simp [optCore, isComposite] at hl

theorem engaged_composite (ndebug : Bool) (p q : SerializeProperties) :
    ∀ (v : Val) (t : Ty), restorable ndebug p q t v = true → isComposite (optCore t) = true →
    restorable ndebug p q (optCore t) (coreVal v) = true ∧ rewrap t (coreVal v) = v ∧
      toJson p t v = toJson p (optCore t) (coreVal v) ∧
      do_serialize ndebug p t v = do_serialize ndebug p (optCore t) (coreVal v)
  | .present v1, t, hv, hc => by
    cases t <;> simp only [restorable] at hv <;> try cases hv
    rename_i t1
    obtain ⟨h1, h2, h3, h4⟩ := engaged_composite ndebug p q v1 t1 hv hc
    exact ⟨h1, by rw [coreVal, rewrap, h2], by rw [toJson, h3]; rfl,
      by rw [do_serialize, h4]; rfl⟩
  | .bool b, t, hv, hc => by
    cases t <;> simp only [restorable] at hv <;> try cases hv
    simp [optCore, isComposite] at hc
  | .int n, t, hv, hc => by
    cases t <;> simp only [restorable] at hv <;> try cases hv
    simp [optCore, isComposite] at hc
  | .double d, t, hv, hc => by
    cases t <;> simp only [restorable] at hv <;> try cases hv
    simp [optCore, isComposite] at hc
  | .str s, t, hv, hc => by
    cases t <;> simp only [restorable] at hv <;> try cases hv
    simp [optCore, isComposite] at hc
  | .absent, t, hv, hc => by
    cases t <;> simp only [restorable] at hv <;> cases hv
  | .record ms, t, hv, hc => by
    cases t <;> simp only [restorable] at hv <;> try cases hv
    exact ⟨by simp only [optCore, coreVal, restorable]; exact hv, rfl, rfl, rfl⟩
  | .seq xs, t, hv, hc => by
    cases t <;> simp only [restorable] at hv <;> try cases hv
    exact ⟨by simp only [optCore, coreVal, restorable]; exact hv, rfl, rfl, rfl⟩
  | .map es, t, hv, hc => by
    cases t <;> simp only [restorable] at hv <;> try cases hv
    exact ⟨by simp only [optCore, coreVal, restorable]; exact hv, rfl, rfl, rfl⟩

theorem core_kind : ∀ t : Ty, is_primitive (optCore t) = true ∨ isComposite (optCore t) = true
  | .optional t => core_kind t
  | .bool => Or.inl rfl
  | .int _ => Or.inl rfl
  | .double => Or.inl rfl
  | .string => Or.inl rfl
  | .record _ => Or.inr rfl
  | .container _ => Or.inr rfl
  | .map _ => Or.inr rfl

theorem recurse_core : ∀ t : Ty, isComposite (optCore t) = true →
    is_optional t = true ∨ isComposite t = true
  | .optional _, _ => Or.inl rfl
  | .bool, h => by simp [optCore, isComposite] at h
  | .int _, h => by simp [optCore, isComposite] at h
  | .double, h => by simp [optCore, isComposite] at h
  | .string, h => by simp [optCore, isComposite] at h
  | .record _, _ => Or.inr rfl
  | .container _, _ => Or.inr rfl
  | .map _, _ => Or.inr rfl

theorem DoRecurseToMember_core : ∀ t : Ty, isComposite (optCore t) = true →
    DoRecurseToMember t (defaultVal t)
      = (rewrap t (defaultVal (optCore t)), some (optCore t, defaultVal (optCore t)))
  | .optional t, h => by
    have ih := DoRecurseToMember_core t h
    simp only [DoRecurseToMember, ih, rewrap, optCore]
  | .bool, h => by simp [optCore, isComposite] at h
  | .int _, h => by simp [optCore, isComposite] at h
  | .double, h => by simp [optCore, isComposite] at h
  | .string, h => by simp [optCore, isComposite] at h
  | .record _, _ => rfl
  | .container _, _ => rfl
  | .map _, _ => rfl

theorem DoRecurseToMember_optional (t : Ty) (x : Val) :
    DoRecurseToMember (.optional t) x = DoRecurseToMember (.optional t) .absent := rfl

theorem keyLt_irrefl : ∀ a : List Char, keyLt a a = false
  | [] => rfl
  | c :: cs => by simp [keyLt, keyLt_irrefl cs]

theorem keyLt_asymm : ∀ a b : List Char, keyLt a b = true → keyLt b a = false
  | _, [], h => by simp [keyLt] at h
  | [], _ :: _, _ => by simp [keyLt]
  | a :: as, b :: bs, h => by
    simp only [keyLt, Bool.or_eq_true, decide_eq_true_eq, Bool.and_eq_true, beq_iff_eq] at h
    simp only [keyLt, Bool.or_eq_false_iff, decide_eq_false_iff_not, Bool.and_eq_false_imp,
      beq_iff_eq]
    rcases h with h | ⟨h1, h2⟩
    · exact ⟨by omega, fun hh => by omega⟩
    · exact ⟨by omega, fun _ => keyLt_asymm as bs h2⟩

theorem keyLt_ne (a b : String) (h : keyLt a.toList b.toList = true) : a ≠ b := by
  intro hab
  rw [hab, keyLt_irrefl] at h
  cases h

theorem mapFind_fresh (k : String) :
    ∀ done : List (String × Val), (∀ e ∈ done, keyLt e.1.toList k.toList = true) →
      mapFind done k = none
  | [], _ => rfl
  | (k1, v1) :: done, h => by
    have h1 := keyLt_ne k1 k (h (k1, v1) (List.mem_cons_self _ _))
    have ih := mapFind_fresh k done (fun e he => h e (List.mem_cons_of_mem _ he))
    unfold mapFind at ih ⊢
    rw [List.find?_cons_of_neg _ (by simpa using h1)]
    exact ih

theorem mapInsert_last (k : String) (v : Val) :
    ∀ done : List (String × Val), (∀ e ∈ done, keyLt e.1.toList k.toList = true) →
      mapInsert done k v = done ++ [(k, v)]
  | [], _ => rfl
  | (k1, v1) :: done, h => by
    have h0 := h (k1, v1) (List.mem_cons_self _ _)
    have h1 := keyLt_ne k1 k h0
    have h2 : keyLt k.data k1.data = false := keyLt_asymm _ _ h0
    have ih := mapInsert_last k v done (fun e he => h e (List.mem_cons_of_mem _ he))
    have hb : (k1 == k) = false := by simpa using h1
    simp [mapInsert, hb, h2, ih]

theorem mapInsert_replace (k : String) (d v : Val) :
    ∀ done : List (String × Val), (∀ e ∈ done, keyLt e.1.toList k.toList = true) →
      mapInsert (done ++ [(k, d)]) k v = done ++ [(k, v)]
  | [], _ => by simp [mapInsert]
  | (k1, v1) :: done, h => by
    have h0 := h (k1, v1) (List.mem_cons_self _ _)
    have h1 := keyLt_ne k1 k h0
    have h2 : keyLt k.data k1.data = false := keyLt_asymm _ _ h0
    have ih := mapInsert_replace k d v done (fun e he => h e (List.mem_cons_of_mem _ he))
    have hb : (k1 == k) = false := by simpa using h1
    simp [mapInsert, hb, h2, ih]

theorem step_member_value (ndebug : Bool) (q : SerializeProperties)
    (fs : List (String × Ty)) (bd : Binding) (ms : List Val) (sv : List State) (nm : String)
    (t : Ty) (idx : Nat) (w : Wire) (v : Val) (b : Option Int) (m : Nat)
    (hnm : ndebug = true ∨ str_empty nm = false)
    (hfind : findMember nm fs = some (idx, t))
    (ha : assign_value false t (memberAt (.record ms) idx) w = .ok v)
    (hb : BudgetFor b (get_len w + m)) :
    ∃ b1, step ndebug q (.deser ⟨.record fs, bd, .record ms, nm, .IN_OBJECT, sv⟩ .null) b
        (.value w)
      = ⟨.deser ⟨.record fs, bd, .record (ms.set idx v), "", .IN_OBJECT, sv⟩ .null, b1, false,
          none⟩ ∧ BudgetFor b1 m := by
  have hA := AddBytes_for b (get_len w) (get_len w) m hb (Nat.le_refl _)
  refine ⟨(AddBytes b (get_len w)).1, ?_, hA.2⟩
  simp [step, doEvent, SetValue, SetValueOnMember, cassert_name ndebug nm hnm, hfind,
    hA.1, ha, setMember, Event.isEnd]

theorem step_member_open (ndebug : Bool) (q : SerializeProperties)
    (fs : List (String × Ty)) (bd : Binding) (obj : Val) (sv : List State) (nm : String)
    (t : Ty) (idx : Nat) (item : Val) (ct : Ty) (cv : Val) (b : Option Int)
    (hnm : ndebug = true ∨ str_empty nm = false)
    (hfind : findMember nm fs = some (idx, t))
    (hrec : DoRecurseToMember t (memberAt obj idx) = (item, some (ct, cv)))
    (hct : isComposite ct = true) :
    step ndebug q (.deser ⟨.record fs, bd, obj, nm, .IN_OBJECT, sv⟩ .null) b (startEvent ct)
      = ⟨.deser ⟨.record fs, bd, setMember obj idx item, "", .RECURSED, .IN_OBJECT :: sv⟩
          (.deser ⟨ct, .member idx t, cv, "", openState ct, []⟩ .null), b, false, none⟩ := by
  cases ct <;> simp [isComposite] at hct <;>
    simp [step, doEvent, DoStartObject, DoStartArray, RecurseToMember, startEvent, openState,
      cassert_name ndebug nm hnm, hfind, hrec, enterChild, startChild, newChild,
      Event.isEnd]

theorem step_child_close (ndebug : Bool) (q : SerializeProperties) (F : Frame) (st : State)
    (sv : List State) (ct : Ty) (bnd : Binding) (v : Val) (b : Option Int)
    (hF : F.state = .RECURSED) (hsv : F.saved_state = st :: sv)
    (hb : bnd.HaveParent = true) (hct : isComposite ct = true) :
    step ndebug q (.deser F (.deser ⟨ct, bnd, v, "", openState ct, []⟩ .null)) b (endEvent ct)
      = ⟨.deser { F with state := st, saved_state := sv, object := plug F.object bnd v } .null,
          b, false, none⟩ := by
  refine step_end_child_name ndebug q F ⟨ct, bnd, v, "", openState ct, []⟩ b (endEvent ct) st sv
    hF hsv ?_ hb
  cases ct <;> simp [isComposite] at hct <;> simp [openState, endEvent]

theorem step_element_open (ndebug : Bool) (q : SerializeProperties) (t : Ty) (bd : Binding)
    (xs : List Val) (nm : String) (sv : List State) (b : Option Int)
    (ht : (is_sequence t || is_container t) = true) :
    step ndebug q (.deser ⟨.container t, bd, .seq xs, nm, .IN_ARRAY, sv⟩ .null) b (startEvent t)
      = ⟨.deser ⟨.container t, bd, .seq (xs ++ [defaultVal t]), nm, .RECURSED, .IN_ARRAY :: sv⟩
          (.deser ⟨t, .back, defaultVal t, "", openState t, []⟩ .null), b, false, none⟩ := by
  cases t <;> simp [is_sequence, is_container] at ht <;>
    simp [step, doEvent, DoStartObject, DoStartArray, RecurseToContainerValue, startEvent,
      openState, is_sequence, is_container, enterChild, startChild, newChild, push_back,
      Event.isEnd]

theorem step_entry_open (ndebug : Bool) (q : SerializeProperties) (t : Ty) (bd : Binding)
    (done : List (String × Val)) (sv : List State) (k : String) (b : Option Int)
    (ht : isComposite t = true) (hk : mapFind done k = none) :
    step ndebug q (.deser ⟨.map t, bd, .map done, k, .IN_OBJECT, sv⟩ .null) b (startEvent t)
      = ⟨.deser ⟨.map t, bd, .map (mapInsert done k (defaultVal t)), "", .RECURSED,
            .IN_OBJECT :: sv⟩
          (.deser ⟨t, .entry k, defaultVal t, "", openState t, []⟩ .null), b, false, none⟩ := by
  cases t <;> simp [isComposite] at ht <;>
    simp [step, doEvent, DoStartObject, DoStartArray, RecurseToMember, startEvent, openState,
      mapIndex, hk, enterChild, startChild, newChild, Event.isEnd]

theorem step_document_open (ndebug : Bool) (q : SerializeProperties) (T : Ty) (v : Val)
    (b : Option Int) (hT : isComposite T = true) :
    step ndebug q (.deser ⟨T, .root, v, "", .INIT, []⟩ .null) b (startEvent T)
      = ⟨.deser ⟨T, .root, v, "", openState T, []⟩ .null, b, false, none⟩ := by
  cases T <;> simp [isComposite] at hT <;>
    simp [step, doEvent, DoStartObject, DoStartArray, startEvent, openState, Event.isEnd]

theorem step_document_close (ndebug : Bool) (q : SerializeProperties) (T : Ty) (v : Val)
    (b : Option Int) (hT : isComposite T = true) :
    step ndebug q (.deser ⟨T, .root, v, "", openState T, []⟩ .null) b (endEvent T)
      = ⟨.deser ⟨T, .root, v, "", .DONE, []⟩ .null, b, false, none⟩ := by
  cases T <;> simp [isComposite] at hT <;>
    simp [step, doEvent, DoEndObject, DoEndArray, endEvent, openState, Event.isEnd,
      Binding.HaveParent, afterChild, OnChildIsDone, cassert]

theorem documentCharge_append (a b : List Event) :
    documentCharge (a ++ b) = documentCharge a + documentCharge b := by
  induction a with
  | nil => simp [documentCharge]
  | cons e a ih =>
    cases e <;> simp [documentCharge, ih]
    all_goals omega

theorem documentCharge_comp (T : Ty) (body : List Event) (hT : isComposite T = true) :
    documentCharge (startEvent T :: body ++ [endEvent T]) = documentCharge body := by
  rw [List.cons_append]
  cases T <;> simp [isComposite] at hT <;>
    simp [startEvent, endEvent, documentCharge, documentCharge_append]

theorem composite_core : ∀ t : Ty, isComposite t = true → optCore t = t
  | .record _, _ => rfl
  | .container _, _ => rfl
  | .map _, _ => rfl
  | .optional _, h => by simp [isComposite] at h
  | .bool, h => by simp [isComposite] at h
  | .int _, h => by simp [isComposite] at h
  | .double, h => by simp [isComposite] at h
  | .string, h => by simp [isComposite] at h

theorem rewrap_composite (t : Ty) (x : Val) (h : isComposite t = true) : rewrap t x = x := by
  cases t <;> simp [isComposite] at h <;> rfl

theorem leafRT_core (t : Ty) (h : leafRT (optCore t) = true) :
    isComposite (optCore t) = false := by
  cases hc : optCore t <;> rw [hc] at h <;> simp [leafRT] at h <;> rfl

theorem member_slot (ndebug : Bool) (p q : SerializeProperties) (t : Ty) (v : Val)
    (hv : isAbsent t v = true ∨ restorable ndebug p q t v = true)
    (hc : restorable ndebug p q t v = true → isComposite (optCore t) = true →
      Restored ndebug p q (optCore t) (coreVal v)) :
    MemberRestored ndebug p q t v := by
  have leafCase : ∀ w : Wire, toJson p t v = .leaf w →
      do_serialize ndebug p t v = ([.value w], none) →
      (∀ x, assign_value false t x w = .ok v) → MemberRestored ndebug p q t v := by
    intro w hj hs ha
    refine ⟨_, hs, by rw [hj]; exact writes_refl _, ?_⟩
    intro fs bd ms sv key idx b m hnm hfind _ hb
    rw [hj, Json.events] at hb ⊢
    obtain ⟨b1, hst, hb1⟩ := step_member_value ndebug q fs bd ms sv (bufferedName q key) t idx
      w v b m hnm hfind (ha _)
      (BudgetFor_mono b _ _ hb (by simp only [documentCharge]; omega))
    refine ⟨b1, ?_, hb1⟩
    rw [feedQuiet_cons ndebug q _ _ _ _ _ _ (step_key ndebug q _ b key rfl),
      feedQuiet_cons ndebug q _ _ _ _ _ _ hst]
    rfl
  rcases hv with hv | hv
  · cases t <;> cases v <;> simp [isAbsent] at hv
    exact leafCase .null (by simp [toJson]) (by simp [do_serialize]) (fun _ => rfl)
  · cases hk : isComposite (optCore t) with
    | false =>
      obtain ⟨w, h1, h2, _, _, _, h6, _⟩ := engaged_leaf ndebug p q v t hv hk
      exact leafCase w h1 h2 h6
    | true =>
      obtain ⟨_, hre, hj, hs⟩ := engaged_composite ndebug p q v t hv hk
      obtain ⟨sbody, body, hser, hdoc, hwr, hrun⟩ := hc hv hk
      refine ⟨_, hs.trans hser, by rw [hj, hdoc]; exact writes_wrap _ _ _ _ hwr, ?_⟩
      intro fs bd ms sv key idx b m hnm hfind hdef hb
      rw [hj, hdoc] at hb ⊢
      have hb0 : BudgetFor b (documentCharge body + m) := by
        refine BudgetFor_mono b _ _ hb ?_
        rw [documentCharge, documentCharge_comp _ _ hk]
        omega
      obtain ⟨b1, hq1, hb1⟩ := hrun (.member idx t) b m hb0
      refine ⟨b1, ?_, hb1⟩
      have hstart := step_member_open ndebug q fs bd (.record ms) sv (bufferedName q key) t idx
        _ (optCore t) _ b hnm hfind (by rw [hdef]; exact DoRecurseToMember_core t hk) hk
      have hbody := feedQuiet_child ndebug q
        ⟨.record fs, bd, setMember (.record ms) idx (rewrap t (defaultVal (optCore t))), "",
          .RECURSED, .IN_OBJECT :: sv⟩ rfl body _ _ b _ _ hq1
      have hend := step_child_close ndebug q
        ⟨.record fs, bd, setMember (.record ms) idx (rewrap t (defaultVal (optCore t))), "",
          .RECURSED, .IN_OBJECT :: sv⟩ .IN_OBJECT sv (optCore t) (.member idx t) (coreVal v) b1
        rfl rfl rfl hk
      rw [feedQuiet_cons ndebug q _ _ _ _ _ _ (step_key ndebug q _ b key rfl),
        List.cons_append, feedQuiet_cons ndebug q _ _ _ _ _ _ hstart,
        feedQuiet_append ndebug q _ _ _ _ _ _ hbody,
        feedQuiet_cons ndebug q _ _ _ _ _ _ hend]
      simp [feedQuiet, plug, setMember, hre]

theorem element_slot (ndebug : Bool) (p q : SerializeProperties) (t : Ty) (v : Val)
    (hv : restorable ndebug p q t v = true)
    (hs : (leafRT (optCore t) || is_sequence t || is_container t) = true)
    (hc : isComposite (optCore t) = true → Restored ndebug p q (optCore t) (coreVal v)) :
    ElementRestored ndebug p q t v := by
  cases hk : isComposite (optCore t) with
  | false =>
    obtain ⟨w, h1, h2, _, _, _, _, h7⟩ := engaged_leaf ndebug p q v t hv hk
    refine ⟨_, h2, by rw [h1]; exact writes_refl _, ?_⟩
    intro bd xs nm sv b m hb
    rw [h1, Json.events] at hb ⊢
    have hseq : is_sequence t = false := by
      cases t <;> simp [optCore, isComposite] at hk <;> rfl
    obtain ⟨b1, hst, hb1⟩ := step_elem_leaf ndebug q t bd xs nm sv w v b m hseq (h7 _)
      (BudgetFor_mono b _ _ hb (by simp only [documentCharge, budgetNeed]; omega))
    refine ⟨b1, ?_, hb1⟩
    rw [feedQuiet_cons ndebug q _ _ _ _ _ _ hst]
    rfl
  | true =>
    have hl : leafRT (optCore t) = false := by
      cases h : leafRT (optCore t) with
      | false => rfl
      | true =>
        have := leafRT_core t h
        rw [hk] at this
        cases this
    rw [hl, Bool.false_or] at hs
    have ht : isComposite t = true := by
      cases t <;> simp [is_sequence, is_container] at hs <;> rfl
    obtain ⟨_, hre, _, _⟩ := engaged_composite ndebug p q v t hv hk
    rw [rewrap_composite t _ ht] at hre
    have hR := hc hk
    rw [composite_core t ht, hre] at hR
    obtain ⟨sbody, body, hser, hdoc, hwr, hrun⟩ := hR
    refine ⟨_, hser, by rw [hdoc]; exact writes_wrap _ _ _ _ hwr, ?_⟩
    intro bd xs nm sv b m hb
    rw [hdoc] at hb ⊢
    rw [documentCharge_comp _ _ ht] at hb
    obtain ⟨b1, hq1, hb1⟩ := hrun .back b m hb
    refine ⟨b1, ?_, hb1⟩
    have hstart := step_element_open ndebug q t bd xs nm sv b hs
    have hbody := feedQuiet_child ndebug q
      ⟨.container t, bd, .seq (xs ++ [defaultVal t]), nm, .RECURSED, .IN_ARRAY :: sv⟩ rfl body
      _ _ b _ _ hq1
    have hend := step_child_close ndebug q
      ⟨.container t, bd, .seq (xs ++ [defaultVal t]), nm, .RECURSED, .IN_ARRAY :: sv⟩
      .IN_ARRAY sv t .back v b1 rfl rfl rfl ht
    rw [List.cons_append, feedQuiet_cons ndebug q _ _ _ _ _ _ hstart,
      feedQuiet_append ndebug q _ _ _ _ _ _ hbody,
      feedQuiet_cons ndebug q _ _ _ _ _ _ hend]
    simp [feedQuiet, plug, setBack]

theorem entry_slot (ndebug : Bool) (p q : SerializeProperties) (t : Ty) (v : Val)
    (hv : isAbsent t v = true ∨
      (restorable ndebug p q t v = true ∧ (leafRT (optCore t) || isComposite t) = true))
    (hc : restorable ndebug p q t v = true → isComposite (optCore t) = true →
      Restored ndebug p q (optCore t) (coreVal v)) :
    EntryRestored ndebug p q t v := by
  have leafCase : ∀ w : Wire, isComposite t = false → toJson p t v = .leaf w →
      do_serialize ndebug p t v = ([.value w], none) →
      (∀ x, assign_value false t x w = .ok v) → EntryRestored ndebug p q t v := by
    intro w hnc hj hs ha
    refine ⟨_, hs, by rw [hj]; exact writes_refl _, ?_⟩
    intro bd done sv k b m hkey hlt hb
    rw [hj, Json.events] at hb ⊢
    simp only [keyRestored, hnc, Bool.or_false, Bool.and_eq_true, beq_iff_eq,
      Bool.or_eq_true, Bool.not_eq_true'] at hkey
    have hfresh := mapFind_fresh k done hlt
    have hA := AddBytes_for b (get_len w + 32 + k.length + 8 * 6)
      (documentCharge [Event.Key k, .value w]) m hb
      (by simp only [documentCharge]; omega)
    have hst := step_map_leaf ndebug q t bd done sv k w v b hkey.2 hA.1 (ha _)
    have hobj : mapAssign (mapIndex (.map done) t k).1 k v = .map (done ++ [(k, v)]) := by
      simp only [mapIndex, hfresh, mapAssign]
      rw [mapInsert_last k _ done hlt, mapInsert_replace k _ v done hlt]
    rw [hobj] at hst
    refine ⟨_, ?_, hA.2⟩
    have hk0 := step_key ndebug q ⟨.map t, bd, .map done, "", .IN_OBJECT, sv⟩ b k rfl
    rw [hkey.1] at hk0
    rw [feedQuiet_cons ndebug q _ _ _ _ _ _ hk0, feedQuiet_cons ndebug q _ _ _ _ _ _ hst]
    rfl
  rcases hv with hv | ⟨hv, hs⟩
  · cases t <;> cases v <;> simp [isAbsent] at hv
    exact leafCase .null rfl (by simp [toJson]) (by simp [do_serialize]) (fun _ => rfl)
  · cases hk : isComposite (optCore t) with
    | false =>
      obtain ⟨w, h1, h2, _, _, _, h6, _⟩ := engaged_leaf ndebug p q v t hv hk
      have hnc : isComposite t = false := by
        cases h : isComposite t with
        | false => rfl
        | true =>
          rw [composite_core t h, h] at hk
          cases hk
      exact leafCase w hnc h1 h2 h6
    | true =>
      have hl : leafRT (optCore t) = false := by
        cases h : leafRT (optCore t) with
        | false => rfl
        | true =>
          have := leafRT_core t h
          rw [hk] at this
          cases this
      rw [hl, Bool.false_or] at hs
      obtain ⟨_, hre, _, _⟩ := engaged_composite ndebug p q v t hv hk
      rw [rewrap_composite t _ hs] at hre
      have hR := hc hv hk
      rw [composite_core t hs, hre] at hR
      obtain ⟨sbody, body, hser, hdoc, hwr, hrun⟩ := hR
      refine ⟨_, hser, by rw [hdoc]; exact writes_wrap _ _ _ _ hwr, ?_⟩
      intro bd done sv k b m hkey hlt hb
      rw [hdoc] at hb ⊢
      simp only [keyRestored, Bool.and_eq_true, beq_iff_eq] at hkey
      have hfresh := mapFind_fresh k done hlt
      have hb0 : BudgetFor b (documentCharge body + m) := by
        refine BudgetFor_mono b _ _ hb ?_
        rw [documentCharge, documentCharge_comp _ _ hs]
        omega
      obtain ⟨b1, hq1, hb1⟩ := hrun (.entry k) b m hb0
      refine ⟨b1, ?_, hb1⟩
      have hk0 := step_key ndebug q ⟨.map t, bd, .map done, "", .IN_OBJECT, sv⟩ b k rfl
      rw [hkey.1] at hk0
      have hstart := step_entry_open ndebug q t bd done sv k b hs hfresh
      rw [mapInsert_last k _ done hlt] at hstart
      have hbody := feedQuiet_child ndebug q
        ⟨.map t, bd, .map (done ++ [(k, defaultVal t)]), "", .RECURSED, .IN_OBJECT :: sv⟩ rfl
        body _ _ b _ _ hq1
      have hend := step_child_close ndebug q
        ⟨.map t, bd, .map (done ++ [(k, defaultVal t)]), "", .RECURSED, .IN_OBJECT :: sv⟩
        .IN_OBJECT sv t (.entry k) v b1 rfl rfl rfl hs
      rw [feedQuiet_cons ndebug q _ _ _ _ _ _ hk0,
        List.cons_append, feedQuiet_cons ndebug q _ _ _ _ _ _ hstart,
        feedQuiet_append ndebug q _ _ _ _ _ _ hbody,
        feedQuiet_cons ndebug q _ _ _ _ _ _ hend]
      simp [feedQuiet, plug, mapAssign, mapInsert_replace k _ v done hlt]

theorem findMember_index (nm : String) :
    ∀ (fs : List (String × Ty)) (i : Nat) (ty : Ty), findMember nm fs = some (i, ty) →
      ∃ n, fs[i]? = some (n, ty)
  | [], i, ty, h => by simp [findMember] at h
  | (n, t) :: rest, i, ty, h => by
    unfold findMember at h
    split at h
    · simp only [Option.some.injEq, Prod.mk.injEq] at h
      rw [← h.1, ← h.2]
      exact ⟨n, by simp⟩
    · cases hf : findMember nm rest with
      | none => rw [hf] at h; cases h
      | some r =>
        obtain ⟨j, ty1⟩ := r
        rw [hf] at h
        simp only [Option.some.injEq, Prod.mk.injEq] at h
        obtain ⟨n1, hn1⟩ := findMember_index nm rest j ty1 hf
        rw [← h.1, ← h.2]
        exact ⟨n1, by simpa using hn1⟩

theorem memberResolves_find (ndebug : Bool) (p q : SerializeProperties)
    (pre fs : List (String × Ty)) (name : String) (t : Ty)
    (h : memberResolves ndebug p q (pre ++ (name, t) :: fs) pre.length name = true) :
    (ndebug = true ∨ str_empty (bufferedName q (wireKey p name)) = false) ∧
    findMember (bufferedName q (wireKey p name)) (pre ++ (name, t) :: fs)
      = some (pre.length, t) := by
  simp only [memberResolves, Bool.and_eq_true, Bool.or_eq_true, Bool.not_eq_true',
    beq_iff_eq] at h
  refine ⟨h.1, ?_⟩
  cases hf : findMember (bufferedName q (wireKey p name)) (pre ++ (name, t) :: fs) with
  | none => rw [hf] at h; simp at h
  | some r =>
    obtain ⟨i, ty⟩ := r
    rw [hf] at h
    simp only [Option.map_some', Option.some.injEq] at h
    obtain ⟨n1, hn1⟩ := findMember_index _ _ i ty hf
    have hi : i = pre.length := h.2
    subst hi
    rw [List.getElem?_append_right (Nat.le_refl _)] at hn1
    simp only [Nat.sub_self, List.getElem?_cons_zero, Option.some.injEq, Prod.mk.injEq] at hn1
    rw [hn1.2]

theorem is_excluded_none (p : SerializeProperties) (name : String)
    (hp2 : p.excluded_names = none) : p.is_excluded name = false := by
  simp [SerializeProperties.is_excluded, hp2]

mutual
theorem restored_val (ndebug : Bool) (p q : SerializeProperties)
    (hp1 : p.ignore_empty_fileds = false) (hp2 : p.excluded_names = none) :
    ∀ (v : Val) (t : Ty), restorable ndebug p q t v = true →
      isComposite (optCore t) = true → Restored ndebug p q (optCore t) (coreVal v)
  | .present v1, t, hv, hc => by
    cases t <;> simp only [restorable] at hv <;> try cases hv
    rename_i t1
    exact restored_val ndebug p q hp1 hp2 v1 t1 hv hc
  | .bool _, t, hv, hc => by
    cases t <;> simp only [restorable] at hv <;> try cases hv
    simp [optCore, isComposite] at hc
  | .int _, t, hv, hc => by
    cases t <;> simp only [restorable] at hv <;> try cases hv
    simp [optCore, isComposite] at hc
  | .double _, t, hv, hc => by
    cases t <;> simp only [restorable] at hv <;> try cases hv
    simp [optCore, isComposite] at hc
  | .str _, t, hv, hc => by
    cases t <;> simp only [restorable] at hv <;> try cases hv
    simp [optCore, isComposite] at hc
  | .absent, t, hv, hc => by
    cases t <;> simp only [restorable] at hv <;> cases hv
  | .record ms, t, hv, hc => by
    cases t <;> simp only [restorable] at hv <;> try cases hv
    rename_i fs
    simp only [Bool.and_eq_true] at hv
    obtain ⟨sbody, hs, hw, hrun⟩ := restored_members ndebug p q hp1 hp2 ms fs [] []
      hv.2 hv.1 rfl
    refine ⟨sbody, Json.eventsOfMembers (toJsonMembers p fs ms),
      by simp only [optCore, coreVal, do_serialize, hs, startEvent, endEvent],
      by simp only [optCore, coreVal, toJson, Json.events, startEvent, endEvent], hw, ?_⟩
    intro bd b m hb
    exact hrun bd [] b m hb
  | .seq xs, t, hv, hc => by
    cases t <;> simp only [restorable] at hv <;> try cases hv
    rename_i t1
    obtain ⟨sbody, hs, hw, hrun⟩ := restored_elems ndebug p q hp1 hp2 xs t1 [] hv
    refine ⟨sbody, Json.eventsOfElements (toJsonElements p t1 xs),
      by simp only [optCore, coreVal, do_serialize, hs, startEvent, endEvent],
      by simp only [optCore, coreVal, toJson, Json.events, startEvent, endEvent], hw, ?_⟩
    intro bd b m hb
    exact hrun bd "" [] b m hb
  | .map es, t, hv, hc => by
    cases t <;> simp only [restorable] at hv <;> try cases hv
    rename_i t1
    simp only [Bool.and_eq_true] at hv
    obtain ⟨sbody, hs, hw, hrun⟩ := restored_entries ndebug p q hp1 hp2 es t1 [] hv.2 hv.1
      (by simp)
    refine ⟨sbody, Json.eventsOfMembers (toJsonEntries p t1 es),
      by simp only [optCore, coreVal, do_serialize, hs, startEvent, endEvent],
      by simp only [optCore, coreVal, toJson, Json.events, startEvent, endEvent], hw, ?_⟩
    intro bd b m hb
    exact hrun bd [] b m hb
theorem restored_members (ndebug : Bool) (p q : SerializeProperties)
    (hp1 : p.ignore_empty_fileds = false) (hp2 : p.excluded_names = none) :
    ∀ (ms : List Val) (fs pre : List (String × Ty)) (done : List Val),
      restorableMembers ndebug p q fs ms = true →
      namesResolve ndebug p q (pre ++ fs) pre.length fs = true → pre.length = done.length →
      ∃ sbody, serializeMembers ndebug p fs ms = (sbody, none) ∧
        writes sbody (Json.eventsOfMembers (toJsonMembers p fs ms)) = true ∧
        ∀ (bd : Binding) (sv : List State) (b : Option Int) (m : Nat),
          BudgetFor b (documentCharge (Json.eventsOfMembers (toJsonMembers p fs ms)) + m) →
          ∃ b1, feedQuiet ndebug q
                  (.deser ⟨.record (pre ++ fs), bd, .record (done ++ defaultVals fs), "",
                    .IN_OBJECT, sv⟩ .null) b (Json.eventsOfMembers (toJsonMembers p fs ms))
                = some (.deser ⟨.record (pre ++ fs), bd, .record (done ++ ms), "",
                    .IN_OBJECT, sv⟩ .null, b1)
              ∧ BudgetFor b1 m
  | [], fs, pre, done, hv, _, _ => by
    cases fs with
    | cons f fs => simp [restorableMembers] at hv
    | nil =>
      refine ⟨[], by simp [serializeMembers], by simp [toJsonMembers, Json.eventsOfMembers, writes],
        ?_⟩
      intro bd sv b m hb
      exact ⟨b, by simp [feedQuiet, defaultVals, toJsonMembers, Json.eventsOfMembers],
        BudgetFor_mono b _ m hb (by omega)⟩
  | m :: ms, fs, pre, done, hv, hnames, hlen => by
    cases fs with
    | nil => simp [restorableMembers] at hv
    | cons f fs =>
      obtain ⟨name, t⟩ := f
      simp only [restorableMembers, Bool.and_eq_true, Bool.or_eq_true] at hv
      simp only [namesResolve, Bool.and_eq_true] at hnames
      obtain ⟨sevs, hs1, hw1, hrun1⟩ := member_slot ndebug p q t m hv.1
        (fun h => restored_val ndebug p q hp1 hp2 m t h)
      have hassoc : (pre ++ [(name, t)]) ++ fs = pre ++ (name, t) :: fs := by simp
      obtain ⟨sbody2, hs2, hw2, hrun2⟩ := restored_members ndebug p q hp1 hp2 ms fs
        (pre ++ [(name, t)]) (done ++ [m]) hv.2
        (by rw [hassoc]; simpa using hnames.2) (by simp [hlen])
      obtain ⟨hnm, hfind⟩ := memberResolves_find ndebug p q pre fs name t hnames.1
      have hem : memberEmitted p name t m = true := by
        simp [memberEmitted, is_excluded_none p name hp2, hp1]
      have hdoc : Json.eventsOfMembers (toJsonMembers p ((name, t) :: fs) (m :: ms))
          = (.Key (wireKey p name) :: (toJson p t m).events)
            ++ Json.eventsOfMembers (toJsonMembers p fs ms) := by
        rw [toJsonMembers, if_pos hem, Json.eventsOfMembers]
        rfl
      refine ⟨(.Key (wireKey p name) :: sevs) ++ sbody2, ?_, ?_, ?_⟩
      · simp [serializeMembers, hp1, hp2, hs1, hs2, wireKey]
      · rw [hdoc]
        exact writes_append _ _ _ _ (writes_cons _ _ _ hw1) hw2
      · intro bd sv b m0 hb
        rw [hdoc] at hb ⊢
        rw [documentCharge_append, Nat.add_assoc] at hb
        obtain ⟨b1, hq1, hb1⟩ := hrun1 (pre ++ (name, t) :: fs) bd
          (done ++ defaultVal t :: defaultVals fs) sv (wireKey p name) pre.length b
          (documentCharge (Json.eventsOfMembers (toJsonMembers p fs ms)) + m0) hnm hfind
          (getD_append_length done _ _ _ _ hlen) hb
        obtain ⟨b2, hq2, hb2⟩ := hrun2 bd sv b1 m0 hb1
        refine ⟨b2, ?_, hb2⟩
        rw [defaultVals, feedQuiet_append ndebug q _ _ _ _ _ _ hq1,
          set_append_length done _ _ _ _ hlen]
        rw [hassoc] at hq2
        simpa only [List.append_assoc, List.singleton_append] using hq2
theorem restored_elems (ndebug : Bool) (p q : SerializeProperties)
    (hp1 : p.ignore_empty_fileds = false) (hp2 : p.excluded_names = none) :
    ∀ (xs : List Val) (t : Ty) (done : List Val),
      restorableElements ndebug p q t xs = true →
      ∃ sbody, serializeElements ndebug p t xs = (sbody, none) ∧
        writes sbody (Json.eventsOfElements (toJsonElements p t xs)) = true ∧
        ∀ (bd : Binding) (nm : String) (sv : List State) (b : Option Int) (m : Nat),
          BudgetFor b (documentCharge (Json.eventsOfElements (toJsonElements p t xs)) + m) →
          ∃ b1, feedQuiet ndebug q
                  (.deser ⟨.container t, bd, .seq done, nm, .IN_ARRAY, sv⟩ .null) b
                  (Json.eventsOfElements (toJsonElements p t xs))
                = some (.deser ⟨.container t, bd, .seq (done ++ xs), nm, .IN_ARRAY, sv⟩ .null,
                    b1)
              ∧ BudgetFor b1 m
  | [], t, done, _ => by
    refine ⟨[], by simp [serializeElements],
      by simp [toJsonElements, Json.eventsOfElements, writes], ?_⟩
    intro bd nm sv b m hb
    exact ⟨b, by simp [feedQuiet, toJsonElements, Json.eventsOfElements],
      BudgetFor_mono b _ m hb (by omega)⟩
  | x :: xs, t, done, hv => by
    simp only [restorableElements, Bool.and_eq_true] at hv
    obtain ⟨sevs, hs1, hw1, hrun1⟩ := element_slot ndebug p q t x hv.1.1 hv.1.2
      (restored_val ndebug p q hp1 hp2 x t hv.1.1)
    obtain ⟨sbody2, hs2, hw2, hrun2⟩ := restored_elems ndebug p q hp1 hp2 xs t (done ++ [x])
      hv.2
    have hdoc : Json.eventsOfElements (toJsonElements p t (x :: xs))
        = (toJson p t x).events ++ Json.eventsOfElements (toJsonElements p t xs) := by
      rw [toJsonElements, Json.eventsOfElements]
    refine ⟨sevs ++ sbody2, by simp [serializeElements, hs1, hs2], ?_, ?_⟩
    · rw [hdoc]
      exact writes_append _ _ _ _ hw1 hw2
    · intro bd nm sv b m0 hb
      rw [hdoc] at hb ⊢
      rw [documentCharge_append, Nat.add_assoc] at hb
      obtain ⟨b1, hq1, hb1⟩ := hrun1 bd done nm sv b _ hb
      obtain ⟨b2, hq2, hb2⟩ := hrun2 bd nm sv b1 m0 hb1
      refine ⟨b2, ?_, hb2⟩
      rw [feedQuiet_append ndebug q _ _ _ _ _ _ hq1]
      rw [List.append_assoc, List.singleton_append] at hq2
      exact hq2
theorem restored_entries (ndebug : Bool) (p q : SerializeProperties)
    (hp1 : p.ignore_empty_fileds = false) (hp2 : p.excluded_names = none) :
    ∀ (es : List (String × Val)) (t : Ty) (done : List (String × Val)),
      restorableEntries ndebug p q t es = true → keysAscend es = true →
      (∀ d ∈ done, ∀ e ∈ es, keyLt d.1.toList e.1.toList = true) →
      ∃ sbody, serializeEntries ndebug p t es = (sbody, none) ∧
        writes sbody (Json.eventsOfMembers (toJsonEntries p t es)) = true ∧
        ∀ (bd : Binding) (sv : List State) (b : Option Int) (m : Nat),
          BudgetFor b (documentCharge (Json.eventsOfMembers (toJsonEntries p t es)) + m) →
          ∃ b1, feedQuiet ndebug q
                  (.deser ⟨.map t, bd, .map done, "", .IN_OBJECT, sv⟩ .null) b
                  (Json.eventsOfMembers (toJsonEntries p t es))
                = some (.deser ⟨.map t, bd, .map (done ++ es), "", .IN_OBJECT, sv⟩ .null, b1)
              ∧ BudgetFor b1 m
  | [], t, done, _, _, _ => by
    refine ⟨[], by simp [serializeEntries],
      by simp [toJsonEntries, Json.eventsOfMembers, writes], ?_⟩
    intro bd sv b m hb
    exact ⟨b, by simp [feedQuiet, toJsonEntries, Json.eventsOfMembers],
      BudgetFor_mono b _ m hb (by omega)⟩
  | (k, x) :: es, t, done, hv, hasc, hlt => by
    simp only [restorableEntries, Bool.and_eq_true, Bool.or_eq_true] at hv
    simp only [keysAscend, Bool.and_eq_true, List.all_eq_true] at hasc
    obtain ⟨sevs, hs1, hw1, hrun1⟩ := entry_slot ndebug p q t x
      (by
        rcases hv.1.2 with h | h
        · exact Or.inl h
        · exact Or.inr ⟨h.1, by simpa using h.2⟩)
      (fun h => restored_val ndebug p q hp1 hp2 x t h)
    obtain ⟨sbody2, hs2, hw2, hrun2⟩ := restored_entries ndebug p q hp1 hp2 es t
      (done ++ [(k, x)]) hv.2 hasc.2 (by
        intro d hd e he
        rcases List.mem_append.1 hd with hd | hd
        · exact hlt d hd e (List.mem_cons_of_mem _ he)
        · simp only [List.mem_singleton] at hd
          rw [hd]
          exact hasc.1 e he)
    have hdoc : Json.eventsOfMembers (toJsonEntries p t ((k, x) :: es))
        = (.Key k :: (toJson p t x).events) ++ Json.eventsOfMembers (toJsonEntries p t es) := by
      rw [toJsonEntries, Json.eventsOfMembers]
    refine ⟨(.value (.string k) :: sevs) ++ sbody2, by simp [serializeEntries, hs1, hs2], ?_, ?_⟩
    · rw [hdoc]
      refine writes_append _ _ _ _ ?_ hw2
      simp [writes, sameCall, hw1]
    · intro bd sv b m0 hb
      rw [hdoc] at hb ⊢
      rw [documentCharge_append, Nat.add_assoc] at hb
      obtain ⟨b1, hq1, hb1⟩ := hrun1 bd done sv k b _ hv.1.1
        (fun e he => hlt e he (k, x) (List.mem_cons_self _ _)) hb
      obtain ⟨b2, hq2, hb2⟩ := hrun2 bd sv b1 m0 hb1
      refine ⟨b2, ?_, hb2⟩
      rw [feedQuiet_append ndebug q _ _ _ _ _ _ hq1]
      rw [List.append_assoc, List.singleton_append] at hq2
      exact hq2
end

/-- C1 (round trip, amended).  Let `T` be a record, container or map type and `v` a value of
the class `restorable`: its primitives are of the types `bool`, `int`, `unsigned char`,
`unsigned int`, `std::int64_t`, `std::uint64_t`, `double` and `std::string`; no optional
nested in an engaged optional is disengaged; a sequence element is a primitive under engaged
optionals, a record or a sequence; a map value is a disengaged optional, a primitive under
engaged optionals, a record, a sequence or a map; for every record member the key the writer
emits is mapped by the reader to a name that is not empty (or assertions are compiled out) and
selects that member; every map key is mapped by the reader to itself and is not empty unless
the value is a record, sequence or map (or assertions are compiled out); maps hold their
entries in key order.  With `ignore_empty_fields = false` and no exclusion set on the writing
side, and a reader's budget that is disabled or exceeds `documentCharge` of the document:
`do_serialize` returns, its calls write the document `toJson p T v`, and the events of that
document, delivered to a fresh `RapidJsonDeserializer` bound to a value-initialised
destination of type `T`, are all consumed without failure and leave the destination equal to
`v`. -/
theorem round_trip (ndebug : Bool) (p q : SerializeProperties) (T : Ty) (v : Val)
    (hT : isComposite T = true) (hv : restorable ndebug p q T v = true)
    (hp1 : p.ignore_empty_fileds = false) (hp2 : p.excluded_names = none)
    (hq32 : q.max_memory_consumption < 2 ^ 32)
    (hbudget : q.max_memory_consumption = 0 ∨
      documentCharge (toJson p T v).events < q.max_memory_consumption) :
    (do_serialize ndebug p T v).2 = none ∧
    writes (do_serialize ndebug p T v).1 (toJson p T v).events = true ∧
    ∃ s, feed ndebug q (RapidJsonDeserializer q T (defaultVal T)) (toJson p T v).events
          = (s, none) ∧ s.destination = v := by
  have hcore := composite_core T hT
  have hR := restored_val ndebug p q hp1 hp2 v T hv (by rw [hcore]; exact hT)
  obtain ⟨_, hre, _, _⟩ := engaged_composite ndebug p q v T hv (by rw [hcore]; exact hT)
  rw [rewrap_composite T _ hT] at hre
  rw [hcore, hre] at hR
  obtain ⟨sbody, body, hs, hdoc, hw, hrun⟩ := hR
  rw [hdoc] at hbudget
  rw [hs, hdoc]
  refine ⟨rfl, writes_wrap _ _ _ _ hw, ?_⟩
  have hb : BudgetFor (RapidJsonDeserializer q T (defaultVal T)).bytes
      (documentCharge body + 0) := by
    simp only [RapidJsonDeserializer, SerializeProperties.GetMaxMemoryConsumption]
    rcases hbudget with h0 | hlt
    · left
      simp [h0]
    · right
      rw [documentCharge_comp _ _ hT] at hlt
      have h1 : ((q.max_memory_consumption : Nat) : Int) ≠ 0 := by omega
      refine ⟨q.max_memory_consumption, by simp only [h1, ↓reduceIte], by omega, by omega⟩
  obtain ⟨b1, hq1, _⟩ := hrun .root _ 0 hb
  refine ⟨⟨.deser ⟨T, .root, v, "", .DONE, []⟩ .null, b1⟩, ?_, rfl⟩
  have h2 := feed_wrap ndebug q [] (by simp) [endEvent T] body _ _ _ _ _ hq1
  simp only [wrap, RapidJsonDeserializer] at h2
  rw [List.cons_append, feed_cons]
  simp only [RapidJsonDeserializer]
  rw [step_document_open ndebug q T _ _ hT]
  dsimp only
  rw [h2, feed_cons]
  dsimp only
  rw [step_document_close ndebug q T _ _ hT]
  rfl

theorem round_trip_witness :
    (do_serialize false
        { SerializeProperties.default with
          ignore_empty_fileds := false, name_mapping := some ⟨[("id", "ident")]⟩ }
        (.record [("id", .int .i32), ("name", .string), ("tags", .container (.optional .string)),
          ("nick", .optional .string), ("pos", .optional (.record [("x", .double)])),
          ("attrs", .map (.container (.int .i32))), ("deep", .optional (.optional .bool))])
        (.record [.int 7, .str "bob", .seq [.present (.str "a"), .present (.str "b")], .absent,
          .present (.record [.double 0]), .map [("a", .seq [.int 1]), ("b", .seq [])],
          .present (.present (.bool true))])).2 = none ∧
    writes
      (do_serialize false
        { SerializeProperties.default with
          ignore_empty_fileds := false, name_mapping := some ⟨[("id", "ident")]⟩ }
        (.record [("id", .int .i32), ("name", .string), ("tags", .container (.optional .string)),
          ("nick", .optional .string), ("pos", .optional (.record [("x", .double)])),
          ("attrs", .map (.container (.int .i32))), ("deep", .optional (.optional .bool))])
        (.record [.int 7, .str "bob", .seq [.present (.str "a"), .present (.str "b")], .absent,
          .present (.record [.double 0]), .map [("a", .seq [.int 1]), ("b", .seq [])],
          .present (.present (.bool true))])).1
      (toJson
        { SerializeProperties.default with
          ignore_empty_fileds := false, name_mapping := some ⟨[("id", "ident")]⟩ }
        (.record [("id", .int .i32), ("name", .string), ("tags", .container (.optional .string)),
          ("nick", .optional .string), ("pos", .optional (.record [("x", .double)])),
          ("attrs", .map (.container (.int .i32))), ("deep", .optional (.optional .bool))])
        (.record [.int 7, .str "bob", .seq [.present (.str "a"), .present (.str "b")], .absent,
          .present (.record [.double 0]), .map [("a", .seq [.int 1]), ("b", .seq [])],
          .present (.present (.bool true))])).events = true ∧
    ∃ s, feed false
          { SerializeProperties.default with
            ignore_empty_fileds := false, name_mapping := some ⟨[("id", "ident")]⟩ }
          (RapidJsonDeserializer
            { SerializeProperties.default with
              ignore_empty_fileds := false, name_mapping := some ⟨[("id", "ident")]⟩ }
            (.record [("id", .int .i32), ("name", .string),
              ("tags", .container (.optional .string)), ("nick", .optional .string),
              ("pos", .optional (.record [("x", .double)])),
              ("attrs", .map (.container (.int .i32))), ("deep", .optional (.optional .bool))])
            (defaultVal (.record [("id", .int .i32), ("name", .string),
              ("tags", .container (.optional .string)), ("nick", .optional .string),
              ("pos", .optional (.record [("x", .double)])),
              ("attrs", .map (.container (.int .i32))),
              ("deep", .optional (.optional .bool))])))
          (toJson
            { SerializeProperties.default with
              ignore_empty_fileds := false, name_mapping := some ⟨[("id", "ident")]⟩ }
            (.record [("id", .int .i32), ("name", .string),
              ("tags", .container (.optional .string)), ("nick", .optional .string),
              ("pos", .optional (.record [("x", .double)])),
              ("attrs", .map (.container (.int .i32))), ("deep", .optional (.optional .bool))])
            (.record [.int 7, .str "bob", .seq [.present (.str "a"), .present (.str "b")],
              .absent, .present (.record [.double 0]),
              .map [("a", .seq [.int 1]), ("b", .seq [])],
              .present (.present (.bool true))])).events = (s, none) ∧
        s.destination = .record [.int 7, .str "bob",
          .seq [.present (.str "a"), .present (.str "b")], .absent,
          .present (.record [.double 0]), .map [("a", .seq [.int 1]), ("b", .seq [])],
          .present (.present (.bool true))] :=
  round_trip false
    { SerializeProperties.default with
      ignore_empty_fileds := false, name_mapping := some ⟨[("id", "ident")]⟩ }
    { SerializeProperties.default with
      ignore_empty_fileds := false, name_mapping := some ⟨[("id", "ident")]⟩ }
    _ _ rfl (by rfl) rfl rfl (by decide) (Or.inr (by decide))

theorem round_trip_counterexample :
    (restorable false { SerializeProperties.default with ignore_empty_fileds := false }
        SerializeProperties.default (.record [("n", .int .i16)]) (.record [.int 5]) = false ∧
      do_serialize false { SerializeProperties.default with ignore_empty_fileds := false }
        (.record [("n", .int .i16)]) (.record [.int 5])
        = ([.StartObject, .Key "n"], some .aborted) ∧
      writes
        (do_serialize true { SerializeProperties.default with ignore_empty_fileds := false }
          (.record [("n", .int .i16)]) (.record [.int 5])).1
        (toJson { SerializeProperties.default with ignore_empty_fileds := false }
          (.record [("n", .int .i16)]) (.record [.int 5])).events = false ∧
      do_serialize false { SerializeProperties.default with ignore_empty_fileds := false }
        (.container (.int .i8)) (.seq [.int 5]) = ([.StartArray], some .aborted) ∧
      do_serialize false { SerializeProperties.default with ignore_empty_fileds := false }
        (.map (.int .u16)) (.map [("a", .int 5)])
        = ([.StartObject, .value (.string "a")], some .aborted)) ∧
    (restorable true { SerializeProperties.default with ignore_empty_fileds := false }
        SerializeProperties.default (.container (.optional (.int .i32)))
        (.seq [.present (.int 1), .absent]) = false ∧
      (toJson { SerializeProperties.default with ignore_empty_fileds := false }
        (.container (.optional (.int .i32))) (.seq [.present (.int 1), .absent])).events
        = [.StartArray, .value (.int 1), .value .null, .EndArray] ∧
      (feed true SerializeProperties.default
        (RapidJsonDeserializer SerializeProperties.default (.container (.optional (.int .i32)))
          (defaultVal (.container (.optional (.int .i32)))))
        [.StartArray, .value (.int 1), .value .null, .EndArray]).2
        = some (.threw .ParseException)) ∧
    (restorable true { SerializeProperties.default with ignore_empty_fileds := false }
        SerializeProperties.default (.record [("o", .optional (.optional (.int .i32)))])
        (.record [.present .absent]) = false ∧
      (toJson { SerializeProperties.default with ignore_empty_fileds := false }
        (.record [("o", .optional (.optional (.int .i32)))])
        (.record [.present .absent])).events
        = [.StartObject, .Key "o", .value .null, .EndObject] ∧
      (feed true SerializeProperties.default
        (RapidJsonDeserializer SerializeProperties.default
          (.record [("o", .optional (.optional (.int .i32)))])
          (defaultVal (.record [("o", .optional (.optional (.int .i32)))])))
        [.StartObject, .Key "o", .value .null, .EndObject]).1.destination
        = .record [.absent]) ∧
    (restorable true { SerializeProperties.default with ignore_empty_fileds := false }
        SerializeProperties.default (.container (.map (.int .i32))) (.seq [.map []]) = false ∧
      (toJson { SerializeProperties.default with ignore_empty_fileds := false }
        (.container (.map (.int .i32))) (.seq [.map []])).events
        = [.StartArray, .StartObject, .EndObject, .EndArray] ∧
      (feed true SerializeProperties.default
        (RapidJsonDeserializer SerializeProperties.default (.container (.map (.int .i32)))
          (defaultVal (.container (.map (.int .i32)))))
        [.StartArray, .StartObject, .EndObject, .EndArray]).2
        = some (.threw .ParseException)) ∧
    (restorable true { SerializeProperties.default with ignore_empty_fileds := false }
        SerializeProperties.default (.container (.optional (.record [])))
        (.seq [.present (.record [])]) = false ∧
      (toJson { SerializeProperties.default with ignore_empty_fileds := false }
        (.container (.optional (.record []))) (.seq [.present (.record [])])).events
        = [.StartArray, .StartObject, .EndObject, .EndArray] ∧
      (feed true SerializeProperties.default
        (RapidJsonDeserializer SerializeProperties.default (.container (.optional (.record [])))
          (defaultVal (.container (.optional (.record [])))))
        [.StartArray, .StartObject, .EndObject, .EndArray]).2
        = some (.threw .ParseException)) ∧
    (restorable true { SerializeProperties.default with ignore_empty_fileds := false }
        SerializeProperties.default (.map (.optional (.record [])))
        (.map [("k", .present (.record []))]) = false ∧
      (toJson { SerializeProperties.default with ignore_empty_fileds := false }
        (.map (.optional (.record []))) (.map [("k", .present (.record []))])).events
        = [.StartObject, .Key "k", .StartObject, .EndObject, .EndObject] ∧
      (feed true SerializeProperties.default
        (RapidJsonDeserializer SerializeProperties.default (.map (.optional (.record [])))
          (defaultVal (.map (.optional (.record [])))))
        [.StartObject, .Key "k", .StartObject, .EndObject, .EndObject]).1.destination
        = .map [("k", .absent)]) ∧
    (restorable false { SerializeProperties.default with ignore_empty_fileds := false }
        SerializeProperties.default (.map (.int .i32)) (.map [("", .int 1)]) = false ∧
      (toJson { SerializeProperties.default with ignore_empty_fileds := false }
        (.map (.int .i32)) (.map [("", .int 1)])).events
        = [.StartObject, .Key "", .value (.int 1), .EndObject] ∧
      (feed false SerializeProperties.default
        (RapidJsonDeserializer SerializeProperties.default (.map (.int .i32))
          (defaultVal (.map (.int .i32))))
        [.StartObject, .Key "", .value (.int 1), .EndObject]).2 = some .aborted) ∧
    (restorable true
        { SerializeProperties.default with
          ignore_empty_fileds := false, name_mapping := some ⟨[("n", "w")]⟩ }
        { SerializeProperties.default with name_mapping := some ⟨[("n", "w")]⟩ }
        (.map (.int .i32)) (.map [("w", .int 1)]) = false ∧
      (toJson
        { SerializeProperties.default with
          ignore_empty_fileds := false, name_mapping := some ⟨[("n", "w")]⟩ }
        (.map (.int .i32)) (.map [("w", .int 1)])).events
        = [.StartObject, .Key "w", .value (.int 1), .EndObject] ∧
      (feed true { SerializeProperties.default with name_mapping := some ⟨[("n", "w")]⟩ }
        (RapidJsonDeserializer
          { SerializeProperties.default with name_mapping := some ⟨[("n", "w")]⟩ }
          (.map (.int .i32)) (defaultVal (.map (.int .i32))))
        [.StartObject, .Key "w", .value (.int 1), .EndObject]).1.destination
        = .map [("n", .int 1)]) ∧
    (restorable true
        { SerializeProperties.default with
          ignore_empty_fileds := false, name_mapping := some ⟨[("a", "x"), ("b", "x")]⟩ }
        { SerializeProperties.default with name_mapping := some ⟨[("a", "x"), ("b", "x")]⟩ }
        (.record [("a", .int .i32), ("b", .int .i32)]) (.record [.int 1, .int 2]) = false ∧
      (toJson
        { SerializeProperties.default with
          ignore_empty_fileds := false, name_mapping := some ⟨[("a", "x"), ("b", "x")]⟩ }
        (.record [("a", .int .i32), ("b", .int .i32)]) (.record [.int 1, .int 2])).events
        = [.StartObject, .Key "x", .value (.int 1), .Key "x", .value (.int 2), .EndObject] ∧
      (feed true
        { SerializeProperties.default with name_mapping := some ⟨[("a", "x"), ("b", "x")]⟩ }
        (RapidJsonDeserializer
          { SerializeProperties.default with name_mapping := some ⟨[("a", "x"), ("b", "x")]⟩ }
          (.record [("a", .int .i32), ("b", .int .i32)])
          (defaultVal (.record [("a", .int .i32), ("b", .int .i32)])))
        [.StartObject, .Key "x", .value (.int 1), .Key "x", .value (.int 2),
          .EndObject]).1.destination
        = .record [.int 2, .int 0]) ∧
    (restorable true
        { SerializeProperties.default with
          ignore_empty_fileds := false, name_mapping := some ⟨[("id", "ident")]⟩ }
        SerializeProperties.default (.record [("id", .int .i32)]) (.record [.int 7]) = false ∧
      (toJson
        { SerializeProperties.default with
          ignore_empty_fileds := false, name_mapping := some ⟨[("id", "ident")]⟩ }
        (.record [("id", .int .i32)]) (.record [.int 7])).events
        = [.StartObject, .Key "ident", .value (.int 7), .EndObject] ∧
      (feed true SerializeProperties.default
        (RapidJsonDeserializer SerializeProperties.default (.record [("id", .int .i32)])
          (defaultVal (.record [("id", .int .i32)])))
        [.StartObject, .Key "ident", .value (.int 7), .EndObject]).1.destination
        = .record [.int 0]) ∧
    (isComposite (.int .i32) = false ∧
      (toJson { SerializeProperties.default with ignore_empty_fileds := false }
        (.int .i32) (.int 5)).events = [.value (.int 5)] ∧
      (feed false SerializeProperties.default
        (RapidJsonDeserializer SerializeProperties.default (.int .i32) (defaultVal (.int .i32)))
        [.value (.int 5)]).2 = some .aborted) ∧
    (isComposite (.optional (.record [])) = false ∧
      (toJson { SerializeProperties.default with ignore_empty_fileds := false }
        (.optional (.record [])) (.present (.record []))).events
        = [.StartObject, .EndObject] ∧
      (feed true SerializeProperties.default
        (RapidJsonDeserializer SerializeProperties.default (.optional (.record []))
          (defaultVal (.optional (.record []))))
        [.StartObject, .EndObject]).1.destination = .absent) ∧
    (restorable true { SerializeProperties.default with ignore_empty_fileds := false }
        SerializeProperties.default (.map (.int .i32)) (.map [("b", .int 1), ("a", .int 2)])
        = false ∧
      (feed true SerializeProperties.default
        (RapidJsonDeserializer SerializeProperties.default (.map (.int .i32))
          (defaultVal (.map (.int .i32))))
        (toJson { SerializeProperties.default with ignore_empty_fileds := false }
          (.map (.int .i32)) (.map [("b", .int 1), ("a", .int 2)])).events).1.destination
        = .map [("a", .int 2), ("b", .int 1)]) :=
  ⟨⟨rfl, rfl, rfl, rfl, rfl⟩, ⟨rfl, rfl, rfl⟩, ⟨rfl, rfl, rfl⟩, ⟨rfl, rfl, rfl⟩,
    ⟨rfl, rfl, rfl⟩, ⟨rfl, rfl, rfl⟩, ⟨rfl, rfl, rfl⟩, ⟨rfl, rfl, rfl⟩, ⟨rfl, rfl, rfl⟩,
    ⟨rfl, rfl, rfl⟩, ⟨rfl, rfl, rfl⟩, ⟨rfl, rfl, rfl⟩, ⟨rfl, rfl⟩⟩

/-! ## Keys of a map destination -/

theorem plug_map (P : List (String × Val) → Prop)
    (hP : ∀ es k v, P es → P (mapInsert es k v)) (es : List (String × Val)) (b : Binding)
    (v : Val) (h : P es) : ∃ es1, plug (.map es) b v = .map es1 ∧ P es1 := by
  cases b with
  | root => exact ⟨es, rfl, h⟩
  | member idx ty => exact ⟨es, rfl, h⟩
  | back => exact ⟨es, rfl, h⟩
  | entry key => exact ⟨_, rfl, hP es key v h⟩

theorem mapIndex_map (P : List (String × Val) → Prop)
    (hP : ∀ es k v, P es → P (mapInsert es k v)) (es : List (String × Val)) (t : Ty)
    (k : String) (h : P es) : ∃ es1, (mapIndex (.map es) t k).1 = .map es1 ∧ P es1 := by
  unfold mapIndex
  dsimp only
  split
  · exact ⟨es, rfl, h⟩
  · exact ⟨_, rfl, hP es k _ h⟩

theorem doEvent_holdsMap (ndebug : Bool) (p : SerializeProperties) (t : Ty)
    (P : List (String × Val) → Prop) (hP : ∀ es k v, P es → P (mapInsert es k v))
    (Q : Frame → Prop)
    (hQ : ∀ fr : Frame, fr.T = .map t → (∃ es1, fr.object = .map es1 ∧ P es1) → Q fr)
    (f : Frame) (b : Option Int) (e : Event) (es : List (String × Val))
    (hT : f.T = .map t) (hobj : f.object = .map es) (h : P es) :
    Q (doEvent ndebug p f b e).frame := by
  obtain ⟨T, bd, obj, nm, st, sv⟩ := f
  dsimp only at hT hobj
  subst hT hobj
  obtain ⟨es2, h2, hp2⟩ := mapIndex_map P hP es t nm h
  have fin : ∀ fr : Frame, fr.T = .map t →
      (fr.object = .map es ∨ fr.object = (mapIndex (.map es) t nm).1 ∨
        ∃ v, fr.object = mapAssign (mapIndex (.map es) t nm).1 nm v) → Q fr := by
    intro fr h1 h3
    refine hQ fr h1 ?_
    rcases h3 with h3 | h3 | ⟨v, h3⟩
    · exact ⟨es, h3, h⟩
    · exact ⟨es2, h3.trans h2, hp2⟩
    · exact ⟨mapInsert es2 nm v, by rw [h3, h2]; rfl, hP _ _ _ hp2⟩
  cases e <;> cases st <;>
    simp only [doEvent, SetValue, SetValueOnMember, SetValueInArray, DoStartObject,
      DoStartArray, DoKey, DoEndObject, DoEndArray, enterChild, RecurseToMember,
      RecurseToContainerValue] <;>
    repeat' split
  all_goals first
    | exact fin _ rfl (Or.inl rfl)
    | exact fin _ rfl (Or.inr (Or.inl rfl))
    | exact fin _ rfl (Or.inr (Or.inr ⟨_, rfl⟩))

theorem afterChild_holdsMap (ndebug : Bool) (t : Ty) (P : List (String × Val) → Prop)
    (hP : ∀ es k v, P es → P (mapInsert es k v)) (f : Frame) (r : StepResult)
    (es : List (String × Val)) (hT : f.T = .map t) (hobj : f.object = .map es) (h : P es) :
    (afterChild ndebug f r).handler.holdsMap t P := by
  obtain ⟨T, bd, obj, nm, st, sv⟩ := f
  dsimp only at hT hobj
  subst hT hobj
  have hd : ∃ es1, (OnChildIsDone ndebug ⟨.map t, bd, .map es, nm, st, sv⟩ r.handler.bound).1.T
        = .map t ∧
      (OnChildIsDone ndebug ⟨.map t, bd, .map es, nm, st, sv⟩ r.handler.bound).1.object
        = .map es1 ∧ P es1 := by
    unfold OnChildIsDone
    repeat' split
    all_goals first
      | exact ⟨es, rfl, rfl, h⟩
      | exact ⟨_, rfl, (plug_map P hP es _ _ h).choose_spec.1, (plug_map P hP es _ _ h).choose_spec.2⟩
  obtain ⟨es1, h1, h2, h3⟩ := hd
  unfold afterChild
  split
  · dsimp only
    split
    · exact ⟨_, _, es1, rfl, h1, h2, h3⟩
    · exact ⟨_, _, es1, rfl, h1, h2, h3⟩
  · exact ⟨_, _, es, rfl, rfl, rfl, h⟩

theorem step_holdsMap (ndebug : Bool) (p : SerializeProperties) (t : Ty)
    (P : List (String × Val) → Prop) (hP : ∀ es k v, P es → P (mapInsert es k v))
    (h0 : Handler) (b : Option Int) (e : Event) (h : h0.holdsMap t P) :
    (step ndebug p h0 b e).handler.holdsMap t P := by
  obtain ⟨f, c, es, rfl, hT, hobj, hp⟩ := h
  cases c with
  | null =>
    rw [step]
    exact doEvent_holdsMap ndebug p t P hP
      (fun fr => Handler.holdsMap t P (.deser fr (doEvent ndebug p f b e).child))
      (fun fr h1 h2 => ⟨fr, _, h2.choose, rfl, h1, h2.choose_spec.1, h2.choose_spec.2⟩)
      f b e es hT hobj hp
  | skip n =>
    rw [step]
    split
    · exact ⟨f, _, es, rfl, hT, hobj, hp⟩
    · exact afterChild_holdsMap ndebug t P hP f _ es hT hobj hp
  | deser g c1 =>
    rw [step]
    split
    · exact ⟨f, _, es, rfl, hT, hobj, hp⟩
    · exact afterChild_holdsMap ndebug t P hP f _ es hT hobj hp

theorem feedQuiet_holdsMap (ndebug : Bool) (p : SerializeProperties) (t : Ty)
    (P : List (String × Val) → Prop) (hP : ∀ es k v, P es → P (mapInsert es k v)) :
    ∀ (evs : List Event) (h0 : Handler) (b : Option Int) (h1 : Handler) (b1 : Option Int),
      h0.holdsMap t P → feedQuiet ndebug p h0 b evs = some (h1, b1) → h1.holdsMap t P
  | [], h0, b, h1, b1, h, hq => by
    simp only [feedQuiet, Option.some.injEq, Prod.mk.injEq] at hq
    rw [← hq.1]
    exact h
  | e :: evs, h0, b, h1, b1, h, hq => by
    rw [feedQuiet] at hq
    split at hq
    · exact feedQuiet_holdsMap ndebug p t P hP evs _ _ h1 b1
        (step_holdsMap ndebug p t P hP h0 b e h) hq
    · cases hq

theorem feed_holdsMap (ndebug : Bool) (p : SerializeProperties) (t : Ty)
    (P : List (String × Val) → Prop) (hP : ∀ es k v, P es → P (mapInsert es k v)) :
    ∀ (evs : List Event) (s s1 : Session) (r : Option Failure),
      s.handler.holdsMap t P → feed ndebug p s evs = (s1, r) → s1.handler.holdsMap t P
  | [], s, s1, r, h, hq => by
    simp only [feed, Prod.mk.injEq] at hq
    rw [← hq.1]
    exact h
  | e :: evs, s, s1, r, h, hq => by
    rw [feed_cons] at hq
    have hs := step_holdsMap ndebug p t P hP s.handler s.bytes e h
    split at hq
    · simp only [Prod.mk.injEq] at hq
      rw [← hq.1]
      exact hs
    · exact feed_holdsMap ndebug p t P hP evs _ s1 r hs hq

theorem view_holdsMap (t : Ty) (P : List (String × Val) → Prop)
    (hP : ∀ es k v, P es → P (mapInsert es k v)) (h0 : Handler) (h : h0.holdsMap t P) :
    ∃ es, h0.view = .map es ∧ P es := by
  obtain ⟨f, c, es, rfl, _, hobj, hp⟩ := h
  cases c with
  | null => exact ⟨es, hobj, hp⟩
  | skip n => exact ⟨es, hobj, hp⟩
  | deser g c1 =>
    rw [Handler.view, hobj]
    exact plug_map P hP es _ _ hp

theorem mapFind_kept (n : String) (es : List (String × Val)) (k : String) (v : Val)
    (h : mapFind es n ≠ none) : mapFind (mapInsert es k v) n ≠ none := by
  by_cases hk : n = k
  · subst hk
    rw [mapFind_mapInsert]
    simp
  · rw [mapFind_mapInsert_ne k n v hk]
    exact h

theorem mapIndex_has (t : Ty) (es : List (String × Val)) (n : String) :
    ∃ es1, (mapIndex (.map es) t n).1 = .map es1 ∧ mapFind es1 n ≠ none := by
  unfold mapIndex
  dsimp only
  split
  · rename_i v hv
    exact ⟨es, rfl, by rw [hv]; simp⟩
  · exact ⟨_, rfl, by rw [mapFind_mapInsert]; simp⟩

theorem feed_cons_ok (ndebug : Bool) (p : SerializeProperties) (s s1 : Session) (e : Event)
    (rest : List Event) (h : feed ndebug p s (e :: rest) = (s1, none)) :
    (step ndebug p s.handler s.bytes e).failure = none ∧
    feed ndebug p ⟨(step ndebug p s.handler s.bytes e).handler,
      (step ndebug p s.handler s.bytes e).bytes⟩ rest = (s1, none) := by
  rw [feed_cons] at h
  split at h
  · cases h
  · rename_i hf
    exact ⟨hf, h⟩

theorem step_key_ok (ndebug : Bool) (p : SerializeProperties) (g : Frame) (b : Option Int)
    (k : String) (hf : (step ndebug p (.deser g .null) b (.Key k)).failure = none) :
    (step ndebug p (.deser g .null) b (.Key k)).handler
      = .deser { g with current_name := bufferedName p k } .null := by
  simp only [step, doEvent, DoKey] at hf ⊢
  cases hc : cassert ndebug (str_empty g.current_name) with
  | some fl =>
    rw [hc] at hf
    cases hf
  | none =>
    cases hm : p.name_mapping <;> simp [bufferedName, hm]

theorem events_head : ∀ j : Json, ∃ e tail, j.events = e :: tail ∧
    ((∃ w, e = .value w) ∨ e = .StartObject ∨ e = .StartArray)
  | .leaf w => ⟨_, _, by rw [Json.events], Or.inl ⟨w, rfl⟩⟩
  | .array xs => ⟨_, _, by rw [Json.events]; rfl, Or.inr (Or.inr rfl)⟩
  | .object ms => ⟨_, _, by rw [Json.events]; rfl, Or.inr (Or.inl rfl)⟩

theorem step_entry_first (ndebug : Bool) (p : SerializeProperties) (t : Ty) (g : Frame)
    (b : Option Int) (e : Event) (es0 : List (String × Val))
    (hT : g.T = .map t) (hobj : g.object = .map es0) (hst : g.state = .IN_OBJECT)
    (he : (∃ w, e = .value w) ∨ e = .StartObject ∨ e = .StartArray)
    (hf : (step ndebug p (.deser g .null) b e).failure = none) :
    (step ndebug p (.deser g .null) b e).handler.holdsMap t
      (fun es => mapFind es g.current_name ≠ none) := by
  obtain ⟨T, bd, obj, nm, st, sv⟩ := g
  dsimp only at hT hobj hst ⊢
  subst hT hobj hst
  obtain ⟨es2, h2, hp2⟩ := mapIndex_has t es0 nm
  rcases he with ⟨w, rfl⟩ | rfl | rfl
  · cases hc : cassert ndebug (!str_empty nm) with
    | some fl => simp [step, doEvent, SetValue, SetValueOnMember, hc] at hf
    | none =>
      cases ha : (AddBytes b (get_len w + 32 + nm.length + 8 * 6)).2 with
      | some fl => simp [step, doEvent, SetValue, SetValueOnMember, hc, ha] at hf
      | none =>
        cases hv : assign_value false t (mapIndex (.map es0) t nm).2 w with
        | error fl => simp [step, doEvent, SetValue, SetValueOnMember, hc, ha, hv] at hf
        | ok v =>
          obtain ⟨es1, he1, hf1, _⟩ := mapAssign_mapIndex t es0 nm v
          refine ⟨⟨.map t, bd, mapAssign (mapIndex (.map es0) t nm).1 nm v, "", .IN_OBJECT,
            sv⟩, .null, es1, ?_, rfl, he1, by show mapFind es1 nm ≠ none; rw [hf1]; simp⟩
          simp [step, doEvent, SetValue, SetValueOnMember, hc, ha, hv]
  · simp only [step, doEvent, DoStartObject, enterChild, RecurseToMember]
    exact ⟨_, _, es2, rfl, rfl, h2, hp2⟩
  · simp only [step, doEvent, DoStartArray, enterChild, RecurseToMember]
    exact ⟨_, _, es2, rfl, rfl, h2, hp2⟩

theorem entry_stored (ndebug : Bool) (p : SerializeProperties) (t : Ty) (g : Frame)
    (b : Option Int) (k : String) (j : Json) (rest : List Event) (s : Session)
    (hT : g.T = .map t) (hobj : ∃ es0, g.object = .map es0) (hst : g.state = .IN_OBJECT)
    (h : feed ndebug p ⟨.deser g .null, b⟩ (.Key k :: (j.events ++ rest)) = (s, none)) :
    ∃ es1, s.destination = .map es1 ∧ mapFind es1 (bufferedName p k) ≠ none := by
  obtain ⟨es0, hobj⟩ := hobj
  obtain ⟨hf1, h1⟩ := feed_cons_ok ndebug p _ s _ _ h
  dsimp only at hf1 h1
  rw [step_key_ok ndebug p g b k hf1] at h1
  obtain ⟨e, tail, hev, he⟩ := events_head j
  rw [hev, List.cons_append] at h1
  obtain ⟨hf2, h2⟩ := feed_cons_ok ndebug p _ s _ _ h1
  dsimp only at hf2 h2
  have hfirst := step_entry_first ndebug p t { g with current_name := bufferedName p k } _ e es0
    hT hobj hst he hf2
  dsimp only at hfirst
  have hlast := feed_holdsMap ndebug p t _ (fun es k1 v => mapFind_kept _ es k1 v) _ _ _ _
    hfirst h2
  exact view_holdsMap t _ (fun es k1 v => mapFind_kept _ es k1 v) _ hlast

theorem eventsOfMembers_append : ∀ a b : List (String × Json),
    Json.eventsOfMembers (a ++ b) = Json.eventsOfMembers a ++ Json.eventsOfMembers b
  | [], b => by simp [Json.eventsOfMembers]
  | (k, x) :: a, b => by
    rw [List.cons_append, Json.eventsOfMembers, Json.eventsOfMembers,
      eventsOfMembers_append a b]
    simp

theorem serializeEntries_upto (ndebug : Bool) (p : SerializeProperties) (t : Ty) (w : String)
    (v : Val) (epost : List (String × Val)) :
    ∀ epre : List (String × Val), (∀ e ∈ epre, (do_serialize ndebug p t e.2).2 = none) →
      ∃ tail, (serializeEntries ndebug p t (epre ++ (w, v) :: epost)).1
        = entryEvents ndebug p t epre ++ .value (.string w) :: tail
  | [], _ => by
    rw [List.nil_append, serializeEntries]
    rcases do_serialize ndebug p t v with ⟨evs, r⟩
    cases r with
    | some fl => exact ⟨_, rfl⟩
    | none =>
      dsimp only
      rcases serializeEntries ndebug p t epost with ⟨evs2, r2⟩
      exact ⟨_, rfl⟩
  | (k, x) :: epre, h => by
    obtain ⟨tail, ih⟩ := serializeEntries_upto ndebug p t w v epost epre
      (fun e he => h e (List.mem_cons_of_mem _ he))
    have hx := h (k, x) (List.mem_cons_self _ _)
    rcases hd : do_serialize ndebug p t x with ⟨evs, r⟩
    rw [hd] at hx
    dsimp only at hx
    subst hx
    rcases hs : serializeEntries ndebug p t (epre ++ (w, v) :: epost) with ⟨evs2, r2⟩
    rw [hs] at ih
    dsimp only at ih
    refine ⟨tail, ?_⟩
    rw [List.cons_append, serializeEntries, hd]
    dsimp only
    rw [hs]
    simp [entryEvents, hd, ih]

/-- C36 (map keys are name-mapped on input only, amended).  Let the first entry of the name
mapping with the wire name `w` be the pair `(n, w)`, with `n` different from `w` and not empty
(or assertions compiled out).  (1) `DoKey` buffers `n` for the key `w` whatever the type of
the destination is.  (2) On a handler for a map, a leaf entry that arrives under the key `w`
is stored under the key `n`, and the map has under `w` what it had before; and whatever the
value of the entry that arrives under `w` is and whatever follows it, a session that does not
fail ends with a destination that holds the key `n`.  (3) `do_serialize` emits the key `w` of
a map entry as the string `w`, unmapped, wherever the entry stands.  (4) So for every map that
holds the key `w` and does not hold the key `n`, whatever its other entries and its values
are, no read of its document into an empty map ends without failure in a destination equal to
the map.  (5) For the map with the single entry `w` whose value is a leaf, the read ends
without failure, in the map with the single entry `n`. -/
theorem map_key_mapping (ndebug : Bool) (p : SerializeProperties) (m : JsonFieldMapping)
    (n w : String) (pre post : List (String × String)) (t : Ty)
    (hp : p.name_mapping = some m) (hm : m.entries = pre ++ (n, w) :: post)
    (hw : ∀ x ∈ pre, x.2 ≠ w) (hn : ndebug = true ∨ str_empty n = false) (hne : n ≠ w) :
    (∀ (f : Frame) (b : Option Int), f.current_name = "" →
      step ndebug p (.deser f .null) b (.Key w)
        = ⟨.deser { f with current_name := n } .null, b, false, none⟩) ∧
    (∀ (bd : Binding) (es : List (String × Val)) (sv : List State) (x : Wire) (v : Val)
      (b : Option Int), assign_value false t (mapIndex (.map es) t n).2 x = .ok v →
      (AddBytes b (get_len x + 32 + n.length + 8 * 6)).2 = none →
      ∃ es1, feedQuiet ndebug p (.deser ⟨.map t, bd, .map es, "", .IN_OBJECT, sv⟩ .null) b
            [.Key w, .value x]
          = some (.deser ⟨.map t, bd, .map es1, "", .IN_OBJECT, sv⟩ .null,
              (AddBytes b (get_len x + 32 + n.length + 8 * 6)).1) ∧
        mapFind es1 n = some v ∧ mapFind es1 w = mapFind es w) ∧
    (∀ (g : Frame) (b : Option Int) (j : Json) (rest : List Event) (s : Session),
      g.T = .map t → (∃ es0, g.object = .map es0) → g.state = .IN_OBJECT →
      feed ndebug p ⟨.deser g .null, b⟩ (.Key w :: (j.events ++ rest)) = (s, none) →
      ∃ es1, s.destination = .map es1 ∧ mapFind es1 n ≠ none) ∧
    (∀ (epre epost : List (String × Val)) (v : Val),
      (∀ e ∈ epre, (do_serialize ndebug p t e.2).2 = none) →
      ∃ tail, (do_serialize ndebug p (.map t) (.map (epre ++ (w, v) :: epost))).1
        = .StartObject :: (entryEvents ndebug p t epre ++ .value (.string w) :: tail)) ∧
    (∀ (es : List (String × Val)) (x : Val), (w, x) ∈ es → mapFind es n = none →
      ∀ s, feed ndebug p (RapidJsonDeserializer p (.map t) (.map []))
          (toJson p (.map t) (.map es)).events = (s, none) →
        s.destination ≠ .map es) ∧
    (∀ (x : Wire) (v : Val), do_serialize ndebug p t v = ([.value x], none) →
      assign_value false t (defaultVal t) x = .ok v →
      (AddBytes (RapidJsonDeserializer p (.map t) (.map [])).bytes
        (get_len x + 32 + n.length + 8 * 6)).2 = none →
      do_serialize ndebug p (.map t) (.map [(w, v)])
        = ([.StartObject, .value (.string w), .value x, .EndObject], none) ∧
      (∃ s, feed ndebug p (RapidJsonDeserializer p (.map t) (.map []))
          [.StartObject, .Key w, .value x, .EndObject] = (s, none) ∧
        s.destination = .map [(n, v)]) ∧
      Val.map [(n, v)] ≠ Val.map [(w, v)]) := by
  have h2 : m.to_native_name w = n := by
    unfold JsonFieldMapping.to_native_name
    rw [hm, find_first _ pre post (n, w) (by simp) (fun x hx => by
      simpa using fun h => hw x hx h.symm)]
  have hbuf : bufferedName p w = n := by simp [bufferedName, hp, h2]
  have hkey : ∀ (f : Frame) (b : Option Int), f.current_name = "" →
      step ndebug p (.deser f .null) b (.Key w)
        = ⟨.deser { f with current_name := n } .null, b, false, none⟩ := by
    intro f b hf
    rw [step_key ndebug p f b w hf, hbuf]
  have hstored : ∀ (g : Frame) (b : Option Int) (j : Json) (rest : List Event) (s : Session),
      g.T = .map t → (∃ es0, g.object = .map es0) → g.state = .IN_OBJECT →
      feed ndebug p ⟨.deser g .null, b⟩ (.Key w :: (j.events ++ rest)) = (s, none) →
      ∃ es1, s.destination = .map es1 ∧ mapFind es1 n ≠ none := by
    intro g b j rest s hT hobj hst h
    have := entry_stored ndebug p t g b w j rest s hT hobj hst h
    rw [hbuf] at this
    exact this
  refine ⟨hkey, ?_, hstored, ?_, ?_, ?_⟩
  · intro bd es sv x v b ha hb
    obtain ⟨es1, he1, hf1, hf2⟩ := mapAssign_mapIndex t es n v
    refine ⟨es1, ?_, hf1, hf2 w (fun h => hne h.symm)⟩
    rw [feedQuiet_cons ndebug p _ _ _ _ _ _ (hkey _ b rfl),
      feedQuiet_cons ndebug p _ _ _ _ _ _
        (step_map_leaf ndebug p t bd es sv n x v b hn hb ha), he1]
    rfl
  · intro epre epost v hok
    obtain ⟨tail, ht⟩ := serializeEntries_upto ndebug p t w v epost epre hok
    rw [do_serialize]
    rcases hs : serializeEntries ndebug p t (epre ++ (w, v) :: epost) with ⟨evs, r⟩
    rw [hs] at ht
    dsimp only at ht
    subst ht
    cases r with
    | some fl => exact ⟨tail, rfl⟩
    | none => exact ⟨tail ++ [.EndObject], by simp⟩
  · intro es x hmem hnone s hfeed hdest
    obtain ⟨epre, epost, rfl⟩ := List.append_of_mem hmem
    have hev : (toJson p (.map t) (.map (epre ++ (w, x) :: epost))).events
        = .StartObject :: (Json.eventsOfMembers (toJsonEntries p t epre)
          ++ (.Key w :: ((toJson p t x).events
            ++ (Json.eventsOfMembers (toJsonEntries p t epost) ++ [.EndObject])))) := by
      rw [toJson, Json.events, toJsonEntries_map, List.map_append, List.map_cons,
        eventsOfMembers_append, Json.eventsOfMembers, ← toJsonEntries_map, ← toJsonEntries_map]
      simp
    rw [hev] at hfeed
    obtain ⟨_, h1⟩ := feed_cons_ok ndebug p _ s _ _ hfeed
    simp only [RapidJsonDeserializer] at h1
    have hopen : ∀ b, step ndebug p (.deser ⟨.map t, .root, .map [], "", .INIT, []⟩ .null) b
        .StartObject
        = ⟨.deser ⟨.map t, .root, .map [], "", .IN_OBJECT, []⟩ .null, b, false, none⟩ :=
      fun b => step_document_open ndebug p (.map t) (.map []) b rfl
    rw [hopen] at h1
    dsimp only at h1
    obtain ⟨g1, b1, hq, hsame⟩ := doc_members ndebug p (toJsonEntries p t epre) [] (by simp)
      ⟨.map t, .root, .map [], "", .IN_OBJECT, []⟩ _ _ s rfl h1
    have h3 := feed_after_quiet ndebug p [] (by simp) _ _ _ _ _ _ _ s h1 hq
    have hmap := feedQuiet_holdsMap ndebug p t (fun _ => True) (fun _ _ _ _ => trivial) _ _ _ _ _
      ⟨_, _, [], rfl, rfl, rfl, trivial⟩ hq
    obtain ⟨f2, c2, es2, hh, hT2, hobj2, _⟩ := hmap
    simp only [Handler.deser.injEq] at hh
    obtain ⟨es1, hd1, hk1⟩ := hstored g1 b1 (toJson p t x) _ s (by rw [hh.1]; exact hT2)
      ⟨es2, by rw [hh.1]; exact hobj2⟩ (by rw [hsame.2.2.1]) h3
    rw [hdest] at hd1
    simp only [Val.map.injEq] at hd1
    rw [← hd1] at hk1
    exact hk1 hnone
  · intro x v hs ha hb
    refine ⟨?_, ?_, ?_⟩
    · rw [do_serialize, serializeEntries, hs]
      rfl
    · have hd : mapIndex (.map []) t n = (.map [(n, defaultVal t)], defaultVal t) := by
        simp [mapIndex, mapFind, mapInsert]
      have hobj : mapAssign (mapIndex (.map []) t n).1 n v = .map [(n, v)] := by
        rw [hd]
        simp [mapAssign, mapInsert]
      have h1 : ∀ b, step ndebug p (.deser ⟨.map t, .root, .map [], "", .INIT, []⟩ .null) b
          .StartObject
          = ⟨.deser ⟨.map t, .root, .map [], "", .IN_OBJECT, []⟩ .null, b, false, none⟩ := by
        intro b
        simp [step, doEvent, DoStartObject, Event.isEnd]
      have h3 := step_map_leaf ndebug p t .root [] [] n x v
        (RapidJsonDeserializer p (.map t) (.map [])).bytes hn hb (by rw [hd]; exact ha)
      rw [hobj] at h3
      have h4 : ∀ b, step ndebug p (.deser ⟨.map t, .root, .map [(n, v)], "", .IN_OBJECT, []⟩
          .null) b .EndObject
          = ⟨.deser ⟨.map t, .root, .map [(n, v)], "", .DONE, []⟩ .null, b, false, none⟩ := by
        intro b
        simp [step, doEvent, DoEndObject, Event.isEnd, Binding.HaveParent]
      refine ⟨⟨.deser ⟨.map t, .root, .map [(n, v)], "", .DONE, []⟩ .null,
        (AddBytes (RapidJsonDeserializer p (.map t) (.map [])).bytes
          (get_len x + 32 + n.length + 8 * 6)).1⟩, ?_, rfl⟩
      rw [feed_cons]
      simp only [RapidJsonDeserializer] at h3 ⊢
      rw [h1]
      dsimp only
      rw [feed_cons]
      dsimp only
      rw [hkey _ _ rfl]
      dsimp only
      rw [feed_cons]
      dsimp only
      rw [h3]
      dsimp only
      rw [feed_cons]
      dsimp only
      rw [h4]
      rfl
    · intro h
      simp only [Val.map.injEq, List.cons.injEq, Prod.mk.injEq, and_true] at h
      exact hne h

theorem map_key_mapping_witness :
    ∃ s, feed false { SerializeProperties.default with name_mapping := some ⟨[("id", "ident")]⟩ }
        (RapidJsonDeserializer
          { SerializeProperties.default with name_mapping := some ⟨[("id", "ident")]⟩ }
          (.map (.int .i32)) (.map []))
        [.StartObject, .Key "ident", .value (.int 5), .EndObject] = (s, none) ∧
      s.destination = .map [("id", .int 5)] :=
  ((map_key_mapping false
      { SerializeProperties.default with name_mapping := some ⟨[("id", "ident")]⟩ }
      ⟨[("id", "ident")]⟩ "id" "ident" [] [] (.int .i32) rfl rfl (by simp) (Or.inr rfl)
      (by decide)).2.2.2.2.2 (.int 5) (.int 5) rfl rfl rfl).2.1

theorem map_key_mapping_counterexample :
    (feed false { SerializeProperties.default with
          name_mapping := some ⟨[("k", "w"), ("w", "k")]⟩ }
        (RapidJsonDeserializer { SerializeProperties.default with
          name_mapping := some ⟨[("k", "w"), ("w", "k")]⟩ } (.map (.int .i32)) (.map []))
        (toJson { SerializeProperties.default with
            name_mapping := some ⟨[("k", "w"), ("w", "k")]⟩ }
          (.map (.int .i32)) (.map [("k", .int 1), ("w", .int 1)])).events).2 = none ∧
    (feed false { SerializeProperties.default with
          name_mapping := some ⟨[("k", "w"), ("w", "k")]⟩ }
        (RapidJsonDeserializer { SerializeProperties.default with
          name_mapping := some ⟨[("k", "w"), ("w", "k")]⟩ } (.map (.int .i32)) (.map []))
        (toJson { SerializeProperties.default with
            name_mapping := some ⟨[("k", "w"), ("w", "k")]⟩ }
          (.map (.int .i32)) (.map [("k", .int 1), ("w", .int 1)])).events).1.destination
      = .map [("k", .int 1), ("w", .int 1)] ∧
    (feed false { SerializeProperties.default with
          name_mapping := some ⟨[("a", "x"), ("b", "x")]⟩ }
        (RapidJsonDeserializer { SerializeProperties.default with
          name_mapping := some ⟨[("a", "x"), ("b", "x")]⟩ } (.map (.int .i32)) (.map []))
        [.StartObject, .Key "x", .value (.int 5), .EndObject]).1.destination
      = .map [("a", .int 5)] ∧
    (do_serialize false
        { SerializeProperties.default with name_mapping := some ⟨[("x", "x"), ("n", "x")]⟩ }
        (.map (.int .i32)) (.map [("x", .int 5)])).1
      = [.StartObject, .value (.string "x"), .value (.int 5), .EndObject] ∧
    (feed false { SerializeProperties.default with
          name_mapping := some ⟨[("x", "x"), ("n", "x")]⟩ }
        (RapidJsonDeserializer { SerializeProperties.default with
          name_mapping := some ⟨[("x", "x"), ("n", "x")]⟩ } (.map (.int .i32)) (.map []))
        [.StartObject, .Key "x", .value (.int 5), .EndObject]).1.destination
      = .map [("x", .int 5)] ∧
    (feed false { SerializeProperties.default with name_mapping := some ⟨[("", "x")]⟩ }
        (RapidJsonDeserializer { SerializeProperties.default with
          name_mapping := some ⟨[("", "x")]⟩ } (.map (.int .i32)) (.map []))
        [.StartObject, .Key "x", .value (.int 5), .EndObject]).2 = some .aborted :=
  ⟨rfl, rfl, rfl, rfl, rfl, rfl⟩

/-! ## Name mapping in both directions -/

theorem memberEvents_append (ndebug : Bool) (p : SerializeProperties)
    (fpre fpost : List (String × Ty)) (vpre vpost : List Val)
    (hlen : fpre.length = vpre.length) :
    memberEvents ndebug p (fpre ++ fpost) (vpre ++ vpost)
      = memberEvents ndebug p fpre vpre ++ memberEvents ndebug p fpost vpost := by
  simp only [memberEvents, emittedMembers, List.zip_append hlen, List.filter_append,
    List.map_append, List.join_append]

theorem memberEvents_cons (ndebug : Bool) (p : SerializeProperties) (n : String) (t : Ty)
    (v : Val) (fs : List (String × Ty)) (vs : List Val) (hem : memberEmitted p n t v = true) :
    memberEvents ndebug p ((n, t) :: fs) (v :: vs)
      = (.Key (String.mk (c_str (p.map_name_to_json n))) :: (do_serialize ndebug p t v).1)
        ++ memberEvents ndebug p fs vs := by
  simp [memberEvents, emittedMembers, List.zip_cons_cons, List.filter_cons, hem]

theorem memberEvents_skip (ndebug : Bool) (p : SerializeProperties) (n : String) (t : Ty)
    (v : Val) (fs : List (String × Ty)) (vs : List Val) (hem : memberEmitted p n t v = false) :
    memberEvents ndebug p ((n, t) :: fs) (v :: vs) = memberEvents ndebug p fs vs := by
  simp [memberEvents, emittedMembers, List.zip_cons_cons, List.filter_cons, hem]

theorem serializeMembers_skip (ndebug : Bool) (p : SerializeProperties) (n : String) (t : Ty)
    (v : Val) (fs : List (String × Ty)) (vs : List Val) (hem : memberEmitted p n t v = false) :
    serializeMembers ndebug p ((n, t) :: fs) (v :: vs) = serializeMembers ndebug p fs vs := by
  rw [serializeMembers, is_excluded_eq]
  simp only [memberEmitted, Bool.and_eq_false_iff, Bool.not_eq_false', Bool.not_eq_false] at hem
  by_cases h1 : (p.ignore_empty_fileds && is_empty_field t v) = true
  · simp only [h1, ↓reduceIte]
  · rcases hem with h | h
    · simp only [h1, h, Bool.false_eq_true, ↓reduceIte]
    · exact absurd (by simpa using h) h1

theorem serializeMembers_emit (ndebug : Bool) (p : SerializeProperties) (n : String) (t : Ty)
    (v : Val) (fs : List (String × Ty)) (vs : List Val) (hem : memberEmitted p n t v = true) :
    serializeMembers ndebug p ((n, t) :: fs) (v :: vs)
      = match do_serialize ndebug p t v with
        | (evs, some fl) => (.Key (String.mk (c_str (p.map_name_to_json n))) :: evs, some fl)
        | (evs, none) =>
          match serializeMembers ndebug p fs vs with
          | (evs2, r) => (.Key (String.mk (c_str (p.map_name_to_json n))) :: evs ++ evs2, r) := by
  have h1 : (p.ignore_empty_fileds && is_empty_field t v) = false := by
    simp only [memberEmitted, Bool.and_eq_true, Bool.not_eq_true'] at hem
    exact hem.2
  have h2 : p.is_excluded n = false := by
    simp only [memberEmitted, Bool.and_eq_true, Bool.not_eq_true'] at hem
    exact hem.1
  rw [serializeMembers, is_excluded_eq]
  simp only [h1, h2, Bool.false_eq_true, ↓reduceIte]

theorem serializeMembers_upto (ndebug : Bool) (p : SerializeProperties) (n : String) (t : Ty)
    (v : Val) (fpost : List (String × Ty)) (vpost : List Val)
    (hem : memberEmitted p n t v = true) :
    ∀ (fpre : List (String × Ty)) (vpre : List Val), fpre.length = vpre.length →
      (∀ x ∈ emittedMembers p fpre vpre, (do_serialize ndebug p x.1.2 x.2).2 = none) →
      ∃ tail, (serializeMembers ndebug p (fpre ++ (n, t) :: fpost) (vpre ++ v :: vpost)).1
        = memberEvents ndebug p fpre vpre
          ++ .Key (String.mk (c_str (p.map_name_to_json n)))
            :: ((do_serialize ndebug p t v).1 ++ tail)
  | [], [], _, _ => by
    rw [List.nil_append, List.nil_append, serializeMembers_emit ndebug p n t v fpost vpost hem]
    rcases do_serialize ndebug p t v with ⟨evs, r⟩
    cases r with
    | some fl => exact ⟨[], by simp [memberEvents, emittedMembers]⟩
    | none =>
      dsimp only
      rcases serializeMembers ndebug p fpost vpost with ⟨evs2, r2⟩
      exact ⟨evs2, by simp [memberEvents, emittedMembers]⟩
  | [], _ :: _, h, _ => by simp at h
  | _ :: _, [], h, _ => by simp at h
  | (n1, t1) :: fpre, x :: vpre, hlen, hok => by
    have hstep : emittedMembers p ((n1, t1) :: fpre) (x :: vpre)
        = (if memberEmitted p n1 t1 x then [((n1, t1), x)] else []) ++ emittedMembers p fpre vpre := by
      simp only [emittedMembers, List.zip_cons_cons, List.filter_cons]
      split <;> rfl
    obtain ⟨tail, ih⟩ := serializeMembers_upto ndebug p n t v fpost vpost hem fpre vpre
      (by simpa using hlen) (fun y hy => hok y (by rw [hstep]; simp [hy]))
    refine ⟨tail, ?_⟩
    rw [List.cons_append, List.cons_append]
    cases he : memberEmitted p n1 t1 x with
    | false =>
      rw [serializeMembers_skip ndebug p n1 t1 x _ _ he, memberEvents_skip ndebug p n1 t1 x _ _ he]
      exact ih
    | true =>
      have hx := hok ((n1, t1), x) (by rw [hstep]; simp [he])
      rw [serializeMembers_emit ndebug p n1 t1 x _ _ he, memberEvents_cons ndebug p n1 t1 x _ _ he]
      rcases hd : do_serialize ndebug p t1 x with ⟨evs, r⟩
      rw [hd] at hx
      dsimp only at hx
      subst hx
      dsimp only
      rcases hs : serializeMembers ndebug p (fpre ++ (n, t) :: fpost) (vpre ++ v :: vpost)
        with ⟨evs2, r2⟩
      rw [hs] at ih
      dsimp only at ih
      rw [ih]
      simp

theorem findMember_mem (nm : String) :
    ∀ (fs : List (String × Ty)) (i : Nat) (ty : Ty), findMember nm fs = some (i, ty) →
      ∃ x ∈ fs, strcmp_eq x.1 nm = true
  | [], i, ty, h => by simp [findMember] at h
  | (n, t) :: rest, i, ty, h => by
    unfold findMember at h
    split at h
    · rename_i hc
      exact ⟨(n, t), List.mem_cons_self _ _, hc⟩
    · cases hf : findMember nm rest with
      | none => rw [hf] at h; cases h
      | some r =>
        obtain ⟨j, ty1⟩ := r
        obtain ⟨x, hx, hs⟩ := findMember_mem nm rest j ty1 hf
        exact ⟨x, List.mem_cons_of_mem _ hx, hs⟩

theorem findMember_nonempty (nm : String) (fs : List (String × Ty)) (i : Nat) (ty : Ty)
    (hval : ∀ x ∈ fs, validName x.1 = true) (h : findMember nm fs = some (i, ty)) :
    str_empty nm = false := by
  obtain ⟨x, hx, hs⟩ := findMember_mem nm fs i ty h
  have hv := hval x hx
  have hc := c_str_valid x.1 hv
  simp only [strcmp_eq, beq_iff_eq] at hs
  simp only [validName, Bool.and_eq_true, Bool.not_eq_true'] at hv
  cases hn : nm.data with
  | nil =>
    have : c_str nm = [] := by
      unfold c_str
      rw [show nm.toList = nm.data from rfl, hn]
      rfl
    rw [this, hc] at hs
    rw [hs] at hv
    simp at hv
  | cons a as =>
    unfold str_empty
    rw [show nm.toList = nm.data from rfl, hn]
    rfl

/-- C26 (name mapping bidirectionality, amended).  For a pair `(n, w)` of the mapping that is
the first entry with the native name `n` and the first entry with the wire name `w`, where
`w` contains no NUL character: (1) `to_json_name(n) = w`; (2) `to_native_name(w) = n`;
(3) `do_serialize` emits a record that has a member named `n`, wherever it stands among the
members, with the `Key` `w` followed by the events of the member's value at the member's
place, both when every emitted member value is serialized without failure and when only those
before the member are; (4) a `Key` event `w` buffers the name `n`; (5) on a handler for a record in which `n`
selects member number `idx`, the events `Key w` and a leaf that `assign_value` converts to
`v` within the budget set member number `idx` to `v` and nothing else; (6) and for every value
`v` of the class `restorable` (or a disengaged optional) of the member's type, a primitive or
not, the events `Key w` followed by the events of the document of `v` set member number `idx`
of a value-initialised record to `v` and nothing else. -/
theorem name_mapping_bidirectional (ndebug : Bool) (p : SerializeProperties)
    (m : JsonFieldMapping) (n w : String) (pre post : List (String × String))
    (hp : p.name_mapping = some m) (hm : m.entries = pre ++ (n, w) :: post)
    (hn : ∀ x ∈ pre, x.1 ≠ n) (hw : ∀ x ∈ pre, x.2 ≠ w)
    (hnul : ∀ c ∈ w.toList, c ≠ Char.ofNat 0) :
    m.to_json_name n = w ∧ m.to_native_name w = n ∧
    (∀ (t : Ty) (v : Val) (fpre fpost : List (String × Ty)) (vpre vpost : List Val),
      fpre.length = vpre.length → memberEmitted p n t v = true →
      (∀ x ∈ emittedMembers p (fpre ++ (n, t) :: fpost) (vpre ++ v :: vpost),
        (do_serialize ndebug p x.1.2 x.2).2 = none) →
      do_serialize ndebug p (.record (fpre ++ (n, t) :: fpost)) (.record (vpre ++ v :: vpost))
        = (.StartObject :: (memberEvents ndebug p fpre vpre
            ++ (.Key w :: (do_serialize ndebug p t v).1 ++ memberEvents ndebug p fpost vpost))
            ++ [.EndObject], none)) ∧
    (∀ (t : Ty) (v : Val) (fpre fpost : List (String × Ty)) (vpre vpost : List Val),
      fpre.length = vpre.length → memberEmitted p n t v = true →
      (∀ x ∈ emittedMembers p fpre vpre, (do_serialize ndebug p x.1.2 x.2).2 = none) →
      ∃ tail,
        (do_serialize ndebug p (.record (fpre ++ (n, t) :: fpost))
          (.record (vpre ++ v :: vpost))).1
        = .StartObject :: (memberEvents ndebug p fpre vpre
            ++ .Key w :: ((do_serialize ndebug p t v).1 ++ tail))) ∧
    (∀ (f : Frame) (b : Option Int), f.current_name = "" →
      step ndebug p (.deser f .null) b (.Key w)
        = ⟨.deser { f with current_name := n } .null, b, false, none⟩) ∧
    (∀ (fs : List (String × Ty)) (bd : Binding) (ms : List Val) (sv : List State) (idx : Nat)
      (t : Ty) (x : Wire) (v : Val) (b : Option Int),
      (∀ y ∈ fs, validName y.1 = true) → findMember n fs = some (idx, t) →
      assign_value false t (memberAt (.record ms) idx) x = .ok v →
      (AddBytes b (get_len x)).2 = none →
      feedQuiet ndebug p (.deser ⟨.record fs, bd, .record ms, "", .IN_OBJECT, sv⟩ .null) b
          [.Key w, .value x]
        = some (.deser ⟨.record fs, bd, .record (ms.set idx v), "", .IN_OBJECT, sv⟩ .null,
            (AddBytes b (get_len x)).1)) ∧
    (∀ (pw : SerializeProperties) (fs : List (String × Ty)) (bd : Binding) (ms : List Val)
      (sv : List State) (idx : Nat) (t : Ty) (v : Val) (b : Option Int) (k : Nat),
      pw.ignore_empty_fileds = false → pw.excluded_names = none →
      (isAbsent t v = true ∨ restorable ndebug pw p t v = true) →
      (∀ y ∈ fs, validName y.1 = true) → findMember n fs = some (idx, t) →
      memberAt (.record ms) idx = defaultVal t →
      BudgetFor b (documentCharge (.Key w :: (toJson pw t v).events) + k) →
      ∃ b1, feedQuiet ndebug p (.deser ⟨.record fs, bd, .record ms, "", .IN_OBJECT, sv⟩ .null) b
            (.Key w :: (toJson pw t v).events)
          = some (.deser ⟨.record fs, bd, .record (ms.set idx v), "", .IN_OBJECT, sv⟩ .null, b1)
        ∧ BudgetFor b1 k) := by
  have h1 : m.to_json_name n = w := by
    unfold JsonFieldMapping.to_json_name
    rw [hm, find_first _ pre post (n, w) (by simp) (fun x hx => by
      simpa using fun h => hn x hx h.symm)]
  have h2 : m.to_native_name w = n := by
    unfold JsonFieldMapping.to_native_name
    rw [hm, find_first _ pre post (n, w) (by simp) (fun x hx => by
      simpa using fun h => hw x hx h.symm)]
  have hbuf : bufferedName p w = n := by simp [bufferedName, hp, h2]
  have hkey : ∀ (f : Frame) (b : Option Int), f.current_name = "" →
      step ndebug p (.deser f .null) b (.Key w)
        = ⟨.deser { f with current_name := n } .null, b, false, none⟩ := by
    intro f b hf
    rw [step_key ndebug p f b w hf, hbuf]
  have hj : p.map_name_to_json n = w := by
    simp [SerializeProperties.map_name_to_json, hp, h1]
  refine ⟨h1, h2, ?_, ?_, hkey, ?_, ?_⟩
  · intro t v fpre fpost vpre vpost hlen hem hok
    simp only [do_serialize, serializeMembers_eq ndebug p _ _ hok]
    rw [memberEvents_append ndebug p fpre _ vpre _ hlen,
      memberEvents_cons ndebug p n t v fpost vpost hem, hj, c_str_no_nul w hnul]
  · intro t v fpre fpost vpre vpost hlen hem hok
    obtain ⟨tail, ht⟩ := serializeMembers_upto ndebug p n t v fpost vpost hem fpre vpre hlen hok
    rw [hj, c_str_no_nul w hnul] at ht
    rw [do_serialize]
    rcases hs : serializeMembers ndebug p (fpre ++ (n, t) :: fpost) (vpre ++ v :: vpost)
      with ⟨evs, r⟩
    rw [hs] at ht
    dsimp only at ht
    subst ht
    cases r with
    | some fl => exact ⟨tail, rfl⟩
    | none => exact ⟨tail ++ [.EndObject], by simp⟩
  · intro fs bd ms sv idx t x v b hval hfind ha hb
    have hne := findMember_nonempty n fs idx t hval hfind
    have hst : step ndebug p (.deser ⟨.record fs, bd, .record ms, n, .IN_OBJECT, sv⟩ .null) b
        (.value x)
        = ⟨.deser ⟨.record fs, bd, .record (ms.set idx v), "", .IN_OBJECT, sv⟩ .null,
            (AddBytes b (get_len x)).1, false, none⟩ := by
      simp [step, doEvent, SetValue, SetValueOnMember, cassert_name ndebug n (Or.inr hne), hfind,
        hb, ha, setMember, Event.isEnd]
    rw [feedQuiet_cons ndebug p _ _ _ _ _ _ (hkey _ b rfl),
      feedQuiet_cons ndebug p _ _ _ _ _ _ hst]
    rfl
  · intro pw fs bd ms sv idx t v b k hp1 hp2 hv hval hfind hdef hb
    have hne := findMember_nonempty n fs idx t hval hfind
    obtain ⟨_, _, _, hrun⟩ := member_slot ndebug pw p t v hv
      (fun h => restored_val ndebug pw p hp1 hp2 v t h)
    exact hrun fs bd ms sv w idx b k (by rw [hbuf]; exact Or.inr hne) (by rw [hbuf]; exact hfind)
      hdef hb

theorem name_mapping_bidirectional_witness :
    do_serialize false
        { SerializeProperties.default with name_mapping := some ⟨[("id", "ident")]⟩ }
        (.record [("name", .string), ("id", .int .i32)]) (.record [.str "bob", .int 5])
      = ([.StartObject, .Key "name", .value (.string "bob"), .Key "ident", .value (.int 5),
          .EndObject], none) ∧
    feedQuiet false
        { SerializeProperties.default with name_mapping := some ⟨[("id", "ident")]⟩ }
        (.deser ⟨.record [("name", .string), ("id", .int .i32)], .root,
          .record [.str "", .int 0], "", .IN_OBJECT, []⟩ .null) (some 1000)
        [.Key "ident", .value (.int 5)]
      = some (.deser ⟨.record [("name", .string), ("id", .int .i32)], .root,
          .record [.str "", .int 5], "", .IN_OBJECT, []⟩ .null, some 996) :=
  ⟨(name_mapping_bidirectional false
      { SerializeProperties.default with name_mapping := some ⟨[("id", "ident")]⟩ }
      ⟨[("id", "ident")]⟩ "id" "ident" [] [] rfl rfl (by simp) (by simp) (by decide)).2.2.1
      (.int .i32) (.int 5) [("name", .string)] [] [.str "bob"] [] rfl rfl (by
        intro x hx
        simp [emittedMembers, memberEmitted, SerializeProperties.default,
          SerializeProperties.is_excluded, is_empty_field, str_empty] at hx
        rcases hx with rfl | rfl <;> rfl),
   (name_mapping_bidirectional false
      { SerializeProperties.default with name_mapping := some ⟨[("id", "ident")]⟩ }
      ⟨[("id", "ident")]⟩ "id" "ident" [] [] rfl rfl (by simp) (by simp)
      (by decide)).2.2.2.2.2.1
      [("name", .string), ("id", .int .i32)] .root [.str "", .int 0] [] 1 (.int .i32) (.int 5)
      (.int 5) (some 1000) (by decide) rfl rfl rfl⟩

theorem name_mapping_bidirectional_counterexample :
    JsonFieldMapping.to_json_name ⟨[("a", "x"), ("a", "y")]⟩ "a" = "x" ∧
    JsonFieldMapping.to_native_name ⟨[("a", "x"), ("b", "x")]⟩ "x" = "a" ∧
    (feed false { SerializeProperties.default with
          name_mapping := some ⟨[("a", "x"), ("b", "x")]⟩ }
        (RapidJsonDeserializer SerializeProperties.default
          (.record [("a", .int .i32), ("b", .int .i32)]) (.record [.int 0, .int 0]))
        [.StartObject, .Key "x", .value (.int 5), .EndObject]).1.destination
      = .record [.int 5, .int 0] ∧
    (do_serialize false
        { SerializeProperties.default with
          ignore_empty_fileds := false, name_mapping := some ⟨[("a", "x"), ("b", "x")]⟩ }
        (.record [("a", .int .i32), ("b", .int .i32)]) (.record [.int 0, .int 5])).1
      = [.StartObject, .Key "x", .value (.int 0), .Key "x", .value (.int 5), .EndObject] ∧
    (do_serialize false
        { SerializeProperties.default with name_mapping := some ⟨[("id", "a\x00b")]⟩ }
        (.record [("id", .int .i32)]) (.record [.int 5])).1
      = [.StartObject, .Key "a", .value (.int 5), .EndObject] :=
  ⟨by decide, by decide, rfl, rfl, rfl⟩

end RestcCpp
